import Mathlib

/-! Receive path of the data-path driver (`dp_rx.c`) and frequency scaling of
the NSS cores (`nss_freq.c`).

A shallow embedding of the receive-side functions of
`qca-wifi/cmn_dev/dp/wifi3.0/dp_rx.c` and of the sample handler of
`qca-nss-drv/nss_freq.c`, and theorems about them.

Conventions of the embedding.

* A network buffer (`qdf_nbuf_t`) is a record `Nbuf`; a chain linked through
  `nbuf->next` is a `List Nbuf` and `NULL` is the empty list.
* Machine integers are natural numbers, reduced modulo `2 ^ w` where the C
  code stores into a `w`-bit object.
* Constants and feature switches that come from headers outside this file
  (`RX_BUFFER_SIZE`, `RX_PKT_TLVS_LEN`, the `MESH_FILTER_OUT_*` masks, the
  `#ifdef` switches) are fields of `RxCfg`.
* A step that dereferences `NULL` or trips `qdf_assert_always` has no result
  (`none`); `qdf_assert` is diagnostic only.
* Code of the driver that lives outside this file (HAL ring accessors, qdf
  buffer primitives, the descriptor free list) is modelled from the
  specification and marked so.
-/

namespace DpRx

/-! ## Configuration taken from headers -/

/-- Compile-time constants and feature switches used by `dp_rx.c` and defined
in headers (`dp_rx.h`, `if_meta_hdr.h`, build flags). -/
structure RxCfg where
  RX_BUFFER_SIZE : Nat
  RX_PKT_TLVS_LEN : Nat
  MESH_FILTER_OUT_FROMDS : Nat
  MESH_FILTER_OUT_TODS : Nat
  MESH_FILTER_OUT_NODS : Nat
  MESH_FILTER_OUT_RA : Nat
  MESH_FILTER_OUT_TA : Nat
  MESH_MODE_SUPPORT : Bool
  WDS_VENDOR_EXTENSION : Bool
  CONFIG_WIN : Bool
  RX_DESC_DEBUG_CHECK : Bool
  FEATURE_WDS : Bool
  ATH_RX_PRI_SAVE : Bool
  deriving DecidableEq, Repr

/-- The value a C expression has once stored in a `uint16_t`. -/
def u16 (x : Int) : Nat := (x % 65536).toNat

/-- The value a C expression has once stored in a `uint32_t`. -/
def u32 (x : Int) : Nat := (x % 4294967296).toNat

/-! ## Network buffers -/

/-- The fields of the hardware RX TLV header (found at `qdf_nbuf_data(nbuf)`
when the buffer is reaped) that `dp_rx.c` reads through `hal_rx_*` getters. -/
structure RxTlv where
  msdu_done : Bool
  msdu_len : Nat
  l3_hdr_padding : Nat
  da_is_mcbc : Bool
  sa_is_valid : Bool
  da_is_valid : Bool
  sa_idx : Nat
  da_idx : Nat
  fr_ds : Bool
  to_ds : Bool
  mac_ad4_valid : Bool
  addr1 : Option Nat
  addr2 : Option Nat
  deriving DecidableEq, Repr

/-- A receive buffer: `skb` length fields and the `nbuf->cb` fields written by
the drain loop of `dp_rx_process`. -/
structure Nbuf where
  id : Nat
  len : Nat
  rx_chfrag_start : Bool
  rx_chfrag_cont : Bool
  rx_chfrag_end : Bool
  da_mcbc : Bool
  da_valid : Bool
  sa_valid : Bool
  is_frag : Bool
  raw_frame : Bool
  peer_id : Nat
  pkt_len : Nat
  tid_val : Nat
  priority : Nat
  peer_local_id : Nat
  is_bcast_pkt : Bool
  tlv : RxTlv
  deriving DecidableEq, Repr

/-- Modelled from the spec: `qdf_nbuf_set_pktlen` (qdf, not in this file)
trims or extends the buffer to the declared length. -/
def qdf_nbuf_set_pktlen (nbuf : Nbuf) (n : Nat) : Nbuf := { nbuf with len := n }

/-- Modelled from the spec: `qdf_nbuf_pull_head` (qdf, not in this file)
strips `n` leading bytes; like `skb_pull` it leaves the buffer alone when it
holds fewer than `n` bytes. -/
def qdf_nbuf_pull_head (nbuf : Nbuf) (n : Nat) : Nbuf :=
  if n ≤ nbuf.len then { nbuf with len := nbuf.len - n } else nbuf

/-- Modelled from the spec: `qdf_nbuf_append_ext_list` (qdf, not in this file)
hangs an extension chain of `ext_len` bytes on the parent and adds `ext_len`
to the parent's length; the chain itself and `ext_len` are kept beside the
parent in `SgOut`. -/
def qdf_nbuf_append_ext_list (parent : Nbuf) (ext_len : Nat) : Nbuf :=
  { parent with len := parent.len + ext_len }

/-! ## Reassembly: `dp_rx_adjust_nbuf_len`, `dp_rx_sg_create` -/

/-- The function `dp_rx_adjust_nbuf_len(nbuf, &mpdu_len)`: returns `last_nbuf`, the buffer
with its length set, and the new value of `*mpdu_len` (a `uint16_t`).  The
capacity `RX_BUFFER_SIZE - RX_PKT_TLVS_LEN` is the one of a buffer that holds
its TLV header (`RX_PKT_TLVS_LEN ≤ RX_BUFFER_SIZE`). -/
def dp_rx_adjust_nbuf_len (cfg : RxCfg) (nbuf : Nbuf) (mpdu_len : Nat) :
    Bool × Nbuf × Nat :=
  let cap := cfg.RX_BUFFER_SIZE - cfg.RX_PKT_TLVS_LEN
  let r :=
    if mpdu_len > cap then
      (false, qdf_nbuf_set_pktlen nbuf cfg.RX_BUFFER_SIZE)
    else
      (true, qdf_nbuf_set_pktlen nbuf (mpdu_len + cfg.RX_PKT_TLVS_LEN))
  (r.1, r.2, u16 ((mpdu_len : Int) - (cap : Int)))

/-- What `dp_rx_sg_create` leaves behind: the head buffer it returns, the
extension chain attached to it (`frag_list`) with the byte count recorded for
it (`frag_list_len`, zero when nothing is attached), and `parent->next`. -/
structure SgOut where
  parent : Nbuf
  frag_list : List Nbuf
  frag_list_len : Nat
  next : List Nbuf
  deriving DecidableEq, Repr

/-- The `do { ... } while (!last_nbuf)` loop of `dp_rx_sg_create`.  `chain` is
the chain starting at the current `nbuf`; `done` holds the buffers already
walked.  Returns the extension chain, `frag_list_len` and `next`.  Walking off
the end of the chain dereferences `NULL`. -/
def dp_rx_sg_walk (cfg : RxCfg) :
    List Nbuf → Nat → Nat → List Nbuf → Option (List Nbuf × Nat × List Nbuf)
  | [], _, _, _ => none
  | nbuf :: rest, mpdu_len, frag_list_len, done =>
    let a := dp_rx_adjust_nbuf_len cfg nbuf mpdu_len
    let nbuf1 := qdf_nbuf_pull_head a.2.1 cfg.RX_PKT_TLVS_LEN
    let frag_list_len1 := u16 ((frag_list_len : Int) + (nbuf1.len : Int))
    if a.1 then
      some (done ++ [{ nbuf1 with rx_chfrag_start := false }], frag_list_len1, rest)
    else
      dp_rx_sg_walk cfg rest a.2.2 frag_list_len1 (done ++ [nbuf1])

/-- The function `dp_rx_sg_create(nbuf, rx_tlv_hdr)` on the chain `nbuf :: rest`, where
`rx_tlv_hdr` is the TLV header of `nbuf`. -/
def dp_rx_sg_create (cfg : RxCfg) (nbuf : Nbuf) (rest : List Nbuf) : Option SgOut :=
  let mpdu_len := u16 nbuf.tlv.msdu_len
  if nbuf.rx_chfrag_start && nbuf.rx_chfrag_end then
    let nbuf1 := qdf_nbuf_set_pktlen nbuf (mpdu_len + cfg.RX_PKT_TLVS_LEN)
    some ⟨qdf_nbuf_pull_head nbuf1 cfg.RX_PKT_TLVS_LEN, [], 0, rest⟩
  else
    let parent := { nbuf with rx_chfrag_start := true }
    let a := dp_rx_adjust_nbuf_len cfg parent mpdu_len
    match dp_rx_sg_walk cfg rest a.2.2 0 [] with
    | none => none
    | some (frag_list, frag_list_len, next) =>
      let parent1 := qdf_nbuf_append_ext_list a.2.1 frag_list_len
      some ⟨qdf_nbuf_pull_head parent1 cfg.RX_PKT_TLVS_LEN, frag_list, frag_list_len, next⟩

/-- Sum of the lengths of the buffers of a chain. -/
def chain_len (l : List Nbuf) : Nat := (l.map Nbuf.len).sum


/-! ## Peers, virtual devices, environment -/

/-- Operating mode of a vdev (`enum wlan_op_mode`); only the AP and station
modes are told apart by this file. -/
inductive wlan_op_mode where
  | wlan_op_mode_ap
  | wlan_op_mode_sta
  | wlan_op_mode_unknown
  deriving DecidableEq, Repr

/-- Decapsulation type of a vdev (`enum htt_cmn_pkt_type`). -/
inductive htt_cmn_pkt_type where
  | htt_cmn_pkt_type_raw
  | htt_cmn_pkt_type_native_wifi
  | htt_cmn_pkt_type_ethernet
  deriving DecidableEq, Repr

/-- Status codes returned by the functions of this file. -/
inductive QDF_STATUS where
  | QDF_STATUS_SUCCESS
  | QDF_STATUS_E_FAILURE
  | QDF_STATUS_E_NOMEM
  | QDF_STATUS_E_RESOURCES
  deriving DecidableEq, Repr

/-- The three one-bit fields of `dp_ecm_policy` (`peer->wds_ecm`). -/
structure dp_ecm_policy where
  wds_rx_filter : Bool
  wds_rx_ucast_4addr : Bool
  wds_rx_mcast_4addr : Bool
  deriving DecidableEq, Repr

/-- The fields of `struct dp_vdev` read by the receive path.  `osif_rx` tells
whether a delivery callback is registered; `peer_list` holds peer handles. -/
structure Vdev where
  osif_rx : Bool
  rx_decap_type : htt_cmn_pkt_type
  mesh_vdev : Bool
  mesh_rx_filter : Nat
  ap_bridge_enabled : Bool
  opmode : wlan_op_mode
  wds_enabled : Bool
  mac_addr : Nat
  pdev : Nat
  peer_list : List Nat
  deriving DecidableEq, Repr

/-- The fields of `struct dp_peer` read by the receive path.  `vdev` is the
handle of the vdev the peer is bound to, `none` for `NULL`. -/
structure Peer where
  vdev : Option Nat
  bss_peer : Bool
  nawds_enabled : Bool
  wds_enabled : Bool
  wds_ecm : dp_ecm_policy
  local_id : Nat
  deriving DecidableEq, Repr

/-- An entry of `soc->ast_table`: whether its type is `CDP_TXRX_AST_TYPE_DA`,
and the handle of the peer it points to. -/
structure AstEntry where
  type_is_DA : Bool
  peer : Option Nat
  deriving DecidableEq, Repr

/-- Everything the second pass of `dp_rx_process` reads and does not own: the
configuration, the peer/vdev/AST directories (objects are addressed by
handles, so pointer equality is equality of handles), and the answers of the
external collaborators.  `dp_tx_send_ok v copy nbuf` says whether
`dp_tx_send` accepts the buffer (returns `NULL`), `copy` telling the copy of a
buffer from the buffer itself.  `qdf_nbuf_unshare_ok` says whether
`qdf_nbuf_unshare` returns a buffer; the buffer it returns stands for the
same frame and keeps the identity of the one passed in. -/
structure Env where
  cfg : RxCfg
  peer_find_by_id : Nat → Option Nat
  peer : Nat → Peer
  vdev : Nat → Vdev
  ast_table : Nat → Option AstEntry
  max_ast_idx : Nat
  ast_override_support : Bool
  da_war_enabled : Bool
  process_rx_status : Bool
  dp_tx_send_ok : Nat → Bool → Nbuf → Bool
  qdf_nbuf_copy_ok : Nbuf → Bool
  qdf_nbuf_linearize_ok : Nbuf → Bool
  qdf_nbuf_unshare_ok : Nbuf → Bool
  osif_rsim_rx_decap : Nat → Option Nat → List Nbuf → List Nbuf

/-! ## Statistics and external calls as a trace -/

/-- Indices of `tid_stats->fail_cnt[]` used by the receive path. -/
inductive FailCnt where
  | MSDU_DONE_FAILURE
  | INVALID_PEER_VDEV
  | POLICY_CHECK_DROP
  | MEC_DROP
  | NAWDS_MCAST_DROP
  | MESH_FILTER_DROP
  | INTRABSS_DROP
  deriving DecidableEq, Repr

/-- The counters written by the second pass.  Per-TID counters carry the pdev
and the TID, per-peer counters the peer handle. -/
inductive Counter where
  | tid_fail_cnt (pdev tid : Nat) (r : FailCnt)
  | tid_msdu_cnt (pdev tid : Nat)
  | tid_mcast_msdu_cnt (pdev tid : Nat)
  | tid_bcast_msdu_cnt (pdev tid : Nat)
  | tid_delivered_to_stack (pdev tid : Nat)
  | tid_intrabss_cnt (pdev tid : Nat)
  | soc_rx_err_msdu_done_fail
  | soc_rx_err_rx_invalid_peer
  | soc_rx_err_invalid_vdev
  | soc_rx_err_invalid_sa_da_idx
  | pdev_rx_raw_pkts (pdev : Nat)
  | pdev_dropped_mesh_filter (pdev : Nat)
  | peer_rx_raw (peer : Nat)
  | peer_rx_mec_drop (peer : Nat)
  | peer_rx_nawds_mcast_drop (peer : Nat)
  | peer_rx_intra_bss_pkts (peer : Nat)
  | peer_rx_intra_bss_fail (peer : Nat)
  | peer_rx_to_stack (peer : Nat)
  deriving DecidableEq, Repr

/-- What the second pass does to the outside world, in program order.
`stats_inc` is `DP_STATS_INC` or `x++`, `stats_inc_pkt` is `DP_STATS_INC_PKT`
(packet count and byte count), `stats_dec` is `x--`.  For `dp_tx_send` and
`nbuf_free` the flag `copy` tells the copy made by `qdf_nbuf_copy` from the
buffer itself. -/
inductive Event where
  | stats_inc (c : Counter) (n : Nat)
  | stats_inc_pkt (c : Counter) (n bytes : Nat)
  | stats_dec (c : Counter)
  | nbuf_free (id : Nat) (copy : Bool)
  | nbuf_linearize (id : Nat) (ok : Bool)
  | nbuf_unshare (id : Nat) (ok : Bool)
  | dp_tx_send (vdev : Nat) (id : Nat) (copy : Bool) (ok : Bool)
  | peer_unref (peer : Nat)
  | peer_add_ast (peer : Nat) (id : Nat)
  | wds_srcport_learn (peer : Nat) (id : Nat)
  | ast_set_active (da_idx : Nat)
  | osif_rsim_rx_decap (vdev : Nat) (peer : Option Nat) (nbufs : List Nbuf)
  | osif_rx (vdev : Nat) (nbufs : List Nbuf)
  deriving DecidableEq, Repr

/-- Packets added to counter `c` by a trace (`stats_inc` and the packet count
of `stats_inc_pkt`). -/
def counter_incs (c : Counter) : List Event → Nat
  | [] => 0
  | Event.stats_inc c1 n :: es => (if c1 = c then n else 0) + counter_incs c es
  | Event.stats_inc_pkt c1 n _ :: es => (if c1 = c then n else 0) + counter_incs c es
  | _ :: es => counter_incs c es

/-- The batches handed to the delivery callback of vdev `v`, in call order,
concatenated. -/
def delivered_to (v : Nat) : List Event → List Nbuf
  | [] => []
  | Event.osif_rx v1 nbufs :: es =>
    (if v1 = v then nbufs else []) ++ delivered_to v es
  | _ :: es => delivered_to v es

/-- Whether an event is a call of `dp_tx_send`. -/
def Event.is_tx : Event → Bool
  | Event.dp_tx_send _ _ _ _ => true
  | _ => false

/-- Whether an event is a call of `qdf_nbuf_free`. -/
def Event.is_free : Event → Bool
  | Event.nbuf_free _ _ => true
  | _ => false

/-- Whether an event is a call of a vdev callback (`osif_rx` or the raw
decapsulation hook). -/
def Event.is_osif : Event → Bool
  | Event.osif_rx _ _ => true
  | Event.osif_rsim_rx_decap _ _ _ => true
  | _ => false

/-- The calls of `dp_tx_send` in a trace, in order. -/
def tx_calls (es : List Event) : List Event := es.filter Event.is_tx

/-- The calls of `qdf_nbuf_free` in a trace, in order. -/
def free_calls (es : List Event) : List Event := es.filter Event.is_free

/-- The calls of vdev callbacks in a trace, in order. -/
def osif_calls (es : List Event) : List Event := es.filter Event.is_osif

/-! ## Helpers of the second pass -/

/-- The function `dp_rx_check_ap_bridge(vdev)`, in its two build variants. -/
def dp_rx_check_ap_bridge (cfg : RxCfg) (vdev : Vdev) : Bool :=
  if cfg.CONFIG_WIN then vdev.ap_bridge_enabled
  else if vdev.opmode != wlan_op_mode.wlan_op_mode_sta then true else false

/-- The function `dp_rx_is_msdu_done_set(soc, rx_tlv_hdr)`: the result and the
counter it bumps.  Without `RX_DESC_DEBUG_CHECK` it is the constant `true`. -/
def dp_rx_is_msdu_done_set (cfg : RxCfg) (tlv : RxTlv) : Bool × List Event :=
  if cfg.RX_DESC_DEBUG_CHECK then
    if !tlv.msdu_done then
      (false, [Event.stats_inc Counter.soc_rx_err_msdu_done_fail 1])
    else (true, [])
  else (true, [])

/-- The function `is_sa_da_idx_valid(soc, rx_tlv_hdr, nbuf)`. -/
def is_sa_da_idx_valid (env : Env) (nbuf : Nbuf) : Bool :=
  if (nbuf.sa_valid && decide (nbuf.tlv.sa_idx > env.max_ast_idx)) ||
      (nbuf.da_valid && decide (nbuf.tlv.da_idx > env.max_ast_idx)) then false
  else true

/-- The function `dp_rx_da_learn(soc, rx_tlv_hdr, ta_peer, nbuf)`: the call of
`dp_peer_add_ast` it makes, if any.  `ta_peer` is not `NULL` where the second
pass calls it; a `NULL` `ta_peer->vdev` would be dereferenced. -/
def dp_rx_da_learn (env : Env) (ta_peer : Nat) (nbuf : Nbuf) : Option (List Event) :=
  if !env.cfg.FEATURE_WDS then some []
  else if env.ast_override_support then some []
  else
    match (env.peer ta_peer).vdev with
    | none => none
    | some v =>
      if (env.vdev v).opmode != wlan_op_mode.wlan_op_mode_ap then some []
      else if !env.da_war_enabled then some []
      else if !nbuf.da_valid && !nbuf.da_mcbc then
        some [Event.peer_add_ast ta_peer nbuf.id]
      else some []

/-- The function `dp_rx_filter_mesh_packets(vdev, nbuf, rx_tlv_hdr)`.
`QDF_STATUS_SUCCESS` means drop.  `addr1`/`addr2` are `none` when
`hal_rx_mpdu_get_addr1`/`2` fail. -/
def dp_rx_filter_mesh_packets (cfg : RxCfg) (vdev : Vdev) (tlv : RxTlv) : QDF_STATUS :=
  if !cfg.MESH_MODE_SUPPORT then QDF_STATUS.QDF_STATUS_E_FAILURE
  else if vdev.mesh_rx_filter != 0 then
    if (vdev.mesh_rx_filter &&& cfg.MESH_FILTER_OUT_FROMDS != 0) && tlv.fr_ds then
      QDF_STATUS.QDF_STATUS_SUCCESS
    else if (vdev.mesh_rx_filter &&& cfg.MESH_FILTER_OUT_TODS != 0) && tlv.to_ds then
      QDF_STATUS.QDF_STATUS_SUCCESS
    else if (vdev.mesh_rx_filter &&& cfg.MESH_FILTER_OUT_NODS != 0) &&
        (!tlv.fr_ds && !tlv.to_ds) then
      QDF_STATUS.QDF_STATUS_SUCCESS
    else
      let ra : Option QDF_STATUS :=
        if vdev.mesh_rx_filter &&& cfg.MESH_FILTER_OUT_RA != 0 then
          match tlv.addr1 with
          | none => some QDF_STATUS.QDF_STATUS_E_FAILURE
          | some a => if a == vdev.mac_addr then some QDF_STATUS.QDF_STATUS_SUCCESS else none
        else none
      match ra with
      | some r => r
      | none =>
        if vdev.mesh_rx_filter &&& cfg.MESH_FILTER_OUT_TA != 0 then
          match tlv.addr2 with
          | none => QDF_STATUS.QDF_STATUS_E_FAILURE
          | some a =>
            if a == vdev.mac_addr then QDF_STATUS.QDF_STATUS_SUCCESS
            else QDF_STATUS.QDF_STATUS_E_FAILURE
        else QDF_STATUS.QDF_STATUS_E_FAILURE
  else QDF_STATUS.QDF_STATUS_E_FAILURE

/-- The function `dp_wds_rx_policy_check(rx_tlv_hdr, vdev, peer)`: `true` is
accept.  Without `WDS_VENDOR_EXTENSION` it is the constant `1`.  On an AP
vdev whose peer list holds no BSS peer, `bss_peer` is `NULL` after the
`TAILQ_FOREACH` and is dereferenced. -/
def dp_wds_rx_policy_check (env : Env) (tlv : RxTlv) (vdev peer : Nat) : Option Bool :=
  if !env.cfg.WDS_VENDOR_EXTENSION then some true
  else
    let v := env.vdev vdev
    let p := env.peer peer
    let rx_mcast := tlv.da_is_mcbc
    let rx_3addr := xor tlv.fr_ds tlv.to_ds
    let rx_4addr := tlv.fr_ds && tlv.to_ds
    if v.opmode == wlan_op_mode.wlan_op_mode_ap then
      match v.peer_list.find? (fun h => (env.peer h).bss_peer) with
      | none => none
      | some b =>
        let bss_peer := env.peer b
        if !bss_peer.wds_ecm.wds_rx_filter then some true
        else
          let rx_policy_ucast := bss_peer.wds_ecm.wds_rx_ucast_4addr
          let rx_policy_mcast := bss_peer.wds_ecm.wds_rx_mcast_4addr
          if (!p.wds_enabled && rx_3addr && tlv.to_ds) ||
              (p.wds_enabled && !rx_mcast && (rx_4addr == rx_policy_ucast)) ||
              (p.wds_enabled && rx_mcast && (rx_4addr == rx_policy_mcast)) then some true
          else some false
    else
      if !p.wds_ecm.wds_rx_filter then some true
      else
        let rx_policy_ucast := p.wds_ecm.wds_rx_ucast_4addr
        let rx_policy_mcast := p.wds_ecm.wds_rx_mcast_4addr
        if (!rx_mcast && (rx_4addr == rx_policy_ucast)) ||
            (rx_mcast && (rx_4addr == rx_policy_mcast)) then some true
        else some false

/-- Effect of `memset(nbuf->cb, 0, sizeof(nbuf->cb))` on the fields kept in
`nbuf->cb`. -/
def nbuf_cb_clear (nbuf : Nbuf) : Nbuf :=
  { nbuf with rx_chfrag_start := false, rx_chfrag_cont := false, rx_chfrag_end := false,
              da_mcbc := false, da_valid := false, sa_valid := false, is_frag := false,
              raw_frame := false, peer_id := 0, pkt_len := 0, tid_val := 0,
              peer_local_id := 0 }

/-- Result of `dp_rx_intrabss_fwd`: the return value, the buffer as the caller
sees it afterwards, and the calls made. -/
structure FwdOut where
  fwd : Bool
  nbuf : Nbuf
  events : List Event
  deriving DecidableEq, Repr

/-- The hand-over to `dp_tx_send` at the end of the unicast branch of
`dp_rx_intrabss_fwd`. -/
def dp_rx_intrabss_fwd_send (env : Env) (ta_peer tv tid pdev len : Nat) (nbuf : Nbuf)
    (pre : List Event) : FwdOut :=
  if env.dp_tx_send_ok tv false nbuf then
    ⟨true, nbuf, pre ++ [Event.dp_tx_send tv nbuf.id false true,
      Event.stats_inc_pkt (Counter.peer_rx_intra_bss_pkts ta_peer) 1 len]⟩
  else
    ⟨false, nbuf, pre ++ [Event.dp_tx_send tv nbuf.id false false,
      Event.stats_inc_pkt (Counter.peer_rx_intra_bss_fail ta_peer) 1 len,
      Event.stats_inc (Counter.tid_fail_cnt pdev tid FailCnt.INTRABSS_DROP) 1]⟩

/-- The function `dp_rx_intrabss_fwd(soc, ta_peer, rx_tlv_hdr, nbuf)`.  A
`NULL` `ta_peer->vdev` would be dereferenced on entry. -/
def dp_rx_intrabss_fwd (env : Env) (ta_peer : Nat) (nbuf : Nbuf) : Option FwdOut :=
  match (env.peer ta_peer).vdev with
  | none => none
  | some tv =>
    let tid := nbuf.tid_val
    let pdev := (env.vdev tv).pdev
    if nbuf.da_valid && !nbuf.da_mcbc then
      match env.ast_table nbuf.tlv.da_idx with
      | none => some ⟨false, nbuf, []⟩
      | some ast_entry =>
        if ast_entry.type_is_DA then
          some ⟨false, nbuf, [Event.ast_set_active nbuf.tlv.da_idx]⟩
        else
          match ast_entry.peer with
          | none => some ⟨false, nbuf, []⟩
          | some da_peer =>
            if da_peer == ta_peer then some ⟨false, nbuf, []⟩
            else if ((env.peer da_peer).vdev == some tv) && !(env.peer da_peer).bss_peer then
              let len := nbuf.pkt_len
              let is_frag := nbuf.is_frag
              let nbuf1 := nbuf_cb_clear nbuf
              if is_frag then
                if !env.qdf_nbuf_linearize_ok nbuf1 then
                  some ⟨false, nbuf1, [Event.nbuf_linearize nbuf.id false]⟩
                else if !env.qdf_nbuf_unshare_ok nbuf1 then
                  some ⟨true, nbuf1, [Event.nbuf_linearize nbuf.id true,
                    Event.nbuf_unshare nbuf.id false,
                    Event.stats_inc_pkt (Counter.peer_rx_intra_bss_fail ta_peer) 1 len,
                    Event.stats_inc (Counter.tid_fail_cnt pdev tid FailCnt.INTRABSS_DROP) 1]⟩
                else
                  some (dp_rx_intrabss_fwd_send env ta_peer tv tid pdev len nbuf1
                    [Event.nbuf_linearize nbuf.id true, Event.nbuf_unshare nbuf.id true])
              else
                some (dp_rx_intrabss_fwd_send env ta_peer tv tid pdev len nbuf1 [])
            else some ⟨false, nbuf, []⟩
    else if nbuf.da_mcbc && !(env.peer ta_peer).bss_peer then
      if !env.qdf_nbuf_copy_ok nbuf then some ⟨false, nbuf, []⟩
      else
        let len := nbuf.pkt_len
        if !env.dp_tx_send_ok tv true (nbuf_cb_clear nbuf) then
          some ⟨false, nbuf, [Event.dp_tx_send tv nbuf.id true false,
            Event.stats_inc_pkt (Counter.peer_rx_intra_bss_fail ta_peer) 1 len,
            Event.stats_inc (Counter.tid_fail_cnt pdev tid FailCnt.INTRABSS_DROP) 1,
            Event.nbuf_free nbuf.id true]⟩
        else
          some ⟨false, nbuf, [Event.dp_tx_send tv nbuf.id true true,
            Event.stats_inc_pkt (Counter.peer_rx_intra_bss_pkts ta_peer) 1 len,
            Event.stats_inc (Counter.tid_intrabss_cnt pdev tid) 1]⟩
    else some ⟨false, nbuf, []⟩

/-- The function `dp_rx_deliver_to_stack(vdev, peer, nbuf_head, nbuf_tail)`:
the calls it makes.  A `NULL` vdev or, on the path without callback, an empty
list would be dereferenced. -/
def dp_rx_deliver_to_stack (env : Env) (vdev peer : Option Nat) (nbufs : List Nbuf) :
    Option (List Event) :=
  match vdev with
  | none => none
  | some v =>
    let vd := env.vdev v
    if !vd.osif_rx then
      match nbufs with
      | [] => none
      | _ :: _ =>
        some (nbufs.flatMap fun n =>
          [Event.stats_inc
              (Counter.tid_fail_cnt vd.pdev (n.priority % 256) FailCnt.INVALID_PEER_VDEV) 1,
            Event.stats_dec (Counter.tid_delivered_to_stack vd.pdev (n.priority % 256)),
            Event.nbuf_free n.id false])
    else if vd.rx_decap_type == htt_cmn_pkt_type.htt_cmn_pkt_type_raw ||
        vd.rx_decap_type == htt_cmn_pkt_type.htt_cmn_pkt_type_native_wifi then
      some [Event.osif_rsim_rx_decap v peer nbufs,
        Event.osif_rx v (env.osif_rsim_rx_decap v peer nbufs)]
    else some [Event.osif_rx v nbufs]

/-! ## The second pass of `dp_rx_process` -/

/-- Local variables of `dp_rx_process` that live across iterations of the
second loop, and the trace of external calls made so far. -/
structure RxState where
  vdev : Option Nat
  peer : Option Nat
  deliver_list : List Nbuf
  tid : Nat
  msdu_len : Nat
  rx_bufs_used : Nat
  trace : List Event
  deriving DecidableEq, Repr

/-- The way one iteration of the second loop ends. -/
inductive RxExit where
  | msdu_done_fail
  | invalid_peer
  | invalid_vdev
  | policy_drop
  | mec_drop
  | nawds_drop
  | mesh_drop
  | sa_da_idx_drop
  | intrabss_fwd
  | enqueued
  deriving DecidableEq, Repr

/-- What the part of the loop body after the vdev check does with one packet:
the calls it makes, the buffer it appends to the deliver list (if any), the
chain the loop continues with, the way the iteration ends and the value left
in the local `msdu_len`. -/
structure StageOut where
  events : List Event
  enqueue : Option Nbuf
  next : List Nbuf
  exit : RxExit
  msdu_len : Nat
  deriving DecidableEq, Repr

/-- End of the loop body (`dp_rx_fill_gro_info` to the closing brace): the
packet joins the deliver list.  `pre` holds the calls made earlier in the
iteration. -/
def dp_rx_process_enqueue (env : Env) (rx_pdev tid msdu_len peer : Nat) (nbuf : Nbuf)
    (next : List Nbuf) (pre : List Event) : StageOut :=
  let nbuf1 := { nbuf with peer_local_id := (env.peer peer).local_id }
  { events := pre ++
      [Event.stats_inc_pkt (Counter.peer_rx_to_stack peer) 1 nbuf1.pkt_len,
       Event.stats_inc (Counter.tid_delivered_to_stack rx_pdev tid) 1,
       Event.peer_unref peer],
    enqueue := some nbuf1, next := next, exit := RxExit.enqueued, msdu_len := msdu_len }

/-- Loop body from the Ethernet-decap test to the intra-BSS forwarding
decision, then `dp_rx_process_enqueue`. -/
def dp_rx_process_forward (env : Env) (rx_pdev tid msdu_len peer vdev : Nat)
    (nbuf : Nbuf) (next : List Nbuf) : Option StageOut :=
  let v := env.vdev vdev
  if (v.rx_decap_type == htt_cmn_pkt_type.htt_cmn_pkt_type_ethernet) && !v.mesh_vdev then
    match dp_rx_da_learn env peer nbuf with
    | none => none
    | some learn =>
      if !is_sa_da_idx_valid env nbuf then
        some { events := learn ++ [Event.nbuf_free nbuf.id false,
                 Event.stats_inc Counter.soc_rx_err_invalid_sa_da_idx 1],
               enqueue := none, next := next, exit := RxExit.sa_da_idx_drop,
               msdu_len := msdu_len }
      else
        let learn2 :=
          learn ++ (if v.wds_enabled then [Event.wds_srcport_learn peer nbuf.id] else [])
        if dp_rx_check_ap_bridge env.cfg v then
          match dp_rx_intrabss_fwd env peer nbuf with
          | none => none
          | some out =>
            if out.fwd then
              some { events := learn2 ++ out.events ++ [Event.peer_unref peer,
                       Event.stats_inc (Counter.tid_intrabss_cnt rx_pdev tid) 1],
                     enqueue := none, next := next, exit := RxExit.intrabss_fwd,
                     msdu_len := msdu_len }
            else
              some (dp_rx_process_enqueue env rx_pdev tid msdu_len peer out.nbuf next
                (learn2 ++ out.events))
        else some (dp_rx_process_enqueue env rx_pdev tid msdu_len peer nbuf next learn2)
  else some (dp_rx_process_enqueue env rx_pdev tid msdu_len peer nbuf next [])

/-- Loop body at `if (qdf_unlikely(vdev->mesh_vdev))`: the mesh filter, then
`dp_rx_process_forward`. -/
def dp_rx_process_mesh (env : Env) (rx_pdev tid msdu_len peer vdev : Nat)
    (nbuf : Nbuf) (next : List Nbuf) : Option StageOut :=
  if (env.vdev vdev).mesh_vdev &&
      (dp_rx_filter_mesh_packets env.cfg (env.vdev vdev) nbuf.tlv
        == QDF_STATUS.QDF_STATUS_SUCCESS) then
    some { events := [Event.stats_inc (Counter.tid_fail_cnt rx_pdev tid
               FailCnt.MESH_FILTER_DROP) 1,
             Event.stats_inc (Counter.pdev_dropped_mesh_filter (env.vdev vdev).pdev) 1,
             Event.nbuf_free nbuf.id false, Event.peer_unref peer],
           enqueue := none, next := next, exit := RxExit.mesh_drop, msdu_len := msdu_len }
  else dp_rx_process_forward env rx_pdev tid msdu_len peer vdev nbuf next

/-- Loop body from `dp_wds_rx_policy_check` to the NAWDS multicast check, then
`dp_rx_process_mesh`.  The per-MSDU statistics, checksum hints and protocol tags
set before the mesh filter touch nothing this file looks at. -/
def dp_rx_process_filter (env : Env) (rx_pdev tid msdu_len peer vdev : Nat)
    (nbuf : Nbuf) (next : List Nbuf) : Option StageOut :=
  match dp_wds_rx_policy_check env nbuf.tlv vdev peer with
  | none => none
  | some ok =>
    if !ok then
      some { events := [Event.stats_inc (Counter.tid_fail_cnt rx_pdev tid
                 FailCnt.POLICY_CHECK_DROP) 1,
               Event.nbuf_free nbuf.id false, Event.peer_unref peer],
             enqueue := none, next := next, exit := RxExit.policy_drop, msdu_len := msdu_len }
    else if (env.peer peer).bss_peer then
      some { events := [Event.stats_inc (Counter.tid_fail_cnt rx_pdev tid FailCnt.MEC_DROP) 1,
               Event.stats_inc_pkt (Counter.peer_rx_mec_drop peer) 1 msdu_len,
               Event.nbuf_free nbuf.id false, Event.peer_unref peer],
             enqueue := none, next := next, exit := RxExit.mec_drop, msdu_len := msdu_len }
    else if (env.peer peer).nawds_enabled && nbuf.da_mcbc && !nbuf.tlv.mac_ad4_valid then
      some { events := [Event.stats_inc (Counter.tid_fail_cnt rx_pdev tid
                 FailCnt.NAWDS_MCAST_DROP) 1,
               Event.stats_inc (Counter.peer_rx_nawds_mcast_drop peer) 1,
               Event.nbuf_free nbuf.id false, Event.peer_unref peer],
             enqueue := none, next := next, exit := RxExit.nawds_drop, msdu_len := msdu_len }
    else dp_rx_process_mesh env rx_pdev tid msdu_len peer vdev nbuf next

/-- Loop body, the three-way branch on the kind of buffer (fragment, raw
frame, decapsulated frame), then `dp_rx_process_filter`.  `msdu_len` is the value
the local of that name has on entry. -/
def dp_rx_process_decap (env : Env) (rx_pdev tid msdu_len peer vdev : Nat)
    (nbuf : Nbuf) (rest : List Nbuf) : Option StageOut :=
  if nbuf.is_frag then
    let nbuf1 := { nbuf with da_mcbc := nbuf.tlv.da_is_mcbc, da_valid := nbuf.tlv.da_is_valid,
                             sa_valid := nbuf.tlv.sa_is_valid }
    dp_rx_process_filter env rx_pdev tid msdu_len peer vdev
      (qdf_nbuf_pull_head nbuf1 env.cfg.RX_PKT_TLVS_LEN) rest
  else if nbuf.raw_frame then
    match dp_rx_sg_create env.cfg nbuf rest with
    | none => none
    | some sg =>
      match dp_rx_process_filter env rx_pdev tid nbuf.pkt_len peer vdev sg.parent sg.next with
      | none => none
      | some out =>
        some { out with events :=
          [Event.stats_inc (Counter.pdev_rx_raw_pkts (env.vdev vdev).pdev) 1,
           Event.stats_inc_pkt (Counter.peer_rx_raw peer) 1 nbuf.pkt_len] ++ out.events }
  else
    let l2_hdr_offset := nbuf.tlv.l3_hdr_padding
    let msdu_len1 := u16 nbuf.tlv.msdu_len
    let pkt_len := u32 ((msdu_len1 : Int) + l2_hdr_offset + env.cfg.RX_PKT_TLVS_LEN)
    let nbuf1 := qdf_nbuf_set_pktlen nbuf pkt_len
    dp_rx_process_filter env rx_pdev tid msdu_len1 peer vdev
      (qdf_nbuf_pull_head nbuf1 (env.cfg.RX_PKT_TLVS_LEN + l2_hdr_offset)) rest

/-- The macro `DP_RX_TID_SAVE(nbuf, tid)`: with `ATH_RX_PRI_SAVE` it stores the
TID in the buffer priority, otherwise it is empty. -/
def DP_RX_TID_SAVE (cfg : RxCfg) (nbuf : Nbuf) (tid : Nat) : Nbuf :=
  if cfg.ATH_RX_PRI_SAVE then { nbuf with priority := tid } else nbuf

/-- The per-TID packet counters bumped once the DMA-completion check has
passed (`msdu_cnt`, `mcast_msdu_cnt`, `bcast_msdu_cnt`). -/
def dp_rx_process_msdu_cnt (rx_pdev tid : Nat) (nbuf : Nbuf) : List Event :=
  [Event.stats_inc (Counter.tid_msdu_cnt rx_pdev tid) 1] ++
    (if nbuf.da_mcbc then
      [Event.stats_inc (Counter.tid_mcast_msdu_cnt rx_pdev tid) 1] ++
        (if nbuf.is_bcast_pkt then
          [Event.stats_inc (Counter.tid_bcast_msdu_cnt rx_pdev tid) 1] else [])
     else [])

/-- The flush test at the head of the loop body, `if (deliver_list_head &&
peer && (vdev != peer->vdev))`, for a peer that was found: the deliver list
afterwards and the calls made by `dp_rx_deliver_to_stack`. -/
def dp_rx_process_flush_on_vdev_change (env : Env) (st : RxState) (p : Nat) :
    Option (List Nbuf × List Event) :=
  if !st.deliver_list.isEmpty && (st.vdev != (env.peer p).vdev) then
    match dp_rx_deliver_to_stack env st.vdev (some p) st.deliver_list with
    | none => none
    | some es => some ([], es)
  else some (st.deliver_list, [])

/-- One iteration of the second loop of `dp_rx_process` on the chain
`nbuf0 :: rest`: the new state, the chain the loop continues with (`next`) and
the way the iteration ended.  `rx_pdev` is `soc->pdev_list[rx_desc->pool_id]`,
fixed during the second pass. -/
def dp_rx_process_nbuf (env : Env) (rx_pdev : Nat) (st : RxState) (nbuf0 : Nbuf)
    (rest : List Nbuf) : Option (RxState × List Nbuf × RxExit) :=
  let tid := if nbuf0.rx_chfrag_start then nbuf0.tid_val else st.tid
  let nbuf := DP_RX_TID_SAVE env.cfg nbuf0 tid
  let done := dp_rx_is_msdu_done_set env.cfg nbuf.tlv
  if !done.1 then
    some ({ st with
        tid := tid,
        trace := st.trace ++ (done.2 ++
          [Event.stats_inc (Counter.tid_fail_cnt rx_pdev tid FailCnt.MSDU_DONE_FAILURE) 1,
           Event.nbuf_free nbuf.id false]) },
      rest, RxExit.msdu_done_fail)
  else
    let cnt := dp_rx_process_msdu_cnt rx_pdev tid nbuf
    let used := u32 ((st.rx_bufs_used : Int) + 1)
    match env.peer_find_by_id nbuf.peer_id with
    | none =>
      some ({ st with
          tid := tid, peer := none, rx_bufs_used := used,
          trace := st.trace ++ (cnt ++
            [Event.stats_inc_pkt Counter.soc_rx_err_rx_invalid_peer 1 nbuf.pkt_len,
             Event.stats_inc (Counter.tid_fail_cnt rx_pdev tid FailCnt.INVALID_PEER_VDEV) 1,
             Event.nbuf_free nbuf.id false]) },
        rest, RxExit.invalid_peer)
    | some p =>
      match dp_rx_process_flush_on_vdev_change env st p with
      | none => none
      | some (dl, fl) =>
        match (env.peer p).vdev with
        | none =>
          some ({ st with
              tid := tid, peer := some p, vdev := none, rx_bufs_used := used,
              deliver_list := dl,
              trace := st.trace ++ (cnt ++ fl ++
                [Event.stats_inc (Counter.tid_fail_cnt rx_pdev tid
                    FailCnt.INVALID_PEER_VDEV) 1,
                 Event.nbuf_free nbuf.id false,
                 Event.stats_inc Counter.soc_rx_err_invalid_vdev 1,
                 Event.peer_unref p]) },
            rest, RxExit.invalid_vdev)
        | some v =>
          match dp_rx_process_decap env rx_pdev tid st.msdu_len p v nbuf rest with
          | none => none
          | some out =>
            some ({ st with
                tid := tid, peer := some p, vdev := some v, rx_bufs_used := used,
                msdu_len := out.msdu_len,
                deliver_list := dl ++ out.enqueue.toList,
                trace := st.trace ++ (cnt ++ fl ++ out.events) },
              out.next, out.exit)

/-- The second loop of `dp_rx_process` (`while (nbuf)`).  Every iteration
shortens the chain, so `fuel` equal to the length of the chain is enough. -/
def dp_rx_process_loop (env : Env) (rx_pdev : Nat) :
    Nat → RxState → List Nbuf → Option RxState
  | _, st, [] => some st
  | 0, _, _ :: _ => none
  | fuel + 1, st, nbuf :: rest =>
    match dp_rx_process_nbuf env rx_pdev st nbuf rest with
    | none => none
    | some (st1, next, _) => dp_rx_process_loop env rx_pdev fuel st1 next

/-- The flush after the second loop: `if (deliver_list_head)
dp_rx_deliver_to_stack(...)`. -/
def dp_rx_process_final_flush (env : Env) (st : RxState) : Option RxState :=
  if !st.deliver_list.isEmpty then
    match dp_rx_deliver_to_stack env st.vdev st.peer st.deliver_list with
    | none => none
    | some es => some { st with trace := st.trace ++ es }
  else some st

/-- State on entry to the second loop: `vdev`, `peer` and the deliver list are
`NULL`, the counters zero. -/
def rx_state_init : RxState :=
  { vdev := none, peer := none, deliver_list := [], tid := 0, msdu_len := 0,
    rx_bufs_used := 0, trace := [] }

/-- The second pass of `dp_rx_process` over the batch `nbufs` reaped by the
drain loop: the second loop followed by the last flush. -/
def dp_rx_process_second_pass (env : Env) (rx_pdev : Nat) (nbufs : List Nbuf) :
    Option RxState :=
  match dp_rx_process_loop env rx_pdev nbufs.length rx_state_init nbufs with
  | none => none
  | some st => dp_rx_process_final_flush env st

/-! ## The buffer replenisher: `dp_rx_buffers_replenish` -/

/-- A software receive descriptor (`struct dp_rx_desc`): the cookie that
names it, the pool it belongs to, the in-use flag, the sanity tag
(`magic` holds when the tag is `DP_RX_DESC_MAGIC`), the unmapped flag and the
buffer attached to it. -/
structure RxDesc where
  cookie : Nat
  pool_id : Nat
  in_use : Bool
  magic : Bool
  unmapped : Bool
  nbuf : Option Nat
  deriving DecidableEq, Repr

/-- A refill-ring entry as written by `hal_rxdma_buff_addr_info_set`. -/
structure RingEntry where
  paddr : Nat
  cookie : Nat
  owner : Nat
  deriving DecidableEq, Repr

/-- The refill ring as one call of the replenisher sees it: its size
(`dp_rxdma_srng->num_entries`) and the number of free slots reported by
`hal_srng_src_num_avail(..., sync_hw_ptr = 1)`. -/
structure Srng where
  num_entries : Nat
  num_avail : Nat
  deriving DecidableEq, Repr

/-- Answer of `check_x86_paddr` (a header of this driver, not in this file).
Modelled from the spec and the comment at its call: the buffer is kept, or it
was freed and a newly allocated and mapped buffer is handed back in its place,
or the work-around gave up (`QDF_STATUS_E_FAILURE`). -/
inductive X86Check where
  | keep
  | replaced (nbuf paddr : Nat)
  | give_up
  deriving DecidableEq, Repr

/-- What the allocator and the DMA layer answer in one iteration of the fill
loop: `qdf_nbuf_alloc` fails; or it returns buffer `nbuf` and
`qdf_nbuf_map_single` fails; or the buffer is mapped at device address
`paddr` and `check_x86_paddr` answers `x86`. -/
inductive AllocAttempt where
  | alloc_fail
  | map_fail (nbuf : Nat)
  | mapped (nbuf paddr : Nat) (x86 : X86Check)
  deriving DecidableEq, Repr

/-- The `replenish.*`, `err.desc_alloc_fail` and `buf_freelist` counters of the
pdev, as amounts added by one call. -/
structure ReplenishStats where
  rxdma_err : Nat
  desc_alloc_fail : Nat
  nbuf_alloc_fail : Nat
  map_err : Nat
  x86_fail : Nat
  pkts_num : Nat
  pkts_bytes : Nat
  buf_freelist : Nat
  deriving DecidableEq, Repr

/-- One publication into the refill ring: the entry written, the descriptor as
it is at that moment, the buffer whose address is written and whether that
buffer is DMA-mapped at that moment. -/
structure Publication where
  entry : RingEntry
  desc : RxDesc
  nbuf : Nat
  mapped_now : Bool
  deriving DecidableEq, Repr

/-- The way the fill loop stops.  `running`: the recorded answers of the
allocator are used up and the loop condition still holds.  The last three are
a failed `qdf_assert_always(rxdma_ring_entry)`, a `NULL` `*desc_list` being
dereferenced, and a failed `qdf_assert_always(in_use == 0)`. -/
inductive FillExit where
  | running
  | done
  | nbuf_alloc_fail
  | x86_fail
  | assert_ring_entry
  | null_desc
  | assert_in_use
  deriving DecidableEq, Repr

/-- State of the fill loop: `count`, `*desc_list`, the free slots left in the
ring, the publications made, the buffers currently DMA-mapped (identity and
device address), the buffers freed, and the counters. -/
structure FillState where
  count : Nat
  desc_list : List RxDesc
  ring_free : Nat
  published : List Publication
  mapped : List (Nat × Nat)
  freed : List Nat
  stats : ReplenishStats
  deriving DecidableEq, Repr

/-- Modelled from the spec: `dp_rx_desc_prep` (dp_rx.h, not in this file)
replaces the buffer reference of the descriptor and stamps the sanity tag. -/
def dp_rx_desc_prep (d : RxDesc) (nbuf : Nat) : RxDesc :=
  { d with nbuf := some nbuf, magic := true }

/-- Modelled from the spec: `dp_rx_get_free_desc_list` (dp_rx_desc.c, not in
this file) takes up to `n` descriptors off the free list of the pool, fewer if
the pool is exhausted; it returns the descriptors taken and the free list left
(the count returned in C is the length of the list taken). -/
def dp_rx_get_free_desc_list (free_list : List RxDesc) (n : Nat) :
    List RxDesc × List RxDesc :=
  (free_list.take n, free_list.drop n)

/-- Modelled from the spec: `dp_rx_add_desc_list_to_free_list` (dp_rx_desc.c,
not in this file) links a descriptor list back into the free list of the
pool. -/
def dp_rx_add_desc_list_to_free_list (free_list descs : List RxDesc) : List RxDesc :=
  descs ++ free_list

/-- Lines 134-140 of `dp_rx_buffers_replenish`: the number of buffers to fill
and `num_desc_to_free` (a `uint16_t`), from whether `*desc_list` is `NULL`,
the ring size, the free slots and the request. -/
def dp_rx_buffers_replenish_num_req (desc_list_null : Bool) (num_entries num_entries_avail
    num_req_buffers : Nat) : Nat × Nat :=
  if desc_list_null && decide (num_entries_avail > u32 ((num_entries : Int) * 3) / 4) then
    (num_entries_avail, 0)
  else if num_entries_avail < num_req_buffers then
    (num_entries_avail, u16 ((num_req_buffers : Int) - (num_entries_avail : Int)))
  else (num_req_buffers, 0)

/-- Body of `while (count < num_req_buffers)` after a buffer has been obtained
and mapped: from `count++` to `*desc_list = next`.  Both counters are
`uint32_t` and `count < num_req_buffers` holds here, so `count++` does not
wrap. -/
def dp_rx_buffers_replenish_publish (owner : Nat) (st : FillState) (nbuf paddr : Nat) :
    FillState × Option FillExit :=
  let st1 := { st with count := st.count + 1 }
  if st1.ring_free = 0 then (st1, some FillExit.assert_ring_entry)
  else
    let st2 := { st1 with ring_free := st1.ring_free - 1 }
    match st2.desc_list with
    | [] => (st2, some FillExit.null_desc)
    | d :: next =>
      let d1 := dp_rx_desc_prep d nbuf
      if d1.in_use then (st2, some FillExit.assert_in_use)
      else
        let d2 := { d1 with in_use := true }
        ({ st2 with
            desc_list := next,
            published := st2.published ++
              [{ entry := { paddr := paddr, cookie := d2.cookie, owner := owner },
                 desc := d2, nbuf := nbuf,
                 mapped_now := decide ((nbuf, paddr) ∈ st2.mapped) }] }, none)

/-- The fill loop `while (count < num_req_buffers)` of
`dp_rx_buffers_replenish`, run against the recorded answers of the allocator
and the DMA layer, one answer per iteration. -/
def dp_rx_buffers_replenish_fill (owner num_req_buffers : Nat) :
    List AllocAttempt → FillState → FillState × FillExit
  | [], st => if st.count < num_req_buffers then (st, FillExit.running) else (st, FillExit.done)
  | a :: rest, st =>
    if st.count < num_req_buffers then
      match a with
      | AllocAttempt.alloc_fail =>
        ({ st with stats := { st.stats with nbuf_alloc_fail := st.stats.nbuf_alloc_fail + 1 } },
          FillExit.nbuf_alloc_fail)
      | AllocAttempt.map_fail nbuf =>
        dp_rx_buffers_replenish_fill owner num_req_buffers rest
          { st with freed := st.freed ++ [nbuf],
                    stats := { st.stats with map_err := st.stats.map_err + 1 } }
      | AllocAttempt.mapped nbuf paddr x86 =>
        let st1 := { st with mapped := st.mapped ++ [(nbuf, paddr)] }
        match x86 with
        | X86Check.give_up =>
          ({ st1 with mapped := st1.mapped.erase (nbuf, paddr), freed := st1.freed ++ [nbuf],
                      stats := { st1.stats with x86_fail := st1.stats.x86_fail + 1 } },
            FillExit.x86_fail)
        | X86Check.keep =>
          match dp_rx_buffers_replenish_publish owner st1 nbuf paddr with
          | (st2, some e) => (st2, e)
          | (st2, none) => dp_rx_buffers_replenish_fill owner num_req_buffers rest st2
        | X86Check.replaced nbuf1 paddr1 =>
          let st2 := { st1 with mapped := st1.mapped.erase (nbuf, paddr) ++ [(nbuf1, paddr1)],
                                freed := st1.freed ++ [nbuf] }
          match dp_rx_buffers_replenish_publish owner st2 nbuf1 paddr1 with
          | (st3, some e) => (st3, e)
          | (st3, none) => dp_rx_buffers_replenish_fill owner num_req_buffers rest st3
    else (st, FillExit.done)

/-- Arguments of `dp_rx_buffers_replenish` and the state it works on:
`dp_rxdma_srng->hal_srng` (`none` for `NULL`), the pool (its owner id and its
free list), the request, the caller's descriptor list (`[]` for `NULL`), and
the recorded answers of the allocator. -/
structure ReplenishIn where
  hal_srng : Option Srng
  owner : Nat
  free_list : List RxDesc
  num_req_buffers : Nat
  desc_list : List RxDesc
  attempts : List AllocAttempt
  deriving DecidableEq, Repr

/-- Result of `dp_rx_buffers_replenish`: the status returned (`none` when the
call does not return: assertion, `NULL` dereference, or a loop still running
when the recorded answers end), the way the fill loop stopped if it ran, the
publications in ring order, the free list of the pool afterwards, the
descriptors the call had in hand, the buffers mapped and freed, and the
counters. -/
structure ReplenishOut where
  status : Option QDF_STATUS
  fill_exit : Option FillExit
  published : List Publication
  free_list : List RxDesc
  in_hand : List RxDesc
  mapped : List (Nat × Nat)
  freed : List Nat
  stats : ReplenishStats
  deriving DecidableEq, Repr

/-- All counters zero. -/
def ReplenishStats.zero : ReplenishStats :=
  { rxdma_err := 0, desc_alloc_fail := 0, nbuf_alloc_fail := 0, map_err := 0, x86_fail := 0,
    pkts_num := 0, pkts_bytes := 0, buf_freelist := 0 }

/-- The function `dp_rx_buffers_replenish(dp_soc, mac_id, dp_rxdma_srng,
rx_desc_pool, num_req_buffers, desc_list, tail)`. -/
def dp_rx_buffers_replenish (cfg : RxCfg) (inp : ReplenishIn) : ReplenishOut :=
  match inp.hal_srng with
  | none =>
    { status := some QDF_STATUS.QDF_STATUS_E_FAILURE, fill_exit := none, published := [],
      free_list := inp.free_list, in_hand := inp.desc_list, mapped := [], freed := [],
      stats := { ReplenishStats.zero with rxdma_err := inp.num_req_buffers } }
  | some srng =>
    let num_entries_avail := srng.num_avail
    let r := dp_rx_buffers_replenish_num_req inp.desc_list.isEmpty srng.num_entries num_entries_avail
      inp.num_req_buffers
    if r.1 = 0 then
      { status := some QDF_STATUS.QDF_STATUS_SUCCESS, fill_exit := none, published := [],
        free_list := dp_rx_add_desc_list_to_free_list inp.free_list inp.desc_list,
        in_hand := inp.desc_list, mapped := [], freed := [],
        stats := { ReplenishStats.zero with buf_freelist := u16 r.1 } }
    else
      let got := dp_rx_get_free_desc_list inp.free_list r.1
      if inp.desc_list.isEmpty && got.1.isEmpty then
        { status := some QDF_STATUS.QDF_STATUS_E_NOMEM, fill_exit := none, published := [],
          free_list := inp.free_list, in_hand := [], mapped := [], freed := [],
          stats := { ReplenishStats.zero with desc_alloc_fail := r.1 } }
      else
        let desc_list := if inp.desc_list.isEmpty then got.1 else inp.desc_list
        let free_list := if inp.desc_list.isEmpty then got.2 else inp.free_list
        let num_req := if inp.desc_list.isEmpty then got.1.length else r.1
        let f := dp_rx_buffers_replenish_fill inp.owner num_req inp.attempts
          { count := 0, desc_list := desc_list, ring_free := num_entries_avail,
            published := [], mapped := [], freed := [], stats := ReplenishStats.zero }
        match f.2 with
        | FillExit.running | FillExit.assert_ring_entry | FillExit.null_desc
        | FillExit.assert_in_use =>
          { status := none, fill_exit := some f.2, published := f.1.published,
            free_list := free_list, in_hand := desc_list, mapped := f.1.mapped,
            freed := f.1.freed, stats := f.1.stats }
        | FillExit.done | FillExit.nbuf_alloc_fail | FillExit.x86_fail =>
          { status := some QDF_STATUS.QDF_STATUS_SUCCESS, fill_exit := some f.2,
            published := f.1.published,
            free_list := dp_rx_add_desc_list_to_free_list free_list f.1.desc_list,
            in_hand := desc_list, mapped := f.1.mapped, freed := f.1.freed,
            stats := { f.1.stats with
              pkts_num := f.1.count,
              pkts_bytes := cfg.RX_BUFFER_SIZE * f.1.count,
              buf_freelist := r.2 } }

/-! ## The drain loop and `dp_rx_process` as a whole -/

/-- One completed entry of the REO destination ring, as the drain loop reads
it through the HAL accessors: the error status (`error` holds for
`HAL_REO_ERROR_DETECTED`), whether the buffer address in the entry is the one
of the buffer of the descriptor (`dp_rx_desc_nbuf_sanity_check`), the software
descriptor the cookie resolves to and its buffer `rx_desc->nbuf`, the
`HAL_MPDU_F_RAW_AMPDU` flag, the MSDU flags, the MSDU length, the peer id in
the peer metadata and the REO queue number. -/
structure ReoEntry where
  error : Bool
  paddr_ok : Bool
  rx_desc : RxDesc
  nbuf : Nbuf
  raw_ampdu : Bool
  first_msdu : Bool
  last_msdu : Bool
  msdu_continuation : Bool
  da_is_mcbc : Bool
  da_is_valid : Bool
  sa_is_valid : Bool
  msdu_len : Nat
  peer_id : Nat
  reo_queue_number : Nat
  deriving DecidableEq, Repr

/-- Modelled from the spec: the destination ring behind the ring access
contract (`access_start`, `peek_next`, `pop_next`, `available_slots(ring,
sync_flag)`; the HAL is not in this file).  `cached` holds the completed
entries between the read cursor and the cached copy of the hardware write
cursor, oldest first; `hw_more` holds the entries the hardware has completed
since that copy was taken. -/
structure DstRing where
  access_ok : Bool
  cached : List ReoEntry
  hw_more : List ReoEntry
  deriving DecidableEq, Repr

/-- Modelled from the spec: `hal_srng_dst_peek` (`peek_next`) returns the entry
at the read cursor, `NULL` when the cursor has reached the cached write
cursor. -/
def hal_srng_dst_peek (r : DstRing) : Option ReoEntry := r.cached.head?

/-- Modelled from the spec: `hal_srng_dst_get_next` (`pop_next`) moves the read
cursor past the entry at the cursor. -/
def hal_srng_dst_get_next (r : DstRing) : DstRing := { r with cached := r.cached.tail }

/-- Modelled from the spec: `hal_srng_dst_num_valid(hal_soc, hal_ring,
sync_hw_ptr)` (`available_slots(ring, sync_flag)`) returns the number of
completed entries ahead of the read cursor; with `sync_hw_ptr` it first
refreshes the cached copy of the hardware write cursor. -/
def hal_srng_dst_num_valid (r : DstRing) (sync_hw_ptr : Bool) : Nat × DstRing :=
  if sync_hw_ptr then
    ((r.cached ++ r.hw_more).length, { r with cached := r.cached ++ r.hw_more, hw_more := [] })
  else (r.cached.length, r)

/-- Modelled from the spec: `dp_rx_desc_check_magic` (dp_rx.h, not in this
file) tells whether the sanity tag of the descriptor is right; without
`RX_DESC_DEBUG_CHECK` there is no tag to check. -/
def dp_rx_desc_check_magic (cfg : RxCfg) (d : RxDesc) : Bool :=
  if cfg.RX_DESC_DEBUG_CHECK then d.magic else true

/-- Modelled from the spec: `dp_rx_add_to_free_desc_list` (dp_rx_desc.c, not in
this file) detaches the buffer from the descriptor, clears `in_use` and links
the descriptor into the local free list. -/
def dp_rx_add_to_free_desc_list (head : List RxDesc) (new : RxDesc) : List RxDesc :=
  { new with nbuf := none, in_use := false } :: head

/-- Local variables of `dp_rx_process` that the drain loop works on, with the
ring: `quota`, the batch `nbuf_head .. nbuf_tail`, the local `rx_desc`,
`rx_bufs_reaped[]` and `head[]` (indexed by pool id), `is_prev_msdu_last`,
`num_entries_avail`; and what the loop does to the outside: the cookies of the
descriptors whose buffers it unmapped and the counters `rx.ring_packets` and
`rx.err.hal_reo_error`. -/
structure DrainState where
  ring : DstRing
  quota : Nat
  nbufs : List Nbuf
  rx_desc : Option RxDesc
  rx_bufs_reaped : Nat → Nat
  head : Nat → List RxDesc
  is_prev_msdu_last : Bool
  num_entries_avail : Nat
  unmapped : List Nat
  ring_packets : Nat
  hal_reo_error : Nat

/-- The per-packet metadata the drain loop saves in `nbuf->cb` after popping
the entry: peer id, the MSDU flags (each set when the flag is present, left
alone otherwise), the length and the TID. -/
def dp_rx_process_save_cb (e : ReoEntry) (nbuf : Nbuf) : Nbuf :=
  { nbuf with
    peer_id := e.peer_id,
    rx_chfrag_start := if e.first_msdu then true else nbuf.rx_chfrag_start,
    rx_chfrag_cont := if e.msdu_continuation then true else nbuf.rx_chfrag_cont,
    rx_chfrag_end := if e.last_msdu then true else nbuf.rx_chfrag_end,
    da_mcbc := if e.da_is_mcbc then true else nbuf.da_mcbc,
    da_valid := if e.da_is_valid then true else nbuf.da_valid,
    sa_valid := if e.sa_is_valid then true else nbuf.sa_valid,
    pkt_len := e.msdu_len,
    tid_val := e.reo_queue_number }

/-- The raw-aggregate bookkeeping of the drain loop for an entry with
`HAL_MPDU_F_RAW_AMPDU` (`st` is the state before it, `nbuf` the buffer of the
entry): the state and buffer afterwards and whether the loop breaks.  The
quotient is the one of a buffer that holds its TLV header
(`RX_PKT_TLVS_LEN < RX_BUFFER_SIZE`). -/
def dp_rx_process_raw_check (cfg : RxCfg) (st : DrainState) (e : ReoEntry) (nbuf : Nbuf) :
    DrainState × Nbuf × Bool :=
  if e.raw_ampdu then
    if st.is_prev_msdu_last then
      let nv := hal_srng_dst_num_valid st.ring true
      let st1 := { st with is_prev_msdu_last := false, num_entries_avail := nv.1, ring := nv.2 }
      if e.msdu_len / (cfg.RX_BUFFER_SIZE - cfg.RX_PKT_TLVS_LEN) + 1 > nv.1 then
        (st1, nbuf, true)
      else (st1, { nbuf with raw_frame := true }, false)
    else
      let st1 := if e.last_msdu then { st with is_prev_msdu_last := true } else st
      (st1, { nbuf with raw_frame := true }, false)
  else (st, nbuf, false)

/-- The drain loop from the error status to `DP_STATS_INC(soc,
rx.ring_packets...)`, for an entry that passes the fatal checks: a REO error is
counted (`qdf_assert` is diagnostic only), the local `rx_desc` is set, the
buffer is unmapped and the descriptor marked so. -/
def dp_rx_process_unmap (st : DrainState) (e : ReoEntry) : DrainState :=
  let st1 := if e.error then { st with hal_reo_error := st.hal_reo_error + 1 } else st
  { st1 with rx_desc := some { e.rx_desc with unmapped := true },
             unmapped := st1.unmapped ++ [e.rx_desc.cookie],
             ring_packets := st1.ring_packets + 1 }

/-- The drain loop from `hal_srng_dst_get_next` to the closing brace: the
entry is popped, the reaped count of its pool grows, the metadata is saved in
the buffer, the buffer joins the batch, `quota` goes down unless the
continuation flag is set in the buffer, and the descriptor joins the local
free list of its pool.  `nbuf` is the buffer of the entry as the raw check
left it.  The loop condition has `quota` non-zero here, so `quota -= 1` does
not wrap. -/
def dp_rx_process_pop (st : DrainState) (e : ReoEntry) (nbuf : Nbuf) : DrainState :=
  let desc := { e.rx_desc with unmapped := true }
  let nbuf1 := dp_rx_process_save_cb e nbuf
  let pool := desc.pool_id
  { st with
    ring := hal_srng_dst_get_next st.ring,
    rx_bufs_reaped := fun i =>
      if i = pool then u32 ((st.rx_bufs_reaped i : Int) + 1) else st.rx_bufs_reaped i,
    nbufs := st.nbufs ++ [nbuf1],
    quota := if !nbuf1.rx_chfrag_cont then st.quota - 1 else st.quota,
    head := fun i =>
      if i = pool then dp_rx_add_to_free_desc_list (st.head i) desc else st.head i,
    rx_desc := some { desc with nbuf := none, in_use := false } }

/-- One iteration of the drain loop of `dp_rx_process` on the entry `e`
returned by `hal_srng_dst_peek`: the state afterwards and whether the loop
breaks.  A failed `qdf_assert_always` (bad buffer address, descriptor not in
use, wrong sanity tag) has no result. -/
def dp_rx_process_reap (cfg : RxCfg) (st : DrainState) (e : ReoEntry) :
    Option (DrainState × Bool) :=
  if cfg.RX_DESC_DEBUG_CHECK && !e.paddr_ok then none
  else if !e.rx_desc.in_use then none
  else if !dp_rx_desc_check_magic cfg e.rx_desc then none
  else
    let raw := dp_rx_process_raw_check cfg (dp_rx_process_unmap st e) e e.nbuf
    if raw.2.2 then some (raw.1, true)
    else some (dp_rx_process_pop raw.1 e raw.2.1, false)

/-- The drain loop of `dp_rx_process`: `while (quota && (ring_desc =
hal_srng_dst_peek(...)))`.  Every iteration that does not break pops one
entry, so `fuel` equal to the number of completed entries is enough. -/
def dp_rx_process_drain (cfg : RxCfg) : Nat → DrainState → Option DrainState
  | 0, st =>
    if st.quota = 0 then some st
    else
      match hal_srng_dst_peek st.ring with
      | none => some st
      | some _ => none
  | fuel + 1, st =>
    if st.quota = 0 then some st
    else
      match hal_srng_dst_peek st.ring with
      | none => some st
      | some e =>
        match dp_rx_process_reap cfg st e with
        | none => none
        | some (st1, true) => some st1
        | some (st1, false) => dp_rx_process_drain cfg fuel st1

/-- Arguments of `dp_rx_process` and the state it works on beside the
directories of `Env`: the ring to service, `quota`, the number of pools
(`MAX_PDEV_CNT`), and for every pool the refill ring, the descriptor pool and
the answers of the allocator that `dp_rx_buffers_replenish` will meet (its
request and descriptor list are supplied by `dp_rx_process`). -/
structure RxProcessIn where
  ring : DstRing
  quota : Nat
  MAX_PDEV_CNT : Nat
  pool : Nat → ReplenishIn

/-- The state in which the drain loop starts. -/
def drain_start (ring : DstRing) (quota : Nat) : DrainState :=
  { ring := ring, quota := quota, nbufs := [], rx_desc := none, rx_bufs_reaped := fun _ => 0,
    head := fun _ => [], is_prev_msdu_last := true, num_entries_avail := 0, unmapped := [],
    ring_packets := 0, hal_reo_error := 0 }

/-- The `for (mac_id = 0; mac_id < MAX_PDEV_CNT; mac_id++)` loop after the
drain, over the pool ids `mac_ids`: one call of `dp_rx_buffers_replenish` for
every pool from which buffers were reaped.  No result when a call does not
return. -/
def dp_rx_process_replenish (cfg : RxCfg) (inp : RxProcessIn) (d : DrainState) :
    List Nat → Option (List ReplenishOut)
  | [] => some []
  | mac_id :: rest =>
    if d.rx_bufs_reaped mac_id = 0 then dp_rx_process_replenish cfg inp d rest
    else
      let out := dp_rx_buffers_replenish cfg
        { inp.pool mac_id with
          num_req_buffers := d.rx_bufs_reaped mac_id, desc_list := d.head mac_id }
      match out.status with
      | none => none
      | some _ =>
        match dp_rx_process_replenish cfg inp d rest with
        | none => none
        | some outs => some (out :: outs)

/-- A call of the access bracket of the serviced ring: `hal_srng_access_start`
with what it answered (`ok` when it returned zero), or `hal_srng_access_end`. -/
inductive SrngCall where
  | access_start (ok : Bool)
  | access_end
  deriving DecidableEq, Repr

/-- The access-bracket calls `dp_rx_process` makes on the serviced ring, in
order, when it runs to its end: when `hal_srng_access_start` fails, the
failure branch calls `hal_srng_access_end` and jumps to `done:`, whose first
statement is `hal_srng_access_end` again; otherwise the drain loop runs and
falls through to `done:`. -/
def dp_rx_process_srng_calls (access_ok : Bool) : List SrngCall :=
  if !access_ok then
    [SrngCall.access_start false, SrngCall.access_end, SrngCall.access_end]
  else [SrngCall.access_start true, SrngCall.access_end]

/-- What a call of `dp_rx_process` leaves behind: the value returned
(`rx_bufs_used`), the state after the drain loop, the results of the replenish
calls, the state after the second pass, and the access-bracket calls made on
the serviced ring. -/
structure RxProcessOut where
  ret : Nat
  drain : DrainState
  replenished : List ReplenishOut
  second : RxState
  srng_calls : List SrngCall

/-- The pdev the second pass takes its per-TID statistics from,
`soc->pdev_list[rx_desc->pool_id]`, with `rx_desc` the last descriptor the
drain loop looked at (pdevs are named by their pool id; the second pass does
not read it when nothing was reaped). -/
def rx_pdev_of (d : DrainState) : Nat :=
  match d.rx_desc with
  | some r => r.pool_id
  | none => 0

/-- The function `dp_rx_process(int_ctx, hal_ring, reo_ring_num, quota)`: the
drain loop (skipped when `hal_srng_access_start` fails), the replenish calls,
and the second pass over the batch, with `rx_pdev` the pdev of the pool of the
last descriptor looked at. -/
def dp_rx_process (env : Env) (inp : RxProcessIn) : Option RxProcessOut :=
  let st0 := drain_start inp.ring inp.quota
  let drained :=
    if !inp.ring.access_ok then some st0
    else dp_rx_process_drain env.cfg (inp.ring.cached.length + inp.ring.hw_more.length) st0
  match drained with
  | none => none
  | some d =>
    match dp_rx_process_replenish env.cfg inp d (List.range inp.MAX_PDEV_CNT) with
    | none => none
    | some outs =>
      match dp_rx_process_second_pass env (rx_pdev_of d) d.nbufs with
      | none => none
      | some fin =>
        some { ret := fin.rx_bufs_used, drain := d, replenished := outs, second := fin,
               srng_calls := dp_rx_process_srng_calls inp.ring.access_ok }

/-! ## Preparing one buffer: `dp_rx_nbuf_prepare` -/

/-- What the allocator and the DMA layer answer in one iteration of the retry
loop of `dp_rx_nbuf_prepare`: `qdf_nbuf_alloc` fails; or it returns buffer
`nbuf` and `qdf_nbuf_map_single` fails; or the buffer is allocated and
mapped. -/
inductive PrepAttempt where
  | alloc_fail
  | map_fail (nbuf : Nat)
  | mapped (nbuf : Nat)
  deriving DecidableEq, Repr

/-- The locals of `dp_rx_nbuf_prepare` and what it has done so far: the loop
counter, the local `nbuf` (`none` is `NULL`), the number of `qdf_nbuf_alloc`
calls, the buffers handed to `qdf_nbuf_free`, and the amounts added to
`replenish.nbuf_alloc_fail` and `replenish.map_err`. -/
structure PrepState where
  nbuf_retry_count : Nat
  nbuf : Option Nat
  alloc_calls : Nat
  freed : List Nat
  nbuf_alloc_fail : Nat
  map_err : Nat
  deriving DecidableEq, Repr

/-- The `for (nbuf_retry_count = 0; nbuf_retry_count < THRESHOLD;
nbuf_retry_count++)` loop of `dp_rx_nbuf_prepare`; `answer i` is what the
`i`-th allocation of this call meets.  `THRESHOLD` is
`QDF_NBUF_ALLOC_MAP_RETRY_THRESHOLD`, a macro of a header outside this file. -/
def dp_rx_nbuf_prepare_loop (THRESHOLD : Nat) (answer : Nat → PrepAttempt) :
    Nat → PrepState → PrepState
  | 0, st => st
  | fuel + 1, st =>
    if st.nbuf_retry_count < THRESHOLD then
      match answer st.alloc_calls with
      | PrepAttempt.alloc_fail =>
        dp_rx_nbuf_prepare_loop THRESHOLD answer fuel
          { st with nbuf := none, alloc_calls := st.alloc_calls + 1,
                    nbuf_alloc_fail := st.nbuf_alloc_fail + 1,
                    nbuf_retry_count := st.nbuf_retry_count + 1 }
      | PrepAttempt.map_fail nbuf =>
        dp_rx_nbuf_prepare_loop THRESHOLD answer fuel
          { st with nbuf := some nbuf, alloc_calls := st.alloc_calls + 1,
                    freed := st.freed ++ [nbuf], map_err := st.map_err + 1,
                    nbuf_retry_count := st.nbuf_retry_count + 1 }
      | PrepAttempt.mapped nbuf =>
        { st with nbuf := some nbuf, alloc_calls := st.alloc_calls + 1 }
    else st

/-- What `dp_rx_nbuf_prepare` returns (`none` is `NULL`) together with the
state it ends in. -/
structure PrepOut where
  ret : Option Nat
  fin : PrepState
  deriving DecidableEq, Repr

/-- The function `dp_rx_nbuf_prepare(soc, pdev)`.  Every iteration either leaves the loop
or increments the counter, so `THRESHOLD` rounds of the loop are all it can
make. -/
def dp_rx_nbuf_prepare (THRESHOLD : Nat) (answer : Nat → PrepAttempt) : PrepOut :=
  let st := dp_rx_nbuf_prepare_loop THRESHOLD answer THRESHOLD
    { nbuf_retry_count := 0, nbuf := none, alloc_calls := 0, freed := [],
      nbuf_alloc_fail := 0, map_err := 0 }
  if st.nbuf_retry_count ≥ THRESHOLD then { ret := none, fin := st }
  else { ret := st.nbuf, fin := st }

/-! ## Attaching a pdev: `dp_rx_pdev_attach` -/

/-- What `dp_rx_pdev_attach` meets: `wlan_cfg_get_dp_pdev_nss_enabled`, the
constant `DP_WBM2SW_RBM` (a header outside this file), the status answered
by `dp_rx_desc_pool_alloc` (dp_rx_desc.c, not in this file), and the refill
ring and descriptor pool as they are after that call. -/
structure PdevAttachIn where
  nss_enabled : Bool
  DP_WBM2SW_RBM : Nat
  pool_alloc : QDF_STATUS
  refill : ReplenishIn
  deriving DecidableEq, Repr

/-- Result of `dp_rx_pdev_attach`: the status returned (`none` when the
replenisher does not return), the status `dp_rx_desc_pool_alloc` answered if
it was called, and the outcome of the initial replenish if it was made. -/
structure PdevAttachOut where
  status : Option QDF_STATUS
  pool_alloc : Option QDF_STATUS
  replenish : Option ReplenishOut
  deriving DecidableEq, Repr

/-- The function `dp_rx_pdev_attach(pdev)`.  The values returned by
`dp_rx_desc_pool_alloc` and by `dp_rx_buffers_replenish` are not assigned to
anything. -/
def dp_rx_pdev_attach (cfg : RxCfg) (inp : PdevAttachIn) : PdevAttachOut :=
  if inp.nss_enabled then
    { status := some QDF_STATUS.QDF_STATUS_SUCCESS, pool_alloc := none, replenish := none }
  else
    let r := dp_rx_buffers_replenish cfg
      { inp.refill with owner := inp.DP_WBM2SW_RBM, num_req_buffers := 0, desc_list := [] }
    match r.status with
    | none => { status := none, pool_alloc := some inp.pool_alloc, replenish := some r }
    | some _ =>
      { status := some QDF_STATUS.QDF_STATUS_SUCCESS, pool_alloc := some inp.pool_alloc,
        replenish := some r }

/-! ## Frequency scaling of the NSS cores: `nss_freq.c` -/

/-- Constants of `nss_freq.c` that come from headers outside the file. -/
structure NssFreqCfg where
  NSS_SAMPLE_BUFFER_SIZE : Nat
  NSS_SAMPLE_BUFFER_MASK : Nat
  NSS_FREQ_MAX_SCALE : Nat
  NSS_FREQUENCY_SCALE_RATE_LIMIT_UP : Nat
  NSS_FREQUENCY_SCALE_RATE_LIMIT_DOWN : Nat
  NSS_MESSAGE_RATE_LIMIT : Nat
  deriving DecidableEq, Repr

/-- One element of `nss_runtime_samples.freq_scale[]`: the fields `nss_freq.c`
reads. -/
structure FreqScale where
  frequency : Nat
  minimum : Nat
  maximum : Nat
  deriving DecidableEq, Repr

/-- The globals `nss_freq.c` works on: the fields of `nss_runtime_samples`,
then `nss_cmd_buf.auto_scale` and `nss_cmd_buf.current_freq`, whether `nss_wq`
is non-`NULL`, and the works handed to `queue_work` (frequency and
`stats_enable`).  The structures are declared in a header outside the file;
their counters are taken to be `uint32_t` like the locals of
`nss_freq_handle_core_stats` they are copied to, and the two arrays are
lists, an index past the end having no element. -/
structure NssFreqState where
  freq_scale : List FreqScale
  freq_scale_index : Nat
  freq_scale_ready : Nat
  freq_scale_rate_limit_up : Nat
  freq_scale_rate_limit_down : Nat
  buffer : List Nat
  buffer_index : Nat
  sum : Nat
  sample_count : Nat
  average : Nat
  message_rate_limit : Nat
  initialized : Nat
  auto_scale : Nat
  current_freq : Nat
  nss_wq : Bool
  queued : List (Nat × Bool)
  deriving DecidableEq, Repr

/-- The function `nss_freq_sched_change(index, auto_scale)`: the value returned and the
globals afterwards.  `kmalloc_ok` tells whether `kmalloc` returns memory.
Reading `freq_scale[index]` past the end of the array has no result. -/
def nss_freq_sched_change (cfg : NssFreqCfg) (kmalloc_ok : Bool) (st : NssFreqState)
    (index : Nat) (auto_scale : Bool) : Option (Bool × NssFreqState) :=
  if index ≥ cfg.NSS_FREQ_MAX_SCALE then some (false, st)
  else if !kmalloc_ok then some (false, st)
  else
    match st.freq_scale[index]? with
    | none => none
    | some s =>
      some (true, { st with current_freq := s.frequency,
                            queued := st.queued ++ [(s.frequency, auto_scale)] })

/-- The function `nss_freq_queue_work()`; `BUG_ON(!nss_wq)` has no result when `nss_wq`
is `NULL`. -/
def nss_freq_queue_work (cfg : NssFreqCfg) (kmalloc_ok : Bool) (st : NssFreqState) :
    Option (Bool × NssFreqState) :=
  let index := st.freq_scale_index
  if !st.nss_wq then none
  else nss_freq_sched_change cfg kmalloc_ok st index true

/-- What a call of `nss_freq_handle_core_stats` leaves behind: the globals,
and the value `nss_freq_queue_work` returned if it was called. -/
structure NssFreqOut where
  st : NssFreqState
  queue_work : Option Bool
  deriving DecidableEq, Repr

/-- Lines 101-108 of `nss_freq_handle_core_stats`: the oldest sample leaves
the running sum, the new one takes its slot and joins the sum, and the buffer
index moves on.  An index past the end of `buffer[]` has no result. -/
def nss_freq_sample_store (cfg : NssFreqCfg) (st : NssFreqState) (sample : Nat) :
    Option NssFreqState :=
  let b_index := st.buffer_index
  match st.buffer[b_index]? with
  | none => none
  | some old =>
    let sum1 := u32 ((st.sum : Int) - (old : Int))
    let buffer1 := st.buffer.set b_index sample
    let sum2 := u32 ((sum1 : Int) + (sample : Int))
    some { st with sum := sum2, buffer := buffer1,
                   buffer_index := u32 ((b_index : Int) + 1) &&& cfg.NSS_SAMPLE_BUFFER_MASK }

/-- The branch of `nss_freq_handle_core_stats` taken when the up-scale rate
limit has been reached; `index` is the local copy of `freq_scale_index` made
on entry.  `NSS_FREQ_MAX_SCALE - 1` is compared with the `uint32_t` `index`. -/
def nss_freq_scale_up (cfg : NssFreqCfg) (kmalloc_ok : Bool) (st : NssFreqState)
    (index : Nat) : Option NssFreqOut :=
  match st.freq_scale[index]? with
  | none => none
  | some s =>
    let maximum := s.maximum
    let r : Option NssFreqOut :=
      if st.average > maximum && index < u32 ((cfg.NSS_FREQ_MAX_SCALE : Int) - 1) then
        let st1 := { st with freq_scale_index := st.freq_scale_index + 1,
                             freq_scale_ready := 0 }
        match nss_freq_queue_work cfg kmalloc_ok st1 with
        | none => none
        | some (true, st2) => some { st := st2, queue_work := some true }
        | some (false, st2) =>
          some { st := { st2 with freq_scale_index := st2.freq_scale_index - 1 },
                 queue_work := some false }
      else some { st := st, queue_work := none }
    match r with
    | none => none
    | some o =>
      let st3 :=
        if o.st.average > maximum then { o.st with freq_scale_rate_limit_down := 0 } else o.st
      some { st := { st3 with freq_scale_rate_limit_up := 0 }, queue_work := o.queue_work }

/-- The branch of `nss_freq_handle_core_stats` taken when the down-scale rate
limit has been reached. -/
def nss_freq_scale_down (cfg : NssFreqCfg) (kmalloc_ok : Bool) (st : NssFreqState)
    (index : Nat) : Option NssFreqOut :=
  match st.freq_scale[index]? with
  | none => none
  | some s =>
    let minimum := s.minimum
    let r : Option NssFreqOut :=
      if st.average < minimum && index > 0 then
        let st1 := { st with freq_scale_index := st.freq_scale_index - 1,
                             freq_scale_ready := 0 }
        match nss_freq_queue_work cfg kmalloc_ok st1 with
        | none => none
        | some (true, st2) => some { st := st2, queue_work := some true }
        | some (false, st2) =>
          some { st := { st2 with freq_scale_index := st2.freq_scale_index + 1 },
                 queue_work := some false }
      else some { st := st, queue_work := none }
    match r with
    | none => none
    | some o =>
      some { st := { o.st with freq_scale_rate_limit_down := 0 }, queue_work := o.queue_work }

/-- The scale algorithm of `nss_freq_handle_core_stats`, from the test of the
up-scale rate limit to the end of the function. -/
def nss_freq_scale (cfg : NssFreqCfg) (kmalloc_ok : Bool) (st : NssFreqState)
    (index : Nat) : Option NssFreqOut :=
  let up := st.freq_scale_rate_limit_up
  let st1 := { st with freq_scale_rate_limit_up := u32 ((up : Int) + 1) }
  if up ≥ cfg.NSS_FREQUENCY_SCALE_RATE_LIMIT_UP then nss_freq_scale_up cfg kmalloc_ok st1 index
  else
    let down := st1.freq_scale_rate_limit_down
    let st2 := { st1 with freq_scale_rate_limit_down := u32 ((down : Int) + 1) }
    if down ≥ cfg.NSS_FREQUENCY_SCALE_RATE_LIMIT_DOWN then
      nss_freq_scale_down cfg kmalloc_ok st2 index
    else some { st := st2, queue_work := none }

/-- The part of `nss_freq_handle_core_stats` after the sample is stored: the
count of samples while the buffer fills, then the running average, the
message rate limit and the scale algorithm.  A division by a zero
`sample_count` has no result. -/
def nss_freq_average (cfg : NssFreqCfg) (kmalloc_ok : Bool) (st1 : NssFreqState)
    (index : Nat) : Option NssFreqOut :=
  if st1.sample_count < cfg.NSS_SAMPLE_BUFFER_SIZE then
    let st2 := { st1 with sample_count := u32 ((st1.sample_count : Int) + 1) }
    if st2.sample_count = cfg.NSS_SAMPLE_BUFFER_SIZE then
      some { st := { st2 with auto_scale := 1, freq_scale_ready := 1, initialized := 1 },
             queue_work := none }
    else some { st := st2, queue_work := none }
  else if st1.sample_count = 0 then none
  else
    let st2 := { st1 with average := st1.sum / st1.sample_count }
    let limit := st2.message_rate_limit
    let st3 := { st2 with message_rate_limit := u32 ((limit : Int) + 1) }
    let st4 :=
      if limit ≥ cfg.NSS_MESSAGE_RATE_LIMIT then { st3 with message_rate_limit := 0 }
      else st3
    if st4.freq_scale_ready ≠ 1 || st4.auto_scale ≠ 1 then
      some { st := st4, queue_work := none }
    else nss_freq_scale cfg kmalloc_ok st4 index

/-- The function `nss_freq_handle_core_stats(nss_ctx, core_stats)` with
`core_stats->inst_cnt_total = inst_cnt_total`. -/
def nss_freq_handle_core_stats (cfg : NssFreqCfg) (kmalloc_ok : Bool) (st : NssFreqState)
    (inst_cnt_total : Nat) : Option NssFreqOut :=
  let sample := u32 (inst_cnt_total : Int)
  let index := st.freq_scale_index
  if st.auto_scale = 0 && st.initialized ≠ 0 then some { st := st, queue_work := none }
  else
    match nss_freq_sample_store cfg st sample with
    | none => none
    | some st1 => nss_freq_average cfg kmalloc_ok st1 index

/-! ## Flushing the frames cached for a peer: `dp_rx_flush_rx_cached` -/

/-- An element of `bufq_info.cached_bufq` (`struct dp_rx_cached_buf`): the
buffers of the list hung on it, and the element count recorded in the head
buffer (`QDF_NBUF_CB_RX_NUM_ELEMENTS_IN_LIST`). -/
structure CachedBuf where
  buf : List Nat
  num_elements : Nat
  deriving DecidableEq, Repr

/-- What `dp_rx_flush_rx_cached` reads and writes in the peer:
`flush_in_progress` (a `qdf_atomic_t`, far from the ends of its range),
whether `peer->state >= OL_TXRX_PEER_STATE_CONN`, whether
`peer->vdev->osif_rx` is set (`none` when `peer->vdev` is `NULL`), and
`bufq_info`: the queue, `entries` and `dropped` (a header outside this file;
taken to be `uint32_t`). -/
structure FlushPeer where
  flush_in_progress : Int
  state_conn : Bool
  vdev_osif_rx : Option Bool
  cached_bufq : List CachedBuf
  entries : Nat
  dropped : Nat
  deriving DecidableEq, Repr

/-- What a flush has done: the peer afterwards, the lists handed to the stack
callback `data_rx` with the status it returned (`true` for
`QDF_STATUS_SUCCESS`), and the buffers freed by `dp_rx_drop_nbuf_list`. -/
structure FlushOut where
  peer : FlushPeer
  data_rx_calls : List (List Nat × Bool)
  freed : List Nat
  deriving DecidableEq, Repr

/-- The function `dp_rx_drop_nbuf_list(pdev, buf_list)`: every buffer of the list is
counted as failed and freed; the value returned is their number. -/
def dp_rx_drop_nbuf_list (buf_list : List Nat) : Nat × List Nat :=
  (buf_list.length, buf_list)

/-- The `while (cache_buf)` loop of `dp_rx_flush_rx_cached` over the elements
taken off the front of the queue.  `data_rx_ok` says whether the stack
callback returns `QDF_STATUS_SUCCESS` for a list.  Both branches of the body
dereference `peer->vdev`. -/
def dp_rx_flush_rx_cached_loop (data_rx_ok : List Nat → Bool) (drop : Bool) :
    List CachedBuf → FlushOut → Option FlushOut
  | [], out => some { out with peer := { out.peer with cached_bufq := [] } }
  | cache_buf :: rest, out =>
    let peer1 := { out.peer with
      cached_bufq := rest,
      entries := u32 ((out.peer.entries : Int) - (cache_buf.num_elements : Int)) }
    match peer1.vdev_osif_rx with
    | none => none
    | some _ =>
      let d := dp_rx_drop_nbuf_list cache_buf.buf
      if drop then
        dp_rx_flush_rx_cached_loop data_rx_ok drop rest
          { out with peer := { peer1 with dropped := d.1 }, freed := out.freed ++ d.2 }
      else if !data_rx_ok cache_buf.buf then
        dp_rx_flush_rx_cached_loop data_rx_ok drop rest
          { peer := { peer1 with dropped := d.1 },
            data_rx_calls := out.data_rx_calls ++ [(cache_buf.buf, false)],
            freed := out.freed ++ d.2 }
      else
        dp_rx_flush_rx_cached_loop data_rx_ok drop rest
          { out with peer := peer1,
                     data_rx_calls := out.data_rx_calls ++ [(cache_buf.buf, true)] }

/-- The function `dp_rx_flush_rx_cached(peer, drop)` (built with
`PEER_CACHE_RX_PKTS`), run without interleaving.  `qdf_atomic_inc_return`
gives the value after the increment. -/
def dp_rx_flush_rx_cached (data_rx_ok : List Nat → Bool) (peer : FlushPeer) (drop : Bool) :
    Option FlushOut :=
  let peer1 : FlushPeer := { peer with flush_in_progress := peer.flush_in_progress + 1 }
  if peer1.flush_in_progress > (1 : Int) then
    some { peer := { peer1 with flush_in_progress := peer1.flush_in_progress - 1 },
           data_rx_calls := [], freed := [] }
  else
    let data_rx : Option Bool :=
      if peer1.state_conn then peer1.vdev_osif_rx else some false
    match data_rx with
    | none => none
    | some have_rx =>
      let drop1 := if have_rx then drop else true
      if peer1.cached_bufq.isEmpty then
        some { peer := peer1, data_rx_calls := [], freed := [] }
      else
        match dp_rx_flush_rx_cached_loop data_rx_ok drop1 peer1.cached_bufq
            { peer := peer1, data_rx_calls := [], freed := [] } with
        | none => none
        | some out =>
          some { out with peer :=
            { out.peer with flush_in_progress := out.peer.flush_in_progress - 1 } }

/-! ## Predicates used in the statements -/

/-- The batches handed to delivery callbacks, of every vdev, in call order,
concatenated. -/
def all_delivered : List Event → List Nbuf
  | [] => []
  | Event.osif_rx _ nbufs :: es => nbufs ++ all_delivered es
  | _ :: es => all_delivered es

/-- What every way through the loop body after the vdev check has in common,
for the packet with identity `id` at the head of the chain `id :: rest`: no
vdev callback is called, a buffer appended to the deliver list is the packet
itself, the loop continues with a tail of the chain, and an iteration that
ends by enqueueing does append a buffer. -/
def StageOk (id : Nat) (rest : List Nbuf) (out : StageOut) : Prop :=
  osif_calls out.events = [] ∧ (∀ n, out.enqueue = some n → n.id = id) ∧ out.next <:+ rest ∧
    (out.exit = RxExit.enqueued → out.enqueue ≠ none)

/-- Whether `dp_rx_deliver_to_stack` runs the raw decapsulation hook on the
batches of this vdev. -/
def Vdev.rsim_decap (vd : Vdev) : Bool :=
  vd.rx_decap_type == htt_cmn_pkt_type.htt_cmn_pkt_type_raw ||
    vd.rx_decap_type == htt_cmn_pkt_type.htt_cmn_pkt_type_native_wifi

/-- The trace shows one flush of `batch` to the callbacks of vdev `v`: one
`osif_rx` call with the batch, preceded on a raw or native-wifi vdev by one
call of the decapsulation hook on the batch, whose output is what `osif_rx`
receives. -/
def flushed_in_one_call (env : Env) (v : Nat) (batch : List Nbuf) (trace : List Event) :
    Prop :=
  if (env.vdev v).rsim_decap then
    ∃ peer, [Event.osif_rsim_rx_decap v peer batch,
      Event.osif_rx v (env.osif_rsim_rx_decap v peer batch)] <:+: trace
  else [Event.osif_rx v batch] <:+: trace

/-- What one iteration of the second loop on `nbuf :: rest` does to the state,
whatever way it ends: it continues with a tail of the chain; the trace grows
by calls among which only the flush `fl` calls vdev callbacks; the deliver
list either grows by `tl` (nothing, or the packet itself) with the current
vdev unchanged while the list is not empty, or it is flushed by one
`dp_rx_deliver_to_stack` to the vdev current before, the vdev changes, and the
list restarts as `tl`.  An iteration that enqueues found a peer with a vdev,
which is the current vdev afterwards. -/
def IterOk (env : Env) (st : RxState) (nbuf : Nbuf) (rest : List Nbuf)
    (r : RxState × List Nbuf × RxExit) : Prop :=
  r.2.1 <:+ rest ∧
  ∃ pre fl post tl,
    r.1.trace = st.trace ++ (pre ++ fl ++ post) ∧ osif_calls pre = [] ∧ osif_calls post = [] ∧
    (tl = [] ∨ ∃ x, x.id = nbuf.id ∧ tl = [x]) ∧
    (r.2.2 = RxExit.enqueued → tl ≠ [] ∧
      ∃ p v, env.peer_find_by_id nbuf.peer_id = some p ∧ (env.peer p).vdev = some v ∧
        r.1.vdev = some v) ∧
    ((fl = [] ∧ r.1.deliver_list = st.deliver_list ++ tl ∧
        (st.deliver_list ≠ [] → r.1.vdev = st.vdev)) ∨
     (st.deliver_list ≠ [] ∧ r.1.vdev ≠ st.vdev ∧
        (∃ p, dp_rx_deliver_to_stack env st.vdev (some p) st.deliver_list = some fl) ∧
        r.1.deliver_list = tl))

/-- The state after one iteration of the second loop (the state itself if the
iteration has no result). -/
def state_after (env : Env) (rx_pdev : Nat) (st : RxState) (nbuf : Nbuf)
    (rest : List Nbuf) : RxState :=
  match dp_rx_process_nbuf env rx_pdev st nbuf rest with
  | some r => r.1
  | none => st

/-- The final state of the second pass over a batch (the initial state if the
pass has no result). -/
def second_pass_final (env : Env) (rx_pdev : Nat) (nbufs : List Nbuf) : RxState :=
  match dp_rx_process_second_pass env rx_pdev nbufs with
  | some st => st
  | none => rx_state_init

/-- The buffers `x` then `y` sit next to each other in the pending deliver
list while the current vdev is `v`. -/
def PairPending (v : Nat) (x y : Nbuf) (st : RxState) : Prop :=
  st.vdev = some v ∧ ∃ a b, st.deliver_list = a ++ x :: y :: b

/-- The trace shows one flush to vdev `v` of a batch in which `x` and `y` sit
next to each other, `x` first. -/
def PairFlushed (env : Env) (v : Nat) (x y : Nbuf) (trace : List Event) : Prop :=
  ∃ batch a b, batch = a ++ x :: y :: b ∧ flushed_in_one_call env v batch trace

/-- What holds of the fill loop between iterations: every completed iteration
that got past `count++` published one entry, took one ring slot and one
descriptor. -/
def FillInv (avail hand : Nat) (st : FillState) : Prop :=
  st.published.length = st.count ∧ st.count + st.ring_free = avail ∧
    st.published.length + st.desc_list.length = hand

/-- What makes a publication sound, for a call with pool owner `owner`,
descriptors in hand `hand` and allocator answers `atts`: the descriptor is in
use when the entry is written and the entry carries its cookie and the owner
of the pool; the descriptor is one of those in hand, found not in use, with
the published buffer attached; the buffer is DMA-mapped at that moment, and
its address is the one at which the DMA layer (or `check_x86_paddr`) mapped
it. -/
def PubOk (owner : Nat) (hand : List RxDesc) (atts : List AllocAttempt)
    (p : Publication) : Prop :=
  p.desc.in_use = true ∧ p.entry.cookie = p.desc.cookie ∧ p.entry.owner = owner ∧
    p.desc.nbuf = some p.nbuf ∧ p.mapped_now = true ∧
    (∃ d ∈ hand, d.in_use = false ∧ p.desc = { dp_rx_desc_prep d p.nbuf with in_use := true }) ∧
    (∃ a ∈ atts, a = AllocAttempt.mapped p.nbuf p.entry.paddr X86Check.keep ∨
      ∃ n q, a = AllocAttempt.mapped n q (X86Check.replaced p.nbuf p.entry.paddr))

/-- Increments of `fail_cnt[r]` in a trace, summed over every pdev and TID. -/
def fail_cnt_incs (r : FailCnt) : List Event → Nat
  | [] => 0
  | Event.stats_inc (Counter.tid_fail_cnt _ _ r1) n :: es =>
    (if r1 = r then n else 0) + fail_cnt_incs r es
  | _ :: es => fail_cnt_incs r es

/-- Decrements of `delivered_to_stack` in a trace, summed over every pdev and
TID. -/
def delivered_to_stack_decs : List Event → Nat
  | [] => 0
  | Event.stats_dec (Counter.tid_delivered_to_stack _ _) :: es => 1 + delivered_to_stack_decs es
  | _ :: es => delivered_to_stack_decs es

/-- The `accept` column of the truth table in the comment inside
`dp_wds_rx_policy_check`, as a function of the other columns: `peer-wds`, the
direction `dir` (its two digits are `fr_ds` and `to_ds`, as the rows for
non-WDS peers show) and the 4-address policy bit of the class of the frame
(`rx-policy`, the `ucast` digit for a unicast row, the `mcast` digit for a
multicast row). -/
def wds_rx_policy_table (peer_wds fr_ds to_ds rx_policy : Bool) : Bool :=
  if peer_wds then
    if rx_policy then fr_ds && to_ds
    else fr_ds && !to_ds
  else !fr_ds && to_ds

/-- Whether the answer is a failed `qdf_nbuf_map_single`. -/
def AllocAttempt.map_failed : AllocAttempt → Bool
  | AllocAttempt.map_fail _ => true
  | _ => false

/-- What holds of the descriptors during the fill loop, `hand` being the
descriptors in hand on entry: those consumed so far (`used`, a prefix of
`hand`) are the published ones, each with `in_use` set, and `*desc_list` is
the rest. -/
def FillCons (hand : List RxDesc) (st : FillState) : Prop :=
  (∃ used, hand = used ++ st.desc_list ∧
    st.published.map (fun p => p.desc.cookie) = used.map RxDesc.cookie) ∧
  ∀ p ∈ st.published, p.desc.in_use = true

/-- The state in which the fill loop of `dp_rx_buffers_replenish` starts, with
`desc_list` in hand and `avail` free ring slots. -/
def fill_start (desc_list : List RxDesc) (avail : Nat) : FillState :=
  { count := 0, desc_list := desc_list, ring_free := avail, published := [], mapped := [],
    freed := [], stats := ReplenishStats.zero }

/-- Whether an event is a call of `dp_peer_unref_del_find_by_id`. -/
def Event.is_unref : Event → Bool
  | Event.peer_unref _ => true
  | _ => false

/-- The calls of `dp_peer_unref_del_find_by_id` in a trace, in order. -/
def unref_calls (es : List Event) : List Event := es.filter Event.is_unref

/-- The releases a stage of the loop body owes for the peer found by the
lookup: one release of that peer, except on the exit through the index check,
where the trace shows none. -/
def UnrefOk (peer : Nat) (out : StageOut) : Prop :=
  unref_calls out.events =
    if out.exit = RxExit.sa_da_idx_drop then [] else [Event.peer_unref peer]

/-- The completed entries of the ring in ring order, whether the cached copy of
the hardware write cursor covers them or not. -/
def DstRing.entries (r : DstRing) : List ReoEntry := r.cached ++ r.hw_more

/-- The entry passes the fatal checks of the drain loop: the buffer address
matches (checked with `RX_DESC_DEBUG_CHECK`), the descriptor is in use and its
sanity tag is right. -/
def ReoEntry.sane (cfg : RxCfg) (e : ReoEntry) : Bool :=
  (!cfg.RX_DESC_DEBUG_CHECK || e.paddr_ok) && e.rx_desc.in_use &&
    dp_rx_desc_check_magic cfg e.rx_desc

/-- Whether the drain loop decrements `quota` for the entry: the continuation
flag is clear in the entry and in the control block of its buffer. -/
def ReoEntry.takes_quota (e : ReoEntry) : Bool :=
  !(e.msdu_continuation || e.nbuf.rx_chfrag_cont)

/-- The state the drain loop ends in (the state itself if the loop has no
result). -/
def drain_final (cfg : RxCfg) (fuel : Nat) (st : DrainState) : DrainState :=
  match dp_rx_process_drain cfg fuel st with
  | some st1 => st1
  | none => st

/-- What a call of `dp_rx_process` leaves behind (nothing done if the call has
no result). -/
def rx_process_out (env : Env) (inp : RxProcessIn) : RxProcessOut :=
  match dp_rx_process env inp with
  | some out => out
  | none =>
    { ret := 0, drain := drain_start inp.ring inp.quota, replenished := [],
      second := rx_state_init, srng_calls := [] }

/-- An attempt of `dp_rx_nbuf_prepare` in which the allocation or the DMA
mapping failed. -/
def PrepAttempt.failed : PrepAttempt → Bool
  | PrepAttempt.mapped _ => false
  | _ => true

/-- The sample buffer, its running sum and its index are the same in both
states. -/
def SameSamples (a b : NssFreqState) : Prop :=
  b.buffer = a.buffer ∧ b.sum = a.sum ∧ b.buffer_index = a.buffer_index

/-- The scale index of `out` is in range, at most one step from `i`, and equal
to `i` unless `nss_freq_queue_work` was called and returned true. -/
def IndexStep (cfg : NssFreqCfg) (i : Nat) (out : NssFreqOut) : Prop :=
  out.st.freq_scale_index < cfg.NSS_FREQ_MAX_SCALE ∧
  out.st.freq_scale_index ≤ i + 1 ∧ i ≤ out.st.freq_scale_index + 1 ∧
  (out.queue_work ≠ some true → out.st.freq_scale_index = i)

/-- How the fill loop of `dp_rx_buffers_replenish` has stopped, `st` being the
state it started in, `used` the answers of the allocator and the DMA layer it
has consumed and `r` the state and exit it ended with.  It is not waiting for
a further answer; it ended with the request filled (`count` has reached
`num_req`), or on a failed allocation (the last answer consumed), or on
`check_x86_paddr` giving up (the last answer consumed), or on a failed
assertion; unless an assertion failed, every buffer counted was published;
`replenish.map_err` has grown by the number of failed mappings consumed, the
buffer of each of them was freed (nothing freed before is forgotten), and each
of them was followed by another answer, that is by a new allocation. -/
def FillStops (num_req : Nat) (st : FillState) (used : List AllocAttempt)
    (r : FillState × FillExit) : Prop :=
  r.2 ≠ FillExit.running ∧
  (r.2 = FillExit.done → num_req ≤ r.1.count) ∧
  (r.2 = FillExit.nbuf_alloc_fail → used.getLast? = some AllocAttempt.alloc_fail) ∧
  (r.2 = FillExit.x86_fail →
    ∃ n p, used.getLast? = some (AllocAttempt.mapped n p X86Check.give_up)) ∧
  (r.2 = FillExit.done ∨ r.2 = FillExit.nbuf_alloc_fail ∨ r.2 = FillExit.x86_fail →
    r.1.published.length + st.count = st.published.length + r.1.count) ∧
  r.1.stats.map_err = st.stats.map_err + (used.filter AllocAttempt.map_failed).length ∧
  (∀ x, x ∈ st.freed → x ∈ r.1.freed) ∧
  (∀ n, AllocAttempt.map_fail n ∈ used → n ∈ r.1.freed) ∧
  (∀ i n, used[i]? = some (AllocAttempt.map_fail n) → i + 1 < used.length)

/-! ## Concrete inputs -/

/-- A configuration with the usual buffer geometry (2048-byte buffers, 384
bytes of TLV header) and every optional feature compiled in. -/
def cfg0 : RxCfg :=
  { RX_BUFFER_SIZE := 2048, RX_PKT_TLVS_LEN := 384,
    MESH_FILTER_OUT_FROMDS := 1, MESH_FILTER_OUT_TODS := 2, MESH_FILTER_OUT_NODS := 4,
    MESH_FILTER_OUT_RA := 8, MESH_FILTER_OUT_TA := 16,
    MESH_MODE_SUPPORT := true, WDS_VENDOR_EXTENSION := true, CONFIG_WIN := true,
    RX_DESC_DEBUG_CHECK := true, FEATURE_WDS := true, ATH_RX_PRI_SAVE := true }

/-- A TLV header with every flag clear. -/
def tlv0 : RxTlv :=
  { msdu_done := true, msdu_len := 0, l3_hdr_padding := 0, da_is_mcbc := false,
    sa_is_valid := false, da_is_valid := false, sa_idx := 0, da_idx := 0,
    fr_ds := false, to_ds := false, mac_ad4_valid := false, addr1 := none, addr2 := none }

/-- A freshly reaped buffer with the given identity and nothing set. -/
def nbuf0 (id : Nat) : Nbuf :=
  { id := id, len := 0, rx_chfrag_start := false, rx_chfrag_cont := false,
    rx_chfrag_end := false, da_mcbc := false, da_valid := false, sa_valid := false,
    is_frag := false, raw_frame := false, peer_id := 0, pkt_len := 0, tid_val := 0,
    priority := 0, peer_local_id := 0, is_bcast_pkt := false, tlv := tlv0 }

/-- A peer bound to vdev `v` with every attribute off. -/
def peer0 (v : Nat) : Peer :=
  { vdev := some v, bss_peer := false, nawds_enabled := false, wds_enabled := false,
    wds_ecm := { wds_rx_filter := false, wds_rx_ucast_4addr := false,
                 wds_rx_mcast_4addr := false },
    local_id := 0 }

/-- An Ethernet-decap AP vdev with a delivery callback and AP bridging on. -/
def vdev0 : Vdev :=
  { osif_rx := true, rx_decap_type := htt_cmn_pkt_type.htt_cmn_pkt_type_ethernet,
    mesh_vdev := false, mesh_rx_filter := 0, ap_bridge_enabled := true,
    opmode := wlan_op_mode.wlan_op_mode_ap, wds_enabled := false, mac_addr := 170, pdev := 0,
    peer_list := [9, 1, 2] }

/-- A small world: peers 1 and 2 (peer ids 1 and 2) and the BSS peer 9 on
vdev 10, peer 3 and the BSS peer 8 on the mesh vdev 11 that filters out
from-DS frames, peer 4 and the BSS peer 7 on vdev 12 that has no delivery
callback; AST index 5 points to peer 2; `dp_tx_send` accepts everything and
every allocation succeeds. -/
def env0 : Env :=
  { cfg := cfg0,
    peer_find_by_id := fun id => if id = 1 ∨ id = 2 ∨ id = 3 ∨ id = 4 then some id else none,
    peer := fun h =>
      if h = 9 then { peer0 10 with bss_peer := true }
      else if h = 8 then { peer0 11 with bss_peer := true }
      else if h = 7 then { peer0 12 with bss_peer := true }
      else if h = 3 then peer0 11
      else if h = 4 then peer0 12
      else peer0 10,
    vdev := fun v =>
      if v = 11 then { vdev0 with mesh_vdev := true, mesh_rx_filter := 1, peer_list := [8, 3] }
      else if v = 12 then { vdev0 with osif_rx := false, peer_list := [7, 4] }
      else vdev0,
    ast_table := fun i => if i = 5 then some { type_is_DA := false, peer := some 2 } else none,
    max_ast_idx := 100,
    ast_override_support := true,
    da_war_enabled := false,
    process_rx_status := false,
    dp_tx_send_ok := fun _ _ _ => true,
    qdf_nbuf_copy_ok := fun _ => true,
    qdf_nbuf_linearize_ok := fun _ => true,
    qdf_nbuf_unshare_ok := fun _ => true,
    osif_rsim_rx_decap := fun _ _ l => l }

/-- The world `env0` with a transmit path that rejects every buffer. -/
def env_tx_fail : Env := { env0 with dp_tx_send_ok := fun _ _ _ => false }

/-- The world `env0` with the AST entry at index 5 of type DA. -/
def env_ast_da : Env :=
  { env0 with
    ast_table := fun i => if i = 5 then some { type_is_DA := true, peer := some 2 } else none }

/-- The world `env0` where `qdf_nbuf_linearize` runs out of memory. -/
def env_linearize_fail : Env := { env0 with qdf_nbuf_linearize_ok := fun _ => false }

/-- The world `env0` where `qdf_nbuf_unshare` fails. -/
def env_unshare_fail : Env := { env0 with qdf_nbuf_unshare_ok := fun _ => false }

/-- The world `env0` with AP bridging switched off on every vdev. -/
def env_no_bridge : Env :=
  { env0 with vdev := fun v => { env0.vdev v with ap_bridge_enabled := false } }

/-- A reaped single-buffer frame `id` from the peer with peer id `peer_id`. -/
def pkt (id peer_id : Nat) : Nbuf :=
  { nbuf0 id with peer_id := peer_id, rx_chfrag_start := true, rx_chfrag_end := true,
                  pkt_len := 100, tlv := { tlv0 with msdu_len := 100 } }

/-- A unicast frame from peer 1 to the address behind AST index 5 (peer 2). -/
def pkt_ucast : Nbuf :=
  { pkt 1 1 with da_valid := true, tlv := { tlv0 with msdu_len := 100, da_idx := 5 } }

/-- The frame `pkt_ucast` arriving as a reinjected 802.11 fragment. -/
def pkt_ucast_frag : Nbuf :=
  { pkt 1 1 with is_frag := true,
                 tlv := { tlv0 with msdu_len := 100, da_idx := 5, da_is_valid := true } }

/-- A broadcast frame from peer 1. -/
def pkt_mcbc : Nbuf :=
  { pkt 1 1 with da_valid := true, da_mcbc := true,
                 tlv := { tlv0 with msdu_len := 100, da_is_mcbc := true } }

/-- A frame from peer 3 (mesh vdev 11) with the from-DS bit set. -/
def pkt_mesh : Nbuf :=
  { pkt 1 3 with tlv := { tlv0 with msdu_len := 100, fr_ds := true } }

/-- A descriptor fresh from the free list. -/
def desc0 (cookie : Nat) : RxDesc :=
  { cookie := cookie, pool_id := 0, in_use := false, magic := true, unmapped := false,
    nbuf := none }

/-- A replenish request at initialisation: a 1024-entry ring with 3 free
slots, no caller list, a pool with four free descriptors; the first mapping
fails, the next three buffers are mapped. -/
def replenish_in0 : ReplenishIn :=
  { hal_srng := some { num_entries := 1024, num_avail := 3 },
    owner := 7,
    free_list := [desc0 1, desc0 2, desc0 3, desc0 4],
    num_req_buffers := 8,
    desc_list := [],
    attempts := [AllocAttempt.map_fail 100, AllocAttempt.mapped 101 5000 X86Check.keep,
      AllocAttempt.mapped 102 10 (X86Check.replaced 103 6000),
      AllocAttempt.mapped 104 7000 X86Check.keep] }

/-- The world `env0` with the WDS receive filter enabled on vdev 10 (BSS peer
9), both 4-address policy bits clear, and peer 1 WDS-enabled. -/
def env_wds : Env :=
  { env0 with
    peer := fun h =>
      if h = 9 then
        { peer0 10 with bss_peer := true,
                        wds_ecm := { wds_rx_filter := true, wds_rx_ucast_4addr := false,
                                     wds_rx_mcast_4addr := false } }
      else if h = 1 then { peer0 10 with wds_enabled := true }
      else env0.peer h }

/-- A replenish request like `replenish_in0` where the allocator fails after
one buffer. -/
def replenish_in_alloc_fail : ReplenishIn :=
  { replenish_in0 with
    attempts := [AllocAttempt.mapped 101 5000 X86Check.keep, AllocAttempt.alloc_fail] }

/-- A frame from peer 1 whose source AST index is out of range. -/
def pkt_bad_sa_idx : Nbuf :=
  { pkt 1 1 with sa_valid := true, tlv := { tlv0 with msdu_len := 100, sa_idx := 200 } }

/-- A sane completed entry for the buffer `id` of pool 0, a whole 100-byte
frame from the peer with peer id `peer_id`. -/
def reo_entry (id peer_id : Nat) : ReoEntry :=
  { error := false, paddr_ok := true,
    rx_desc := { cookie := id, pool_id := 0, in_use := true, magic := true, unmapped := false,
                 nbuf := some id },
    nbuf := { nbuf0 id with tlv := { tlv0 with msdu_len := 100 } },
    raw_ampdu := false, first_msdu := true, last_msdu := true, msdu_continuation := false,
    da_is_mcbc := false, da_is_valid := false, sa_is_valid := false,
    msdu_len := 100, peer_id := peer_id, reo_queue_number := 0 }

/-- A pool whose refill ring has eight free slots and whose allocator maps
every buffer it is asked for. -/
def pool0 : ReplenishIn :=
  { hal_srng := some { num_entries := 1024, num_avail := 8 },
    owner := 7, free_list := [], num_req_buffers := 0, desc_list := [],
    attempts := [AllocAttempt.mapped 201 5000 X86Check.keep,
      AllocAttempt.mapped 202 6000 X86Check.keep,
      AllocAttempt.mapped 203 7000 X86Check.keep] }

/-- A call of `dp_rx_process` with quota 1 on a ring that holds a frame of
peer 1 spread over two entries: buffer 1 with the continuation flag, buffer 2
without. -/
def rx_process_in_cont : RxProcessIn :=
  { ring := { access_ok := true,
              cached := [{ reo_entry 1 1 with msdu_continuation := true, last_msdu := false },
                         { reo_entry 2 1 with first_msdu := false }],
              hw_more := [] },
    quota := 1, MAX_PDEV_CNT := 3, pool := fun _ => pool0 }

/-- A drain state with quota 4 whose ring shows, as its only entry, the first
entry of a raw aggregate of 5000 bytes, which needs four buffers of the
geometry of `cfg0`. -/
def drain_raw_short : DrainState :=
  drain_start
    { access_ok := true,
      cached := [{ reo_entry 1 1 with raw_ampdu := true, msdu_len := 5000, last_msdu := false }],
      hw_more := [] } 4

/-- A unit of 4000 bytes whose parent is followed by a buffer that already
carries the end marker, then by two unmarked buffers. -/
def chain_early_end : List Nbuf :=
  [{ nbuf0 2 with rx_chfrag_end := true }, nbuf0 3, nbuf0 4]

/-- The first buffer of a chain that carries the end marker
(`qdf_nbuf_is_rx_chfrag_end`). -/
def first_chfrag_end (chain : List Nbuf) : Option Nat :=
  (chain.find? (fun b => b.rx_chfrag_end)).map Nbuf.id

/-- A pdev without NSS offload whose descriptor pool could not be allocated:
`dp_rx_desc_pool_alloc` answers `QDF_STATUS_E_NOMEM` and the pool has no free
descriptor; the refill ring has 8 entries, all free. -/
def attach_in_no_pool : PdevAttachIn :=
  { nss_enabled := false, DP_WBM2SW_RBM := 3,
    pool_alloc := QDF_STATUS.QDF_STATUS_E_NOMEM,
    refill := { hal_srng := some { num_entries := 8, num_avail := 8 }, owner := 0,
                free_list := [], num_req_buffers := 0, desc_list := [], attempts := [] } }

/-- A pdev without NSS offload whose refill ring was never set up
(`hal_srng` is `NULL`); the pool holds one free descriptor. -/
def attach_in_no_ring : PdevAttachIn :=
  { nss_enabled := false, DP_WBM2SW_RBM := 3,
    pool_alloc := QDF_STATUS.QDF_STATUS_SUCCESS,
    refill := { hal_srng := none, owner := 0, free_list := [desc0 1],
                num_req_buffers := 0, desc_list := [], attempts := [] } }

/-- The call `rx_process_in_cont` on a ring whose `hal_srng_access_start`
fails. -/
def rx_process_in_no_access : RxProcessIn :=
  { rx_process_in_cont with ring := { rx_process_in_cont.ring with access_ok := false } }

/-- A raw aggregate that is one ring entry (first and last flag, 100 bytes). -/
def reo_raw_single : ReoEntry := { reo_entry 1 1 with raw_ampdu := true }

/-- The first entry of a raw aggregate of 5000 bytes, which needs four buffers
of the geometry of `cfg0`. -/
def reo_raw_long : ReoEntry :=
  { reo_entry 2 1 with raw_ampdu := true, msdu_len := 5000, last_msdu := false }

/-- A drain state with quota 4 whose ring shows a one-entry raw aggregate
followed by the first entry of a four-buffer raw aggregate, and nothing
else. -/
def drain_raw_single_then_long : DrainState :=
  drain_start { access_ok := true, cached := [reo_raw_single, reo_raw_long], hw_more := [] } 4

/-- A call of `dp_rx_process` with quota 4 on the ring of `drain_raw_short`:
its only entry is the first entry of a raw aggregate that needs four
buffers. -/
def rx_process_in_raw_short : RxProcessIn :=
  { ring := drain_raw_short.ring, quota := 4, MAX_PDEV_CNT := 3, pool := fun _ => pool0 }

/-- The next call on the same ring: nothing was popped, and the descriptor of
the entry carries the `unmapped` flag the first call has set. -/
def rx_process_in_raw_short_again : RxProcessIn :=
  { rx_process_in_raw_short with
    ring := { rx_process_in_raw_short.ring with
      cached := rx_process_in_raw_short.ring.cached.map
        (fun e => { e with rx_desc := { e.rx_desc with unmapped := true } }) } }

/-- The constants of `nss_freq.c` with a four-slot sample buffer and three
frequency scales. -/
def nss_cfg0 : NssFreqCfg :=
  { NSS_SAMPLE_BUFFER_SIZE := 4, NSS_SAMPLE_BUFFER_MASK := 3, NSS_FREQ_MAX_SCALE := 3,
    NSS_FREQUENCY_SCALE_RATE_LIMIT_UP := 2, NSS_FREQUENCY_SCALE_RATE_LIMIT_DOWN := 60000,
    NSS_MESSAGE_RATE_LIMIT := 15000 }

/-- An initialised state at the lowest scale with auto scaling on: the buffer
holds four samples of 100 and the up-scale rate limit has been reached. -/
def nss_state0 : NssFreqState :=
  { freq_scale := [{ frequency := 110, minimum := 0, maximum := 200 },
                   { frequency := 550, minimum := 100, maximum := 1000 },
                   { frequency := 733, minimum := 500, maximum := 4000 }],
    freq_scale_index := 0, freq_scale_ready := 1, freq_scale_rate_limit_up := 2,
    freq_scale_rate_limit_down := 0, buffer := [100, 100, 100, 100], buffer_index := 0,
    sum := 400, sample_count := 4, average := 100, message_rate_limit := 0, initialized := 1,
    auto_scale := 1, current_freq := 110, nss_wq := true, queued := [] }

/-- A connected peer whose vdev has a stack callback, with nothing cached and
no flush in progress. -/
def flush_peer_empty : FlushPeer :=
  { flush_in_progress := 0, state_conn := true, vdev_osif_rx := some true,
    cached_bufq := [], entries := 0, dropped := 0 }

/-- The same peer with two cached lists: buffers 1 and 2, and buffer 3. -/
def flush_peer_two : FlushPeer :=
  { flush_peer_empty with
    cached_bufq := [{ buf := [1, 2], num_elements := 2 }, { buf := [3], num_elements := 1 }],
    entries := 3 }

/-- The peer `flush_peer_two` as it is when the two lists were cached after a
flush of the empty queue: `flush_in_progress` is still 1. -/
def flush_peer_two_stuck : FlushPeer := { flush_peer_two with flush_in_progress := 1 }

/-! ## Theorems -/

theorem ceil_div_step (cap m : Nat) (hcap : 0 < cap) (hm : cap < m) :
    (m + cap - 1) / cap = (m - cap + cap - 1) / cap + 1 := by
  have h : m + cap - 1 = (m - cap + cap - 1) + cap := by omega
  rw [h, Nat.add_div_right _ hcap]

theorem ceil_div_one (cap m : Nat) (h1 : 1 ≤ m) (hm : m ≤ cap) :
    (m + cap - 1) / cap = 1 := by
  have hcap : 0 < cap := by omega
  have h : m + cap - 1 = (m - 1) + cap := by omega
  rw [h, Nat.add_div_right _ hcap, Nat.div_eq_of_lt (by omega)]

theorem u16_of_lt (n : Nat) (h : n < 65536) : u16 (n : Int) = n := by
  unfold u16
  omega

theorem dp_rx_sg_walk_len (cfg : RxCfg)
    (hcap : cfg.RX_PKT_TLVS_LEN < cfg.RX_BUFFER_SIZE) (after : List Nbuf) :
    ∀ (unit : List Nbuf) (m fl : Nat) (done : List Nbuf),
      1 ≤ m → fl + m < 65536 →
      unit.length =
        (m + (cfg.RX_BUFFER_SIZE - cfg.RX_PKT_TLVS_LEN) - 1) /
          (cfg.RX_BUFFER_SIZE - cfg.RX_PKT_TLVS_LEN) →
      ∃ frags, dp_rx_sg_walk cfg (unit ++ after) m fl done
          = some (done ++ frags, fl + m, after) ∧
        frags.length = unit.length ∧ chain_len frags = m := by
  intro unit
  induction unit with
  | nil =>
    intro m fl done h1 _ hlen
    exfalso
    have hpos : 0 < cfg.RX_BUFFER_SIZE - cfg.RX_PKT_TLVS_LEN := by omega
    have : 1 ≤ (m + (cfg.RX_BUFFER_SIZE - cfg.RX_PKT_TLVS_LEN) - 1) /
        (cfg.RX_BUFFER_SIZE - cfg.RX_PKT_TLVS_LEN) := by
      rw [Nat.le_div_iff_mul_le hpos]
      omega
    simp at hlen
    omega
  | cons nbuf r ih =>
    intro m fl done h1 hfl hlen
    have hpos : 0 < cfg.RX_BUFFER_SIZE - cfg.RX_PKT_TLVS_LEN := by omega
    by_cases hm : m > cfg.RX_BUFFER_SIZE - cfg.RX_PKT_TLVS_LEN
    · have hstep := ceil_div_step _ m hpos hm
      have hm' : u16 ((m : Int) - ((cfg.RX_BUFFER_SIZE - cfg.RX_PKT_TLVS_LEN : Nat) : Int))
          = m - (cfg.RX_BUFFER_SIZE - cfg.RX_PKT_TLVS_LEN) := by
        unfold u16
        omega
      have hfl' : u16 ((fl : Int) + ((cfg.RX_BUFFER_SIZE - cfg.RX_PKT_TLVS_LEN : Nat) : Int))
          = fl + (cfg.RX_BUFFER_SIZE - cfg.RX_PKT_TLVS_LEN) := by
        unfold u16
        omega
      have hr : r.length =
          (m - (cfg.RX_BUFFER_SIZE - cfg.RX_PKT_TLVS_LEN) +
              (cfg.RX_BUFFER_SIZE - cfg.RX_PKT_TLVS_LEN) - 1) /
            (cfg.RX_BUFFER_SIZE - cfg.RX_PKT_TLVS_LEN) := by
        simp only [List.length_cons] at hlen
        omega
      obtain ⟨frags, hw, hl, hc⟩ :=
        ih (m - (cfg.RX_BUFFER_SIZE - cfg.RX_PKT_TLVS_LEN))
          (fl + (cfg.RX_BUFFER_SIZE - cfg.RX_PKT_TLVS_LEN))
          (done ++ [{ nbuf with len := cfg.RX_BUFFER_SIZE - cfg.RX_PKT_TLVS_LEN }])
          (by omega) (by omega) hr
      refine ⟨{ nbuf with len := cfg.RX_BUFFER_SIZE - cfg.RX_PKT_TLVS_LEN } :: frags, ?_, ?_, ?_⟩
      · have hle : cfg.RX_PKT_TLVS_LEN ≤ cfg.RX_BUFFER_SIZE := by omega
        have e1 : fl + (cfg.RX_BUFFER_SIZE - cfg.RX_PKT_TLVS_LEN) +
            (m - (cfg.RX_BUFFER_SIZE - cfg.RX_PKT_TLVS_LEN)) = fl + m := by omega
        rw [e1, List.append_assoc] at hw
        show dp_rx_sg_walk cfg (nbuf :: (r ++ after)) m fl done = _
        rw [dp_rx_sg_walk]
        simp only [dp_rx_adjust_nbuf_len, hm, if_true,
          qdf_nbuf_set_pktlen, qdf_nbuf_pull_head, hle, hm', hfl']
        simp only [Bool.false_eq_true, if_false]
        exact hw
      · simp [hl]
      · simp only [chain_len, List.map_cons, List.sum_cons] at hc ⊢
        omega
    · have hone := ceil_div_one (cfg.RX_BUFFER_SIZE - cfg.RX_PKT_TLVS_LEN) m h1 (by omega)
      have hr : r = [] := by
        simp only [List.length_cons] at hlen
        have : r.length = 0 := by omega
        exact List.length_eq_zero.mp this
      subst hr
      have hfl' : u16 ((fl : Int) + ((m : Nat) : Int)) = fl + m := by
        unfold u16
        omega
      refine ⟨[{ nbuf with len := m, rx_chfrag_start := false }], ?_, ?_, ?_⟩
      · show dp_rx_sg_walk cfg (nbuf :: after) m fl done = _
        rw [dp_rx_sg_walk]
        simp only [dp_rx_adjust_nbuf_len, hm, if_false, qdf_nbuf_set_pktlen, qdf_nbuf_pull_head]
        simp [hfl']
      · simp
      · simp [chain_len]

/-- C1: for a declared length `L` carried by a valid chain of `k` buffers
(`k = 1` with the start and end markers both set on the head; otherwise `L`
exceeds the per-buffer capacity `RX_BUFFER_SIZE - RX_PKT_TLVS_LEN` and
`k = ceil (L / capacity)`), `dp_rx_sg_create` returns the head buffer with
total length exactly `L`, which is its own payload plus the payload of the
extension chain; the chain holds the other `k - 1` buffers and the buffers
after the unit stay on the primary chain. -/
theorem dp_rx_sg_create_exact_length (cfg : RxCfg) (nbuf : Nbuf) (unit after : List Nbuf)
    (hcap : cfg.RX_PKT_TLVS_LEN < cfg.RX_BUFFER_SIZE)
    (hL : nbuf.tlv.msdu_len < 65536)
    (hvalid :
      (unit = [] ∧ nbuf.rx_chfrag_start = true ∧ nbuf.rx_chfrag_end = true) ∨
      ((nbuf.rx_chfrag_start && nbuf.rx_chfrag_end) = false ∧
        cfg.RX_BUFFER_SIZE - cfg.RX_PKT_TLVS_LEN < nbuf.tlv.msdu_len ∧
        unit.length + 1 =
          (nbuf.tlv.msdu_len + (cfg.RX_BUFFER_SIZE - cfg.RX_PKT_TLVS_LEN) - 1) /
            (cfg.RX_BUFFER_SIZE - cfg.RX_PKT_TLVS_LEN))) :
    ∃ out, dp_rx_sg_create cfg nbuf (unit ++ after) = some out ∧
      out.parent.id = nbuf.id ∧
      out.parent.len = nbuf.tlv.msdu_len ∧
      (out.parent.len - out.frag_list_len) + chain_len out.frag_list = nbuf.tlv.msdu_len ∧
      out.frag_list_len = chain_len out.frag_list ∧
      out.frag_list.length = unit.length ∧
      out.next = after := by
  have hu : u16 (nbuf.tlv.msdu_len : Int) = nbuf.tlv.msdu_len := u16_of_lt _ hL
  rcases hvalid with ⟨hunit, hs, he⟩ | ⟨hse, hgt, hk⟩
  · subst hunit
    simp only [dp_rx_sg_create, hs, he, Bool.and_self, if_true, List.nil_append]
    refine ⟨_, rfl, ?_⟩
    simp [qdf_nbuf_set_pktlen, qdf_nbuf_pull_head, hu, chain_len]
  · have hpos : 0 < cfg.RX_BUFFER_SIZE - cfg.RX_PKT_TLVS_LEN := by omega
    have hstep := ceil_div_step _ nbuf.tlv.msdu_len hpos hgt
    obtain ⟨frags, hw, hl, hc⟩ :=
      dp_rx_sg_walk_len cfg hcap after unit
        (nbuf.tlv.msdu_len - (cfg.RX_BUFFER_SIZE - cfg.RX_PKT_TLVS_LEN)) 0 []
        (by omega) (by omega) (by omega)
    have hm' : u16 ((nbuf.tlv.msdu_len : Int) -
        ((cfg.RX_BUFFER_SIZE - cfg.RX_PKT_TLVS_LEN : Nat) : Int))
        = nbuf.tlv.msdu_len - (cfg.RX_BUFFER_SIZE - cfg.RX_PKT_TLVS_LEN) := by
      unfold u16
      omega
    simp only [dp_rx_sg_create, hse, Bool.false_eq_true, if_false, hu, dp_rx_adjust_nbuf_len,
      hgt, gt_iff_lt, if_true, hm', hw]
    refine ⟨_, rfl, ?_⟩
    have hle : cfg.RX_PKT_TLVS_LEN ≤ cfg.RX_BUFFER_SIZE +
        (0 + (nbuf.tlv.msdu_len - (cfg.RX_BUFFER_SIZE - cfg.RX_PKT_TLVS_LEN))) := by omega
    simp only [qdf_nbuf_set_pktlen, qdf_nbuf_append_ext_list, qdf_nbuf_pull_head, hle, if_true,
      List.nil_append, hc, hl]
    refine ⟨trivial, ?_, ?_, ?_, trivial, trivial⟩ <;> omega

/-- C1 at a concrete unit: 4000 bytes over three 2048-byte buffers, followed by
one more buffer on the primary chain. -/
theorem dp_rx_sg_create_exact_length_witness :
    ∃ out, dp_rx_sg_create cfg0
        { nbuf0 1 with tlv := { tlv0 with msdu_len := 4000 } }
        ([nbuf0 2, nbuf0 3] ++ [nbuf0 4]) = some out ∧
      out.parent.id = 1 ∧
      out.parent.len = 4000 ∧
      (out.parent.len - out.frag_list_len) + chain_len out.frag_list = 4000 ∧
      out.frag_list_len = chain_len out.frag_list ∧
      out.frag_list.length = 2 ∧
      out.next = [nbuf0 4] :=
  dp_rx_sg_create_exact_length cfg0
    { nbuf0 1 with tlv := { tlv0 with msdu_len := 4000 } } [nbuf0 2, nbuf0 3] [nbuf0 4]
    (by decide) (by decide) (Or.inr (by decide))

/-! ### Traces -/

theorem DP_RX_TID_SAVE_id (cfg : RxCfg) (nbuf : Nbuf) (tid : Nat) :
    (DP_RX_TID_SAVE cfg nbuf tid).id = nbuf.id := by
  unfold DP_RX_TID_SAVE
  split <;> rfl

theorem DP_RX_TID_SAVE_tlv (cfg : RxCfg) (nbuf : Nbuf) (tid : Nat) :
    (DP_RX_TID_SAVE cfg nbuf tid).tlv = nbuf.tlv := by
  unfold DP_RX_TID_SAVE
  split <;> rfl

theorem DP_RX_TID_SAVE_peer_id (cfg : RxCfg) (nbuf : Nbuf) (tid : Nat) :
    (DP_RX_TID_SAVE cfg nbuf tid).peer_id = nbuf.peer_id := by
  unfold DP_RX_TID_SAVE
  split <;> rfl

theorem counter_incs_append (c : Counter) (a b : List Event) :
    counter_incs c (a ++ b) = counter_incs c a + counter_incs c b := by
  induction a with
  | nil => simp [counter_incs]
  | cons e a ih =>
    cases e <;> simp [counter_incs, ih, Nat.add_assoc]

theorem tx_calls_append (a b : List Event) : tx_calls (a ++ b) = tx_calls a ++ tx_calls b := by
  simp [tx_calls]

theorem free_calls_append (a b : List Event) :
    free_calls (a ++ b) = free_calls a ++ free_calls b := by
  simp [free_calls]

theorem osif_calls_append (a b : List Event) :
    osif_calls (a ++ b) = osif_calls a ++ osif_calls b := by
  simp [osif_calls]

theorem dp_rx_process_msdu_cnt_free (rx_pdev tid : Nat) (nbuf : Nbuf) :
    free_calls (dp_rx_process_msdu_cnt rx_pdev tid nbuf) = [] := by
  unfold free_calls dp_rx_process_msdu_cnt
  split <;> [split; skip] <;> simp [Event.is_free]

theorem dp_rx_process_msdu_cnt_tx (rx_pdev tid : Nat) (nbuf : Nbuf) :
    tx_calls (dp_rx_process_msdu_cnt rx_pdev tid nbuf) = [] := by
  unfold tx_calls dp_rx_process_msdu_cnt
  split <;> [split; skip] <;> simp [Event.is_tx]

theorem dp_rx_process_msdu_cnt_osif (rx_pdev tid : Nat) (nbuf : Nbuf) :
    osif_calls (dp_rx_process_msdu_cnt rx_pdev tid nbuf) = [] := by
  unfold osif_calls dp_rx_process_msdu_cnt
  split <;> [split; skip] <;> simp [Event.is_osif]

theorem dp_rx_process_msdu_cnt_counter (rx_pdev tid : Nat) (nbuf : Nbuf) (c : Counter)
    (h1 : c ≠ Counter.tid_msdu_cnt rx_pdev tid)
    (h2 : c ≠ Counter.tid_mcast_msdu_cnt rx_pdev tid)
    (h3 : c ≠ Counter.tid_bcast_msdu_cnt rx_pdev tid) :
    counter_incs c (dp_rx_process_msdu_cnt rx_pdev tid nbuf) = 0 := by
  unfold dp_rx_process_msdu_cnt
  split <;> [split; skip] <;> simp [counter_incs, Ne.symm h1, Ne.symm h2, Ne.symm h3]

/-! ### The second pass: a packet without peer -/

/-- C4: a packet of the second pass whose peer id resolves to no peer
(`dp_peer_find_by_id` returns `NULL`, the DMA-completion check having passed)
ends its iteration on the invalid-peer path: the only buffer freed is this one,
once; `rx.err.rx_invalid_peer` grows by exactly one packet; nothing is handed
to `dp_tx_send` or to a vdev callback; the deliver list is left as it was; and
the loop goes on with the next buffer. -/
theorem dp_rx_process_nbuf_invalid_peer (env : Env) (rx_pdev : Nat) (st : RxState)
    (nbuf : Nbuf) (rest : List Nbuf)
    (hdone : (dp_rx_is_msdu_done_set env.cfg nbuf.tlv).1 = true)
    (hpeer : env.peer_find_by_id nbuf.peer_id = none) :
    ∃ st1 es, dp_rx_process_nbuf env rx_pdev st nbuf rest
        = some (st1, rest, RxExit.invalid_peer) ∧
      st1.trace = st.trace ++ es ∧
      st1.deliver_list = st.deliver_list ∧
      free_calls es = [Event.nbuf_free nbuf.id false] ∧
      counter_incs Counter.soc_rx_err_rx_invalid_peer es = 1 ∧
      tx_calls es = [] ∧
      osif_calls es = [] ∧
      (∀ fuel, dp_rx_process_loop env rx_pdev (fuel + 1) st (nbuf :: rest)
        = dp_rx_process_loop env rx_pdev fuel st1 rest) := by
  have hstep : dp_rx_process_nbuf env rx_pdev st nbuf rest
      = some ({ st with
          tid := if nbuf.rx_chfrag_start then nbuf.tid_val else st.tid,
          peer := none,
          rx_bufs_used := u32 ((st.rx_bufs_used : Int) + 1),
          trace := st.trace ++
            (dp_rx_process_msdu_cnt rx_pdev (if nbuf.rx_chfrag_start then nbuf.tid_val else st.tid)
                (DP_RX_TID_SAVE env.cfg nbuf
                  (if nbuf.rx_chfrag_start then nbuf.tid_val else st.tid)) ++
              [Event.stats_inc_pkt Counter.soc_rx_err_rx_invalid_peer 1
                  (DP_RX_TID_SAVE env.cfg nbuf
                    (if nbuf.rx_chfrag_start then nbuf.tid_val else st.tid)).pkt_len,
                Event.stats_inc (Counter.tid_fail_cnt rx_pdev
                  (if nbuf.rx_chfrag_start then nbuf.tid_val else st.tid)
                  FailCnt.INVALID_PEER_VDEV) 1,
                Event.nbuf_free nbuf.id false]) },
        rest, RxExit.invalid_peer) := by
    simp [dp_rx_process_nbuf, DP_RX_TID_SAVE_tlv, DP_RX_TID_SAVE_peer_id, DP_RX_TID_SAVE_id,
      hdone, hpeer]
  refine ⟨_, _, hstep, rfl, rfl, ?_, ?_, ?_, ?_, ?_⟩
  · rw [free_calls_append, dp_rx_process_msdu_cnt_free]
    simp [free_calls, Event.is_free]
  · rw [counter_incs_append, dp_rx_process_msdu_cnt_counter _ _ _ _ (by simp) (by simp) (by simp)]
    simp [counter_incs]
  · rw [tx_calls_append, dp_rx_process_msdu_cnt_tx]
    simp [tx_calls, Event.is_tx]
  · rw [osif_calls_append, dp_rx_process_msdu_cnt_osif]
    simp [osif_calls, Event.is_osif]
  · intro fuel
    rw [dp_rx_process_loop, hstep]

/-- C4 at a concrete packet: peer id 77 is unknown in `env0`. -/
theorem dp_rx_process_nbuf_invalid_peer_witness :
    ∃ st1 es, dp_rx_process_nbuf env0 0 rx_state_init (pkt 1 77) [pkt 2 1]
        = some (st1, [pkt 2 1], RxExit.invalid_peer) ∧
      st1.trace = rx_state_init.trace ++ es ∧
      st1.deliver_list = rx_state_init.deliver_list ∧
      free_calls es = [Event.nbuf_free (pkt 1 77).id false] ∧
      counter_incs Counter.soc_rx_err_rx_invalid_peer es = 1 ∧
      tx_calls es = [] ∧
      osif_calls es = [] ∧
      (∀ fuel, dp_rx_process_loop env0 0 (fuel + 1) rx_state_init (pkt 1 77 :: [pkt 2 1])
        = dp_rx_process_loop env0 0 fuel st1 [pkt 2 1]) :=
  dp_rx_process_nbuf_invalid_peer env0 0 rx_state_init (pkt 1 77) [pkt 2 1]
    (by decide) (by decide)

/-! ### The mesh filter -/

theorem and_ne_zero_left (a b : Nat) (h : a &&& b ≠ 0) : a ≠ 0 := by
  intro ha
  apply h
  rw [ha]
  exact Nat.zero_and b

/-- C7: with mesh support compiled in, on a vdev whose `mesh_rx_filter` has the
`MESH_FILTER_OUT_FROMDS` bit set, a frame with the from-DS bit set makes
`dp_rx_filter_mesh_packets` return `QDF_STATUS_SUCCESS` (drop).  If the vdev is
a mesh vdev, a frame reaching the mesh step of `dp_rx_process` is then freed
(the only free of the step), `fail_cnt[MESH_FILTER_DROP]` of its TID and
`dropped.mesh_filter` of the pdev each grow by exactly one, nothing is appended
to the deliver list and no vdev callback or `dp_tx_send` is called. -/
theorem dp_rx_mesh_filter_fromds_drop (env : Env) (rx_pdev tid msdu_len peer vdev : Nat)
    (nbuf : Nbuf) (next : List Nbuf)
    (hbuild : env.cfg.MESH_MODE_SUPPORT = true)
    (hbit : (env.vdev vdev).mesh_rx_filter &&& env.cfg.MESH_FILTER_OUT_FROMDS ≠ 0)
    (hfr : nbuf.tlv.fr_ds = true) :
    dp_rx_filter_mesh_packets env.cfg (env.vdev vdev) nbuf.tlv
        = QDF_STATUS.QDF_STATUS_SUCCESS ∧
      ((env.vdev vdev).mesh_vdev = true →
        ∃ out, dp_rx_process_mesh env rx_pdev tid msdu_len peer vdev nbuf next = some out ∧
          out.exit = RxExit.mesh_drop ∧
          out.enqueue = none ∧
          out.next = next ∧
          free_calls out.events = [Event.nbuf_free nbuf.id false] ∧
          counter_incs (Counter.tid_fail_cnt rx_pdev tid FailCnt.MESH_FILTER_DROP)
            out.events = 1 ∧
          counter_incs (Counter.pdev_dropped_mesh_filter (env.vdev vdev).pdev)
            out.events = 1 ∧
          tx_calls out.events = [] ∧
          osif_calls out.events = []) := by
  have hne := and_ne_zero_left _ _ hbit
  have hfilter : dp_rx_filter_mesh_packets env.cfg (env.vdev vdev) nbuf.tlv
      = QDF_STATUS.QDF_STATUS_SUCCESS := by
    simp [dp_rx_filter_mesh_packets, hbuild, hne, hbit, hfr]
  refine ⟨hfilter, ?_⟩
  intro hmesh
  simp only [dp_rx_process_mesh, hmesh, hfilter, beq_self_eq_true, Bool.and_self, if_true]
  refine ⟨_, rfl, ?_⟩
  simp [free_calls, tx_calls, osif_calls, counter_incs, Event.is_free, Event.is_tx,
    Event.is_osif]

/-- C7 at a concrete frame: the from-DS frame `pkt_mesh` on the mesh vdev 11 of
`env0`, whose filter is `MESH_FILTER_OUT_FROMDS`. -/
theorem dp_rx_mesh_filter_fromds_drop_witness :
    dp_rx_filter_mesh_packets env0.cfg (env0.vdev 11) pkt_mesh.tlv
        = QDF_STATUS.QDF_STATUS_SUCCESS ∧
      (∃ out, dp_rx_process_mesh env0 0 0 100 3 11 pkt_mesh [] = some out ∧
          out.exit = RxExit.mesh_drop ∧
          out.enqueue = none ∧
          out.next = [] ∧
          free_calls out.events = [Event.nbuf_free pkt_mesh.id false] ∧
          counter_incs (Counter.tid_fail_cnt 0 0 FailCnt.MESH_FILTER_DROP) out.events = 1 ∧
          counter_incs (Counter.pdev_dropped_mesh_filter (env0.vdev 11).pdev)
            out.events = 1 ∧
          tx_calls out.events = [] ∧
          osif_calls out.events = []) :=
  ⟨(dp_rx_mesh_filter_fromds_drop env0 0 0 100 3 11 pkt_mesh [] (by decide) (by decide)
      (by decide)).1,
   (dp_rx_mesh_filter_fromds_drop env0 0 0 100 3 11 pkt_mesh [] (by decide) (by decide)
      (by decide)).2 (by decide)⟩

/-! ### Intra-BSS forwarding -/

theorem dp_rx_da_learn_spec (env : Env) (ta tv : Nat) (nbuf : Nbuf)
    (hv : (env.peer ta).vdev = some tv) :
    ∃ learn, dp_rx_da_learn env ta nbuf = some learn ∧
      tx_calls learn = [] ∧ free_calls learn = [] ∧ osif_calls learn = [] := by
  unfold dp_rx_da_learn
  simp only [hv]
  split
  · exact ⟨[], rfl, rfl, rfl, rfl⟩
  · split
    · exact ⟨[], rfl, rfl, rfl, rfl⟩
    · split
      · exact ⟨[], rfl, rfl, rfl, rfl⟩
      · split
        · exact ⟨[], rfl, rfl, rfl, rfl⟩
        · split
          · exact ⟨_, rfl, rfl, rfl, rfl⟩
          · exact ⟨[], rfl, rfl, rfl, rfl⟩

/-- C6: for a broadcast/multicast frame from a peer that is not a BSS peer,
when `qdf_nbuf_copy` succeeds, `dp_rx_intrabss_fwd` makes exactly one call of
`dp_tx_send`, on the copy and not on the frame itself, frees the copy exactly
when `dp_tx_send` rejects it (and frees nothing else), leaves the frame as it
was and returns false; a frame that reaches the forwarding step of
`dp_rx_process` is therefore appended to the deliver list. -/
theorem dp_rx_intrabss_fwd_mcbc_copy (env : Env) (rx_pdev tid msdu_len ta tv : Nat)
    (nbuf : Nbuf) (next : List Nbuf)
    (hv : (env.peer ta).vdev = some tv)
    (hmc : nbuf.da_mcbc = true)
    (hbss : (env.peer ta).bss_peer = false)
    (hcopy : env.qdf_nbuf_copy_ok nbuf = true) :
    (∃ out, dp_rx_intrabss_fwd env ta nbuf = some out ∧
      out.fwd = false ∧ out.nbuf = nbuf ∧
      tx_calls out.events
        = [Event.dp_tx_send tv nbuf.id true (env.dp_tx_send_ok tv true (nbuf_cb_clear nbuf))] ∧
      free_calls out.events
        = (if env.dp_tx_send_ok tv true (nbuf_cb_clear nbuf) then []
           else [Event.nbuf_free nbuf.id true])) ∧
    ((env.vdev tv).rx_decap_type = htt_cmn_pkt_type.htt_cmn_pkt_type_ethernet →
      (env.vdev tv).mesh_vdev = false →
      is_sa_da_idx_valid env nbuf = true →
      dp_rx_check_ap_bridge env.cfg (env.vdev tv) = true →
      ∃ so, dp_rx_process_forward env rx_pdev tid msdu_len ta tv nbuf next = some so ∧
        so.exit = RxExit.enqueued ∧
        so.enqueue = some { nbuf with peer_local_id := (env.peer ta).local_id } ∧
        so.next = next ∧
        tx_calls so.events
          = [Event.dp_tx_send tv nbuf.id true (env.dp_tx_send_ok tv true (nbuf_cb_clear nbuf))] ∧
        free_calls so.events
          = (if env.dp_tx_send_ok tv true (nbuf_cb_clear nbuf) then []
             else [Event.nbuf_free nbuf.id true]) ∧
        osif_calls so.events = []) := by
  have hfwd : dp_rx_intrabss_fwd env ta nbuf = some
      (if env.dp_tx_send_ok tv true (nbuf_cb_clear nbuf) then
        ⟨false, nbuf, [Event.dp_tx_send tv nbuf.id true true,
          Event.stats_inc_pkt (Counter.peer_rx_intra_bss_pkts ta) 1 nbuf.pkt_len,
          Event.stats_inc (Counter.tid_intrabss_cnt (env.vdev tv).pdev nbuf.tid_val) 1]⟩
       else
        ⟨false, nbuf, [Event.dp_tx_send tv nbuf.id true false,
          Event.stats_inc_pkt (Counter.peer_rx_intra_bss_fail ta) 1 nbuf.pkt_len,
          Event.stats_inc (Counter.tid_fail_cnt (env.vdev tv).pdev nbuf.tid_val
            FailCnt.INTRABSS_DROP) 1,
          Event.nbuf_free nbuf.id true]⟩) := by
    unfold dp_rx_intrabss_fwd
    simp only [hv, hmc, hbss, hcopy]
    by_cases htx : env.dp_tx_send_ok tv true (nbuf_cb_clear nbuf) = true <;> simp [htx]
  refine ⟨?_, ?_⟩
  · rw [hfwd]
    by_cases htx : env.dp_tx_send_ok tv true (nbuf_cb_clear nbuf) = true <;>
      simp [htx, tx_calls, free_calls, Event.is_tx, Event.is_free]
  · intro heth hnm hidx hbr
    obtain ⟨learn, hlearn, hl1, hl2, hl3⟩ := dp_rx_da_learn_spec env ta tv nbuf hv
    unfold dp_rx_process_forward
    simp only [heth, hnm, hlearn, hidx, hbr, hfwd]
    by_cases htx : env.dp_tx_send_ok tv true (nbuf_cb_clear nbuf) = true <;>
      by_cases hw : (env.vdev tv).wds_enabled = true <;>
      simp [htx, hw, dp_rx_process_enqueue, tx_calls_append, free_calls_append, osif_calls_append,
        hl1, hl2, hl3] <;>
      simp [tx_calls, free_calls, osif_calls, Event.is_tx, Event.is_free, Event.is_osif]

/-- C6 at a concrete frame: the broadcast frame `pkt_mcbc` from peer 1 on
vdev 10 of `env0`. -/
theorem dp_rx_intrabss_fwd_mcbc_copy_witness :
    (∃ out, dp_rx_intrabss_fwd env0 1 pkt_mcbc = some out ∧
      out.fwd = false ∧ out.nbuf = pkt_mcbc ∧
      tx_calls out.events
        = [Event.dp_tx_send 10 pkt_mcbc.id true
            (env0.dp_tx_send_ok 10 true (nbuf_cb_clear pkt_mcbc))] ∧
      free_calls out.events
        = (if env0.dp_tx_send_ok 10 true (nbuf_cb_clear pkt_mcbc) then []
           else [Event.nbuf_free pkt_mcbc.id true])) ∧
    (∃ so, dp_rx_process_forward env0 0 0 100 1 10 pkt_mcbc [] = some so ∧
        so.exit = RxExit.enqueued ∧
        so.enqueue = some { pkt_mcbc with peer_local_id := (env0.peer 1).local_id } ∧
        so.next = [] ∧
        tx_calls so.events
          = [Event.dp_tx_send 10 pkt_mcbc.id true
            (env0.dp_tx_send_ok 10 true (nbuf_cb_clear pkt_mcbc))] ∧
        free_calls so.events
          = (if env0.dp_tx_send_ok 10 true (nbuf_cb_clear pkt_mcbc) then []
             else [Event.nbuf_free pkt_mcbc.id true]) ∧
        osif_calls so.events = []) :=
  ⟨(dp_rx_intrabss_fwd_mcbc_copy env0 0 0 100 1 10 pkt_mcbc [] (by decide) (by decide)
      (by decide) (by decide)).1,
   (dp_rx_intrabss_fwd_mcbc_copy env0 0 0 100 1 10 pkt_mcbc [] (by decide) (by decide)
      (by decide) (by decide)).2 (by decide) (by decide) (by decide) (by decide)⟩

/-- C5, as stated, fails on five frames from peer 1 whose destination AST
entry (index 5) resolves to peer 2, another non-BSS peer of the same vdev 10.
In `env_tx_fail` the frame `pkt_ucast` is handed to `dp_tx_send`, which rejects
it, and the second pass then delivers it to vdev 10 through `osif_rx`.  In
`env_ast_da` the AST entry is of type DA: `pkt_ucast` is not handed to
`dp_tx_send` and is delivered.  In `env_linearize_fail` the fragment
`pkt_ucast_frag` cannot be linearised: it is not handed to `dp_tx_send` and is
delivered.  In `env_unshare_fail` the fragment cannot be unshared: it is
neither handed to `dp_tx_send` nor delivered.  In `env_no_bridge` AP bridging
is off on the vdev: `dp_rx_intrabss_fwd` is not called, `pkt_ucast` is not
handed to `dp_tx_send` and is delivered. -/
theorem dp_rx_intrabss_fwd_tx_fail_delivers :
    (pkt_ucast.da_valid = true ∧ pkt_ucast.da_mcbc = false ∧
      pkt_ucast_frag.tlv.da_is_valid = true ∧ pkt_ucast_frag.tlv.da_is_mcbc = false ∧
      env_tx_fail.ast_table 5 = some { type_is_DA := false, peer := some 2 } ∧
      env_ast_da.ast_table 5 = some { type_is_DA := true, peer := some 2 } ∧
      env_no_bridge.ast_table 5 = some { type_is_DA := false, peer := some 2 } ∧
      env0.peer_find_by_id 1 = some 1 ∧
      (env0.peer 2).vdev = (env0.peer 1).vdev ∧
      (env0.peer 2).bss_peer = false) ∧
    (dp_rx_process_second_pass env_tx_fail 0 [pkt_ucast]).map
        (fun st => (tx_calls st.trace, (delivered_to 10 st.trace).map Nbuf.id))
      = some ([Event.dp_tx_send 10 1 false false], [1]) ∧
    (dp_rx_process_second_pass env_ast_da 0 [pkt_ucast]).map
        (fun st => (tx_calls st.trace, (delivered_to 10 st.trace).map Nbuf.id))
      = some ([], [1]) ∧
    (dp_rx_process_second_pass env_linearize_fail 0 [pkt_ucast_frag]).map
        (fun st => (tx_calls st.trace, (delivered_to 10 st.trace).map Nbuf.id))
      = some ([], [1]) ∧
    (dp_rx_process_second_pass env_unshare_fail 0 [pkt_ucast_frag]).map
        (fun st => (tx_calls st.trace, (delivered_to 10 st.trace).map Nbuf.id))
      = some ([], []) ∧
    (dp_rx_process_second_pass env_no_bridge 0 [pkt_ucast]).map
        (fun st => (tx_calls st.trace, (delivered_to 10 st.trace).map Nbuf.id))
      = some ([], [1]) := by
  decide

/-- C5, amended: for a unicast frame with a valid destination whose AST entry
is not of type DA and resolves to a peer `B` different from the source peer,
on the same vdev and not a BSS peer, which is not fragmented or is linearised
and unshared successfully, `dp_rx_intrabss_fwd` hands the frame (the frame
itself, not a copy, its control block cleared) to `dp_tx_send` exactly once,
frees nothing and returns true exactly when `dp_tx_send` accepts it.  The
second pass of `dp_rx_process` makes this call only on a vdev with Ethernet
decapsulation that is not a mesh vdev and has AP bridging on, for a frame
that passes `is_sa_da_idx_valid`: otherwise the iteration makes no call of
`dp_tx_send`.  When the call is made and `dp_tx_send` accepts the frame, the
iteration ends there and nothing is appended to the deliver list; when
`dp_tx_send` rejects it, the frame is appended to the deliver list. -/
theorem dp_rx_intrabss_fwd_ucast (env : Env) (rx_pdev tid msdu_len ta tv B : Nat)
    (ast : AstEntry) (nbuf : Nbuf) (next : List Nbuf)
    (hv : (env.peer ta).vdev = some tv)
    (hda : nbuf.da_valid = true)
    (hmc : nbuf.da_mcbc = false)
    (hast : env.ast_table nbuf.tlv.da_idx = some ast)
    (htype : ast.type_is_DA = false)
    (hB : ast.peer = some B)
    (hne : B ≠ ta)
    (hsame : (env.peer B).vdev = some tv)
    (hBbss : (env.peer B).bss_peer = false)
    (hfrag : nbuf.is_frag = true →
      env.qdf_nbuf_linearize_ok (nbuf_cb_clear nbuf) = true ∧
      env.qdf_nbuf_unshare_ok (nbuf_cb_clear nbuf) = true) :
    (∃ out, dp_rx_intrabss_fwd env ta nbuf = some out ∧
      tx_calls out.events = [Event.dp_tx_send tv nbuf.id false
        (env.dp_tx_send_ok tv false (nbuf_cb_clear nbuf))] ∧
      free_calls out.events = [] ∧
      out.fwd = env.dp_tx_send_ok tv false (nbuf_cb_clear nbuf) ∧
      out.nbuf = nbuf_cb_clear nbuf) ∧
    ((env.vdev tv).rx_decap_type = htt_cmn_pkt_type.htt_cmn_pkt_type_ethernet →
      (env.vdev tv).mesh_vdev = false →
      is_sa_da_idx_valid env nbuf = true →
      dp_rx_check_ap_bridge env.cfg (env.vdev tv) = true →
      ∃ so, dp_rx_process_forward env rx_pdev tid msdu_len ta tv nbuf next = some so ∧
        so.next = next ∧
        tx_calls so.events = [Event.dp_tx_send tv nbuf.id false
          (env.dp_tx_send_ok tv false (nbuf_cb_clear nbuf))] ∧
        free_calls so.events = [] ∧
        osif_calls so.events = [] ∧
        (env.dp_tx_send_ok tv false (nbuf_cb_clear nbuf) = true →
          so.exit = RxExit.intrabss_fwd ∧ so.enqueue = none) ∧
        (env.dp_tx_send_ok tv false (nbuf_cb_clear nbuf) = false →
          so.exit = RxExit.enqueued ∧
          so.enqueue = some { nbuf_cb_clear nbuf with
            peer_local_id := (env.peer ta).local_id })) ∧
    (¬ ((env.vdev tv).rx_decap_type = htt_cmn_pkt_type.htt_cmn_pkt_type_ethernet ∧
        (env.vdev tv).mesh_vdev = false ∧
        is_sa_da_idx_valid env nbuf = true ∧
        dp_rx_check_ap_bridge env.cfg (env.vdev tv) = true) →
      ∃ so, dp_rx_process_forward env rx_pdev tid msdu_len ta tv nbuf next = some so ∧
        tx_calls so.events = []) := by
  obtain ⟨learn, hlearn, hl1, hl2, hl3⟩ := dp_rx_da_learn_spec env ta tv nbuf hv
  have hid : (nbuf_cb_clear nbuf).id = nbuf.id := rfl
  refine ⟨?_, ?_, ?_⟩
  · unfold dp_rx_intrabss_fwd
    simp only [hv, hda, hmc, hast, htype, hB, hsame, hBbss]
    by_cases hf : nbuf.is_frag = true
    · obtain ⟨hlin, hun⟩ := hfrag hf
      by_cases htx : env.dp_tx_send_ok tv false (nbuf_cb_clear nbuf) = true <;>
        simp [hf, hlin, hun, htx, hne, hid, dp_rx_intrabss_fwd_send, tx_calls, free_calls,
          Event.is_tx, Event.is_free]
    · by_cases htx : env.dp_tx_send_ok tv false (nbuf_cb_clear nbuf) = true <;>
        simp [hf, htx, hne, hid, dp_rx_intrabss_fwd_send, tx_calls, free_calls,
          Event.is_tx, Event.is_free]
  · intro heth hnm hidx hbr
    unfold dp_rx_process_forward
    simp only [heth, hnm, hlearn, hidx, hbr]
    unfold dp_rx_intrabss_fwd
    simp only [hv, hda, hmc, hast, htype, hB, hsame, hBbss]
    by_cases hf : nbuf.is_frag = true
    · obtain ⟨hlin, hun⟩ := hfrag hf
      by_cases htx : env.dp_tx_send_ok tv false (nbuf_cb_clear nbuf) = true <;>
        by_cases hw : (env.vdev tv).wds_enabled = true <;>
        simp [hf, hlin, hun, htx, hw, hne, hid, dp_rx_intrabss_fwd_send, dp_rx_process_enqueue,
          tx_calls_append, free_calls_append, osif_calls_append, hl1, hl2, hl3] <;>
        simp [tx_calls, free_calls, osif_calls, Event.is_tx, Event.is_free, Event.is_osif]
    · by_cases htx : env.dp_tx_send_ok tv false (nbuf_cb_clear nbuf) = true <;>
        by_cases hw : (env.vdev tv).wds_enabled = true <;>
        simp [hf, htx, hw, hne, hid, dp_rx_intrabss_fwd_send, dp_rx_process_enqueue,
          tx_calls_append, free_calls_append, osif_calls_append, hl1, hl2, hl3] <;>
        simp [tx_calls, free_calls, osif_calls, Event.is_tx, Event.is_free, Event.is_osif]
  · intro hnot
    unfold dp_rx_process_forward
    by_cases heth : (env.vdev tv).rx_decap_type = htt_cmn_pkt_type.htt_cmn_pkt_type_ethernet
    · by_cases hnm : (env.vdev tv).mesh_vdev = false
      · by_cases hidx : is_sa_da_idx_valid env nbuf = true
        · have hbr : dp_rx_check_ap_bridge env.cfg (env.vdev tv) = false := by
            cases hb : dp_rx_check_ap_bridge env.cfg (env.vdev tv) with
            | false => rfl
            | true => exact absurd ⟨heth, hnm, hidx, hb⟩ hnot
          by_cases hw : (env.vdev tv).wds_enabled = true <;>
            simp [heth, hnm, hlearn, hidx, hbr, hw, dp_rx_process_enqueue, tx_calls_append,
              hl1] <;>
            simp [tx_calls, Event.is_tx]
        · simp [heth, hnm, hlearn, hidx, tx_calls_append, hl1]
          simp [tx_calls, Event.is_tx]
      · simp [heth, hnm, dp_rx_process_enqueue]
        simp [tx_calls, Event.is_tx]
    · have hne2 : ((env.vdev tv).rx_decap_type == htt_cmn_pkt_type.htt_cmn_pkt_type_ethernet)
          = false := by simpa using heth
      simp [hne2, dp_rx_process_enqueue]
      simp [tx_calls, Event.is_tx]

/-- C5, amended, at the concrete frame `pkt_ucast` in `env_tx_fail`, where
`dp_tx_send` rejects the frame. -/
theorem dp_rx_intrabss_fwd_ucast_witness :
    (∃ out, dp_rx_intrabss_fwd env_tx_fail 1 pkt_ucast = some out ∧
      tx_calls out.events = [Event.dp_tx_send 10 pkt_ucast.id false
        (env_tx_fail.dp_tx_send_ok 10 false (nbuf_cb_clear pkt_ucast))] ∧
      free_calls out.events = [] ∧
      out.fwd = env_tx_fail.dp_tx_send_ok 10 false (nbuf_cb_clear pkt_ucast) ∧
      out.nbuf = nbuf_cb_clear pkt_ucast) ∧
    ((env_tx_fail.vdev 10).rx_decap_type = htt_cmn_pkt_type.htt_cmn_pkt_type_ethernet →
      (env_tx_fail.vdev 10).mesh_vdev = false →
      is_sa_da_idx_valid env_tx_fail pkt_ucast = true →
      dp_rx_check_ap_bridge env_tx_fail.cfg (env_tx_fail.vdev 10) = true →
      ∃ so, dp_rx_process_forward env_tx_fail 0 0 100 1 10 pkt_ucast [] = some so ∧
        so.next = [] ∧
        tx_calls so.events = [Event.dp_tx_send 10 pkt_ucast.id false
          (env_tx_fail.dp_tx_send_ok 10 false (nbuf_cb_clear pkt_ucast))] ∧
        free_calls so.events = [] ∧
        osif_calls so.events = [] ∧
        (env_tx_fail.dp_tx_send_ok 10 false (nbuf_cb_clear pkt_ucast) = true →
          so.exit = RxExit.intrabss_fwd ∧ so.enqueue = none) ∧
        (env_tx_fail.dp_tx_send_ok 10 false (nbuf_cb_clear pkt_ucast) = false →
          so.exit = RxExit.enqueued ∧
          so.enqueue = some { nbuf_cb_clear pkt_ucast with
            peer_local_id := (env_tx_fail.peer 1).local_id })) ∧
    (¬ ((env_tx_fail.vdev 10).rx_decap_type = htt_cmn_pkt_type.htt_cmn_pkt_type_ethernet ∧
        (env_tx_fail.vdev 10).mesh_vdev = false ∧
        is_sa_da_idx_valid env_tx_fail pkt_ucast = true ∧
        dp_rx_check_ap_bridge env_tx_fail.cfg (env_tx_fail.vdev 10) = true) →
      ∃ so, dp_rx_process_forward env_tx_fail 0 0 100 1 10 pkt_ucast [] = some so ∧
        tx_calls so.events = []) :=
  dp_rx_intrabss_fwd_ucast env_tx_fail 0 0 100 1 10 2 { type_is_DA := false, peer := some 2 }
    pkt_ucast [] (by decide) (by decide) (by decide) (by decide) (by decide) (by decide)
    (by decide) (by decide) (by decide) (by decide)

/-! ### The replenisher -/

/-- C9: the effective number of buffers to fill computed at the head of
`dp_rx_buffers_replenish` is the number of available ring slots when the
caller supplies no descriptor list and the available slots exceed
`(ring entries * 3) / 4`; otherwise it is the minimum of the requested count
and the available slots.  (`ring entries * 3` is taken not to overflow
`uint32_t`.) -/
theorem replenish_num_req_effective (desc_list_null : Bool)
    (num_entries num_entries_avail num_req_buffers : Nat)
    (hsize : num_entries * 3 < 4294967296) :
    (dp_rx_buffers_replenish_num_req desc_list_null num_entries num_entries_avail num_req_buffers).1 =
      if desc_list_null = true ∧ num_entries_avail > (num_entries * 3) / 4 then
        num_entries_avail
      else min num_req_buffers num_entries_avail := by
  have h32 : u32 ((num_entries : Int) * 3) = num_entries * 3 := by
    unfold u32
    rw [Int.emod_eq_of_lt (by omega) (by omega)]
    omega
  unfold dp_rx_buffers_replenish_num_req
  rw [h32]
  by_cases hn : desc_list_null = true
  · by_cases ha : num_entries_avail > num_entries * 3 / 4
    · simp [hn, ha]
    · by_cases hr : num_entries_avail < num_req_buffers
      · simp [hn, ha, hr]
        omega
      · simp [hn, ha, hr]
        omega
  · by_cases hr : num_entries_avail < num_req_buffers
    · simp [hn, hr]
      omega
    · simp [hn, hr]
      omega

/-- C9 at a concrete ring: 1024 entries, 900 free, no caller list, 32
requested: the whole free space is filled. -/
theorem replenish_num_req_effective_witness :
    (dp_rx_buffers_replenish_num_req true 1024 900 32).1 =
      if true = true ∧ 900 > (1024 * 3) / 4 then 900 else min 32 900 :=
  replenish_num_req_effective true 1024 900 32 (by decide)

theorem dp_rx_buffers_replenish_num_req_le_avail (desc_list_null : Bool)
    (num_entries num_entries_avail num_req_buffers : Nat) :
    (dp_rx_buffers_replenish_num_req desc_list_null num_entries num_entries_avail num_req_buffers).1
      ≤ num_entries_avail := by
  unfold dp_rx_buffers_replenish_num_req
  split
  · exact Nat.le_refl _
  · split
    · exact Nat.le_refl _
    · simp only
      omega

theorem dp_rx_buffers_replenish_publish_inv (owner avail hand num_req : Nat) (st : FillState)
    (nbuf paddr : Nat) (hinv : FillInv avail hand { st with mapped := st.mapped })
    (hcount : st.count < num_req) (hreq : num_req ≤ avail) :
    (∀ st1, dp_rx_buffers_replenish_publish owner st nbuf paddr = (st1, none) →
      FillInv avail hand st1 ∧ st1.count ≤ num_req) ∧
    (∀ st1 e, dp_rx_buffers_replenish_publish owner st nbuf paddr = (st1, some e) →
      e ≠ FillExit.assert_ring_entry ∧ st1.published = st.published) := by
  obtain ⟨h1, h2, h3⟩ := hinv
  simp only at h1 h2 h3
  have hfree : st.ring_free ≠ 0 := by omega
  unfold dp_rx_buffers_replenish_publish
  simp only [hfree, if_false]
  cases hd : st.desc_list with
  | nil =>
    constructor
    · intro st1 h
      simp at h
    · intro st1 e h
      simp only [Prod.mk.injEq, Option.some.injEq] at h
      obtain ⟨h, he⟩ := h
      subst h he
      simp
  | cons d next =>
    by_cases hu : (dp_rx_desc_prep d nbuf).in_use = true
    · simp only [hu, if_true]
      constructor
      · intro st1 h
        simp at h
      · intro st1 e h
        simp only [Prod.mk.injEq, Option.some.injEq] at h
        obtain ⟨h, he⟩ := h
        subst h he
        simp
    · simp only [hu, if_false]
      constructor
      · intro st1 h
        simp only [Bool.false_eq_true, if_false, Prod.mk.injEq, and_true] at h
        subst h
        rw [hd] at h3
        simp only [FillInv, List.length_append, List.length_cons, List.length_nil] at h3 ⊢
        omega
      · intro st1 e h
        simp at h

theorem dp_rx_buffers_replenish_fill_bounds (owner avail hand num_req : Nat) (hreq : num_req ≤ avail) :
    ∀ (atts : List AllocAttempt) (st : FillState), FillInv avail hand st →
      st.count ≤ num_req →
      (dp_rx_buffers_replenish_fill owner num_req atts st).1.published.length ≤ num_req ∧
      (dp_rx_buffers_replenish_fill owner num_req atts st).1.published.length ≤ hand ∧
      (dp_rx_buffers_replenish_fill owner num_req atts st).2 ≠ FillExit.assert_ring_entry := by
  intro atts
  induction atts with
  | nil =>
    intro st hinv hle
    obtain ⟨h1, h2, h3⟩ := hinv
    unfold dp_rx_buffers_replenish_fill
    split <;> refine ⟨?_, ?_, ?_⟩ <;> simp <;> omega
  | cons a rest ih =>
    intro st hinv hle
    have hinv0 := hinv
    obtain ⟨h1, h2, h3⟩ := hinv
    unfold dp_rx_buffers_replenish_fill
    by_cases hc : st.count < num_req
    · simp only [hc, if_true]
      cases a with
      | alloc_fail =>
        refine ⟨?_, ?_, ?_⟩ <;> simp <;> omega
      | map_fail nbuf =>
        exact ih _ ⟨h1, h2, h3⟩ hle
      | mapped nbuf paddr x86 =>
        cases x86 with
        | give_up =>
          refine ⟨?_, ?_, ?_⟩ <;> simp <;> omega
        | keep =>
          simp only
          have hp := dp_rx_buffers_replenish_publish_inv owner avail hand num_req
            { st with mapped := st.mapped ++ [(nbuf, paddr)] } nbuf paddr ⟨h1, h2, h3⟩ hc hreq
          rcases hres : dp_rx_buffers_replenish_publish owner
            { st with mapped := st.mapped ++ [(nbuf, paddr)] } nbuf paddr with ⟨st2, oe⟩
          cases oe with
          | none =>
            have hinv2 := hp.1 st2 hres
            simp only
            exact ih st2 hinv2.1 hinv2.2
          | some e =>
            obtain ⟨hne, hpub⟩ := hp.2 st2 e hres
            simp only
            refine ⟨?_, ?_, hne⟩ <;> rw [hpub] <;> simp only <;> omega
        | replaced nbuf1 paddr1 =>
          simp only
          have hp := dp_rx_buffers_replenish_publish_inv owner avail hand num_req
            { st with mapped := (st.mapped ++ [(nbuf, paddr)]).erase (nbuf, paddr) ++
                        [(nbuf1, paddr1)],
                      freed := st.freed ++ [nbuf] } nbuf1 paddr1 ⟨h1, h2, h3⟩ hc hreq
          rcases hres : dp_rx_buffers_replenish_publish owner
            { st with mapped := (st.mapped ++ [(nbuf, paddr)]).erase (nbuf, paddr) ++
                        [(nbuf1, paddr1)],
                      freed := st.freed ++ [nbuf] } nbuf1 paddr1 with ⟨st2, oe⟩
          cases oe with
          | none =>
            have hinv2 := hp.1 st2 hres
            simp only
            exact ih st2 hinv2.1 hinv2.2
          | some e =>
            obtain ⟨hne, hpub⟩ := hp.2 st2 e hres
            simp only
            refine ⟨?_, ?_, hne⟩ <;> rw [hpub] <;> simp only <;> omega
    · simp only [hc, if_false]
      refine ⟨?_, ?_, ?_⟩
      · omega
      · omega
      · simp

/-- C8: in one call of `dp_rx_buffers_replenish` the number of ring entries
published is at most the number of free slots reported by
`hal_srng_src_num_avail` (nothing is published without a ring), and at most the
number of descriptors in hand, which are the caller's list when one is
supplied and otherwise a prefix of the free list of the pool; the ring is
never asked for an entry it does not have. -/
theorem dp_rx_buffers_replenish_bounds (cfg : RxCfg) (inp : ReplenishIn) :
    (∀ srng, inp.hal_srng = some srng →
      (dp_rx_buffers_replenish cfg inp).published.length ≤ srng.num_avail) ∧
    (inp.hal_srng = none → (dp_rx_buffers_replenish cfg inp).published = []) ∧
    (dp_rx_buffers_replenish cfg inp).published.length
      ≤ (dp_rx_buffers_replenish cfg inp).in_hand.length ∧
    (inp.desc_list ≠ [] → (dp_rx_buffers_replenish cfg inp).in_hand = inp.desc_list) ∧
    (inp.desc_list = [] →
      ∃ n, (dp_rx_buffers_replenish cfg inp).in_hand = inp.free_list.take n) ∧
    (dp_rx_buffers_replenish cfg inp).fill_exit ≠ some FillExit.assert_ring_entry := by
  cases hs : inp.hal_srng with
  | none =>
    simp only [dp_rx_buffers_replenish, hs]
    refine ⟨by simp, by simp, by simp, by simp, ?_, by simp⟩
    intro h
    exact ⟨0, by simp [h]⟩
  | some srng =>
    have hle := dp_rx_buffers_replenish_num_req_le_avail inp.desc_list.isEmpty srng.num_entries
      srng.num_avail inp.num_req_buffers
    simp only [dp_rx_buffers_replenish, hs]
    by_cases h0 : (dp_rx_buffers_replenish_num_req inp.desc_list.isEmpty srng.num_entries srng.num_avail
        inp.num_req_buffers).1 = 0
    · simp only [h0, if_true]
      refine ⟨by simp, by simp, by simp, by simp, ?_, by simp⟩
      intro h
      exact ⟨0, by simp [h]⟩
    · simp only [h0, if_false]
      by_cases hnomem : (inp.desc_list.isEmpty &&
          (dp_rx_get_free_desc_list inp.free_list
            (dp_rx_buffers_replenish_num_req inp.desc_list.isEmpty srng.num_entries srng.num_avail
              inp.num_req_buffers).1).1.isEmpty) = true
      · simp only [hnomem, if_true]
        refine ⟨by simp, by simp, by simp, ?_, ?_, by simp⟩
        · intro h
          simp only [Bool.and_eq_true, List.isEmpty_iff] at hnomem
          exact absurd hnomem.1 h
        · intro _
          exact ⟨0, by simp⟩
      · simp only [hnomem, Bool.false_eq_true, if_false]
        by_cases he : inp.desc_list.isEmpty = true
        · have hb := dp_rx_buffers_replenish_fill_bounds inp.owner srng.num_avail
            (dp_rx_get_free_desc_list inp.free_list
              (dp_rx_buffers_replenish_num_req inp.desc_list.isEmpty srng.num_entries srng.num_avail
                inp.num_req_buffers).1).1.length
            (dp_rx_get_free_desc_list inp.free_list
              (dp_rx_buffers_replenish_num_req inp.desc_list.isEmpty srng.num_entries srng.num_avail
                inp.num_req_buffers).1).1.length
            (by
              simp only [dp_rx_get_free_desc_list, List.length_take]
              omega)
            inp.attempts
            { count := 0,
              desc_list := (dp_rx_get_free_desc_list inp.free_list
                (dp_rx_buffers_replenish_num_req inp.desc_list.isEmpty srng.num_entries srng.num_avail
                  inp.num_req_buffers).1).1,
              ring_free := srng.num_avail, published := [], mapped := [], freed := [],
              stats := ReplenishStats.zero }
            (by simp [FillInv]) (by simp)
          simp only [he, if_true]
          have hnil : inp.desc_list = [] := List.isEmpty_iff.mp he
          have hgot : (dp_rx_get_free_desc_list inp.free_list
              (dp_rx_buffers_replenish_num_req inp.desc_list.isEmpty srng.num_entries srng.num_avail
                inp.num_req_buffers).1).1.length
              ≤ (dp_rx_buffers_replenish_num_req inp.desc_list.isEmpty srng.num_entries srng.num_avail
                inp.num_req_buffers).1 := by
            simp only [dp_rx_get_free_desc_list, List.length_take]
            omega
          simp only [he] at hb hle hgot ⊢
          split <;>
            refine ⟨fun s hsome => ?_, by simp, ?_, fun h => absurd hnil h,
              fun _ => ⟨_, rfl⟩, ?_⟩ <;>
            simp_all <;> omega
        · have hb := dp_rx_buffers_replenish_fill_bounds inp.owner srng.num_avail inp.desc_list.length
            (dp_rx_buffers_replenish_num_req inp.desc_list.isEmpty srng.num_entries srng.num_avail
              inp.num_req_buffers).1 hle
            inp.attempts
            { count := 0, desc_list := inp.desc_list,
              ring_free := srng.num_avail, published := [], mapped := [], freed := [],
              stats := ReplenishStats.zero }
            (by simp [FillInv]) (by simp)
          have hE : inp.desc_list.isEmpty = false := Bool.eq_false_iff.mpr he
          have hnil : inp.desc_list ≠ [] := fun h => he (List.isEmpty_iff.mpr h)
          simp only [hE] at hb hle ⊢
          simp only [Bool.false_eq_true, if_false]
          split <;>
            refine ⟨fun s hsome => ?_, by simp, ?_, fun _ => rfl,
              fun h => absurd h hnil, ?_⟩ <;>
            simp_all <;> omega

theorem dp_rx_buffers_replenish_publish_ok (owner : Nat) (hand : List RxDesc) (atts : List AllocAttempt)
    (st : FillState) (nbuf paddr : Nat)
    (hmap : (nbuf, paddr) ∈ st.mapped)
    (hsuf : st.desc_list <:+ hand)
    (hatt : ∃ a ∈ atts, a = AllocAttempt.mapped nbuf paddr X86Check.keep ∨
      ∃ n q, a = AllocAttempt.mapped n q (X86Check.replaced nbuf paddr))
    (hpub : ∀ p ∈ st.published, PubOk owner hand atts p) :
    (dp_rx_buffers_replenish_publish owner st nbuf paddr).1.desc_list <:+ hand ∧
      ∀ p ∈ (dp_rx_buffers_replenish_publish owner st nbuf paddr).1.published, PubOk owner hand atts p := by
  unfold dp_rx_buffers_replenish_publish
  by_cases hfree : st.ring_free = 0
  · simp only [hfree, if_true]
    exact ⟨hsuf, hpub⟩
  · simp only [hfree, if_false]
    cases hd : st.desc_list with
    | nil =>
      simp only
      rw [hd] at hsuf
      exact ⟨hsuf, hpub⟩
    | cons d next =>
      rw [hd] at hsuf
      by_cases hu : d.in_use = true
      · have hu1 : (dp_rx_desc_prep d nbuf).in_use = true := hu
        simp only [hu1, if_true]
        exact ⟨hsuf, hpub⟩
      · have hu1 : (dp_rx_desc_prep d nbuf).in_use = false := by
          simpa [dp_rx_desc_prep] using hu
        simp only [hu1, Bool.false_eq_true, if_false]
        refine ⟨(List.suffix_cons d next).trans hsuf, ?_⟩
        intro p hp
        rw [List.mem_append] at hp
        rcases hp with hp | hp
        · exact hpub p hp
        · rw [List.mem_singleton] at hp
          subst hp
          refine ⟨rfl, rfl, rfl, rfl, ?_, ?_, hatt⟩
          · simpa using hmap
          · refine ⟨d, hsuf.subset (List.mem_cons_self d next), ?_, rfl⟩
            simpa using hu

theorem dp_rx_buffers_replenish_fill_ok (owner num_req : Nat) (hand : List RxDesc)
    (atts : List AllocAttempt) :
    ∀ (rest : List AllocAttempt) (st : FillState),
      (∀ a ∈ rest, a ∈ atts) → st.desc_list <:+ hand →
      (∀ p ∈ st.published, PubOk owner hand atts p) →
      ∀ p ∈ (dp_rx_buffers_replenish_fill owner num_req rest st).1.published, PubOk owner hand atts p := by
  intro rest
  induction rest with
  | nil =>
    intro st _ _ hpub
    unfold dp_rx_buffers_replenish_fill
    split <;> exact hpub
  | cons a rest ih =>
    intro st hsub hsuf hpub
    have hrest : ∀ b ∈ rest, b ∈ atts := fun b hb => hsub b (List.mem_cons_of_mem a hb)
    have ha : a ∈ atts := hsub a (List.mem_cons_self a rest)
    unfold dp_rx_buffers_replenish_fill
    by_cases hc : st.count < num_req
    · simp only [hc, if_true]
      cases a with
      | alloc_fail => exact hpub
      | map_fail nbuf => exact ih _ hrest hsuf hpub
      | mapped nbuf paddr x86 =>
        cases x86 with
        | give_up => exact hpub
        | keep =>
          simp only
          have hp := dp_rx_buffers_replenish_publish_ok owner hand atts
            { st with mapped := st.mapped ++ [(nbuf, paddr)] } nbuf paddr
            (by simp) hsuf ⟨_, ha, Or.inl rfl⟩ hpub
          rcases hres : dp_rx_buffers_replenish_publish owner
            { st with mapped := st.mapped ++ [(nbuf, paddr)] } nbuf paddr with ⟨st2, oe⟩
          rw [hres] at hp
          cases oe with
          | none => exact ih st2 hrest hp.1 hp.2
          | some e => exact hp.2
        | replaced nbuf1 paddr1 =>
          simp only
          have hp := dp_rx_buffers_replenish_publish_ok owner hand atts
            { st with mapped := (st.mapped ++ [(nbuf, paddr)]).erase (nbuf, paddr) ++
                        [(nbuf1, paddr1)],
                      freed := st.freed ++ [nbuf] } nbuf1 paddr1
            (by simp) hsuf ⟨_, ha, Or.inr ⟨nbuf, paddr, rfl⟩⟩ hpub
          rcases hres : dp_rx_buffers_replenish_publish owner
            { st with mapped := (st.mapped ++ [(nbuf, paddr)]).erase (nbuf, paddr) ++
                        [(nbuf1, paddr1)],
                      freed := st.freed ++ [nbuf] } nbuf1 paddr1 with ⟨st2, oe⟩
          rw [hres] at hp
          cases oe with
          | none => exact ih st2 hrest hp.1 hp.2
          | some e => exact hp.2
    · simp only [hc, if_false]
      exact hpub

/-- C10: every ring entry that `dp_rx_buffers_replenish` publishes carries the
cookie of a descriptor that is in use at the moment of publication (taken, not
in use, from the descriptors in hand, with the published buffer attached) and
the device address of a buffer that is DMA-mapped at that moment, at the
address the mapping gave; no entry is published for an unmapped buffer or a
descriptor that is not in use. -/
theorem dp_rx_buffers_replenish_published_ok (cfg : RxCfg) (inp : ReplenishIn) :
    ∀ p ∈ (dp_rx_buffers_replenish cfg inp).published,
      PubOk inp.owner (dp_rx_buffers_replenish cfg inp).in_hand inp.attempts p := by
  unfold dp_rx_buffers_replenish
  cases hs : inp.hal_srng with
  | none => simp
  | some srng =>
    simp only
    split
    · simp
    · split
      · simp
      · have hf := fun hand => dp_rx_buffers_replenish_fill_ok inp.owner
          (if inp.desc_list.isEmpty = true then
            (dp_rx_get_free_desc_list inp.free_list
              (dp_rx_buffers_replenish_num_req inp.desc_list.isEmpty srng.num_entries srng.num_avail
                inp.num_req_buffers).1).1.length
           else (dp_rx_buffers_replenish_num_req inp.desc_list.isEmpty srng.num_entries srng.num_avail
                inp.num_req_buffers).1)
          hand inp.attempts inp.attempts
          { count := 0,
            desc_list := hand,
            ring_free := srng.num_avail, published := [], mapped := [], freed := [],
            stats := ReplenishStats.zero }
          (fun a h => h) (List.suffix_refl _) (by simp)
        split <;> exact hf _

/-- C10 at a concrete call: the second entry published for `replenish_in0`,
whose buffer 103 at address 6000 replaced a buffer rejected by
`check_x86_paddr`. -/
theorem dp_rx_buffers_replenish_published_ok_witness :
    PubOk replenish_in0.owner (dp_rx_buffers_replenish cfg0 replenish_in0).in_hand
      replenish_in0.attempts
      { entry := { paddr := 6000, cookie := 2, owner := 7 },
        desc := { desc0 2 with in_use := true, nbuf := some 103 },
        nbuf := 103, mapped_now := true } :=
  dp_rx_buffers_replenish_published_ok cfg0 replenish_in0
    { entry := { paddr := 6000, cookie := 2, owner := 7 },
      desc := { desc0 2 with in_use := true, nbuf := some 103 },
      nbuf := 103, mapped_now := true } (by decide)

/-! ### The second pass: what every iteration does -/

theorem all_delivered_append (a b : List Event) :
    all_delivered (a ++ b) = all_delivered a ++ all_delivered b := by
  induction a with
  | nil => simp [all_delivered]
  | cons e a ih =>
    cases e <;> simp [all_delivered, ih]

theorem all_delivered_of_quiet (es : List Event) (h : osif_calls es = []) :
    all_delivered es = [] := by
  induction es with
  | nil => rfl
  | cons e es ih =>
    unfold osif_calls at h ih
    cases e <;> simp_all [all_delivered, Event.is_osif]

theorem delivered_to_sublist_all (v : Nat) (es : List Event) :
    (delivered_to v es).Sublist (all_delivered es) := by
  induction es with
  | nil => simp [delivered_to, all_delivered]
  | cons e es ih =>
    cases e with
    | osif_rx v1 nbufs =>
      simp only [delivered_to, all_delivered]
      by_cases hv : v1 = v
      · simp only [hv, if_true]
        exact List.Sublist.append (List.Sublist.refl _) ih
      · simp only [hv, if_false, List.nil_append]
        exact ih.trans (List.sublist_append_right _ _)
    | _ => simpa [delivered_to, all_delivered] using ih

theorem qdf_nbuf_pull_head_id (nbuf : Nbuf) (n : Nat) :
    (qdf_nbuf_pull_head nbuf n).id = nbuf.id := by
  unfold qdf_nbuf_pull_head
  split <;> rfl

theorem qdf_nbuf_pull_head_tlv (nbuf : Nbuf) (n : Nat) :
    (qdf_nbuf_pull_head nbuf n).tlv = nbuf.tlv := by
  unfold qdf_nbuf_pull_head
  split <;> rfl

theorem dp_rx_adjust_nbuf_len_id (cfg : RxCfg) (nbuf : Nbuf) (m : Nat) :
    (dp_rx_adjust_nbuf_len cfg nbuf m).2.1.id = nbuf.id := by
  unfold dp_rx_adjust_nbuf_len
  simp only
  split <;> rfl

theorem dp_rx_adjust_nbuf_len_tlv (cfg : RxCfg) (nbuf : Nbuf) (m : Nat) :
    (dp_rx_adjust_nbuf_len cfg nbuf m).2.1.tlv = nbuf.tlv := by
  unfold dp_rx_adjust_nbuf_len
  simp only
  split <;> rfl

theorem dp_rx_sg_walk_suffix (cfg : RxCfg) :
    ∀ (chain : List Nbuf) (m fl : Nat) (done frags : List Nbuf) (fl1 : Nat) (next : List Nbuf),
      dp_rx_sg_walk cfg chain m fl done = some (frags, fl1, next) → next <:+ chain := by
  intro chain
  induction chain with
  | nil =>
    intro m fl done frags fl1 next h
    simp [dp_rx_sg_walk] at h
  | cons nbuf rest ih =>
    intro m fl done frags fl1 next h
    rw [dp_rx_sg_walk] at h
    split at h
    · simp only [Option.some.injEq, Prod.mk.injEq] at h
      rw [← h.2.2]
      exact List.suffix_cons nbuf rest
    · exact (ih _ _ _ _ _ _ h).trans (List.suffix_cons nbuf rest)

theorem dp_rx_sg_create_spec (cfg : RxCfg) (nbuf : Nbuf) (rest : List Nbuf) (sg : SgOut)
    (h : dp_rx_sg_create cfg nbuf rest = some sg) :
    sg.parent.id = nbuf.id ∧ sg.parent.tlv = nbuf.tlv ∧ sg.next <:+ rest := by
  unfold dp_rx_sg_create at h
  split at h
  · simp only [Option.some.injEq] at h
    subst h
    exact ⟨qdf_nbuf_pull_head_id _ _, qdf_nbuf_pull_head_tlv _ _, List.suffix_refl _⟩
  · simp only at h
    split at h
    · simp at h
    · rename_i frag_list frag_list_len next hw
      simp only [Option.some.injEq] at h
      subst h
      refine ⟨?_, ?_, dp_rx_sg_walk_suffix cfg _ _ _ _ _ _ _ hw⟩
      · simp only [qdf_nbuf_pull_head_id, qdf_nbuf_append_ext_list]
        exact dp_rx_adjust_nbuf_len_id _ _ _
      · simp only [qdf_nbuf_pull_head_tlv, qdf_nbuf_append_ext_list]
        exact dp_rx_adjust_nbuf_len_tlv _ _ _

theorem dp_rx_intrabss_fwd_send_spec (env : Env) (ta tv tid pdev len : Nat) (nbuf : Nbuf)
    (pre : List Event) (hpre : osif_calls pre = []) :
    osif_calls (dp_rx_intrabss_fwd_send env ta tv tid pdev len nbuf pre).events = [] ∧
      (dp_rx_intrabss_fwd_send env ta tv tid pdev len nbuf pre).nbuf = nbuf := by
  unfold dp_rx_intrabss_fwd_send
  split <;> simp [osif_calls_append, hpre] <;> simp [osif_calls, Event.is_osif]

theorem dp_rx_intrabss_fwd_spec (env : Env) (ta : Nat) (nbuf : Nbuf) (out : FwdOut)
    (h : dp_rx_intrabss_fwd env ta nbuf = some out) :
    osif_calls out.events = [] ∧ out.nbuf.id = nbuf.id := by
  unfold dp_rx_intrabss_fwd at h
  have hid : (nbuf_cb_clear nbuf).id = nbuf.id := rfl
  have hs1 := dp_rx_intrabss_fwd_send_spec env ta
  split at h
  · simp at h
  · simp only at h
    split_ifs at h
    all_goals try (split at h)
    all_goals try (split_ifs at h)
    all_goals try (split at h)
    all_goals try (split_ifs at h)
    all_goals first
      | (simp at h; done)
      | (simp only [Option.some.injEq] at h
         subst h
         first
          | exact ⟨rfl, rfl⟩
          | exact ⟨(hs1 _ _ _ _ _ _ (by simp [osif_calls, Event.is_osif])).1,
              by rw [(hs1 _ _ _ _ _ _ (by simp [osif_calls, Event.is_osif])).2]; exact hid⟩)

theorem dp_rx_da_learn_quiet (env : Env) (ta : Nat) (nbuf : Nbuf) (learn : List Event)
    (h : dp_rx_da_learn env ta nbuf = some learn) : osif_calls learn = [] := by
  unfold dp_rx_da_learn at h
  split_ifs at h
  all_goals try (split at h)
  all_goals try (split_ifs at h)
  all_goals first
    | (simp at h; done)
    | (simp only [Option.some.injEq] at h
       subst h
       simp [osif_calls, Event.is_osif])

theorem dp_rx_process_enqueue_ok (env : Env) (rx_pdev tid msdu_len peer : Nat) (nbuf : Nbuf)
    (next rest : List Nbuf) (pre : List Event) (id : Nat)
    (hpre : osif_calls pre = []) (hid : nbuf.id = id) (hnext : next <:+ rest) :
    StageOk id rest (dp_rx_process_enqueue env rx_pdev tid msdu_len peer nbuf next pre) := by
  refine ⟨?_, ?_, hnext, ?_⟩
  · simp [dp_rx_process_enqueue, osif_calls_append, hpre]
    simp [osif_calls, Event.is_osif]
  · intro n hn
    simp only [dp_rx_process_enqueue, Option.some.injEq] at hn
    subst hn
    exact hid
  · simp [dp_rx_process_enqueue]

theorem dp_rx_process_forward_ok (env : Env) (rx_pdev tid msdu_len peer vdev : Nat) (nbuf : Nbuf)
    (next rest : List Nbuf) (out : StageOut) (hnext : next <:+ rest)
    (h : dp_rx_process_forward env rx_pdev tid msdu_len peer vdev nbuf next = some out) :
    StageOk nbuf.id rest out := by
  unfold dp_rx_process_forward at h
  by_cases h1 : ((env.vdev vdev).rx_decap_type == htt_cmn_pkt_type.htt_cmn_pkt_type_ethernet &&
      !(env.vdev vdev).mesh_vdev) = true
  · simp only [h1, if_true, if_false, Bool.false_eq_true] at h
    cases hl : dp_rx_da_learn env peer nbuf with
    | none => simp [hl] at h
    | some learn =>
      have hq := dp_rx_da_learn_quiet env peer nbuf learn hl
      have hq2 : osif_calls (learn ++
          (if (env.vdev vdev).wds_enabled = true then [Event.wds_srcport_learn peer nbuf.id]
           else [])) = [] := by
        rw [osif_calls_append, hq]
        split <;> simp [osif_calls, Event.is_osif]
      simp only [hl] at h
      by_cases h2 : (!is_sa_da_idx_valid env nbuf) = true
      · simp only [h2, if_true, if_false, Bool.false_eq_true, Option.some.injEq] at h
        subst h
        refine ⟨?_, ?_, hnext, ?_⟩
        · rw [osif_calls_append, hq]
          simp [osif_calls, Event.is_osif]
        · simp
        · simp
      · simp only [h2, if_false, Bool.false_eq_true] at h
        by_cases h3 : dp_rx_check_ap_bridge env.cfg (env.vdev vdev) = true
        · simp only [h3, if_true, if_false, Bool.false_eq_true] at h
          cases hf : dp_rx_intrabss_fwd env peer nbuf with
          | none => simp [hf] at h
          | some fo =>
            obtain ⟨hfq, hfid⟩ := dp_rx_intrabss_fwd_spec env peer nbuf fo hf
            simp only [hf] at h
            by_cases h4 : fo.fwd = true
            · simp only [h4, if_true, if_false, Bool.false_eq_true, Option.some.injEq] at h
              subst h
              refine ⟨?_, ?_, hnext, ?_⟩
              · rw [osif_calls_append, osif_calls_append, hq2, hfq]
                simp [osif_calls, Event.is_osif]
              · simp
              · simp
            · simp only [h4, if_false, Bool.false_eq_true, Option.some.injEq] at h
              subst h
              exact dp_rx_process_enqueue_ok _ _ _ _ _ _ _ _ _ _
                (by rw [osif_calls_append, hq2, hfq]; rfl) hfid hnext
        · simp only [h3, if_false, Bool.false_eq_true, Option.some.injEq] at h
          subst h
          exact dp_rx_process_enqueue_ok _ _ _ _ _ _ _ _ _ _ hq2 rfl hnext
  · simp only [h1, if_false, Bool.false_eq_true, Option.some.injEq] at h
    subst h
    exact dp_rx_process_enqueue_ok _ _ _ _ _ _ _ _ _ _ rfl rfl hnext

theorem dp_rx_process_mesh_ok (env : Env) (rx_pdev tid msdu_len peer vdev : Nat) (nbuf : Nbuf)
    (next rest : List Nbuf) (out : StageOut) (hnext : next <:+ rest)
    (h : dp_rx_process_mesh env rx_pdev tid msdu_len peer vdev nbuf next = some out) :
    StageOk nbuf.id rest out := by
  unfold dp_rx_process_mesh at h
  by_cases h1 : ((env.vdev vdev).mesh_vdev &&
      (dp_rx_filter_mesh_packets env.cfg (env.vdev vdev) nbuf.tlv
        == QDF_STATUS.QDF_STATUS_SUCCESS)) = true
  · simp only [h1, if_true, if_false, Bool.false_eq_true, Option.some.injEq] at h
    subst h
    refine ⟨?_, ?_, hnext, ?_⟩
    · simp [osif_calls, Event.is_osif]
    · simp
    · simp
  · simp only [h1, if_false, Bool.false_eq_true] at h
    exact dp_rx_process_forward_ok _ _ _ _ _ _ _ _ _ _ hnext h

theorem dp_rx_process_filter_ok (env : Env) (rx_pdev tid msdu_len peer vdev : Nat) (nbuf : Nbuf)
    (next rest : List Nbuf) (out : StageOut) (hnext : next <:+ rest)
    (h : dp_rx_process_filter env rx_pdev tid msdu_len peer vdev nbuf next = some out) :
    StageOk nbuf.id rest out := by
  unfold dp_rx_process_filter at h
  cases hp : dp_wds_rx_policy_check env nbuf.tlv vdev peer with
  | none => simp [hp] at h
  | some ok =>
    simp only [hp] at h
    by_cases h1 : (!ok) = true
    · simp only [h1, if_true, if_false, Bool.false_eq_true, Option.some.injEq] at h
      subst h
      refine ⟨?_, ?_, hnext, ?_⟩
      · simp [osif_calls, Event.is_osif]
      · simp
      · simp
    · simp only [h1, if_false, Bool.false_eq_true] at h
      by_cases h2 : (env.peer peer).bss_peer = true
      · simp only [h2, if_true, if_false, Bool.false_eq_true, Option.some.injEq] at h
        subst h
        refine ⟨?_, ?_, hnext, ?_⟩
        · simp [osif_calls, Event.is_osif]
        · simp
        · simp
      · simp only [h2, if_false, Bool.false_eq_true] at h
        by_cases h3 : ((env.peer peer).nawds_enabled && nbuf.da_mcbc &&
            !nbuf.tlv.mac_ad4_valid) = true
        · simp only [h3, if_true, if_false, Bool.false_eq_true, Option.some.injEq] at h
          subst h
          refine ⟨?_, ?_, hnext, ?_⟩
          · simp [osif_calls, Event.is_osif]
          · simp
          · simp
        · simp only [h3, if_false, Bool.false_eq_true] at h
          exact dp_rx_process_mesh_ok _ _ _ _ _ _ _ _ _ _ hnext h

theorem dp_rx_process_decap_ok (env : Env) (rx_pdev tid msdu_len peer vdev : Nat) (nbuf : Nbuf)
    (rest : List Nbuf) (out : StageOut)
    (h : dp_rx_process_decap env rx_pdev tid msdu_len peer vdev nbuf rest = some out) :
    StageOk nbuf.id rest out := by
  unfold dp_rx_process_decap at h
  by_cases h1 : nbuf.is_frag = true
  · simp only [h1, if_true, if_false, Bool.false_eq_true] at h
    have := dp_rx_process_filter_ok _ _ _ _ _ _ _ _ rest _ (List.suffix_refl _) h
    rwa [qdf_nbuf_pull_head_id] at this
  · simp only [h1, if_false, Bool.false_eq_true] at h
    by_cases h2 : nbuf.raw_frame = true
    · simp only [h2, if_true, if_false, Bool.false_eq_true] at h
      cases hsg : dp_rx_sg_create env.cfg nbuf rest with
      | none => simp [hsg] at h
      | some sg =>
        obtain ⟨hid, _, hsuf⟩ := dp_rx_sg_create_spec _ _ _ _ hsg
        simp only [hsg] at h
        cases hfo : dp_rx_process_filter env rx_pdev tid nbuf.pkt_len peer vdev sg.parent sg.next with
        | none => simp [hfo] at h
        | some fo =>
          have hok := dp_rx_process_filter_ok _ _ _ _ _ _ _ _ rest _ hsuf hfo
          simp only [hfo, Option.some.injEq] at h
          subst h
          rw [hid] at hok
          refine ⟨?_, hok.2.1, hok.2.2.1, hok.2.2.2⟩
          rw [osif_calls_append, hok.1]
          simp [osif_calls, Event.is_osif]
    · simp only [h2, if_false, Bool.false_eq_true] at h
      have := dp_rx_process_filter_ok _ _ _ _ _ _ _ _ rest _ (List.suffix_refl _) h
      rwa [qdf_nbuf_pull_head_id] at this

theorem dp_rx_process_flush_on_vdev_change_spec (env : Env) (st : RxState) (p : Nat)
    (dl : List Nbuf) (fl : List Event)
    (h : dp_rx_process_flush_on_vdev_change env st p = some (dl, fl)) :
    (fl = [] ∧ dl = st.deliver_list ∧ (st.deliver_list ≠ [] → (env.peer p).vdev = st.vdev)) ∨
    (st.deliver_list ≠ [] ∧ (env.peer p).vdev ≠ st.vdev ∧
      dp_rx_deliver_to_stack env st.vdev (some p) st.deliver_list = some fl ∧ dl = []) := by
  unfold dp_rx_process_flush_on_vdev_change at h
  by_cases hc : (!st.deliver_list.isEmpty && (st.vdev != (env.peer p).vdev)) = true
  · simp only [hc, if_true] at h
    cases hd : dp_rx_deliver_to_stack env st.vdev (some p) st.deliver_list with
    | none => simp [hd] at h
    | some es =>
      simp only [hd, Option.some.injEq, Prod.mk.injEq] at h
      obtain ⟨h1, h2⟩ := h
      subst h1 h2
      right
      simp only [Bool.and_eq_true, Bool.not_eq_true', bne_iff_ne, ne_eq] at hc
      refine ⟨?_, ?_, rfl, rfl⟩
      · intro hnil
        simp [hnil] at hc
      · intro heq
        exact hc.2 heq.symm
  · simp only [hc, if_false, Bool.false_eq_true, Option.some.injEq, Prod.mk.injEq] at h
    obtain ⟨h1, h2⟩ := h
    subst h1 h2
    left
    refine ⟨rfl, rfl, ?_⟩
    intro hne
    simp only [Bool.and_eq_true, Bool.not_eq_true', bne_iff_ne, ne_eq, not_and,
      Decidable.not_not] at hc
    have : st.deliver_list.isEmpty = false := by
      cases hds : st.deliver_list with
      | nil => exact absurd hds hne
      | cons a b => rfl
    exact (hc this).symm

theorem dp_rx_process_nbuf_ok (env : Env) (rx_pdev : Nat) (st : RxState) (nbuf : Nbuf)
    (rest : List Nbuf) (r : RxState × List Nbuf × RxExit)
    (h : dp_rx_process_nbuf env rx_pdev st nbuf rest = some r) :
    IterOk env st nbuf rest r := by
  unfold dp_rx_process_nbuf at h
  simp only [DP_RX_TID_SAVE_tlv, DP_RX_TID_SAVE_id, DP_RX_TID_SAVE_peer_id] at h
  by_cases hdone : (!(dp_rx_is_msdu_done_set env.cfg nbuf.tlv).1) = true
  · simp only [hdone, if_true, Option.some.injEq] at h
    subst h
    refine ⟨List.suffix_refl _, [], [], _, [], rfl, rfl, ?_, Or.inl rfl, by simp, ?_⟩
    · show osif_calls ((dp_rx_is_msdu_done_set env.cfg nbuf.tlv).2 ++ [_, _]) = []
      unfold dp_rx_is_msdu_done_set
      split_ifs <;> simp [osif_calls, Event.is_osif]
    · left
      simp
  · simp only [hdone, if_false, Bool.false_eq_true] at h
    cases hp : env.peer_find_by_id nbuf.peer_id with
    | none =>
      simp only [hp, Option.some.injEq] at h
      subst h
      refine ⟨List.suffix_refl _, [], [], _, [], rfl, rfl, ?_, Or.inl rfl, by simp, ?_⟩
      · show osif_calls (dp_rx_process_msdu_cnt _ _ _ ++ [_, _, _]) = []
        rw [osif_calls_append, dp_rx_process_msdu_cnt_osif]
        simp [osif_calls, Event.is_osif]
      · left
        simp
    | some p =>
      simp only [hp] at h
      cases hfl : dp_rx_process_flush_on_vdev_change env st p with
      | none => simp [hfl] at h
      | some df =>
        obtain ⟨dl, fl⟩ := df
        have hflush := dp_rx_process_flush_on_vdev_change_spec env st p dl fl hfl
        simp only [hfl] at h
        cases hv : (env.peer p).vdev with
        | none =>
          simp only [hv, Option.some.injEq] at h
          subst h
          refine ⟨List.suffix_refl _, _, fl, _, [], rfl, dp_rx_process_msdu_cnt_osif _ _ _, ?_,
            Or.inl rfl, by simp, ?_⟩
          · simp [osif_calls, Event.is_osif]
          · rcases hflush with ⟨h1, h2, h3⟩ | ⟨h1, h2, h3, h4⟩
            · left
              refine ⟨h1, by simp [h2], ?_⟩
              intro hne
              rw [← h3 hne, hv]
            · right
              refine ⟨h1, ?_, ⟨p, h3⟩, by simp [h4]⟩
              rw [hv] at h2
              exact h2
        | some v =>
          simp only [hv] at h
          cases hst : dp_rx_process_decap env rx_pdev
              (if nbuf.rx_chfrag_start = true then nbuf.tid_val else st.tid) st.msdu_len p v
              (DP_RX_TID_SAVE env.cfg nbuf
                (if nbuf.rx_chfrag_start = true then nbuf.tid_val else st.tid)) rest with
          | none => simp [hst] at h
          | some out =>
            obtain ⟨hq, hid, hsuf, hex⟩ := dp_rx_process_decap_ok _ _ _ _ _ _ _ _ _ hst
            rw [DP_RX_TID_SAVE_id] at hid
            simp only [hst, Option.some.injEq] at h
            subst h
            refine ⟨hsuf, _, fl, out.events, out.enqueue.toList, rfl,
              dp_rx_process_msdu_cnt_osif _ _ _, hq, ?_, ?_, ?_⟩
            · cases he : out.enqueue with
              | none => left; rfl
              | some x => right; exact ⟨x, hid x he, rfl⟩
            · intro hx
              refine ⟨?_, p, v, hp, hv, rfl⟩
              have := hex hx
              cases he : out.enqueue with
              | none => exact absurd he this
              | some x => simp
            · rcases hflush with ⟨h1, h2, h3⟩ | ⟨h1, h2, h3, h4⟩
              · left
                refine ⟨h1, by simp [h2], ?_⟩
                intro hne
                rw [← h3 hne, hv]
              · right
                refine ⟨h1, ?_, ⟨p, h3⟩, by simp [h4]⟩
                rw [hv] at h2
                exact h2

/-! ### The second pass: when it runs to its end -/

theorem dp_rx_intrabss_fwd_total (env : Env) (ta tv : Nat) (nbuf : Nbuf)
    (hv : (env.peer ta).vdev = some tv) :
    ∃ out, dp_rx_intrabss_fwd env ta nbuf = some out := by
  unfold dp_rx_intrabss_fwd
  simp only [hv]
  split_ifs
  all_goals try (split)
  all_goals try (split_ifs)
  all_goals try (split)
  all_goals try (split_ifs)
  all_goals exact ⟨_, rfl⟩

theorem dp_rx_process_forward_total (env : Env) (rx_pdev tid msdu_len peer vdev : Nat)
    (nbuf : Nbuf) (next : List Nbuf) (hv : (env.peer peer).vdev = some vdev) :
    ∃ out, dp_rx_process_forward env rx_pdev tid msdu_len peer vdev nbuf next = some out ∧
      out.next = next := by
  obtain ⟨learn, hl, _⟩ := dp_rx_da_learn_spec env peer vdev nbuf hv
  obtain ⟨fo, hfo⟩ := dp_rx_intrabss_fwd_total env peer vdev nbuf hv
  unfold dp_rx_process_forward
  simp only [hl, hfo]
  split_ifs <;> exact ⟨_, rfl, rfl⟩

theorem dp_rx_process_filter_total (env : Env) (rx_pdev tid msdu_len peer vdev : Nat)
    (nbuf : Nbuf) (next : List Nbuf) (hv : (env.peer peer).vdev = some vdev)
    (hpol : ∀ tlv v p, (dp_wds_rx_policy_check env tlv v p).isSome = true) :
    ∃ out, dp_rx_process_filter env rx_pdev tid msdu_len peer vdev nbuf next = some out ∧
      out.next = next := by
  obtain ⟨fo, hfo, hn⟩ := dp_rx_process_forward_total env rx_pdev tid msdu_len peer vdev nbuf next hv
  have hp := hpol nbuf.tlv vdev peer
  cases hpc : dp_wds_rx_policy_check env nbuf.tlv vdev peer with
  | none => simp [hpc] at hp
  | some ok =>
    unfold dp_rx_process_filter dp_rx_process_mesh
    simp only [hpc, hfo]
    split_ifs <;> first | exact ⟨_, rfl, rfl⟩ | exact ⟨_, rfl, hn⟩

theorem dp_rx_process_decap_total (env : Env) (rx_pdev tid msdu_len peer vdev : Nat)
    (nbuf : Nbuf) (rest : List Nbuf) (hv : (env.peer peer).vdev = some vdev)
    (hpol : ∀ tlv v p, (dp_wds_rx_policy_check env tlv v p).isSome = true)
    (hnr : nbuf.is_frag = true ∨ nbuf.raw_frame = false) :
    ∃ out, dp_rx_process_decap env rx_pdev tid msdu_len peer vdev nbuf rest = some out ∧
      out.next = rest := by
  unfold dp_rx_process_decap
  by_cases h1 : nbuf.is_frag = true
  · simp only [h1, if_true]
    exact dp_rx_process_filter_total _ _ _ _ _ _ _ _ hv hpol
  · have h2 : nbuf.raw_frame = false := by
      rcases hnr with h | h
      · exact absurd h h1
      · exact h
    simp only [h1, h2, if_false, Bool.false_eq_true]
    exact dp_rx_process_filter_total _ _ _ _ _ _ _ _ hv hpol

theorem dp_rx_deliver_to_stack_total (env : Env) (v : Nat) (peer : Option Nat)
    (l : List Nbuf) (hl : l ≠ []) :
    ∃ es, dp_rx_deliver_to_stack env (some v) peer l = some es := by
  unfold dp_rx_deliver_to_stack
  simp only
  split_ifs
  · cases l with
    | nil => exact absurd rfl hl
    | cons a b => exact ⟨_, rfl⟩
  · exact ⟨_, rfl⟩
  · exact ⟨_, rfl⟩

theorem dp_rx_process_nbuf_total (env : Env) (rx_pdev : Nat) (st : RxState) (nbuf : Nbuf)
    (rest : List Nbuf)
    (hpol : ∀ tlv v p, (dp_wds_rx_policy_check env tlv v p).isSome = true)
    (hnr : nbuf.is_frag = true ∨ nbuf.raw_frame = false)
    (hinv : st.deliver_list ≠ [] → st.vdev ≠ none) :
    ∃ st1 e, dp_rx_process_nbuf env rx_pdev st nbuf rest = some (st1, rest, e) ∧
      (st1.deliver_list ≠ [] → st1.vdev ≠ none) := by
  unfold dp_rx_process_nbuf
  by_cases hdone : (!(dp_rx_is_msdu_done_set env.cfg
      (DP_RX_TID_SAVE env.cfg nbuf
        (if nbuf.rx_chfrag_start = true then nbuf.tid_val else st.tid)).tlv).1) = true
  · simp only [hdone, if_true]
    exact ⟨_, _, rfl, hinv⟩
  · simp only [hdone, if_false, Bool.false_eq_true]
    cases hp : env.peer_find_by_id
        (DP_RX_TID_SAVE env.cfg nbuf
          (if nbuf.rx_chfrag_start = true then nbuf.tid_val else st.tid)).peer_id with
    | none => exact ⟨_, _, rfl, hinv⟩
    | some p =>
      simp only
      have hflush : ∃ dl fl, dp_rx_process_flush_on_vdev_change env st p = some (dl, fl) ∧
          (dl ≠ [] → (env.peer p).vdev = st.vdev ∧ st.vdev ≠ none) := by
        unfold dp_rx_process_flush_on_vdev_change
        by_cases hc : (!st.deliver_list.isEmpty && (st.vdev != (env.peer p).vdev)) = true
        · simp only [hc, if_true]
          have hne : st.deliver_list ≠ [] := by
            intro h0
            simp [h0] at hc
          cases hsv : st.vdev with
          | none => exact absurd hsv (hinv hne)
          | some v =>
            obtain ⟨es, hes⟩ := dp_rx_deliver_to_stack_total env v (some p) _ hne
            rw [hsv] at hc
            simp only [hes]
            exact ⟨[], es, rfl, fun h => absurd rfl h⟩
        · simp only [hc, if_false, Bool.false_eq_true]
          refine ⟨_, _, rfl, ?_⟩
          intro hne
          simp only [Bool.and_eq_true, Bool.not_eq_true', bne_iff_ne, ne_eq, not_and,
            Decidable.not_not] at hc
          have : st.deliver_list.isEmpty = false := by
            cases hds : st.deliver_list with
            | nil => exact absurd hds hne
            | cons a b => rfl
          exact ⟨(hc this).symm, hinv hne⟩
      obtain ⟨dl, fl, hfl, hdl⟩ := hflush
      simp only [hfl]
      cases hv : (env.peer p).vdev with
      | none =>
        simp only
        refine ⟨_, _, rfl, ?_⟩
        intro hne
        simp only at hne
        have := hdl hne
        rw [hv] at this
        exact absurd this.1.symm this.2
      | some v =>
        simp only
        obtain ⟨out, hout, hnext⟩ := dp_rx_process_decap_total env rx_pdev
          (if nbuf.rx_chfrag_start = true then nbuf.tid_val else st.tid) st.msdu_len p v
          (DP_RX_TID_SAVE env.cfg nbuf
            (if nbuf.rx_chfrag_start = true then nbuf.tid_val else st.tid)) rest hv hpol
          (by
            unfold DP_RX_TID_SAVE
            split <;> exact hnr)
        simp only [hout, hnext]
        exact ⟨_, _, rfl, fun _ => by simp⟩

theorem dp_rx_process_loop_total (env : Env) (rx_pdev : Nat)
    (hpol : ∀ tlv v p, (dp_wds_rx_policy_check env tlv v p).isSome = true) :
    ∀ (l : List Nbuf) (fuel : Nat) (st : RxState),
      l.length ≤ fuel →
      (∀ n ∈ l, n.is_frag = true ∨ n.raw_frame = false) →
      (st.deliver_list ≠ [] → st.vdev ≠ none) →
      ∃ fin, dp_rx_process_loop env rx_pdev fuel st l = some fin ∧
        (fin.deliver_list ≠ [] → fin.vdev ≠ none) := by
  intro l
  induction l with
  | nil =>
    intro fuel st _ _ hinv
    cases fuel <;> exact ⟨st, rfl, hinv⟩
  | cons nbuf rest ih =>
    intro fuel st hlen hnr hinv
    cases fuel with
    | zero => simp at hlen
    | succ fuel =>
      obtain ⟨st1, e, hb, hinv1⟩ := dp_rx_process_nbuf_total env rx_pdev st nbuf rest hpol
        (hnr nbuf (List.mem_cons_self _ _)) hinv
      rw [dp_rx_process_loop, hb]
      exact ih fuel st1 (by simpa using hlen)
        (fun n hn => hnr n (List.mem_cons_of_mem _ hn)) hinv1

theorem dp_rx_process_final_flush_total (env : Env) (st : RxState)
    (hinv : st.deliver_list ≠ [] → st.vdev ≠ none) :
    ∃ fin, dp_rx_process_final_flush env st = some fin := by
  unfold dp_rx_process_final_flush
  by_cases h1 : (!st.deliver_list.isEmpty) = true
  · simp only [h1, if_true]
    have hne : st.deliver_list ≠ [] := by
      intro h0
      simp [h0] at h1
    cases hsv : st.vdev with
    | none => exact absurd hsv (hinv hne)
    | some v =>
      obtain ⟨es, hes⟩ := dp_rx_deliver_to_stack_total env v st.peer _ hne
      simp only [hes]
      exact ⟨_, rfl⟩
  · simp only [h1, if_false, Bool.false_eq_true]
    exact ⟨_, rfl⟩


/-! ### The second pass: order of delivery -/

theorem osif_calls_flatMap_nil (l : List Nbuf) (f : Nbuf → List Event)
    (hf : ∀ n, osif_calls (f n) = []) : osif_calls (l.flatMap f) = [] := by
  induction l with
  | nil => rfl
  | cons n l ih =>
    rw [List.flatMap_cons, osif_calls_append, hf n, ih]
    rfl

theorem dp_rx_deliver_to_stack_sublist (env : Env) (vdev peer : Option Nat) (l : List Nbuf)
    (fl : List Event)
    (hhook : ∀ v p b, ((env.osif_rsim_rx_decap v p b).map Nbuf.id).Sublist (b.map Nbuf.id))
    (h : dp_rx_deliver_to_stack env vdev peer l = some fl) :
    ((all_delivered fl).map Nbuf.id).Sublist (l.map Nbuf.id) := by
  unfold dp_rx_deliver_to_stack at h
  cases vdev with
  | none => simp at h
  | some v =>
    simp only at h
    by_cases h1 : (!(env.vdev v).osif_rx) = true
    · simp only [h1, if_true] at h
      cases l with
      | nil => simp at h
      | cons n l =>
        simp only [Option.some.injEq] at h
        subst h
        rw [all_delivered_of_quiet]
        · simp
        · exact osif_calls_flatMap_nil _ _ (fun n => by simp [osif_calls, Event.is_osif])
    · simp only [h1, if_false, Bool.false_eq_true] at h
      split_ifs at h
      · simp only [Option.some.injEq] at h
        subst h
        simpa [all_delivered] using hhook v peer l
      · simp only [Option.some.injEq] at h
        subst h
        simp [all_delivered]

theorem dp_rx_deliver_to_stack_flushed (env : Env) (v : Nat) (peer : Option Nat)
    (l : List Nbuf) (fl : List Event) (hcb : (env.vdev v).osif_rx = true)
    (h : dp_rx_deliver_to_stack env (some v) peer l = some fl) :
    flushed_in_one_call env v l fl := by
  unfold dp_rx_deliver_to_stack at h
  simp only [hcb, Bool.not_true, Bool.false_eq_true, if_false] at h
  unfold flushed_in_one_call Vdev.rsim_decap
  split_ifs at h ⊢
  · simp only [Option.some.injEq] at h
    subst h
    exact ⟨peer, List.infix_refl _⟩
  · simp only [Option.some.injEq] at h
    subst h
    exact List.infix_refl _

theorem flushed_in_one_call_mono (env : Env) (v : Nat) (batch : List Nbuf)
    (t pre post : List Event) (h : flushed_in_one_call env v batch t) :
    flushed_in_one_call env v batch (pre ++ t ++ post) := by
  have hinf : t <:+: pre ++ t ++ post := ⟨pre, post, rfl⟩
  unfold flushed_in_one_call at h ⊢
  split_ifs at h ⊢
  · obtain ⟨p, hp⟩ := h
    exact ⟨p, hp.trans hinf⟩
  · exact h.trans hinf

theorem iter_delivered_sublist (env : Env) (st : RxState) (nbuf : Nbuf) (rest : List Nbuf)
    (r : RxState × List Nbuf × RxExit)
    (hhook : ∀ v p b, ((env.osif_rsim_rx_decap v p b).map Nbuf.id).Sublist (b.map Nbuf.id))
    (h : IterOk env st nbuf rest r) :
    ((all_delivered r.1.trace ++ r.1.deliver_list).map Nbuf.id).Sublist
      ((all_delivered st.trace ++ st.deliver_list).map Nbuf.id ++ [nbuf.id]) := by
  obtain ⟨_, pre, fl, post, tl, htr, hpre, hpost, htl, _, hcase⟩ := h
  have htl' : (tl.map Nbuf.id).Sublist [nbuf.id] := by
    rcases htl with h0 | ⟨x, hx, h1⟩
    · subst h0
      simp
    · subst h1
      simp [hx]
  rw [htr]
  simp only [all_delivered_append, all_delivered_of_quiet _ hpre, all_delivered_of_quiet _ hpost,
    List.nil_append, List.append_nil, List.map_append]
  rcases hcase with ⟨h1, h2, _⟩ | ⟨_, _, ⟨p, h3⟩, h4⟩
  · subst h1
    rw [h2]
    simp only [all_delivered, List.map_nil, List.append_nil, List.map_append, List.append_assoc]
    exact List.Sublist.append (List.Sublist.refl _)
      (List.Sublist.append (List.Sublist.refl _) htl')
  · rw [h4]
    have hs := dp_rx_deliver_to_stack_sublist env st.vdev (some p) st.deliver_list fl hhook h3
    simp only [List.append_assoc]
    exact List.Sublist.append (List.Sublist.refl _) (List.Sublist.append hs htl')

theorem dp_rx_process_loop_sublist (env : Env) (rx_pdev : Nat)
    (hhook : ∀ v p b, ((env.osif_rsim_rx_decap v p b).map Nbuf.id).Sublist (b.map Nbuf.id)) :
    ∀ (fuel : Nat) (st : RxState) (l : List Nbuf) (fin : RxState),
      dp_rx_process_loop env rx_pdev fuel st l = some fin →
      ((all_delivered fin.trace ++ fin.deliver_list).map Nbuf.id).Sublist
        ((all_delivered st.trace ++ st.deliver_list).map Nbuf.id ++ l.map Nbuf.id) := by
  intro fuel
  induction fuel with
  | zero =>
    intro st l fin h
    cases l with
    | nil =>
      simp only [dp_rx_process_loop, Option.some.injEq] at h
      subst h
      simp
    | cons n l => simp [dp_rx_process_loop] at h
  | succ fuel ih =>
    intro st l fin h
    cases l with
    | nil =>
      simp only [dp_rx_process_loop, Option.some.injEq] at h
      subst h
      simp
    | cons nbuf rest =>
      rw [dp_rx_process_loop] at h
      cases hb : dp_rx_process_nbuf env rx_pdev st nbuf rest with
      | none => simp [hb] at h
      | some r =>
        obtain ⟨st1, next, e⟩ := r
        simp only [hb] at h
        have hok := dp_rx_process_nbuf_ok env rx_pdev st nbuf rest _ hb
        have h1 := iter_delivered_sublist env st nbuf rest _ hhook hok
        have h2 := ih st1 next fin h
        have hsuf : (next.map Nbuf.id).Sublist (rest.map Nbuf.id) :=
          (hok.1.sublist).map Nbuf.id
        refine h2.trans ?_
        have := List.Sublist.append h1 hsuf
        simpa [List.append_assoc] using this

theorem dp_rx_process_final_flush_sublist (env : Env) (st fin : RxState)
    (hhook : ∀ v p b, ((env.osif_rsim_rx_decap v p b).map Nbuf.id).Sublist (b.map Nbuf.id))
    (h : dp_rx_process_final_flush env st = some fin) :
    ((all_delivered fin.trace).map Nbuf.id).Sublist
      ((all_delivered st.trace ++ st.deliver_list).map Nbuf.id) := by
  unfold dp_rx_process_final_flush at h
  by_cases h1 : (!st.deliver_list.isEmpty) = true
  · simp only [h1, if_true] at h
    cases hd : dp_rx_deliver_to_stack env st.vdev st.peer st.deliver_list with
    | none => simp [hd] at h
    | some es =>
      simp only [hd, Option.some.injEq] at h
      subst h
      have hs := dp_rx_deliver_to_stack_sublist env _ _ _ _ hhook hd
      simp only [all_delivered_append, List.map_append]
      exact List.Sublist.append (List.Sublist.refl _) hs
  · simp only [h1, if_false, Bool.false_eq_true, Option.some.injEq] at h
    subst h
    simp

/-- C3: in one second pass of `dp_rx_process` over a reaped batch, for every
vdev, the concatenation in call order of the packet lists passed to the
delivery callback of that vdev is a subsequence of the batch in reaped order
(packets are told apart by buffer identity), provided the raw decapsulation
hook, which is outside this driver, hands back a sublist of what it is given.
The pass does run to its end on every batch without raw frames when the WDS
policy check is defined (the extension is off or every AP vdev lists its BSS
peer). -/
theorem dp_rx_process_delivery_order (env : Env) (rx_pdev : Nat) (nbufs : List Nbuf)
    (hhook : ∀ v p b, ((env.osif_rsim_rx_decap v p b).map Nbuf.id).Sublist (b.map Nbuf.id)) :
    (∀ fin v, dp_rx_process_second_pass env rx_pdev nbufs = some fin →
      ((delivered_to v fin.trace).map Nbuf.id).Sublist (nbufs.map Nbuf.id)) ∧
    ((∀ tlv v p, (dp_wds_rx_policy_check env tlv v p).isSome = true) →
      (∀ n ∈ nbufs, n.is_frag = true ∨ n.raw_frame = false) →
      ∃ fin, dp_rx_process_second_pass env rx_pdev nbufs = some fin) := by
  constructor
  · intro fin v h
    unfold dp_rx_process_second_pass at h
    cases hl : dp_rx_process_loop env rx_pdev nbufs.length rx_state_init nbufs with
    | none => simp [hl] at h
    | some st =>
      simp only [hl] at h
      have h1 := dp_rx_process_loop_sublist env rx_pdev hhook _ _ _ _ hl
      have h2 := dp_rx_process_final_flush_sublist env st fin hhook h
      have h3 := (delivered_to_sublist_all v fin.trace).map Nbuf.id
      have h4 := (h3.trans h2).trans h1
      simpa [rx_state_init, all_delivered] using h4
  · intro hpol hnr
    obtain ⟨st, hst, hinv⟩ := dp_rx_process_loop_total env rx_pdev hpol nbufs nbufs.length
      rx_state_init (Nat.le_refl _) hnr (by simp [rx_state_init])
    obtain ⟨fin, hfin⟩ := dp_rx_process_final_flush_total env st hinv
    exact ⟨fin, by simp only [dp_rx_process_second_pass, hst, hfin]⟩

/-- C3 on a concrete batch in `env0`: frames for vdev 10, vdev 11, vdev 10,
vdev 10 (the fourth one dropped for lack of a peer) are delivered to vdev 10
as buffers 1, 3, 5 in that order. -/
theorem dp_rx_process_delivery_order_witness :
    ((delivered_to 10
        (second_pass_final env0 0 [pkt 1 1, pkt 2 3, pkt 3 2, pkt 4 77, pkt 5 1]).trace).map
        Nbuf.id).Sublist
      ([pkt 1 1, pkt 2 3, pkt 3 2, pkt 4 77, pkt 5 1].map Nbuf.id) ∧
    (delivered_to 10
        (second_pass_final env0 0 [pkt 1 1, pkt 2 3, pkt 3 2, pkt 4 77, pkt 5 1]).trace).map
        Nbuf.id = [1, 3, 5] :=
  ⟨(dp_rx_process_delivery_order env0 0 [pkt 1 1, pkt 2 3, pkt 3 2, pkt 4 77, pkt 5 1]
      (fun _ _ _ => List.Sublist.refl _)).1
      (second_pass_final env0 0 [pkt 1 1, pkt 2 3, pkt 3 2, pkt 4 77, pkt 5 1]) 10
      (by decide),
    by decide⟩

/-! ### The second pass: two consecutive packets of one vdev -/

theorem pair_step (env : Env) (st : RxState) (nbuf : Nbuf) (rest : List Nbuf)
    (r : RxState × List Nbuf × RxExit) (v : Nat) (x y : Nbuf)
    (hcb : (env.vdev v).osif_rx = true)
    (hok : IterOk env st nbuf rest r)
    (hinv : PairPending v x y st ∨ PairFlushed env v x y st.trace) :
    PairPending v x y r.1 ∨ PairFlushed env v x y r.1.trace := by
  obtain ⟨_, pre, fl, post, tl, htr, _, _, _, _, hcase⟩ := hok
  rcases hinv with ⟨hv, a, b, hdl⟩ | ⟨batch, a, b, hb, hfl⟩
  · have hne : st.deliver_list ≠ [] := by
      rw [hdl]
      simp
    rcases hcase with ⟨_, h2, h3⟩ | ⟨_, _, ⟨p, h3⟩, _⟩
    · left
      refine ⟨by rw [h3 hne, hv], a, b ++ tl, ?_⟩
      rw [h2, hdl]
      simp
    · right
      rw [hv] at h3
      have hf := dp_rx_deliver_to_stack_flushed env v (some p) _ fl hcb h3
      refine ⟨st.deliver_list, a, b, hdl, ?_⟩
      rw [htr]
      have := flushed_in_one_call_mono env v st.deliver_list fl (st.trace ++ pre) post hf
      simpa [List.append_assoc] using this
  · right
    refine ⟨batch, a, b, hb, ?_⟩
    rw [htr]
    have := flushed_in_one_call_mono env v batch st.trace [] (pre ++ fl ++ post) hfl
    simpa using this

theorem pair_loop (env : Env) (rx_pdev : Nat) (v : Nat) (x y : Nbuf)
    (hcb : (env.vdev v).osif_rx = true) :
    ∀ (fuel : Nat) (st : RxState) (l : List Nbuf) (fin : RxState),
      dp_rx_process_loop env rx_pdev fuel st l = some fin →
      (PairPending v x y st ∨ PairFlushed env v x y st.trace) →
      (PairPending v x y fin ∨ PairFlushed env v x y fin.trace) := by
  intro fuel
  induction fuel with
  | zero =>
    intro st l fin h hinv
    cases l with
    | nil =>
      simp only [dp_rx_process_loop, Option.some.injEq] at h
      subst h
      exact hinv
    | cons n l => simp [dp_rx_process_loop] at h
  | succ fuel ih =>
    intro st l fin h hinv
    cases l with
    | nil =>
      simp only [dp_rx_process_loop, Option.some.injEq] at h
      subst h
      exact hinv
    | cons nbuf rest =>
      rw [dp_rx_process_loop] at h
      cases hb : dp_rx_process_nbuf env rx_pdev st nbuf rest with
      | none => simp [hb] at h
      | some r =>
        obtain ⟨st1, next, e⟩ := r
        simp only [hb] at h
        have hok := dp_rx_process_nbuf_ok env rx_pdev st nbuf rest _ hb
        exact ih st1 next fin h (pair_step env st nbuf rest _ v x y hcb hok hinv)

theorem pair_final (env : Env) (st fin : RxState) (v : Nat) (x y : Nbuf)
    (hcb : (env.vdev v).osif_rx = true)
    (h : dp_rx_process_final_flush env st = some fin)
    (hinv : PairPending v x y st ∨ PairFlushed env v x y st.trace) :
    PairFlushed env v x y fin.trace := by
  unfold dp_rx_process_final_flush at h
  rcases hinv with ⟨hv, a, b, hdl⟩ | ⟨batch, a, b, hb, hfl⟩
  · have hne : (!st.deliver_list.isEmpty) = true := by
      rw [hdl]
      cases a <;> rfl
    simp only [hne, if_true] at h
    cases hd : dp_rx_deliver_to_stack env st.vdev st.peer st.deliver_list with
    | none => simp [hd] at h
    | some es =>
      simp only [hd, Option.some.injEq] at h
      subst h
      rw [hv] at hd
      have hf := dp_rx_deliver_to_stack_flushed env v _ _ es hcb hd
      refine ⟨st.deliver_list, a, b, hdl, ?_⟩
      have := flushed_in_one_call_mono env v st.deliver_list es st.trace [] hf
      simpa using this
  · refine ⟨batch, a, b, hb, ?_⟩
    split_ifs at h
    · cases hd : dp_rx_deliver_to_stack env st.vdev st.peer st.deliver_list with
      | none => simp [hd] at h
      | some es =>
        simp only [hd, Option.some.injEq] at h
        subst h
        have := flushed_in_one_call_mono env v batch st.trace [] es hfl
        simpa using this
    · simp only [Option.some.injEq] at h
      subst h
      exact hfl

/-- C2, as stated, fails on a vdev without delivery callback: in `env0` the
frames 3 and 4 from peer 4 are consecutive, both survive classification and
both resolve to vdev 12, which has no `osif_rx`; the pass ends without any
callback call and frees both buffers. -/
theorem dp_rx_process_no_callback_no_deliver_call :
    (dp_rx_process_nbuf env0 0 rx_state_init (pkt 3 4) [pkt 4 4]).map (fun r => r.2)
        = some ([pkt 4 4], RxExit.enqueued) ∧
      (dp_rx_process_nbuf env0 0 (state_after env0 0 rx_state_init (pkt 3 4) [pkt 4 4])
          (pkt 4 4) []).map (fun r => r.2) = some ([], RxExit.enqueued) ∧
      env0.peer_find_by_id (pkt 3 4).peer_id = some 4 ∧
      env0.peer_find_by_id (pkt 4 4).peer_id = some 4 ∧
      (env0.peer 4).vdev = some 12 ∧
      (dp_rx_process_second_pass env0 0 [pkt 3 4, pkt 4 4]).map
          (fun st => (osif_calls st.trace, free_calls st.trace))
        = some ([], [Event.nbuf_free 3 false, Event.nbuf_free 4 false]) := by
  decide

/-- C2, amended: when two packets are consecutive in the second pass of
`dp_rx_process` (the iteration on the first continues with the second), the
iterations on both finish by enqueueing, their peers are bound to the same
vdev and that vdev has a delivery callback registered, then once the pass has
run to completion both packets have been handed over in one and the same
flush, next to each other with the earlier one first: one `osif_rx` call on
the batch that holds them, preceded on a raw or native-wifi vdev by the
decapsulation hook on that batch.  The pass does run to completion when the
rest of the batch holds no raw frame and the WDS policy check is defined. -/
theorem dp_rx_process_same_vdev_one_flush (env : Env) (rx_pdev : Nat)
    (st st1 st2 : RxState) (P1 P2 : Nbuf) (rest1 rest2 next2 : List Nbuf)
    (p1 p2 V : Nat)
    (h1 : dp_rx_process_nbuf env rx_pdev st P1 rest1 = some (st1, P2 :: rest2, RxExit.enqueued))
    (h2 : dp_rx_process_nbuf env rx_pdev st1 P2 rest2 = some (st2, next2, RxExit.enqueued))
    (hp1 : env.peer_find_by_id P1.peer_id = some p1) (hV1 : (env.peer p1).vdev = some V)
    (hp2 : env.peer_find_by_id P2.peer_id = some p2) (hV2 : (env.peer p2).vdev = some V)
    (hcb : (env.vdev V).osif_rx = true) :
    (∀ fuel st3 fin, dp_rx_process_loop env rx_pdev fuel st2 next2 = some st3 →
      dp_rx_process_final_flush env st3 = some fin →
      ∃ batch a b x y, batch = a ++ x :: y :: b ∧ x.id = P1.id ∧ y.id = P2.id ∧
        flushed_in_one_call env V batch fin.trace) ∧
    ((∀ tlv v p, (dp_wds_rx_policy_check env tlv v p).isSome = true) →
      (∀ n ∈ next2, n.is_frag = true ∨ n.raw_frame = false) →
      ∃ st3 fin, dp_rx_process_loop env rx_pdev next2.length st2 next2 = some st3 ∧
        dp_rx_process_final_flush env st3 = some fin) := by
  obtain ⟨_, pre1, fl1, post1, tl1, _, _, _, htl1, hx1, hc1⟩ :=
    dp_rx_process_nbuf_ok env rx_pdev st P1 rest1 _ h1
  obtain ⟨_, pre2, fl2, post2, tl2, _, _, _, htl2, hx2, hc2⟩ :=
    dp_rx_process_nbuf_ok env rx_pdev st1 P2 rest2 _ h2
  obtain ⟨hne1, q1, v1, hq1, hv1, hs1⟩ := hx1 rfl
  obtain ⟨hne2, q2, v2, hq2, hv2, hs2⟩ := hx2 rfl
  simp only at hs1 hs2 hc1 hc2
  rw [hp1] at hq1
  rw [hp2] at hq2
  cases hq1
  cases hq2
  rw [hV1] at hv1
  rw [hV2] at hv2
  cases hv1
  cases hv2
  constructor
  · intro fuel st3 fin hloop hfin
    obtain ⟨x, hxid, hx⟩ : ∃ x, x.id = P1.id ∧ tl1 = [x] := by
      rcases htl1 with h0 | h
      · exact absurd h0 hne1
      · exact h
    obtain ⟨y, hyid, hy⟩ : ∃ y, y.id = P2.id ∧ tl2 = [y] := by
      rcases htl2 with h0 | h
      · exact absurd h0 hne2
      · exact h
    subst hx hy
    have hd1 : ∃ a, st1.deliver_list = a ++ [x] := by
      rcases hc1 with ⟨_, h, _⟩ | ⟨_, _, _, h⟩
      · exact ⟨_, h⟩
      · exact ⟨[], h⟩
    obtain ⟨a, ha⟩ := hd1
    have hd2 : st2.deliver_list = a ++ x :: y :: [] := by
      rcases hc2 with ⟨_, h, _⟩ | ⟨_, hne, _, _⟩
      · rw [h, ha]
        simp
      · rw [hs1, hs2] at hne
        exact absurd rfl hne
    have hpend : PairPending V x y st2 := ⟨hs2, a, [], hd2⟩
    have h3 := pair_loop env rx_pdev V x y hcb fuel st2 next2 st3 hloop (Or.inl hpend)
    obtain ⟨batch, a', b', hb, hf⟩ := pair_final env st3 fin V x y hcb hfin h3
    exact ⟨batch, a', b', x, y, hb, hxid, hyid, hf⟩
  · intro hpol hnr
    obtain ⟨st3, hst3, hinv⟩ := dp_rx_process_loop_total env rx_pdev hpol next2 next2.length
      st2 (Nat.le_refl _) hnr (fun _ => by rw [hs2]; simp)
    obtain ⟨fin, hfin⟩ := dp_rx_process_final_flush_total env st3 hinv
    exact ⟨st3, fin, hst3, hfin⟩

/-- C2, amended, on a concrete batch in `env0`: frames 1 and 2 from peers 1 and
2 of vdev 10, followed by a frame for the mesh vdev 11, whose arrival flushes
them together. -/
theorem dp_rx_process_same_vdev_one_flush_witness :
    ∃ batch a b x y, batch = a ++ x :: y :: b ∧ x.id = (pkt 1 1).id ∧ y.id = (pkt 2 2).id ∧
      flushed_in_one_call env0 10 batch
        (second_pass_final env0 0 [pkt 1 1, pkt 2 2, pkt 3 3]).trace :=
  (dp_rx_process_same_vdev_one_flush env0 0 rx_state_init
    (state_after env0 0 rx_state_init (pkt 1 1) [pkt 2 2, pkt 3 3])
    (state_after env0 0 (state_after env0 0 rx_state_init (pkt 1 1) [pkt 2 2, pkt 3 3])
      (pkt 2 2) [pkt 3 3])
    (pkt 1 1) (pkt 2 2) [pkt 2 2, pkt 3 3] [pkt 3 3] [pkt 3 3] 1 2 10
    (by decide) (by decide) (by decide) (by decide) (by decide) (by decide) (by decide)).1
    1
    (state_after env0 0
      (state_after env0 0 (state_after env0 0 rx_state_init (pkt 1 1) [pkt 2 2, pkt 3 3])
        (pkt 2 2) [pkt 3 3])
      (pkt 3 3) [])
    (second_pass_final env0 0 [pkt 1 1, pkt 2 2, pkt 3 3])
    (by decide) (by decide)

/-! ### The replenisher: conservation of descriptors, retries -/

theorem dp_rx_buffers_replenish_publish_cons (owner : Nat) (hand : List RxDesc)
    (st : FillState) (nbuf paddr : Nat) (hinv : FillCons hand st) :
    FillCons hand (dp_rx_buffers_replenish_publish owner st nbuf paddr).1 := by
  obtain ⟨⟨used, hu, hc⟩, hin⟩ := hinv
  unfold dp_rx_buffers_replenish_publish
  by_cases hfree : st.ring_free = 0
  · simp only [hfree, if_true]
    exact ⟨⟨used, hu, hc⟩, hin⟩
  · simp only [hfree, if_false]
    cases hd : st.desc_list with
    | nil =>
      simp only
      refine ⟨⟨used, ?_, hc⟩, hin⟩
      rw [hu, hd]
    | cons d next =>
      by_cases hiu : (dp_rx_desc_prep d nbuf).in_use = true
      · simp only [hiu, if_true]
        refine ⟨⟨used, ?_, hc⟩, hin⟩
        rw [hu, hd]
      · simp only [hiu, if_false, Bool.false_eq_true]
        refine ⟨⟨used ++ [d], ?_, ?_⟩, ?_⟩
        · rw [hu, hd]
          simp
        · simp only [List.map_append, hc, List.map_cons, List.map_nil]
          rfl
        · intro p hp
          simp only [List.mem_append, List.mem_singleton] at hp
          rcases hp with hp | hp
          · exact hin p hp
          · rw [hp]

theorem dp_rx_buffers_replenish_fill_cons (owner num_req : Nat) (hand : List RxDesc) :
    ∀ (atts : List AllocAttempt) (st : FillState), FillCons hand st →
      FillCons hand (dp_rx_buffers_replenish_fill owner num_req atts st).1 := by
  intro atts
  induction atts with
  | nil =>
    intro st hinv
    unfold dp_rx_buffers_replenish_fill
    split <;> exact hinv
  | cons a rest ih =>
    intro st hinv
    unfold dp_rx_buffers_replenish_fill
    by_cases hc : st.count < num_req
    · simp only [hc, if_true]
      cases a with
      | alloc_fail => exact hinv
      | map_fail nbuf => exact ih _ hinv
      | mapped nbuf paddr x86 =>
        cases x86 with
        | give_up => exact hinv
        | keep =>
          simp only
          have hp := dp_rx_buffers_replenish_publish_cons owner hand
            { st with mapped := st.mapped ++ [(nbuf, paddr)] } nbuf paddr hinv
          rcases hres : dp_rx_buffers_replenish_publish owner
            { st with mapped := st.mapped ++ [(nbuf, paddr)] } nbuf paddr with ⟨st2, oe⟩
          rw [hres] at hp
          cases oe with
          | none => exact ih st2 hp
          | some e => exact hp
        | replaced nbuf1 paddr1 =>
          simp only
          have hp := dp_rx_buffers_replenish_publish_cons owner hand
            { st with mapped := (st.mapped ++ [(nbuf, paddr)]).erase (nbuf, paddr) ++
                        [(nbuf1, paddr1)],
                      freed := st.freed ++ [nbuf] } nbuf1 paddr1 hinv
          rcases hres : dp_rx_buffers_replenish_publish owner
            { st with mapped := (st.mapped ++ [(nbuf, paddr)]).erase (nbuf, paddr) ++
                        [(nbuf1, paddr1)],
                      freed := st.freed ++ [nbuf] } nbuf1 paddr1 with ⟨st2, oe⟩
          rw [hres] at hp
          cases oe with
          | none => exact ih st2 hp
          | some e => exact hp
    · simp only [hc, if_false]
      exact hinv

/-- C11: in a call of `dp_rx_buffers_replenish` that gets past the ring check
and returns, the descriptors in hand (the caller's list, or the prefix taken
off the free list of the pool) are conserved: they split into the ones
consumed (`used`), whose cookies are the published cookies in ring order and
which are published with `in_use` set, and the ones handed back (`returned`),
which are linked in front of what was left in the free list of the pool.  So
published plus handed back equals in hand, and published plus free afterwards
equals free plus caller-supplied before, whatever way the fill loop ended. -/
theorem dp_rx_buffers_replenish_conserves (cfg : RxCfg) (inp : ReplenishIn) (srng : Srng)
    (hs : inp.hal_srng = some srng)
    (hret : (dp_rx_buffers_replenish cfg inp).status ≠ none) :
    ∃ used returned base,
      (dp_rx_buffers_replenish cfg inp).in_hand = used ++ returned ∧
      (dp_rx_buffers_replenish cfg inp).published.map (fun p => p.desc.cookie)
        = used.map RxDesc.cookie ∧
      (∀ p ∈ (dp_rx_buffers_replenish cfg inp).published, p.desc.in_use = true) ∧
      (dp_rx_buffers_replenish cfg inp).free_list = returned ++ base ∧
      (inp.desc_list = [] →
        inp.free_list = (dp_rx_buffers_replenish cfg inp).in_hand ++ base) ∧
      (inp.desc_list ≠ [] →
        (dp_rx_buffers_replenish cfg inp).in_hand = inp.desc_list ∧ base = inp.free_list) ∧
      (dp_rx_buffers_replenish cfg inp).published.length + returned.length
        = (dp_rx_buffers_replenish cfg inp).in_hand.length ∧
      (dp_rx_buffers_replenish cfg inp).published.length
          + (dp_rx_buffers_replenish cfg inp).free_list.length
        = inp.free_list.length + inp.desc_list.length := by
  revert hret
  simp only [dp_rx_buffers_replenish, hs]
  generalize dp_rx_buffers_replenish_num_req inp.desc_list.isEmpty srng.num_entries
    srng.num_avail inp.num_req_buffers = r
  by_cases h0 : r.1 = 0
  · simp only [h0, if_true]
    intro _
    by_cases hd : inp.desc_list = []
    · refine ⟨[], [], inp.free_list, ?_⟩
      simp [hd, dp_rx_add_desc_list_to_free_list]
    · refine ⟨[], inp.desc_list, inp.free_list, ?_⟩
      simp [hd, dp_rx_add_desc_list_to_free_list]
      omega
  · simp only [h0, if_false]
    by_cases he : inp.desc_list.isEmpty = true
    · have hd : inp.desc_list = [] := List.isEmpty_iff.mp he
      simp only [he, Bool.true_and, if_true]
      by_cases hg : (dp_rx_get_free_desc_list inp.free_list r.1).1.isEmpty = true
      · simp only [hg, if_true]
        intro _
        refine ⟨[], [], inp.free_list, ?_⟩
        simp [hd]
      · simp only [hg, Bool.false_eq_true, if_false]
        have hcons := dp_rx_buffers_replenish_fill_cons inp.owner
          (dp_rx_get_free_desc_list inp.free_list r.1).1.length
          (dp_rx_get_free_desc_list inp.free_list r.1).1 inp.attempts
          { count := 0, desc_list := (dp_rx_get_free_desc_list inp.free_list r.1).1,
            ring_free := srng.num_avail, published := [], mapped := [], freed := [],
            stats := ReplenishStats.zero }
          ⟨⟨[], by simp, by simp⟩, by simp⟩
        obtain ⟨⟨used, hu, hc⟩, hin⟩ := hcons
        have hsplit : inp.free_list = (dp_rx_get_free_desc_list inp.free_list r.1).1 ++
            (dp_rx_get_free_desc_list inp.free_list r.1).2 := by
          simp [dp_rx_get_free_desc_list]
        have hlen := congrArg List.length hu
        have hlen2 := congrArg List.length hc
        have hlen3 := congrArg List.length hsplit
        simp only [List.length_append, List.length_map] at hlen hlen2 hlen3
        split <;> intro hret
        all_goals first
          | exact absurd rfl hret
          | refine ⟨used, _, (dp_rx_get_free_desc_list inp.free_list r.1).2, hu, hc, hin, rfl,
              fun _ => hsplit, fun h => absurd hd h, ?_, ?_⟩
            · dsimp only
              omega
            · dsimp only [dp_rx_add_desc_list_to_free_list]
              simp only [List.length_append, hd, List.length_nil]
              omega
    · have hE : inp.desc_list.isEmpty = false := Bool.eq_false_iff.mpr he
      have hd : inp.desc_list ≠ [] := fun h => he (List.isEmpty_iff.mpr h)
      simp only [hE, Bool.false_and, Bool.false_eq_true, if_false]
      have hcons := dp_rx_buffers_replenish_fill_cons inp.owner r.1 inp.desc_list inp.attempts
        { count := 0, desc_list := inp.desc_list,
          ring_free := srng.num_avail, published := [], mapped := [], freed := [],
          stats := ReplenishStats.zero }
        ⟨⟨[], by simp, by simp⟩, by simp⟩
      obtain ⟨⟨used, hu, hc⟩, hin⟩ := hcons
      have hlen := congrArg List.length hu
      have hlen2 := congrArg List.length hc
      simp only [List.length_append, List.length_map] at hlen hlen2
      split <;> intro hret
      all_goals first
        | exact absurd rfl hret
        | refine ⟨used, _, inp.free_list, hu, hc, hin, rfl,
            fun h => absurd h hd, fun _ => ⟨rfl, rfl⟩, ?_, ?_⟩
          · dsimp only
            omega
          · dsimp only [dp_rx_add_desc_list_to_free_list]
            simp only [List.length_append]
            omega

/-- C11 on the request `replenish_in_alloc_fail`, where the allocator fails
after one buffer: one descriptor is published, two go back to the pool. -/
theorem dp_rx_buffers_replenish_conserves_witness :
    ∃ used returned base,
      (dp_rx_buffers_replenish cfg0 replenish_in_alloc_fail).in_hand = used ++ returned ∧
      (dp_rx_buffers_replenish cfg0 replenish_in_alloc_fail).published.map
          (fun p => p.desc.cookie) = used.map RxDesc.cookie ∧
      (∀ p ∈ (dp_rx_buffers_replenish cfg0 replenish_in_alloc_fail).published,
        p.desc.in_use = true) ∧
      (dp_rx_buffers_replenish cfg0 replenish_in_alloc_fail).free_list = returned ++ base ∧
      (replenish_in_alloc_fail.desc_list = [] →
        replenish_in_alloc_fail.free_list
          = (dp_rx_buffers_replenish cfg0 replenish_in_alloc_fail).in_hand ++ base) ∧
      (replenish_in_alloc_fail.desc_list ≠ [] →
        (dp_rx_buffers_replenish cfg0 replenish_in_alloc_fail).in_hand
            = replenish_in_alloc_fail.desc_list ∧
          base = replenish_in_alloc_fail.free_list) ∧
      (dp_rx_buffers_replenish cfg0 replenish_in_alloc_fail).published.length + returned.length
        = (dp_rx_buffers_replenish cfg0 replenish_in_alloc_fail).in_hand.length ∧
      (dp_rx_buffers_replenish cfg0 replenish_in_alloc_fail).published.length
          + (dp_rx_buffers_replenish cfg0 replenish_in_alloc_fail).free_list.length
        = replenish_in_alloc_fail.free_list.length
          + replenish_in_alloc_fail.desc_list.length :=
  dp_rx_buffers_replenish_conserves cfg0 replenish_in_alloc_fail
    { num_entries := 1024, num_avail := 3 } (by decide) (by decide)

theorem dp_rx_buffers_replenish_publish_count (owner : Nat) (st : FillState) (nbuf paddr : Nat) :
    (dp_rx_buffers_replenish_publish owner st nbuf paddr).1.stats = st.stats ∧
    (dp_rx_buffers_replenish_publish owner st nbuf paddr).1.count = st.count + 1 ∧
    (dp_rx_buffers_replenish_publish owner st nbuf paddr).2 ≠ some FillExit.running := by
  unfold dp_rx_buffers_replenish_publish
  by_cases hfree : st.ring_free = 0
  · simp [hfree]
  · simp only [hfree, if_false]
    cases hd : st.desc_list with
    | nil => simp
    | cons d next =>
      by_cases hiu : (dp_rx_desc_prep d nbuf).in_use = true
      · simp [hiu]
      · simp [hiu]

theorem dp_rx_buffers_replenish_fill_not_running (owner num_req : Nat) :
    ∀ (atts : List AllocAttempt) (st : FillState),
      num_req - st.count ≤ (atts.filter (fun a => !a.map_failed)).length →
      (dp_rx_buffers_replenish_fill owner num_req atts st).2 ≠ FillExit.running ∧
      (dp_rx_buffers_replenish_fill owner num_req atts st).1.stats.map_err
        ≤ st.stats.map_err + (atts.filter AllocAttempt.map_failed).length := by
  intro atts
  induction atts with
  | nil =>
    intro st h
    simp only [List.filter_nil, List.length_nil, Nat.le_zero, Nat.sub_eq_zero_iff_le] at h
    unfold dp_rx_buffers_replenish_fill
    have : ¬ st.count < num_req := by omega
    simp [this]
  | cons a rest ih =>
    intro st h
    unfold dp_rx_buffers_replenish_fill
    by_cases hc : st.count < num_req
    · simp only [hc, if_true]
      cases a with
      | alloc_fail => simp
      | map_fail nbuf =>
        have h2 := ih { st with freed := st.freed ++ [nbuf],
                                stats := { st.stats with map_err := st.stats.map_err + 1 } }
          (by simpa [AllocAttempt.map_failed] using h)
        refine ⟨h2.1, ?_⟩
        have := h2.2
        simp only [List.filter_cons, AllocAttempt.map_failed, if_true, List.length_cons] at this ⊢
        omega
      | mapped nbuf paddr x86 =>
        cases x86 with
        | give_up => simp
        | keep =>
          simp only
          have hp := dp_rx_buffers_replenish_publish_count owner
            { st with mapped := st.mapped ++ [(nbuf, paddr)] } nbuf paddr
          rcases hres : dp_rx_buffers_replenish_publish owner
            { st with mapped := st.mapped ++ [(nbuf, paddr)] } nbuf paddr with ⟨st2, oe⟩
          rw [hres] at hp
          obtain ⟨hp1, hp2, hp3⟩ := hp
          simp only at hp1 hp2 hp3
          cases oe with
          | none =>
            simp only
            have hf : (List.filter (fun a => !a.map_failed)
                (AllocAttempt.mapped nbuf paddr X86Check.keep :: rest)).length
                = (List.filter (fun a => !a.map_failed) rest).length + 1 := rfl
            rw [hf] at h
            have h2 := ih st2 (by omega)
            refine ⟨h2.1, ?_⟩
            have := h2.2
            simp only [List.filter_cons, AllocAttempt.map_failed, Bool.false_eq_true,
              if_false] at this ⊢
            rw [hp1] at this
            exact this
          | some e =>
            simp only
            refine ⟨fun he => hp3 (by rw [he]), ?_⟩
            rw [hp1]
            simp
        | replaced nbuf1 paddr1 =>
          simp only
          have hp := dp_rx_buffers_replenish_publish_count owner
            { st with mapped := (st.mapped ++ [(nbuf, paddr)]).erase (nbuf, paddr) ++
                        [(nbuf1, paddr1)],
                      freed := st.freed ++ [nbuf] } nbuf1 paddr1
          rcases hres : dp_rx_buffers_replenish_publish owner
            { st with mapped := (st.mapped ++ [(nbuf, paddr)]).erase (nbuf, paddr) ++
                        [(nbuf1, paddr1)],
                      freed := st.freed ++ [nbuf] } nbuf1 paddr1 with ⟨st2, oe⟩
          rw [hres] at hp
          obtain ⟨hp1, hp2, hp3⟩ := hp
          simp only at hp1 hp2 hp3
          cases oe with
          | none =>
            simp only
            have hf : (List.filter (fun a => !a.map_failed)
                (AllocAttempt.mapped nbuf paddr (X86Check.replaced nbuf1 paddr1) :: rest)).length
                = (List.filter (fun a => !a.map_failed) rest).length + 1 := rfl
            rw [hf] at h
            have h2 := ih st2 (by omega)
            refine ⟨h2.1, ?_⟩
            have := h2.2
            simp only [List.filter_cons, AllocAttempt.map_failed, Bool.false_eq_true,
              if_false] at this ⊢
            rw [hp1] at this
            exact this
          | some e =>
            simp only
            refine ⟨fun he => hp3 (by rw [he]), ?_⟩
            rw [hp1]
            simp
    · simp [hc]

theorem dp_rx_buffers_replenish_fill_map_fail (owner num_req nbuf : Nat) :
    ∀ (n : Nat) (st : FillState), st.count < num_req →
      (dp_rx_buffers_replenish_fill owner num_req
          (List.replicate n (AllocAttempt.map_fail nbuf)) st).2 = FillExit.running ∧
      (dp_rx_buffers_replenish_fill owner num_req
          (List.replicate n (AllocAttempt.map_fail nbuf)) st).1.stats.map_err
        = st.stats.map_err + n ∧
      (dp_rx_buffers_replenish_fill owner num_req
          (List.replicate n (AllocAttempt.map_fail nbuf)) st).1.published = st.published := by
  intro n
  induction n with
  | zero =>
    intro st hc
    simp [dp_rx_buffers_replenish_fill, hc]
  | succ n ih =>
    intro st hc
    rw [List.replicate_succ, dp_rx_buffers_replenish_fill]
    simp only [hc, if_true]
    have h2 := ih { st with freed := st.freed ++ [nbuf],
                            stats := { st.stats with map_err := st.stats.map_err + 1 } } hc
    refine ⟨h2.1, ?_, h2.2.2⟩
    rw [h2.2.1]
    simp only
    omega

/-- C12, as stated, fails on a mapping that keeps failing: in the request
`replenish_in0` with eight failed mappings as the only answers the call is
still in its fill loop, and after any number `n` of failed mappings the fill
loop (three descriptors in hand, three free slots) is still running, has
retried `n` times and has published nothing. -/
theorem dp_rx_buffers_replenish_map_fail_retried_forever :
    (dp_rx_buffers_replenish cfg0
        { replenish_in0 with attempts := List.replicate 8 (AllocAttempt.map_fail 100) }).status
      = none ∧
    (dp_rx_buffers_replenish cfg0
        { replenish_in0 with attempts := List.replicate 8 (AllocAttempt.map_fail 100) }).fill_exit
      = some FillExit.running ∧
    ∀ n,
      (dp_rx_buffers_replenish_fill 7 3 (List.replicate n (AllocAttempt.map_fail 100))
          (fill_start [desc0 1, desc0 2, desc0 3] 3)).2 = FillExit.running ∧
      (dp_rx_buffers_replenish_fill 7 3 (List.replicate n (AllocAttempt.map_fail 100))
          (fill_start [desc0 1, desc0 2, desc0 3] 3)).1.stats.map_err = n ∧
      (dp_rx_buffers_replenish_fill 7 3 (List.replicate n (AllocAttempt.map_fail 100))
          (fill_start [desc0 1, desc0 2, desc0 3] 3)).1.published = [] := by
  refine ⟨by decide, by decide, ?_⟩
  intro n
  have h := dp_rx_buffers_replenish_fill_map_fail 7 3 100 n
    (fill_start [desc0 1, desc0 2, desc0 3] 3) (by decide)
  refine ⟨h.1, ?_, h.2.2⟩
  rw [h.2.1]
  simp [fill_start, ReplenishStats.zero]

theorem dp_rx_buffers_replenish_publish_step (owner : Nat) (st : FillState) (nbuf paddr : Nat) :
    (dp_rx_buffers_replenish_publish owner st nbuf paddr).1.freed = st.freed ∧
    ((dp_rx_buffers_replenish_publish owner st nbuf paddr).2 = none →
      (dp_rx_buffers_replenish_publish owner st nbuf paddr).1.published.length
        = st.published.length + 1 ∧
      (dp_rx_buffers_replenish_publish owner st nbuf paddr).1.ring_free + 1 = st.ring_free ∧
      ∃ d, st.desc_list = d :: (dp_rx_buffers_replenish_publish owner st nbuf paddr).1.desc_list) ∧
    (st.ring_free ≠ 0 → ∀ d rest, st.desc_list = d :: rest → d.in_use = false →
      (dp_rx_buffers_replenish_publish owner st nbuf paddr).2 = none) ∧
    (∀ e, (dp_rx_buffers_replenish_publish owner st nbuf paddr).2 = some e →
      e = FillExit.assert_ring_entry ∨ e = FillExit.null_desc ∨ e = FillExit.assert_in_use) := by
  unfold dp_rx_buffers_replenish_publish
  by_cases hfree : st.ring_free = 0
  · simp [hfree]
  · simp only [hfree, if_false]
    cases hd : st.desc_list with
    | nil => simp
    | cons d next =>
      by_cases hiu : (dp_rx_desc_prep d nbuf).in_use = true
      · have hiu2 : d.in_use = true := hiu
        simp [hiu, hiu2]
      · have hpos : 0 < st.ring_free := Nat.pos_of_ne_zero hfree
        simp [hiu]
        omega

theorem getLast?_cons_of_some {α : Type} (a x : α) (l : List α) (h : l.getLast? = some x) :
    (a :: l).getLast? = some x := by
  cases l with
  | nil => simp at h
  | cons b l => rw [List.getLast?_cons_cons]; exact h

theorem dp_rx_buffers_replenish_fill_trace_publish (owner num_req : Nat) (a : AllocAttempt)
    (rest : List AllocAttempt) (st stX : FillState) (nb pa : Nat)
    (ha : a.map_failed = false)
    (hnone : ∀ l st2, dp_rx_buffers_replenish_publish owner stX nb pa = (st2, none) →
      dp_rx_buffers_replenish_fill owner num_req (a :: l) st
        = dp_rx_buffers_replenish_fill owner num_req l st2)
    (hsome : ∀ l st2 e, dp_rx_buffers_replenish_publish owner stX nb pa = (st2, some e) →
      dp_rx_buffers_replenish_fill owner num_req (a :: l) st = (st2, e))
    (hcnt : stX.count = st.count) (hstats : stX.stats = st.stats)
    (hpub : stX.published = st.published) (hfreed : ∀ x, x ∈ st.freed → x ∈ stX.freed)
    (ih : ∀ (st : FillState),
      num_req - st.count ≤ (rest.filter (fun a => !a.map_failed)).length →
      ∃ used rest2, rest = used ++ rest2 ∧
        dp_rx_buffers_replenish_fill owner num_req rest st
          = dp_rx_buffers_replenish_fill owner num_req used st ∧
        FillStops num_req st used (dp_rx_buffers_replenish_fill owner num_req rest st))
    (h : num_req - st.count ≤ ((a :: rest).filter (fun a => !a.map_failed)).length) :
    ∃ used rest2, a :: rest = used ++ rest2 ∧
      dp_rx_buffers_replenish_fill owner num_req (a :: rest) st
        = dp_rx_buffers_replenish_fill owner num_req used st ∧
      FillStops num_req st used (dp_rx_buffers_replenish_fill owner num_req (a :: rest) st) := by
  have hp := dp_rx_buffers_replenish_publish_count owner stX nb pa
  have hq := dp_rx_buffers_replenish_publish_step owner stX nb pa
  have hfa : ((a :: rest).filter (fun a => !a.map_failed)).length
      = (rest.filter (fun a => !a.map_failed)).length + 1 := by
    simp [List.filter_cons, ha]
  have hfm : ∀ l : List AllocAttempt, (a :: l).filter AllocAttempt.map_failed
      = l.filter AllocAttempt.map_failed := by
    intro l
    simp [List.filter_cons, ha]
  have hnm : ∀ n, a ≠ AllocAttempt.map_fail n := by
    intro n hn
    rw [hn] at ha
    simp [AllocAttempt.map_failed] at ha
  rcases hres : dp_rx_buffers_replenish_publish owner stX nb pa with ⟨st2, oe⟩
  rw [hres] at hp hq
  obtain ⟨hp1, hp2, hp3⟩ := hp
  obtain ⟨hq1, hq2, _, hq4⟩ := hq
  simp only at hp1 hp2 hp3 hq1 hq2 hq4
  cases oe with
  | none =>
    have hstep2 : ∀ l, dp_rx_buffers_replenish_fill owner num_req (a :: l) st
        = dp_rx_buffers_replenish_fill owner num_req l st2 := by
      intro l
      exact hnone l st2 hres
    obtain ⟨hlen, _, _⟩ := hq2 rfl
    obtain ⟨used, rest2, hsplit, heq, hstop⟩ := ih st2 (by omega)
    obtain ⟨s1, s2, s3, s4, s5, s6, s7, s8, s9⟩ := hstop
    refine ⟨a :: used, rest2, by rw [hsplit]; rfl, ?_, ?_⟩
    · rw [hstep2, hstep2, heq]
    · rw [hstep2]
      refine ⟨s1, s2, ?_, ?_, ?_, ?_, ?_, ?_, ?_⟩
      · intro he
        exact getLast?_cons_of_some _ _ _ (s3 he)
      · intro he
        obtain ⟨n, p, hn⟩ := s4 he
        exact ⟨n, p, getLast?_cons_of_some _ _ _ hn⟩
      · intro he
        have := s5 he
        rw [hpub] at hlen
        omega
      · rw [s6, hfm, hp1, hstats]
      · intro x hx
        exact s7 x (by rw [hq1]; exact hfreed x hx)
      · intro n hn
        rcases List.mem_cons.mp hn with hh | hh
        · exact absurd hh.symm (hnm n)
        · exact s8 n hh
      · intro i n hi
        cases i with
        | zero =>
          simp only [List.getElem?_cons_zero, Option.some.injEq] at hi
          exact absurd hi (hnm n)
        | succ j =>
          simp only [List.getElem?_cons_succ] at hi
          have := s9 j n hi
          simp only [List.length_cons]
          omega
  | some e =>
    have hstep2 : ∀ l, dp_rx_buffers_replenish_fill owner num_req (a :: l) st = (st2, e) := by
      intro l
      exact hsome l st2 e hres
    have hass := hq4 e rfl
    refine ⟨[a], rest, rfl, ?_, ?_⟩
    · rw [hstep2, hstep2]
    · rw [hstep2]
      refine ⟨fun he => hp3 (congrArg some he), ?_, ?_, ?_, ?_, ?_, ?_, ?_, ?_⟩
      · intro he
        rcases hass with h1 | h1 | h1 <;> rw [h1] at he <;> cases he
      · intro he
        rcases hass with h1 | h1 | h1 <;> rw [h1] at he <;> cases he
      · intro he
        rcases hass with h1 | h1 | h1 <;> rw [h1] at he <;> cases he
      · intro he
        rcases hass with h1 | h1 | h1 <;> rw [h1] at he <;> rcases he with he | he | he <;>
          cases he
      · rw [hfm, hp1, hstats]
        simp
      · intro x hx
        rw [hq1]
        exact hfreed x hx
      · intro n hn
        exact absurd (List.mem_singleton.mp hn).symm (hnm n)
      · intro i n hi
        cases i with
        | zero =>
          simp only [List.getElem?_cons_zero, Option.some.injEq] at hi
          exact absurd hi (hnm n)
        | succ j => simp at hi

theorem dp_rx_buffers_replenish_fill_trace (owner num_req : Nat) :
    ∀ (atts : List AllocAttempt) (st : FillState),
      num_req - st.count ≤ (atts.filter (fun a => !a.map_failed)).length →
      ∃ used rest, atts = used ++ rest ∧
        dp_rx_buffers_replenish_fill owner num_req atts st
          = dp_rx_buffers_replenish_fill owner num_req used st ∧
        FillStops num_req st used (dp_rx_buffers_replenish_fill owner num_req atts st) := by
  intro atts
  induction atts with
  | nil =>
    intro st h
    have hc : ¬ st.count < num_req := by
      simp only [List.filter_nil, List.length_nil, Nat.le_zero, Nat.sub_eq_zero_iff_le] at h
      omega
    refine ⟨[], [], rfl, rfl, ?_⟩
    simp only [dp_rx_buffers_replenish_fill, hc, if_false]
    exact ⟨by simp, fun _ => Nat.le_of_not_lt hc, by simp, by simp, fun _ => rfl, by simp,
      fun x hx => hx, by simp, by simp⟩
  | cons a rest ih =>
    intro st h
    by_cases hc : st.count < num_req
    · cases a with
      | alloc_fail =>
        refine ⟨[AllocAttempt.alloc_fail], rest, rfl, ?_, ?_⟩
        · simp only [dp_rx_buffers_replenish_fill, hc, if_true]
        · simp only [dp_rx_buffers_replenish_fill, hc, if_true]
          exact ⟨by simp, by simp, fun _ => rfl, by simp, fun _ => rfl,
            by simp [AllocAttempt.map_failed], fun x hx => hx, by simp,
            fun i n hi => by cases i <;> simp at hi⟩
      | map_fail nbuf =>
        obtain ⟨used, rest2, hsplit, heq, hstop⟩ :=
          ih { st with freed := st.freed ++ [nbuf],
                       stats := { st.stats with map_err := st.stats.map_err + 1 } }
            (by simpa [AllocAttempt.map_failed] using h)
        have hstep : ∀ l, dp_rx_buffers_replenish_fill owner num_req
            (AllocAttempt.map_fail nbuf :: l) st
            = dp_rx_buffers_replenish_fill owner num_req l
              { st with freed := st.freed ++ [nbuf],
                        stats := { st.stats with map_err := st.stats.map_err + 1 } } := by
          intro l
          rw [dp_rx_buffers_replenish_fill]
          simp only [hc, if_true]
        have hne : used ≠ [] := by
          intro hnil
          rw [hnil] at heq
          have hrun := hstop.1
          rw [heq] at hrun
          simp [dp_rx_buffers_replenish_fill, hc] at hrun
        obtain ⟨s1, s2, s3, s4, s5, s6, s7, s8, s9⟩ := hstop
        refine ⟨AllocAttempt.map_fail nbuf :: used, rest2, by rw [hsplit]; rfl, ?_, ?_⟩
        · rw [hstep, hstep, heq]
        · rw [hstep]
          refine ⟨s1, s2, ?_, ?_, s5, ?_, ?_, ?_, ?_⟩
          · intro he
            exact getLast?_cons_of_some _ _ _ (s3 he)
          · intro he
            obtain ⟨n, p, hn⟩ := s4 he
            exact ⟨n, p, getLast?_cons_of_some _ _ _ hn⟩
          · rw [s6]
            have hf : (List.filter AllocAttempt.map_failed
                (AllocAttempt.map_fail nbuf :: used)).length
                = (List.filter AllocAttempt.map_failed used).length + 1 := rfl
            rw [hf]
            dsimp only
            omega
          · intro x hx
            exact s7 x (List.mem_append_left _ hx)
          · intro n hn
            rcases List.mem_cons.mp hn with hh | hh
            · cases hh
              exact s7 _ (List.mem_append_right _ (List.mem_singleton.mpr rfl))
            · exact s8 n hh
          · intro i n hi
            cases i with
            | zero =>
              have : 0 < used.length := List.length_pos.mpr hne
              simp only [List.length_cons]
              omega
            | succ j =>
              simp only [List.getElem?_cons_succ] at hi
              have := s9 j n hi
              simp only [List.length_cons]
              omega
      | mapped nbuf paddr x86 =>
        cases x86 with
        | give_up =>
          refine ⟨[AllocAttempt.mapped nbuf paddr X86Check.give_up], rest, rfl, ?_, ?_⟩
          · simp only [dp_rx_buffers_replenish_fill, hc, if_true]
          · simp only [dp_rx_buffers_replenish_fill, hc, if_true]
            exact ⟨by simp, by simp, by simp, fun _ => ⟨nbuf, paddr, rfl⟩, fun _ => rfl,
              by simp [AllocAttempt.map_failed],
              fun x hx => List.mem_append_left _ hx, by simp,
              fun i n hi => by cases i <;> simp at hi⟩
        | keep =>
          exact dp_rx_buffers_replenish_fill_trace_publish owner num_req _ rest st
            { st with mapped := st.mapped ++ [(nbuf, paddr)] } nbuf paddr rfl
            (fun l st2 hres => by
              rw [dp_rx_buffers_replenish_fill]
              simp only [hc, if_true, hres])
            (fun l st2 e hres => by
              rw [dp_rx_buffers_replenish_fill]
              simp only [hc, if_true, hres])
            rfl rfl rfl (fun x hx => hx) ih h
        | replaced nbuf1 paddr1 =>
          exact dp_rx_buffers_replenish_fill_trace_publish owner num_req _ rest st
            { st with mapped := (st.mapped ++ [(nbuf, paddr)]).erase (nbuf, paddr) ++
                        [(nbuf1, paddr1)],
                      freed := st.freed ++ [nbuf] } nbuf1 paddr1 rfl
            (fun l st2 hres => by
              rw [dp_rx_buffers_replenish_fill]
              simp only [hc, if_true, hres])
            (fun l st2 e hres => by
              rw [dp_rx_buffers_replenish_fill]
              simp only [hc, if_true, hres])
            rfl rfl rfl (fun x hx => List.mem_append_left _ hx) ih h
    · refine ⟨[], a :: rest, rfl, ?_, ?_⟩
      · simp only [dp_rx_buffers_replenish_fill, hc, if_false]
      · simp only [dp_rx_buffers_replenish_fill, hc, if_false]
        exact ⟨by simp, fun _ => Nat.le_of_not_lt hc, by simp, by simp, fun _ => rfl, by simp,
          fun x hx => hx, by simp, by simp⟩

theorem dp_rx_buffers_replenish_fill_no_assert_publish (owner num_req : Nat) (a : AllocAttempt)
    (rest : List AllocAttempt) (st stX : FillState) (nb pa : Nat)
    (hnone : ∀ st2, dp_rx_buffers_replenish_publish owner stX nb pa = (st2, none) →
      dp_rx_buffers_replenish_fill owner num_req (a :: rest) st
        = dp_rx_buffers_replenish_fill owner num_req rest st2)
    (hcnt : stX.count = st.count) (hfree : stX.ring_free = st.ring_free)
    (hdl : stX.desc_list = st.desc_list) (hc : st.count < num_req)
    (ih : ∀ (st : FillState), num_req - st.count ≤ st.ring_free →
      num_req - st.count ≤ st.desc_list.length → (∀ d ∈ st.desc_list, d.in_use = false) →
      (dp_rx_buffers_replenish_fill owner num_req rest st).2 ≠ FillExit.assert_ring_entry ∧
      (dp_rx_buffers_replenish_fill owner num_req rest st).2 ≠ FillExit.null_desc ∧
      (dp_rx_buffers_replenish_fill owner num_req rest st).2 ≠ FillExit.assert_in_use)
    (h1 : num_req - st.count ≤ st.ring_free)
    (h2 : num_req - st.count ≤ st.desc_list.length)
    (h3 : ∀ d ∈ st.desc_list, d.in_use = false) :
    (dp_rx_buffers_replenish_fill owner num_req (a :: rest) st).2 ≠ FillExit.assert_ring_entry ∧
    (dp_rx_buffers_replenish_fill owner num_req (a :: rest) st).2 ≠ FillExit.null_desc ∧
    (dp_rx_buffers_replenish_fill owner num_req (a :: rest) st).2 ≠ FillExit.assert_in_use := by
  have hp := dp_rx_buffers_replenish_publish_count owner stX nb pa
  have hq := dp_rx_buffers_replenish_publish_step owner stX nb pa
  cases hd : st.desc_list with
  | nil =>
    rw [hd] at h2
    simp only [List.length_nil] at h2
    omega
  | cons d tl =>
    have hok := hq.2.2.1 (by rw [hfree]; omega) d tl (by rw [hdl, hd])
      (h3 d (by rw [hd]; exact List.mem_cons_self _ _))
    rcases hres : dp_rx_buffers_replenish_publish owner stX nb pa with ⟨st2, oe⟩
    rw [hres] at hp hq hok
    simp only at hok
    subst hok
    obtain ⟨_, hp2, _⟩ := hp
    obtain ⟨_, hq2, _, _⟩ := hq
    obtain ⟨_, hrf, d2, hd2⟩ := hq2 rfl
    simp only at hp2 hrf hd2
    rw [hnone st2 hres]
    have htl : st2.desc_list = tl := by
      rw [hdl, hd] at hd2
      exact (List.cons.inj hd2).2.symm
    refine ih st2 (by omega) ?_ ?_
    · rw [htl]
      rw [hd] at h2
      simp only [List.length_cons] at h2
      omega
    · intro x hx
      rw [htl] at hx
      exact h3 x (by rw [hd]; exact List.mem_cons_of_mem _ hx)

theorem dp_rx_buffers_replenish_fill_no_assert (owner num_req : Nat) :
    ∀ (atts : List AllocAttempt) (st : FillState),
      num_req - st.count ≤ st.ring_free → num_req - st.count ≤ st.desc_list.length →
      (∀ d ∈ st.desc_list, d.in_use = false) →
      (dp_rx_buffers_replenish_fill owner num_req atts st).2 ≠ FillExit.assert_ring_entry ∧
      (dp_rx_buffers_replenish_fill owner num_req atts st).2 ≠ FillExit.null_desc ∧
      (dp_rx_buffers_replenish_fill owner num_req atts st).2 ≠ FillExit.assert_in_use := by
  intro atts
  induction atts with
  | nil =>
    intro st _ _ _
    simp only [dp_rx_buffers_replenish_fill]
    split <;> simp
  | cons a rest ih =>
    intro st h1 h2 h3
    by_cases hc : st.count < num_req
    · cases a with
      | alloc_fail =>
        simp only [dp_rx_buffers_replenish_fill, hc, if_true]
        simp
      | map_fail nbuf =>
        rw [dp_rx_buffers_replenish_fill]
        simp only [hc, if_true]
        exact ih _ h1 h2 h3
      | mapped nbuf paddr x86 =>
        cases x86 with
        | give_up =>
          simp only [dp_rx_buffers_replenish_fill, hc, if_true]
          simp
        | keep =>
          exact dp_rx_buffers_replenish_fill_no_assert_publish owner num_req _ rest st
            { st with mapped := st.mapped ++ [(nbuf, paddr)] } nbuf paddr
            (fun st2 hres => by
              rw [dp_rx_buffers_replenish_fill]
              simp only [hc, if_true, hres])
            rfl rfl rfl hc ih h1 h2 h3
        | replaced nbuf1 paddr1 =>
          exact dp_rx_buffers_replenish_fill_no_assert_publish owner num_req _ rest st
            { st with mapped := (st.mapped ++ [(nbuf, paddr)]).erase (nbuf, paddr) ++
                        [(nbuf1, paddr1)],
                      freed := st.freed ++ [nbuf] } nbuf1 paddr1
            (fun st2 hres => by
              rw [dp_rx_buffers_replenish_fill]
              simp only [hc, if_true, hres])
            rfl rfl rfl hc ih h1 h2 h3
    · simp only [dp_rx_buffers_replenish_fill, hc, if_false]
      simp

/-- C12, amended: run against answers of the allocator and the DMA layer that
hold at least as many answers other than a failed mapping as buffers remain to
be filled, the fill loop of `dp_rx_buffers_replenish` stops after consuming a
prefix `used` of the answers, without asking for a further one.  It stops
with the request filled (`count` has reached the number requested), on a
failed allocation or on `check_x86_paddr` giving up (the last answer
consumed), and in these cases every buffer counted was published; or it stops
on a failed assertion, which does not happen when the free ring slots and the
descriptors in hand, none of them in use, are at least the buffers to fill.
Every failed mapping consumed adds one to `replenish.map_err`, has its buffer
freed and is followed by a new allocation; nothing but the answers bounds
these retries. -/
theorem dp_rx_buffers_replenish_fill_stops (owner num_req : Nat) (atts : List AllocAttempt)
    (st : FillState)
    (h : num_req - st.count ≤ (atts.filter (fun a => !a.map_failed)).length) :
    ∃ used rest, atts = used ++ rest ∧
      dp_rx_buffers_replenish_fill owner num_req atts st
        = dp_rx_buffers_replenish_fill owner num_req used st ∧
      (dp_rx_buffers_replenish_fill owner num_req atts st).2 ≠ FillExit.running ∧
      ((dp_rx_buffers_replenish_fill owner num_req atts st).2 = FillExit.done →
        num_req ≤ (dp_rx_buffers_replenish_fill owner num_req atts st).1.count) ∧
      ((dp_rx_buffers_replenish_fill owner num_req atts st).2 = FillExit.nbuf_alloc_fail →
        used.getLast? = some AllocAttempt.alloc_fail) ∧
      ((dp_rx_buffers_replenish_fill owner num_req atts st).2 = FillExit.x86_fail →
        ∃ n p, used.getLast? = some (AllocAttempt.mapped n p X86Check.give_up)) ∧
      ((dp_rx_buffers_replenish_fill owner num_req atts st).2 = FillExit.done ∨
        (dp_rx_buffers_replenish_fill owner num_req atts st).2 = FillExit.nbuf_alloc_fail ∨
        (dp_rx_buffers_replenish_fill owner num_req atts st).2 = FillExit.x86_fail →
        (dp_rx_buffers_replenish_fill owner num_req atts st).1.published.length + st.count
          = st.published.length + (dp_rx_buffers_replenish_fill owner num_req atts st).1.count) ∧
      (num_req - st.count ≤ st.ring_free → num_req - st.count ≤ st.desc_list.length →
        (∀ d ∈ st.desc_list, d.in_use = false) →
        (dp_rx_buffers_replenish_fill owner num_req atts st).2 = FillExit.done ∨
        (dp_rx_buffers_replenish_fill owner num_req atts st).2 = FillExit.nbuf_alloc_fail ∨
        (dp_rx_buffers_replenish_fill owner num_req atts st).2 = FillExit.x86_fail) ∧
      (dp_rx_buffers_replenish_fill owner num_req atts st).1.stats.map_err
        = st.stats.map_err + (used.filter AllocAttempt.map_failed).length ∧
      (∀ n, AllocAttempt.map_fail n ∈ used →
        n ∈ (dp_rx_buffers_replenish_fill owner num_req atts st).1.freed) ∧
      (∀ i n, used[i]? = some (AllocAttempt.map_fail n) → i + 1 < used.length) := by
  obtain ⟨used, rest, hsplit, heq, s1, s2, s3, s4, s5, s6, _, s8, s9⟩ :=
    dp_rx_buffers_replenish_fill_trace owner num_req atts st h
  refine ⟨used, rest, hsplit, heq, s1, s2, s3, s4, s5, ?_, s6, s8, s9⟩
  intro h1 h2 h3
  obtain ⟨a1, a2, a3⟩ := dp_rx_buffers_replenish_fill_no_assert owner num_req atts st h1 h2 h3
  cases he : (dp_rx_buffers_replenish_fill owner num_req atts st).2 with
  | running => exact absurd he s1
  | done => exact Or.inl rfl
  | nbuf_alloc_fail => exact Or.inr (Or.inl rfl)
  | x86_fail => exact Or.inr (Or.inr rfl)
  | assert_ring_entry => exact absurd he a1
  | null_desc => exact absurd he a2
  | assert_in_use => exact absurd he a3

/-- C12, amended, on the answers of `replenish_in0`: one failed mapping, then
three mapped buffers for three descriptors. -/
theorem dp_rx_buffers_replenish_fill_stops_witness :
    ∃ used rest, replenish_in0.attempts = used ++ rest ∧
      dp_rx_buffers_replenish_fill 7 3 replenish_in0.attempts
          (fill_start [desc0 1, desc0 2, desc0 3] 3)
        = dp_rx_buffers_replenish_fill 7 3 used (fill_start [desc0 1, desc0 2, desc0 3] 3) ∧
      (dp_rx_buffers_replenish_fill 7 3 replenish_in0.attempts
          (fill_start [desc0 1, desc0 2, desc0 3] 3)).2 ≠ FillExit.running ∧
      ((dp_rx_buffers_replenish_fill 7 3 replenish_in0.attempts
          (fill_start [desc0 1, desc0 2, desc0 3] 3)).2 = FillExit.done →
        3 ≤ (dp_rx_buffers_replenish_fill 7 3 replenish_in0.attempts
          (fill_start [desc0 1, desc0 2, desc0 3] 3)).1.count) ∧
      ((dp_rx_buffers_replenish_fill 7 3 replenish_in0.attempts
          (fill_start [desc0 1, desc0 2, desc0 3] 3)).2 = FillExit.nbuf_alloc_fail →
        used.getLast? = some AllocAttempt.alloc_fail) ∧
      ((dp_rx_buffers_replenish_fill 7 3 replenish_in0.attempts
          (fill_start [desc0 1, desc0 2, desc0 3] 3)).2 = FillExit.x86_fail →
        ∃ n p, used.getLast? = some (AllocAttempt.mapped n p X86Check.give_up)) ∧
      ((dp_rx_buffers_replenish_fill 7 3 replenish_in0.attempts
          (fill_start [desc0 1, desc0 2, desc0 3] 3)).2 = FillExit.done ∨
        (dp_rx_buffers_replenish_fill 7 3 replenish_in0.attempts
          (fill_start [desc0 1, desc0 2, desc0 3] 3)).2 = FillExit.nbuf_alloc_fail ∨
        (dp_rx_buffers_replenish_fill 7 3 replenish_in0.attempts
          (fill_start [desc0 1, desc0 2, desc0 3] 3)).2 = FillExit.x86_fail →
        (dp_rx_buffers_replenish_fill 7 3 replenish_in0.attempts
            (fill_start [desc0 1, desc0 2, desc0 3] 3)).1.published.length
            + (fill_start [desc0 1, desc0 2, desc0 3] 3).count
          = (fill_start [desc0 1, desc0 2, desc0 3] 3).published.length
            + (dp_rx_buffers_replenish_fill 7 3 replenish_in0.attempts
              (fill_start [desc0 1, desc0 2, desc0 3] 3)).1.count) ∧
      (3 - (fill_start [desc0 1, desc0 2, desc0 3] 3).count
          ≤ (fill_start [desc0 1, desc0 2, desc0 3] 3).ring_free →
        3 - (fill_start [desc0 1, desc0 2, desc0 3] 3).count
          ≤ (fill_start [desc0 1, desc0 2, desc0 3] 3).desc_list.length →
        (∀ d ∈ (fill_start [desc0 1, desc0 2, desc0 3] 3).desc_list, d.in_use = false) →
        (dp_rx_buffers_replenish_fill 7 3 replenish_in0.attempts
          (fill_start [desc0 1, desc0 2, desc0 3] 3)).2 = FillExit.done ∨
        (dp_rx_buffers_replenish_fill 7 3 replenish_in0.attempts
          (fill_start [desc0 1, desc0 2, desc0 3] 3)).2 = FillExit.nbuf_alloc_fail ∨
        (dp_rx_buffers_replenish_fill 7 3 replenish_in0.attempts
          (fill_start [desc0 1, desc0 2, desc0 3] 3)).2 = FillExit.x86_fail) ∧
      (dp_rx_buffers_replenish_fill 7 3 replenish_in0.attempts
          (fill_start [desc0 1, desc0 2, desc0 3] 3)).1.stats.map_err
        = (fill_start [desc0 1, desc0 2, desc0 3] 3).stats.map_err
          + (used.filter AllocAttempt.map_failed).length ∧
      (∀ n, AllocAttempt.map_fail n ∈ used →
        n ∈ (dp_rx_buffers_replenish_fill 7 3 replenish_in0.attempts
          (fill_start [desc0 1, desc0 2, desc0 3] 3)).1.freed) ∧
      (∀ i n, used[i]? = some (AllocAttempt.map_fail n) → i + 1 < used.length) :=
  dp_rx_buffers_replenish_fill_stops 7 3 replenish_in0.attempts
    (fill_start [desc0 1, desc0 2, desc0 3] 3) (by decide)

/-! ### The WDS receive policy, delivery without callback -/

theorem fail_cnt_incs_append (r : FailCnt) (a b : List Event) :
    fail_cnt_incs r (a ++ b) = fail_cnt_incs r a + fail_cnt_incs r b := by
  induction a with
  | nil => simp [fail_cnt_incs]
  | cons e a ih =>
    cases e with
    | stats_inc c n =>
      cases c <;> simp [fail_cnt_incs, ih, Nat.add_assoc]
    | _ => simp [fail_cnt_incs, ih]

theorem delivered_to_stack_decs_append (a b : List Event) :
    delivered_to_stack_decs (a ++ b) = delivered_to_stack_decs a + delivered_to_stack_decs b := by
  induction a with
  | nil => simp [delivered_to_stack_decs]
  | cons e a ih =>
    cases e with
    | stats_dec c =>
      cases c <;> simp [delivered_to_stack_decs, ih, Nat.add_assoc]
    | _ => simp [delivered_to_stack_decs, ih]

/-- C16: `dp_rx_deliver_to_stack` on a non-empty list for a vdev without
`osif_rx` frees every packet of the list, once and in list order, bumps
`fail_cnt[INVALID_PEER_VDEV]` once per packet and takes `delivered_to_stack`
down once per packet (each in the TID row of the packet), and calls neither
the decapsulation hook nor `osif_rx` (nor `dp_tx_send`). -/
theorem dp_rx_deliver_to_stack_no_callback (env : Env) (v : Nat) (peer : Option Nat)
    (nbufs : List Nbuf)
    (hne : nbufs ≠ [])
    (hcb : (env.vdev v).osif_rx = false) :
    ∃ es, dp_rx_deliver_to_stack env (some v) peer nbufs = some es ∧
      free_calls es = nbufs.map (fun n => Event.nbuf_free n.id false) ∧
      fail_cnt_incs FailCnt.INVALID_PEER_VDEV es = nbufs.length ∧
      delivered_to_stack_decs es = nbufs.length ∧
      osif_calls es = [] ∧
      tx_calls es = [] := by
  cases nbufs with
  | nil => exact absurd rfl hne
  | cons n l =>
    simp only [dp_rx_deliver_to_stack, hcb, Bool.not_false, if_true]
    refine ⟨_, rfl, ?_⟩
    generalize n :: l = xs
    induction xs with
    | nil => simp [free_calls, fail_cnt_incs, delivered_to_stack_decs, osif_calls, tx_calls]
    | cons x xs ih =>
      obtain ⟨h1, h2, h3, h4, h5⟩ := ih
      rw [List.flatMap_cons]
      refine ⟨?_, ?_, ?_, ?_, ?_⟩
      · rw [free_calls_append, h1]
        simp [free_calls, Event.is_free]
      · rw [fail_cnt_incs_append, h2]
        simp [fail_cnt_incs]
        omega
      · rw [delivered_to_stack_decs_append, h3]
        simp [delivered_to_stack_decs]
        omega
      · rw [osif_calls_append, h4]
        simp [osif_calls, Event.is_osif]
      · rw [tx_calls_append, h5]
        simp [tx_calls, Event.is_tx]

/-- C13: with the WDS vendor extension compiled in, on an AP vdev whose BSS
peer has the WDS receive filter enabled, for a peer that is not WDS-enabled
`dp_wds_rx_policy_check` accepts a frame exactly when its to-DS bit is set and
its from-DS bit is clear. -/
theorem dp_wds_rx_policy_check_non_wds (env : Env) (tlv : RxTlv) (vdev peer b : Nat)
    (hbuild : env.cfg.WDS_VENDOR_EXTENSION = true)
    (hap : (env.vdev vdev).opmode = wlan_op_mode.wlan_op_mode_ap)
    (hbss : (env.vdev vdev).peer_list.find? (fun h => (env.peer h).bss_peer) = some b)
    (hfilter : (env.peer b).wds_ecm.wds_rx_filter = true)
    (hpeer : (env.peer peer).wds_enabled = false) :
    dp_wds_rx_policy_check env tlv vdev peer = some (tlv.to_ds && !tlv.fr_ds) := by
  simp only [dp_wds_rx_policy_check, hbuild, hap, hbss, hfilter, hpeer]
  cases tlv.to_ds <;> cases tlv.fr_ds <;> simp

/-- C13 at a concrete frame: the to-DS frame from the non-WDS peer 2 on vdev 10
of `env_wds`. -/
theorem dp_wds_rx_policy_check_non_wds_witness :
    dp_wds_rx_policy_check env_wds { tlv0 with to_ds := true } 10 2
      = some (({ tlv0 with to_ds := true } : RxTlv).to_ds &&
          !({ tlv0 with to_ds := true } : RxTlv).fr_ds) :=
  dp_wds_rx_policy_check_non_wds env_wds { tlv0 with to_ds := true } 10 2 9
    (by decide) (by decide) (by decide) (by decide) (by decide)

theorem dp_wds_rx_policy_check_wds (env : Env) (tlv : RxTlv) (vdev peer b : Nat)
    (hbuild : env.cfg.WDS_VENDOR_EXTENSION = true)
    (hap : (env.vdev vdev).opmode = wlan_op_mode.wlan_op_mode_ap)
    (hbss : (env.vdev vdev).peer_list.find? (fun h => (env.peer h).bss_peer) = some b)
    (hfilter : (env.peer b).wds_ecm.wds_rx_filter = true)
    (hpeer : (env.peer peer).wds_enabled = true) :
    dp_wds_rx_policy_check env tlv vdev peer =
      some ((tlv.fr_ds && tlv.to_ds) ==
        (if tlv.da_is_mcbc then (env.peer b).wds_ecm.wds_rx_mcast_4addr
         else (env.peer b).wds_ecm.wds_rx_ucast_4addr)) := by
  simp only [dp_wds_rx_policy_check, hbuild, hap, hbss, hfilter, hpeer]
  cases tlv.to_ds <;> cases tlv.fr_ds <;> cases tlv.da_is_mcbc <;>
    cases (env.peer b).wds_ecm.wds_rx_mcast_4addr <;>
    cases (env.peer b).wds_ecm.wds_rx_ucast_4addr <;> simp

/-- C14 fails on the code: on the AP vdev 10 of `env_wds` (filter enabled, both
4-address policy bits 0) and the WDS-enabled peer 1, `dp_wds_rx_policy_check`
accepts the unicast frame with direction `01` (to-DS only) and the one with
direction `00`, and the multicast frame with direction `01`, where the `accept`
column of the table in the function says 0. -/
theorem dp_wds_rx_policy_check_table_mismatch :
    env_wds.cfg.WDS_VENDOR_EXTENSION = true ∧
    (env_wds.vdev 10).opmode = wlan_op_mode.wlan_op_mode_ap ∧
    (env_wds.vdev 10).peer_list.find? (fun h => (env_wds.peer h).bss_peer) = some 9 ∧
    (env_wds.peer 9).wds_ecm
      = { wds_rx_filter := true, wds_rx_ucast_4addr := false, wds_rx_mcast_4addr := false } ∧
    (env_wds.peer 1).wds_enabled = true ∧
    dp_wds_rx_policy_check env_wds { tlv0 with fr_ds := false, to_ds := true } 10 1
      = some true ∧
    wds_rx_policy_table true false true false = false ∧
    dp_wds_rx_policy_check env_wds { tlv0 with fr_ds := false, to_ds := false } 10 1
      = some true ∧
    wds_rx_policy_table true false false false = false ∧
    dp_wds_rx_policy_check env_wds
        { tlv0 with fr_ds := false, to_ds := true, da_is_mcbc := true } 10 1
      = some true := by
  decide

/-- C16 on the two frames of peer 4 queued for vdev 12 of `env0`, which has no
delivery callback. -/
theorem dp_rx_deliver_to_stack_no_callback_witness :
    ∃ es, dp_rx_deliver_to_stack env0 (some 12) (some 4) [pkt 3 4, pkt 4 4] = some es ∧
      free_calls es = [pkt 3 4, pkt 4 4].map (fun n => Event.nbuf_free n.id false) ∧
      fail_cnt_incs FailCnt.INVALID_PEER_VDEV es = [pkt 3 4, pkt 4 4].length ∧
      delivered_to_stack_decs es = [pkt 3 4, pkt 4 4].length ∧
      osif_calls es = [] ∧
      tx_calls es = [] :=
  dp_rx_deliver_to_stack_no_callback env0 12 (some 4) [pkt 3 4, pkt 4 4] (by decide)
    (by decide)

/-! ### Intra-BSS forwarding of a fragmented frame -/

/-- C20, as stated, fails when `qdf_nbuf_linearize` fails: in
`env_linearize_fail` the fragmented unicast frame from peer 1 to peer 2 (same
vdev 10, not a BSS peer) makes `dp_rx_intrabss_fwd` return false after the
failed linearisation, nothing is freed, the forwarding step enqueues the
frame, and the second pass delivers it to vdev 10. -/
theorem dp_rx_intrabss_fwd_linearize_fail_not_forwarded :
    pkt_ucast.da_valid = true ∧ pkt_ucast.da_mcbc = false ∧
    env_linearize_fail.ast_table pkt_ucast.tlv.da_idx
      = some { type_is_DA := false, peer := some 2 } ∧
    (env_linearize_fail.peer 2).vdev = (env_linearize_fail.peer 1).vdev ∧
    (env_linearize_fail.peer 2).bss_peer = false ∧
    env_linearize_fail.qdf_nbuf_linearize_ok
      (nbuf_cb_clear { pkt_ucast with is_frag := true }) = false ∧
    (dp_rx_intrabss_fwd env_linearize_fail 1 { pkt_ucast with is_frag := true }).map
        (fun out => (out.fwd, out.events))
      = some (false, [Event.nbuf_linearize 1 false]) ∧
    (dp_rx_process_forward env_linearize_fail 0 0 100 1 10
        { pkt_ucast with is_frag := true } []).map
        (fun so => (so.exit, so.enqueue.map Nbuf.id, free_calls so.events))
      = some (RxExit.enqueued, some 1, []) ∧
    (dp_rx_process_second_pass env_linearize_fail 0 [pkt_ucast_frag]).map
        (fun st => (free_calls st.trace, (delivered_to 10 st.trace).map Nbuf.id))
      = some ([], [1]) := by
  decide

/-- C20, amended: for a fragmented unicast frame that `dp_rx_intrabss_fwd` sets
out to forward (valid destination, AST entry not of type DA resolving to
another non-BSS peer of the same vdev).  When linearisation succeeds and
`qdf_nbuf_unshare` fails, the frame is gone (consumed by the failed unshare),
the failure is counted in `rx.intra_bss.fail`, nothing is handed to
`dp_tx_send`, the function returns true and `dp_rx_process` ends the iteration
without enqueueing.  When `qdf_nbuf_linearize` itself fails the function
returns false without freeing or sending anything and `dp_rx_process` appends
the frame, its control block cleared, to the deliver list. -/
theorem dp_rx_intrabss_fwd_frag_failure (env : Env) (rx_pdev tid msdu_len ta tv B : Nat)
    (ast : AstEntry) (nbuf : Nbuf) (next : List Nbuf)
    (hv : (env.peer ta).vdev = some tv)
    (hda : nbuf.da_valid = true)
    (hmc : nbuf.da_mcbc = false)
    (hast : env.ast_table nbuf.tlv.da_idx = some ast)
    (htype : ast.type_is_DA = false)
    (hB : ast.peer = some B)
    (hne : B ≠ ta)
    (hsame : (env.peer B).vdev = some tv)
    (hBbss : (env.peer B).bss_peer = false)
    (hfrag : nbuf.is_frag = true)
    (heth : (env.vdev tv).rx_decap_type = htt_cmn_pkt_type.htt_cmn_pkt_type_ethernet)
    (hnm : (env.vdev tv).mesh_vdev = false)
    (hidx : is_sa_da_idx_valid env nbuf = true)
    (hbr : dp_rx_check_ap_bridge env.cfg (env.vdev tv) = true) :
    (env.qdf_nbuf_linearize_ok (nbuf_cb_clear nbuf) = true →
      env.qdf_nbuf_unshare_ok (nbuf_cb_clear nbuf) = false →
      (∃ out, dp_rx_intrabss_fwd env ta nbuf = some out ∧ out.fwd = true ∧
        tx_calls out.events = [] ∧
        counter_incs (Counter.peer_rx_intra_bss_fail ta) out.events = 1) ∧
      ∃ so, dp_rx_process_forward env rx_pdev tid msdu_len ta tv nbuf next = some so ∧
        so.exit = RxExit.intrabss_fwd ∧ so.enqueue = none ∧ so.next = next ∧
        tx_calls so.events = [] ∧ osif_calls so.events = []) ∧
    (env.qdf_nbuf_linearize_ok (nbuf_cb_clear nbuf) = false →
      (∃ out, dp_rx_intrabss_fwd env ta nbuf = some out ∧ out.fwd = false ∧
        tx_calls out.events = [] ∧ free_calls out.events = []) ∧
      ∃ so, dp_rx_process_forward env rx_pdev tid msdu_len ta tv nbuf next = some so ∧
        so.exit = RxExit.enqueued ∧
        so.enqueue = some { nbuf_cb_clear nbuf with peer_local_id := (env.peer ta).local_id } ∧
        so.next = next ∧
        tx_calls so.events = [] ∧ free_calls so.events = [] ∧ osif_calls so.events = []) := by
  obtain ⟨learn, hlearn, hl1, hl2, hl3⟩ := dp_rx_da_learn_spec env ta tv nbuf hv
  constructor
  · intro hlin hun
    have hfwd : dp_rx_intrabss_fwd env ta nbuf = some
        ⟨true, nbuf_cb_clear nbuf, [Event.nbuf_linearize nbuf.id true,
          Event.nbuf_unshare nbuf.id false,
          Event.stats_inc_pkt (Counter.peer_rx_intra_bss_fail ta) 1 nbuf.pkt_len,
          Event.stats_inc (Counter.tid_fail_cnt (env.vdev tv).pdev nbuf.tid_val
            FailCnt.INTRABSS_DROP) 1]⟩ := by
      unfold dp_rx_intrabss_fwd
      simp [hv, hda, hmc, hast, htype, hB, hsame, hBbss, hfrag, hlin, hun, hne]
    refine ⟨⟨_, hfwd, rfl, ?_, ?_⟩, ?_⟩
    · simp [tx_calls, Event.is_tx]
    · simp [counter_incs]
    · unfold dp_rx_process_forward
      simp only [heth, hnm, hlearn, hidx, hbr, hfwd]
      by_cases hw : (env.vdev tv).wds_enabled = true <;>
        simp [hw, tx_calls_append, osif_calls_append, hl1, hl3] <;>
        simp [tx_calls, osif_calls, Event.is_tx, Event.is_osif]
  · intro hlin
    have hfwd : dp_rx_intrabss_fwd env ta nbuf = some
        ⟨false, nbuf_cb_clear nbuf, [Event.nbuf_linearize nbuf.id false]⟩ := by
      unfold dp_rx_intrabss_fwd
      simp [hv, hda, hmc, hast, htype, hB, hsame, hBbss, hfrag, hlin, hne]
    refine ⟨⟨_, hfwd, rfl, ?_, ?_⟩, ?_⟩
    · simp [tx_calls, Event.is_tx]
    · simp [free_calls, Event.is_free]
    · unfold dp_rx_process_forward
      simp only [heth, hnm, hlearn, hidx, hbr, hfwd]
      by_cases hw : (env.vdev tv).wds_enabled = true <;>
        simp [hw, dp_rx_process_enqueue, tx_calls_append, free_calls_append,
          osif_calls_append, hl1, hl2, hl3] <;>
        simp [tx_calls, free_calls, osif_calls, Event.is_tx, Event.is_free, Event.is_osif]

/-- C20, amended, at the fragmented frame from peer 1 to peer 2 in
`env_unshare_fail`. -/
theorem dp_rx_intrabss_fwd_frag_failure_witness :
    (∃ out, dp_rx_intrabss_fwd env_unshare_fail 1 { pkt_ucast with is_frag := true } = some out ∧
        out.fwd = true ∧ tx_calls out.events = [] ∧
        counter_incs (Counter.peer_rx_intra_bss_fail 1) out.events = 1) ∧
      ∃ so, dp_rx_process_forward env_unshare_fail 0 0 100 1 10
          { pkt_ucast with is_frag := true } [] = some so ∧
        so.exit = RxExit.intrabss_fwd ∧ so.enqueue = none ∧ so.next = [] ∧
        tx_calls so.events = [] ∧ osif_calls so.events = [] :=
  (dp_rx_intrabss_fwd_frag_failure env_unshare_fail 0 0 100 1 10 2
    { type_is_DA := false, peer := some 2 } { pkt_ucast with is_frag := true } []
    (by decide) (by decide) (by decide) (by decide) (by decide) (by decide) (by decide)
    (by decide) (by decide) (by decide) (by decide) (by decide) (by decide) (by decide)).1
    (by decide) (by decide)

/-! ### The second pass: release of the peer reference -/

theorem unref_calls_append (a b : List Event) :
    unref_calls (a ++ b) = unref_calls a ++ unref_calls b := by
  simp [unref_calls]

theorem dp_rx_process_msdu_cnt_unref (rx_pdev tid : Nat) (nbuf : Nbuf) :
    unref_calls (dp_rx_process_msdu_cnt rx_pdev tid nbuf) = [] := by
  unfold dp_rx_process_msdu_cnt
  split <;> try split
  all_goals simp [unref_calls, Event.is_unref]

theorem dp_rx_da_learn_unref (env : Env) (ta : Nat) (nbuf : Nbuf) (learn : List Event)
    (h : dp_rx_da_learn env ta nbuf = some learn) : unref_calls learn = [] := by
  unfold dp_rx_da_learn at h
  split_ifs at h
  all_goals try (split at h)
  all_goals try (split_ifs at h)
  all_goals first
    | (simp at h; done)
    | (simp only [Option.some.injEq] at h
       subst h
       simp [unref_calls, Event.is_unref])

theorem dp_rx_intrabss_fwd_send_unref (env : Env) (ta tv tid pdev len : Nat) (nbuf : Nbuf)
    (pre : List Event) (hpre : unref_calls pre = []) :
    unref_calls (dp_rx_intrabss_fwd_send env ta tv tid pdev len nbuf pre).events = [] := by
  unfold dp_rx_intrabss_fwd_send
  split <;> simp [unref_calls_append, hpre] <;> simp [unref_calls, Event.is_unref]

theorem dp_rx_intrabss_fwd_unref (env : Env) (ta : Nat) (nbuf : Nbuf) (out : FwdOut)
    (h : dp_rx_intrabss_fwd env ta nbuf = some out) :
    unref_calls out.events = [] := by
  unfold dp_rx_intrabss_fwd at h
  have hs1 := dp_rx_intrabss_fwd_send_unref env ta
  split at h
  · simp at h
  · simp only at h
    split_ifs at h
    all_goals try (split at h)
    all_goals try (split_ifs at h)
    all_goals try (split at h)
    all_goals try (split_ifs at h)
    all_goals first
      | (simp at h; done)
      | (simp only [Option.some.injEq] at h
         subst h
         first
          | rfl
          | exact hs1 _ _ _ _ _ _ (by simp [unref_calls, Event.is_unref]))

theorem dp_rx_deliver_to_stack_unref (env : Env) (vdev peer : Option Nat) (l : List Nbuf)
    (fl : List Event) (h : dp_rx_deliver_to_stack env vdev peer l = some fl) :
    unref_calls fl = [] := by
  unfold dp_rx_deliver_to_stack at h
  split at h
  · simp at h
  · simp only at h
    split_ifs at h
    · split at h
      · simp at h
      · simp only [Option.some.injEq] at h
        subst h
        simp [unref_calls, List.filter_flatMap, Event.is_unref]
    · simp only [Option.some.injEq] at h
      subst h
      simp [unref_calls, Event.is_unref]
    · simp only [Option.some.injEq] at h
      subst h
      simp [unref_calls, Event.is_unref]

theorem dp_rx_process_enqueue_unref (env : Env) (rx_pdev tid msdu_len peer : Nat) (nbuf : Nbuf)
    (next : List Nbuf) (pre : List Event) (hpre : unref_calls pre = []) :
    UnrefOk peer (dp_rx_process_enqueue env rx_pdev tid msdu_len peer nbuf next pre) := by
  simp [UnrefOk, dp_rx_process_enqueue, unref_calls_append, hpre]
  simp [unref_calls, Event.is_unref]

theorem dp_rx_process_forward_unref (env : Env) (rx_pdev tid msdu_len peer vdev : Nat)
    (nbuf : Nbuf) (next : List Nbuf) (out : StageOut)
    (h : dp_rx_process_forward env rx_pdev tid msdu_len peer vdev nbuf next = some out) :
    UnrefOk peer out := by
  unfold dp_rx_process_forward at h
  by_cases h1 : ((env.vdev vdev).rx_decap_type == htt_cmn_pkt_type.htt_cmn_pkt_type_ethernet &&
      !(env.vdev vdev).mesh_vdev) = true
  · simp only [h1, if_true, if_false, Bool.false_eq_true] at h
    cases hl : dp_rx_da_learn env peer nbuf with
    | none => simp [hl] at h
    | some learn =>
      have hq := dp_rx_da_learn_unref env peer nbuf learn hl
      have hq2 : unref_calls (learn ++
          (if (env.vdev vdev).wds_enabled = true then [Event.wds_srcport_learn peer nbuf.id]
           else [])) = [] := by
        rw [unref_calls_append, hq]
        split <;> simp [unref_calls, Event.is_unref]
      simp only [hl] at h
      by_cases h2 : (!is_sa_da_idx_valid env nbuf) = true
      · simp only [h2, if_true, if_false, Bool.false_eq_true, Option.some.injEq] at h
        subst h
        simp only [UnrefOk, if_true]
        rw [unref_calls_append, hq]
        simp [unref_calls, Event.is_unref]
      · simp only [h2, if_false, Bool.false_eq_true] at h
        by_cases h3 : dp_rx_check_ap_bridge env.cfg (env.vdev vdev) = true
        · simp only [h3, if_true, if_false, Bool.false_eq_true] at h
          cases hf : dp_rx_intrabss_fwd env peer nbuf with
          | none => simp [hf] at h
          | some fo =>
            have hfq := dp_rx_intrabss_fwd_unref env peer nbuf fo hf
            simp only [hf] at h
            by_cases h4 : fo.fwd = true
            · simp only [h4, if_true, if_false, Bool.false_eq_true, Option.some.injEq] at h
              subst h
              simp only [UnrefOk]
              rw [unref_calls_append, unref_calls_append, hq2, hfq]
              simp [unref_calls, Event.is_unref]
            · simp only [h4, if_false, Bool.false_eq_true, Option.some.injEq] at h
              subst h
              exact dp_rx_process_enqueue_unref _ _ _ _ _ _ _ _
                (by rw [unref_calls_append, hq2, hfq]; rfl)
        · simp only [h3, if_false, Bool.false_eq_true, Option.some.injEq] at h
          subst h
          exact dp_rx_process_enqueue_unref _ _ _ _ _ _ _ _ hq2
  · simp only [h1, if_false, Bool.false_eq_true, Option.some.injEq] at h
    subst h
    exact dp_rx_process_enqueue_unref _ _ _ _ _ _ _ _ rfl

theorem dp_rx_process_mesh_unref (env : Env) (rx_pdev tid msdu_len peer vdev : Nat)
    (nbuf : Nbuf) (next : List Nbuf) (out : StageOut)
    (h : dp_rx_process_mesh env rx_pdev tid msdu_len peer vdev nbuf next = some out) :
    UnrefOk peer out := by
  unfold dp_rx_process_mesh at h
  by_cases h1 : ((env.vdev vdev).mesh_vdev &&
      (dp_rx_filter_mesh_packets env.cfg (env.vdev vdev) nbuf.tlv
        == QDF_STATUS.QDF_STATUS_SUCCESS)) = true
  · simp only [h1, if_true, if_false, Bool.false_eq_true, Option.some.injEq] at h
    subst h
    simp [UnrefOk, unref_calls, Event.is_unref]
  · simp only [h1, if_false, Bool.false_eq_true] at h
    exact dp_rx_process_forward_unref _ _ _ _ _ _ _ _ _ h

theorem dp_rx_process_filter_unref (env : Env) (rx_pdev tid msdu_len peer vdev : Nat)
    (nbuf : Nbuf) (next : List Nbuf) (out : StageOut)
    (h : dp_rx_process_filter env rx_pdev tid msdu_len peer vdev nbuf next = some out) :
    UnrefOk peer out := by
  unfold dp_rx_process_filter at h
  cases hp : dp_wds_rx_policy_check env nbuf.tlv vdev peer with
  | none => simp [hp] at h
  | some ok =>
    simp only [hp] at h
    by_cases h1 : (!ok) = true
    · simp only [h1, if_true, if_false, Bool.false_eq_true, Option.some.injEq] at h
      subst h
      simp [UnrefOk, unref_calls, Event.is_unref]
    · simp only [h1, if_false, Bool.false_eq_true] at h
      by_cases h2 : (env.peer peer).bss_peer = true
      · simp only [h2, if_true, if_false, Bool.false_eq_true, Option.some.injEq] at h
        subst h
        simp [UnrefOk, unref_calls, Event.is_unref]
      · simp only [h2, if_false, Bool.false_eq_true] at h
        by_cases h3 : ((env.peer peer).nawds_enabled && nbuf.da_mcbc &&
            !nbuf.tlv.mac_ad4_valid) = true
        · simp only [h3, if_true, if_false, Bool.false_eq_true, Option.some.injEq] at h
          subst h
          simp [UnrefOk, unref_calls, Event.is_unref]
        · simp only [h3, if_false, Bool.false_eq_true] at h
          exact dp_rx_process_mesh_unref _ _ _ _ _ _ _ _ _ h

theorem dp_rx_process_decap_unref (env : Env) (rx_pdev tid msdu_len peer vdev : Nat)
    (nbuf : Nbuf) (rest : List Nbuf) (out : StageOut)
    (h : dp_rx_process_decap env rx_pdev tid msdu_len peer vdev nbuf rest = some out) :
    UnrefOk peer out := by
  unfold dp_rx_process_decap at h
  by_cases h1 : nbuf.is_frag = true
  · simp only [h1, if_true, if_false, Bool.false_eq_true] at h
    exact dp_rx_process_filter_unref _ _ _ _ _ _ _ _ _ h
  · simp only [h1, if_false, Bool.false_eq_true] at h
    by_cases h2 : nbuf.raw_frame = true
    · simp only [h2, if_true, if_false, Bool.false_eq_true] at h
      cases hsg : dp_rx_sg_create env.cfg nbuf rest with
      | none => simp [hsg] at h
      | some sg =>
        simp only [hsg] at h
        cases hfo : dp_rx_process_filter env rx_pdev tid nbuf.pkt_len peer vdev sg.parent
            sg.next with
        | none => simp [hfo] at h
        | some fo =>
          have hok := dp_rx_process_filter_unref _ _ _ _ _ _ _ _ _ hfo
          simp only [hfo, Option.some.injEq] at h
          subst h
          simp only [UnrefOk] at hok ⊢
          rw [unref_calls_append, hok]
          simp [unref_calls, Event.is_unref]
    · simp only [h2, if_false, Bool.false_eq_true] at h
      exact dp_rx_process_filter_unref _ _ _ _ _ _ _ _ _ h

theorem dp_rx_process_nbuf_unref (env : Env) (rx_pdev : Nat) (st st1 : RxState) (nbuf : Nbuf)
    (rest next : List Nbuf) (ex : RxExit) (p : Nat)
    (h : dp_rx_process_nbuf env rx_pdev st nbuf rest = some (st1, next, ex))
    (hdone : (dp_rx_is_msdu_done_set env.cfg nbuf.tlv).1 = true)
    (hp : env.peer_find_by_id nbuf.peer_id = some p) :
    ∃ es, st1.trace = st.trace ++ es ∧
      unref_calls es = if ex = RxExit.sa_da_idx_drop then [] else [Event.peer_unref p] := by
  unfold dp_rx_process_nbuf at h
  simp only [DP_RX_TID_SAVE_tlv, DP_RX_TID_SAVE_id, DP_RX_TID_SAVE_peer_id, hdone, hp,
    Bool.not_true, Bool.false_eq_true, if_false] at h
  cases hfl : dp_rx_process_flush_on_vdev_change env st p with
  | none => simp [hfl] at h
  | some df =>
    obtain ⟨dl, fl⟩ := df
    have hflq : unref_calls fl = [] := by
      rcases dp_rx_process_flush_on_vdev_change_spec env st p dl fl hfl with
        ⟨h1, _, _⟩ | ⟨_, _, h3, _⟩
      · rw [h1]
        rfl
      · exact dp_rx_deliver_to_stack_unref _ _ _ _ _ h3
    simp only [hfl] at h
    cases hv : (env.peer p).vdev with
    | none =>
      simp only [hv, Option.some.injEq, Prod.mk.injEq] at h
      obtain ⟨h1, _, h3⟩ := h
      subst h1 h3
      refine ⟨_, rfl, ?_⟩
      rw [unref_calls_append, unref_calls_append, dp_rx_process_msdu_cnt_unref, hflq]
      simp [unref_calls, Event.is_unref]
    | some v =>
      simp only [hv] at h
      cases hd : dp_rx_process_decap env rx_pdev
          (if nbuf.rx_chfrag_start = true then nbuf.tid_val else st.tid) st.msdu_len p v
          (DP_RX_TID_SAVE env.cfg nbuf
            (if nbuf.rx_chfrag_start = true then nbuf.tid_val else st.tid)) rest with
      | none => simp [hd] at h
      | some out =>
        have hok := dp_rx_process_decap_unref _ _ _ _ _ _ _ _ _ hd
        simp only [hd, Option.some.injEq, Prod.mk.injEq] at h
        obtain ⟨h1, _, h3⟩ := h
        subst h1 h3
        refine ⟨_, rfl, ?_⟩
        simp only [UnrefOk] at hok
        rw [unref_calls_append, unref_calls_append, dp_rx_process_msdu_cnt_unref, hflq, hok]
        rfl

/-- C15 fails on the code: in `env0` the frame `pkt_bad_sa_idx` from peer 1
passes the DMA-completion check, its peer lookup returns peer 1, and the
iteration ends on the index check of `is_sa_da_idx_valid`: the buffer is freed
and the loop goes on with the next packet without any call of
`dp_peer_unref_del_find_by_id`.  The second pass over this frame and a second
frame of peer 1 makes two lookups and one release. -/
theorem dp_rx_process_sa_da_idx_drop_no_unref :
    (dp_rx_is_msdu_done_set env0.cfg pkt_bad_sa_idx.tlv).1 = true ∧
    env0.peer_find_by_id pkt_bad_sa_idx.peer_id = some 1 ∧
    is_sa_da_idx_valid env0 pkt_bad_sa_idx = false ∧
    (dp_rx_process_nbuf env0 0 rx_state_init pkt_bad_sa_idx [pkt 2 1]).map
        (fun r => (r.2.2, r.2.1, unref_calls r.1.trace, free_calls r.1.trace))
      = some (RxExit.sa_da_idx_drop, [pkt 2 1], [], [Event.nbuf_free 1 false]) ∧
    (dp_rx_process_second_pass env0 0 [pkt_bad_sa_idx, pkt 2 1]).map
        (fun st => unref_calls st.trace)
      = some [Event.peer_unref 1] := by
  decide

/-! ### The drain loop: quota, raw aggregates, value returned -/

theorem dp_rx_process_raw_check_spec (cfg : RxCfg) (st : DrainState) (e : ReoEntry)
    (nbuf : Nbuf) :
    (dp_rx_process_raw_check cfg st e nbuf).1.quota = st.quota ∧
    (dp_rx_process_raw_check cfg st e nbuf).1.nbufs = st.nbufs ∧
    (dp_rx_process_raw_check cfg st e nbuf).1.rx_bufs_reaped = st.rx_bufs_reaped ∧
    (dp_rx_process_raw_check cfg st e nbuf).1.head = st.head ∧
    (dp_rx_process_raw_check cfg st e nbuf).1.ring.entries = st.ring.entries ∧
    (∃ l, (dp_rx_process_raw_check cfg st e nbuf).1.ring.cached = st.ring.cached ++ l) ∧
    (dp_rx_process_raw_check cfg st e nbuf).2.1.id = nbuf.id ∧
    (dp_rx_process_raw_check cfg st e nbuf).2.1.rx_chfrag_cont = nbuf.rx_chfrag_cont ∧
    ((dp_rx_process_raw_check cfg st e nbuf).2.2 = true ↔
      (e.raw_ampdu = true ∧ st.is_prev_msdu_last = true ∧
        e.msdu_len / (cfg.RX_BUFFER_SIZE - cfg.RX_PKT_TLVS_LEN) + 1
          > (hal_srng_dst_num_valid st.ring true).1)) := by
  unfold dp_rx_process_raw_check
  by_cases hr : e.raw_ampdu = true
  · by_cases hp : st.is_prev_msdu_last = true
    · by_cases hn : e.msdu_len / (cfg.RX_BUFFER_SIZE - cfg.RX_PKT_TLVS_LEN) + 1
          > (hal_srng_dst_num_valid st.ring true).1
      · have hn2 := hn
        simp only [hal_srng_dst_num_valid, if_true, List.length_append, gt_iff_lt] at hn2
        simp [hr, hp, hn2, hal_srng_dst_num_valid, DstRing.entries]
      · have hn2 := hn
        simp only [hal_srng_dst_num_valid, if_true, List.length_append, gt_iff_lt] at hn2
        simp [hr, hp, hn2, hal_srng_dst_num_valid, DstRing.entries]
    · by_cases hl : e.last_msdu = true
      · simp [hr, hp, hl]
      · simp [hr, hp, hl]
  · simp [hr]

theorem dp_rx_process_save_cb_cont (e : ReoEntry) (nbuf : Nbuf) :
    (dp_rx_process_save_cb e nbuf).rx_chfrag_cont = (e.msdu_continuation || nbuf.rx_chfrag_cont) ∧
    (dp_rx_process_save_cb e nbuf).id = nbuf.id := by
  unfold dp_rx_process_save_cb
  cases e.msdu_continuation <;> simp

theorem dp_rx_process_unmap_spec (st : DrainState) (e : ReoEntry) :
    (dp_rx_process_unmap st e).quota = st.quota ∧
    (dp_rx_process_unmap st e).nbufs = st.nbufs ∧
    (dp_rx_process_unmap st e).rx_bufs_reaped = st.rx_bufs_reaped ∧
    (dp_rx_process_unmap st e).head = st.head ∧
    (dp_rx_process_unmap st e).ring = st.ring ∧
    (dp_rx_process_unmap st e).is_prev_msdu_last = st.is_prev_msdu_last := by
  unfold dp_rx_process_unmap
  cases e.error <;> exact ⟨rfl, rfl, rfl, rfl, rfl, rfl⟩

/-- What one iteration of the drain loop does, for an entry at the read
cursor (`st.ring.cached = e :: tl`). -/
theorem dp_rx_process_reap_spec (cfg : RxCfg) (st st1 : DrainState) (e : ReoEntry)
    (tl : List ReoEntry) (brk : Bool)
    (hpeek : st.ring.cached = e :: tl)
    (h : dp_rx_process_reap cfg st e = some (st1, brk)) :
    e.sane cfg = true ∧
    (brk = true →
      st1.quota = st.quota ∧ st1.nbufs = st.nbufs ∧ st1.rx_bufs_reaped = st.rx_bufs_reaped ∧
      st1.head = st.head ∧ st1.ring.entries = st.ring.entries ∧
      hal_srng_dst_peek st1.ring = some e ∧
      e.raw_ampdu = true ∧ st.is_prev_msdu_last = true ∧
      e.msdu_len / (cfg.RX_BUFFER_SIZE - cfg.RX_PKT_TLVS_LEN) + 1
        > (hal_srng_dst_num_valid st.ring true).1) ∧
    (brk = false →
      st1.ring.entries = tl ++ st.ring.hw_more ∧
      ∃ nb, st1.nbufs = st.nbufs ++ [nb] ∧ nb.id = e.nbuf.id ∧
        nb.rx_chfrag_cont = !e.takes_quota ∧
        st1.quota = if e.takes_quota then st.quota - 1 else st.quota) := by
  unfold dp_rx_process_reap at h
  by_cases h1 : (cfg.RX_DESC_DEBUG_CHECK && !e.paddr_ok) = true
  · simp [h1] at h
  · by_cases h2 : e.rx_desc.in_use = true
    · by_cases h3 : dp_rx_desc_check_magic cfg e.rx_desc = true
      · simp only [h1, h2, h3, Bool.not_true, Bool.false_eq_true, if_false] at h
        have hsane : e.sane cfg = true := by
          simp only [ReoEntry.sane, h2, h3, Bool.and_true, Bool.or_eq_true,
            Bool.not_eq_true']
          simp only [Bool.and_eq_true, Bool.not_eq_true', not_and, Bool.not_eq_false] at h1
          cases hc : cfg.RX_DESC_DEBUG_CHECK
          · exact Or.inl rfl
          · exact Or.inr (h1 hc)
        refine ⟨hsane, ?_⟩
        obtain ⟨q1, q2, q3, q4, q5, q6⟩ := dp_rx_process_unmap_spec st e
        obtain ⟨r1, r2, r3, r4, r5, ⟨l, r6⟩, r7, r8, r9⟩ :=
          dp_rx_process_raw_check_spec cfg (dp_rx_process_unmap st e) e e.nbuf
        by_cases hb : (dp_rx_process_raw_check cfg (dp_rx_process_unmap st e) e e.nbuf).2.2
            = true
        · simp only [hb, if_true, Option.some.injEq, Prod.mk.injEq] at h
          obtain ⟨hs, hbrk⟩ := h
          subst hs hbrk
          refine ⟨fun _ => ?_, fun hf => by simp at hf⟩
          have hcond := r9.mp hb
          rw [q5, q6] at hcond
          refine ⟨r1.trans q1, r2.trans q2, r3.trans q3, r4.trans q4, ?_, ?_, hcond⟩
          · rw [r5, q5]
          · rw [hal_srng_dst_peek, r6, q5, hpeek]
            rfl
        · simp only [hb, Bool.false_eq_true, if_false, Option.some.injEq, Prod.mk.injEq] at h
          obtain ⟨hs, hbrk⟩ := h
          subst hs hbrk
          refine ⟨fun hf => by simp at hf, fun _ => ?_⟩
          obtain ⟨c1, c2⟩ := dp_rx_process_save_cb_cont e
            (dp_rx_process_raw_check cfg (dp_rx_process_unmap st e) e e.nbuf).2.1
          refine ⟨?_, dp_rx_process_save_cb e
            (dp_rx_process_raw_check cfg (dp_rx_process_unmap st e) e e.nbuf).2.1, ?_, ?_, ?_, ?_⟩
          · have hent := r5
            simp only [DstRing.entries, dp_rx_process_pop, hal_srng_dst_get_next] at hent ⊢
            rw [r6, q5, hpeek] at hent ⊢
            simp only [List.cons_append, List.tail_cons]
            simp only [List.cons_append, List.append_assoc, q5, hpeek] at hent
            have := List.cons.inj hent
            simpa [List.append_assoc] using this.2
          · show (dp_rx_process_raw_check cfg (dp_rx_process_unmap st e) e e.nbuf).1.nbufs
                ++ [_] = _
            rw [r2, q2]
          · rw [c2, r7]
          · rw [c1, r8]
            simp [ReoEntry.takes_quota]
          · show (if (!(dp_rx_process_save_cb e
                (dp_rx_process_raw_check cfg (dp_rx_process_unmap st e) e
                  e.nbuf).2.1).rx_chfrag_cont) = true
              then (dp_rx_process_raw_check cfg (dp_rx_process_unmap st e) e e.nbuf).1.quota - 1
              else (dp_rx_process_raw_check cfg (dp_rx_process_unmap st e) e e.nbuf).1.quota)
                = _
            rw [c1, r8, r1, q1]
            simp only [ReoEntry.takes_quota]
      · simp [h1, h2, h3] at h
    · simp [h1, h2] at h

theorem hal_srng_dst_peek_cons (r : DstRing) (e : ReoEntry)
    (h : hal_srng_dst_peek r = some e) : ∃ tl, r.cached = e :: tl := by
  unfold hal_srng_dst_peek at h
  cases hc : r.cached with
  | nil => simp [hc] at h
  | cons a tl =>
    simp only [hc, List.head?_cons, Option.some.injEq] at h
    exact ⟨tl, by rw [h]⟩

theorem dp_rx_process_reap_total (cfg : RxCfg) (st : DrainState) (e : ReoEntry)
    (h : e.sane cfg = true) : ∃ r, dp_rx_process_reap cfg st e = some r := by
  simp only [ReoEntry.sane, Bool.and_eq_true, Bool.or_eq_true, Bool.not_eq_true'] at h
  obtain ⟨⟨h1, h2⟩, h3⟩ := h
  have h1' : (cfg.RX_DESC_DEBUG_CHECK && !e.paddr_ok) = false := by
    rcases h1 with h1 | h1 <;> simp [h1]
  unfold dp_rx_process_reap
  simp only [h1', h2, h3, Bool.not_true, Bool.false_eq_true, if_false]
  split <;> exact ⟨_, rfl⟩

theorem dp_rx_process_drain_spec (cfg : RxCfg) :
    ∀ (fuel : Nat) (st st' : DrainState), dp_rx_process_drain cfg fuel st = some st' →
      ∃ k new, st'.ring.entries = st.ring.entries.drop k ∧
        st'.nbufs = st.nbufs ++ new ∧
        new.map Nbuf.id = (st.ring.entries.take k).map (fun e => e.nbuf.id) ∧
        ((st.ring.entries.take k).filter ReoEntry.takes_quota).length + st'.quota = st.quota ∧
        (new.filter (fun n => !n.rx_chfrag_cont)).length + st'.quota = st.quota ∧
        (st.quota = 0 → k = 0 ∧ st' = st) := by
  intro fuel
  induction fuel with
  | zero =>
    intro st st' h
    unfold dp_rx_process_drain at h
    by_cases hq : st.quota = 0
    · simp only [hq, if_true, Option.some.injEq] at h
      subst h
      exact ⟨0, [], by simp, by simp, by simp, by simp, by simp, fun _ => ⟨rfl, rfl⟩⟩
    · simp only [hq, if_false] at h
      cases hp : hal_srng_dst_peek st.ring with
      | none =>
        simp only [hp, Option.some.injEq] at h
        subst h
        exact ⟨0, [], by simp, by simp, by simp, by simp, by simp, fun _ => ⟨rfl, rfl⟩⟩
      | some e => simp [hp] at h
  | succ fuel ih =>
    intro st st' h
    unfold dp_rx_process_drain at h
    by_cases hq : st.quota = 0
    · simp only [hq, if_true, Option.some.injEq] at h
      subst h
      exact ⟨0, [], by simp, by simp, by simp, by simp, by simp, fun _ => ⟨rfl, rfl⟩⟩
    · simp only [hq, if_false] at h
      cases hp : hal_srng_dst_peek st.ring with
      | none =>
        simp only [hp, Option.some.injEq] at h
        subst h
        exact ⟨0, [], by simp, by simp, by simp, by simp, by simp, fun _ => ⟨rfl, rfl⟩⟩
      | some e =>
        obtain ⟨tl, htl⟩ := hal_srng_dst_peek_cons st.ring e hp
        simp only [hp] at h
        cases hr : dp_rx_process_reap cfg st e with
        | none => simp [hr] at h
        | some r =>
          obtain ⟨st1, brk⟩ := r
          obtain ⟨_, hbrk, hcont⟩ := dp_rx_process_reap_spec cfg st st1 e tl brk htl hr
          cases brk with
          | true =>
            simp only [hr, Option.some.injEq] at h
            subst h
            obtain ⟨b1, b2, _, _, b5, _⟩ := hbrk rfl
            exact ⟨0, [], by simp [b5], by simp [b2], by simp, by simp [b1], by simp [b1],
              fun h0 => absurd h0 hq⟩
          | false =>
            simp only [hr] at h
            obtain ⟨c1, nb, c2, c3, c4, c5⟩ := hcont rfl
            obtain ⟨k, new, i1, i2, i3, i4, i5, _⟩ := ih st1 st' h
            have hent : st.ring.entries = e :: (tl ++ st.ring.hw_more) := by
              simp [DstRing.entries, htl]
            refine ⟨k + 1, nb :: new, ?_, ?_, ?_, ?_, ?_, fun h0 => absurd h0 hq⟩
            · rw [i1, c1, hent]
              rfl
            · rw [i2, c2]
              simp
            · rw [hent, List.take_succ_cons, List.map_cons, List.map_cons, c3, i3, c1]
            · rw [hent, List.take_succ_cons, List.filter_cons]
              rw [c1] at i4
              by_cases ht : e.takes_quota = true
              · simp only [ht, if_true, List.length_cons] at c5 ⊢
                omega
              · simp only [ht, if_false, Bool.false_eq_true] at c5 ⊢
                omega
            · rw [List.filter_cons, c4]
              cases ht : e.takes_quota
              · simp only [ht, Bool.not_false, Bool.not_true, Bool.false_eq_true, if_false] at c5 ⊢
                omega
              · simp only [ht, Bool.not_true, Bool.not_false, if_true, List.length_cons] at c5 ⊢
                omega

theorem dp_rx_process_drain_total (cfg : RxCfg) :
    ∀ (fuel : Nat) (st : DrainState), st.ring.entries.length ≤ fuel →
      (∀ e ∈ st.ring.entries, e.sane cfg = true) →
      ∃ st', dp_rx_process_drain cfg fuel st = some st' := by
  intro fuel
  induction fuel with
  | zero =>
    intro st hlen _
    have hnil : st.ring.cached = [] := by
      simp only [DstRing.entries, List.length_append, Nat.le_zero, Nat.add_eq_zero,
        List.length_eq_zero] at hlen
      exact hlen.1
    unfold dp_rx_process_drain
    split
    · exact ⟨_, rfl⟩
    · simp [hal_srng_dst_peek, hnil]
  | succ fuel ih =>
    intro st hlen hsane
    unfold dp_rx_process_drain
    by_cases hq : st.quota = 0
    · simp [hq]
    · simp only [hq, if_false]
      cases hp : hal_srng_dst_peek st.ring with
      | none => exact ⟨_, rfl⟩
      | some e =>
        obtain ⟨tl, htl⟩ := hal_srng_dst_peek_cons st.ring e hp
        have hent : st.ring.entries = e :: (tl ++ st.ring.hw_more) := by
          simp [DstRing.entries, htl]
        obtain ⟨r, hr⟩ := dp_rx_process_reap_total cfg st e (hsane e (by simp [hent]))
        obtain ⟨st1, brk⟩ := r
        obtain ⟨_, _, hcont⟩ := dp_rx_process_reap_spec cfg st st1 e tl brk htl hr
        cases brk with
        | true => exact ⟨st1, by simp [hr]⟩
        | false =>
          obtain ⟨c1, _⟩ := hcont rfl
          simp only [hr]
          apply ih st1
          · rw [c1]
            rw [hent] at hlen
            simp only [List.length_cons, List.length_append] at hlen ⊢
            omega
          · intro x hx
            rw [c1] at hx
            exact hsane x (by rw [hent]; exact List.mem_cons_of_mem _ hx)

theorem u32_succ_le (x : Nat) : u32 ((x : Int) + 1) ≤ x + 1 := by
  unfold u32
  omega

theorem dp_rx_process_nbuf_used (env : Env) (rx_pdev : Nat) (st : RxState) (nbuf : Nbuf)
    (rest : List Nbuf) (r : RxState × List Nbuf × RxExit)
    (h : dp_rx_process_nbuf env rx_pdev st nbuf rest = some r) :
    r.1.rx_bufs_used ≤ st.rx_bufs_used + 1 := by
  have hu := u32_succ_le st.rx_bufs_used
  unfold dp_rx_process_nbuf at h
  simp only [DP_RX_TID_SAVE_tlv, DP_RX_TID_SAVE_id, DP_RX_TID_SAVE_peer_id] at h
  by_cases hdone : (!(dp_rx_is_msdu_done_set env.cfg nbuf.tlv).1) = true
  · simp only [hdone, if_true, Option.some.injEq] at h
    subst h
    simp
  · simp only [hdone, if_false, Bool.false_eq_true] at h
    cases hp : env.peer_find_by_id nbuf.peer_id with
    | none =>
      simp only [hp, Option.some.injEq] at h
      subst h
      exact hu
    | some p =>
      simp only [hp] at h
      cases hfl : dp_rx_process_flush_on_vdev_change env st p with
      | none => simp [hfl] at h
      | some df =>
        obtain ⟨dl, fl⟩ := df
        simp only [hfl] at h
        cases hv : (env.peer p).vdev with
        | none =>
          simp only [hv, Option.some.injEq] at h
          subst h
          exact hu
        | some v =>
          simp only [hv] at h
          split at h
          · simp at h
          · simp only [Option.some.injEq] at h
            subst h
            exact hu

theorem dp_rx_process_loop_used (env : Env) (rx_pdev : Nat) :
    ∀ (fuel : Nat) (st : RxState) (nbufs : List Nbuf) (st' : RxState),
      dp_rx_process_loop env rx_pdev fuel st nbufs = some st' →
      st'.rx_bufs_used ≤ st.rx_bufs_used + nbufs.length := by
  intro fuel
  induction fuel with
  | zero =>
    intro st nbufs st' h
    cases nbufs with
    | nil =>
      simp only [dp_rx_process_loop, Option.some.injEq] at h
      subst h
      simp
    | cons n rest => simp [dp_rx_process_loop] at h
  | succ fuel ih =>
    intro st nbufs st' h
    cases nbufs with
    | nil =>
      simp only [dp_rx_process_loop, Option.some.injEq] at h
      subst h
      simp
    | cons n rest =>
      rw [dp_rx_process_loop] at h
      cases hr : dp_rx_process_nbuf env rx_pdev st n rest with
      | none => simp [hr] at h
      | some r =>
        obtain ⟨st1, next, ex⟩ := r
        simp only [hr] at h
        have h1 := dp_rx_process_nbuf_used env rx_pdev st n rest _ hr
        have h2 := (dp_rx_process_nbuf_ok env rx_pdev st n rest _ hr).1
        have h3 := ih st1 next st' h
        have h4 := h2.length_le
        simp only [List.length_cons] at h1 h4 ⊢
        omega

theorem dp_rx_process_second_pass_used (env : Env) (rx_pdev : Nat) (nbufs : List Nbuf)
    (fin : RxState) (h : dp_rx_process_second_pass env rx_pdev nbufs = some fin) :
    fin.rx_bufs_used ≤ nbufs.length := by
  unfold dp_rx_process_second_pass at h
  cases hl : dp_rx_process_loop env rx_pdev nbufs.length rx_state_init nbufs with
  | none => simp [hl] at h
  | some st =>
    have h1 := dp_rx_process_loop_used env rx_pdev _ _ _ _ hl
    simp only [hl] at h
    unfold dp_rx_process_final_flush at h
    have h0 : rx_state_init.rx_bufs_used = 0 := rfl
    split at h
    · split at h
      · simp at h
      · simp only [Option.some.injEq] at h
        subst h
        simp only
        omega
    · simp only [Option.some.injEq] at h
      subst h
      omega

theorem drain_final_eq (cfg : RxCfg) (fuel : Nat) (st : DrainState)
    (h : (dp_rx_process_drain cfg fuel st).isSome = true) :
    dp_rx_process_drain cfg fuel st = some (drain_final cfg fuel st) := by
  unfold drain_final
  cases hd : dp_rx_process_drain cfg fuel st with
  | none => simp [hd] at h
  | some st1 => rfl

theorem rx_process_out_eq (env : Env) (inp : RxProcessIn)
    (h : (dp_rx_process env inp).isSome = true) :
    dp_rx_process env inp = some (rx_process_out env inp) := by
  unfold rx_process_out
  cases hd : dp_rx_process env inp with
  | none => simp [hd] at h
  | some out => rfl

/-- C17: in the drain loop of `dp_rx_process`, on a ring whose buffers come
with a clear control block (as allocated), an iteration that reaps an entry
takes `quota` down by exactly one when the continuation flag of the entry is
clear and leaves it alone when the flag is set.  So the loop reaps a prefix of
the completed entries, in ring order, and the number of reaped entries without
continuation flag plus the quota left is the quota passed in: that number
never exceeds the quota, and with quota 0 nothing is reaped and nothing
changes.  The loop does end with a result when every entry passes the fatal
checks. -/
theorem dp_rx_process_drain_quota (cfg : RxCfg) (st : DrainState)
    (hfresh : ∀ e ∈ st.ring.entries, e.nbuf.rx_chfrag_cont = false) :
    (∀ e tl st1, st.ring.cached = e :: tl →
      dp_rx_process_reap cfg st e = some (st1, false) →
      st1.quota = if e.msdu_continuation then st.quota else st.quota - 1) ∧
    (∀ fuel st', dp_rx_process_drain cfg fuel st = some st' →
      ∃ k, st'.ring.entries = st.ring.entries.drop k ∧
        st'.nbufs.map Nbuf.id
          = st.nbufs.map Nbuf.id ++ (st.ring.entries.take k).map (fun e => e.nbuf.id) ∧
        ((st.ring.entries.take k).filter (fun e => !e.msdu_continuation)).length + st'.quota
          = st.quota ∧
        (st.quota = 0 → k = 0 ∧ st' = st)) ∧
    ((∀ e ∈ st.ring.entries, e.sane cfg = true) →
      ∃ st', dp_rx_process_drain cfg st.ring.entries.length st = some st') := by
  have htq : ∀ e ∈ st.ring.entries, e.takes_quota = !e.msdu_continuation := by
    intro e he
    simp [ReoEntry.takes_quota, hfresh e he]
  refine ⟨?_, ?_, ?_⟩
  · intro e tl st1 hpeek h
    obtain ⟨_, _, hcont⟩ := dp_rx_process_reap_spec cfg st st1 e tl false hpeek h
    obtain ⟨_, _, _, _, _, hq⟩ := hcont rfl
    have he : e ∈ st.ring.entries := by simp [DstRing.entries, hpeek]
    rw [hq, htq e he]
    cases e.msdu_continuation <;> rfl
  · intro fuel st' h
    obtain ⟨k, new, h1, h2, h3, h4, _, h6⟩ := dp_rx_process_drain_spec cfg fuel st st' h
    refine ⟨k, h1, ?_, ?_, h6⟩
    · rw [h2, List.map_append, h3]
    · have hf : (st.ring.entries.take k).filter (fun e => !e.msdu_continuation)
          = (st.ring.entries.take k).filter ReoEntry.takes_quota := by
        apply List.filter_congr
        intro e he
        exact (htq e (List.mem_of_mem_take he)).symm
      rw [hf]
      exact h4
  · intro hsane
    exact dp_rx_process_drain_total cfg _ st (Nat.le_refl _) hsane

/-- C17 on the ring of `rx_process_in_cont` with quota 1: a continuation entry
followed by the last entry of the frame. -/
theorem dp_rx_process_drain_quota_witness :
    ∃ k, (drain_final cfg0 2 (drain_start rx_process_in_cont.ring 1)).ring.entries
        = (drain_start rx_process_in_cont.ring 1).ring.entries.drop k ∧
      (drain_final cfg0 2 (drain_start rx_process_in_cont.ring 1)).nbufs.map Nbuf.id
        = (drain_start rx_process_in_cont.ring 1).nbufs.map Nbuf.id ++
          ((drain_start rx_process_in_cont.ring 1).ring.entries.take k).map
            (fun e => e.nbuf.id) ∧
      (((drain_start rx_process_in_cont.ring 1).ring.entries.take k).filter
          (fun e => !e.msdu_continuation)).length
          + (drain_final cfg0 2 (drain_start rx_process_in_cont.ring 1)).quota
        = (drain_start rx_process_in_cont.ring 1).quota ∧
      ((drain_start rx_process_in_cont.ring 1).quota = 0 →
        k = 0 ∧ drain_final cfg0 2 (drain_start rx_process_in_cont.ring 1)
          = drain_start rx_process_in_cont.ring 1) :=
  (dp_rx_process_drain_quota cfg0 (drain_start rx_process_in_cont.ring 1) (by decide)).2.1 2
    (drain_final cfg0 2 (drain_start rx_process_in_cont.ring 1))
    (drain_final_eq cfg0 2 (drain_start rx_process_in_cont.ring 1) (by decide))

/-- The readiness check where it is made: when the drain loop of
`dp_rx_process` (quota left) peeks an entry of a raw aggregate that passes the
fatal checks while `is_prev_msdu_last` is set, and `msdu_len /
(RX_BUFFER_SIZE - RX_PKT_TLVS_LEN) + 1` exceeds the number of valid entries
reported by `hal_srng_dst_num_valid`, the iteration breaks and the loop ends
there: the entry is still the one at the read cursor and the ring holds the
same entries, the batch, the reaped counts and the free-descriptor lists of
every pool are unchanged, and so is `quota`. -/
theorem dp_rx_process_reap_raw_partial (cfg : RxCfg) (st : DrainState) (e : ReoEntry)
    (tl : List ReoEntry)
    (hpeek : st.ring.cached = e :: tl)
    (hq : st.quota ≠ 0)
    (hsane : e.sane cfg = true)
    (hraw : e.raw_ampdu = true)
    (hnew : st.is_prev_msdu_last = true)
    (hneed : e.msdu_len / (cfg.RX_BUFFER_SIZE - cfg.RX_PKT_TLVS_LEN) + 1
      > (hal_srng_dst_num_valid st.ring true).1) :
    ∃ st1, dp_rx_process_reap cfg st e = some (st1, true) ∧
      (∀ fuel, dp_rx_process_drain cfg (fuel + 1) st = some st1) ∧
      hal_srng_dst_peek st1.ring = some e ∧
      st1.ring.entries = st.ring.entries ∧
      st1.nbufs = st.nbufs ∧
      st1.rx_bufs_reaped = st.rx_bufs_reaped ∧
      st1.head = st.head ∧
      st1.quota = st.quota := by
  obtain ⟨r, hr⟩ := dp_rx_process_reap_total cfg st e hsane
  obtain ⟨st1, brk⟩ := r
  obtain ⟨_, hbrk, hcont⟩ := dp_rx_process_reap_spec cfg st st1 e tl brk hpeek hr
  have hb : brk = true := by
    obtain ⟨q1, q2, q3, q4, q5, q6⟩ := dp_rx_process_unmap_spec st e
    obtain ⟨_, _, _, _, _, _, _, _, r9⟩ :=
      dp_rx_process_raw_check_spec cfg (dp_rx_process_unmap st e) e e.nbuf
    rw [q5, q6] at r9
    have hraw2 := r9.mpr ⟨hraw, hnew, hneed⟩
    cases brk with
    | true => rfl
    | false =>
      unfold dp_rx_process_reap at hr
      simp only [hraw2, if_true] at hr
      split_ifs at hr
      simp at hr
  subst hb
  obtain ⟨b1, b2, b3, b4, b5, b6, _⟩ := hbrk rfl
  refine ⟨st1, hr, ?_, b6, b5, b2, b3, b4, b1⟩
  intro fuel
  have hp : hal_srng_dst_peek st.ring = some e := by
    simp [hal_srng_dst_peek, hpeek]
  rw [dp_rx_process_drain]
  simp [hq, hp, hr]

/-- The readiness check on `drain_raw_short`: a raw aggregate of 5000 bytes
needs four buffers and the ring holds one entry. -/
theorem dp_rx_process_reap_raw_partial_witness :
    ∃ st1, dp_rx_process_reap cfg0 drain_raw_short
        { reo_entry 1 1 with raw_ampdu := true, msdu_len := 5000, last_msdu := false }
        = some (st1, true) ∧
      (∀ fuel, dp_rx_process_drain cfg0 (fuel + 1) drain_raw_short = some st1) ∧
      hal_srng_dst_peek st1.ring
        = some { reo_entry 1 1 with raw_ampdu := true, msdu_len := 5000, last_msdu := false } ∧
      st1.ring.entries = drain_raw_short.ring.entries ∧
      st1.nbufs = drain_raw_short.nbufs ∧
      st1.rx_bufs_reaped = drain_raw_short.rx_bufs_reaped ∧
      st1.head = drain_raw_short.head ∧
      st1.quota = drain_raw_short.quota :=
  dp_rx_process_reap_raw_partial cfg0 drain_raw_short
    { reo_entry 1 1 with raw_ampdu := true, msdu_len := 5000, last_msdu := false } []
    (by decide) (by decide) (by decide) (by decide) (by decide) (by decide)

/-- C19 fails on the code: on a ring holding a one-entry raw aggregate followed
by the first entry of a new raw aggregate of 5000 bytes, the second entry is
peeked when one entry is valid while `msdu_len / (RX_BUFFER_SIZE -
RX_PKT_TLVS_LEN) + 1` is 4, and the drain loop consumes it: the read cursor
moves past it, its buffer joins the batch, the reaped count and the
free-descriptor list of its pool grow and `quota` goes down, because
`is_prev_msdu_last` was left clear by the one-entry aggregate and the
readiness check is made only when it is set.  When the flag is set, an entry
that passes the fatal checks and needs more entries than are valid stops the
loop and is not consumed. -/
theorem dp_rx_process_raw_partial_consumed :
    (reo_raw_single.raw_ampdu = true ∧ reo_raw_single.last_msdu = true ∧
      reo_raw_long.raw_ampdu = true ∧ reo_raw_long.first_msdu = true ∧
      reo_raw_long.msdu_len / (cfg0.RX_BUFFER_SIZE - cfg0.RX_PKT_TLVS_LEN) + 1 = 4) ∧
    (dp_rx_process_reap cfg0 drain_raw_single_then_long reo_raw_single).map
        (fun r => hal_srng_dst_peek r.1.ring) = some (some reo_raw_long) ∧
    (dp_rx_process_reap cfg0 drain_raw_single_then_long reo_raw_single).map
        (fun r => ((hal_srng_dst_num_valid r.1.ring true).1, r.1.quota,
          r.1.nbufs.map Nbuf.id))
      = some (1, 3, [1]) ∧
    (dp_rx_process_reap cfg0 drain_raw_single_then_long reo_raw_single).map
        (fun r => (r.1.rx_bufs_reaped 0, (r.1.head 0).map RxDesc.cookie))
      = some (1, [1]) ∧
    ((dp_rx_process_reap cfg0 drain_raw_single_then_long reo_raw_single).bind
        (fun r => (dp_rx_process_reap cfg0 r.1 reo_raw_long).map
          (fun r2 => (r2.2, r2.1.ring.entries.length, r2.1.quota, r2.1.nbufs.map Nbuf.id))))
      = some (false, 0, 2, [1, 2]) ∧
    ((dp_rx_process_reap cfg0 drain_raw_single_then_long reo_raw_single).bind
        (fun r => (dp_rx_process_reap cfg0 r.1 reo_raw_long).map
          (fun r2 => (r2.1.rx_bufs_reaped 0, (r2.1.head 0).map RxDesc.cookie))))
      = some (2, [2, 1]) ∧
    (dp_rx_process_drain cfg0 2 drain_raw_single_then_long).map
        (fun d => (d.ring.entries.length, d.quota, d.nbufs.map Nbuf.id, d.rx_bufs_reaped 0))
      = some (0, 2, [1, 2], 2) ∧
    (∀ (cfg : RxCfg) (st : DrainState) (e : ReoEntry) (tl : List ReoEntry),
      st.ring.cached = e :: tl → st.quota ≠ 0 → e.sane cfg = true → e.raw_ampdu = true →
      st.is_prev_msdu_last = true →
      e.msdu_len / (cfg.RX_BUFFER_SIZE - cfg.RX_PKT_TLVS_LEN) + 1
        > (hal_srng_dst_num_valid st.ring true).1 →
      ∃ st1, dp_rx_process_reap cfg st e = some (st1, true) ∧
        (∀ fuel, dp_rx_process_drain cfg (fuel + 1) st = some st1) ∧
        hal_srng_dst_peek st1.ring = some e ∧
        st1.ring.entries = st.ring.entries ∧
        st1.nbufs = st.nbufs ∧
        st1.rx_bufs_reaped = st.rx_bufs_reaped ∧
        st1.head = st.head ∧
        st1.quota = st.quota) := by
  refine ⟨by decide, by decide, by decide, by decide, by decide, by decide, by decide, ?_⟩
  intro cfg st e tl hpeek hq hsane hraw hnew hneed
  exact dp_rx_process_reap_raw_partial cfg st e tl hpeek hq hsane hraw hnew hneed

/-- C18, as stated, fails on a frame spread over two ring entries: the call
`rx_process_in_cont` has quota 1; the drain loop reaps the continuation entry
without touching the quota, then the last entry; the second pass counts both
buffers and `dp_rx_process` returns 2. -/
theorem dp_rx_process_ret_exceeds_quota :
    rx_process_in_cont.quota = 1 ∧
    (dp_rx_process env0 rx_process_in_cont).map
        (fun out => (out.ret, out.drain.quota, out.drain.nbufs.map Nbuf.id,
          out.drain.nbufs.map Nbuf.rx_chfrag_cont))
      = some (2, 0, [1, 2], [true, false]) := by
  decide

theorem dp_rx_process_ret_le (env : Env) (inp : RxProcessIn) (out : RxProcessOut)
    (h : dp_rx_process env inp = some out) :
    out.ret ≤ out.drain.nbufs.length ∧
    (out.drain.nbufs.filter (fun n => !n.rx_chfrag_cont)).length ≤ inp.quota ∧
    out.ret ≤ inp.quota + (out.drain.nbufs.filter (fun n => n.rx_chfrag_cont)).length := by
  unfold dp_rx_process at h
  have hd : ∀ d, (if (!inp.ring.access_ok) = true then some (drain_start inp.ring inp.quota)
      else dp_rx_process_drain env.cfg (inp.ring.cached.length + inp.ring.hw_more.length)
        (drain_start inp.ring inp.quota)) = some d →
      (d.nbufs.filter (fun n => !n.rx_chfrag_cont)).length ≤ inp.quota := by
    intro d hdr
    split_ifs at hdr
    · simp only [Option.some.injEq] at hdr
      subst hdr
      simp [drain_start]
    · obtain ⟨k, new, _, h2, _, _, h5, _⟩ := dp_rx_process_drain_spec env.cfg _ _ _ hdr
      have hn : d.nbufs = new := by
        rw [h2]
        simp [drain_start]
      rw [hn]
      have hq : (drain_start inp.ring inp.quota).quota = inp.quota := rfl
      omega
  simp only at h
  split at h
  · simp at h
  · rename_i d hdr
    have hcount := hd d hdr
    split at h
    · simp at h
    · split at h
      · simp at h
      · rename_i fin hfin
        simp only [Option.some.injEq] at h
        subst h
        have hused := dp_rx_process_second_pass_used env _ _ _ hfin
        have hsplit := List.length_eq_length_filter_add (l := d.nbufs)
          (fun n => n.rx_chfrag_cont)
        simp only
        refine ⟨hused, hcount, ?_⟩
        omega

theorem dp_rx_process_reap_not_raw (cfg : RxCfg) (st st1 : DrainState) (e : ReoEntry)
    (brk : Bool) (hraw : e.raw_ampdu = false)
    (h : dp_rx_process_reap cfg st e = some (st1, brk)) :
    brk = false ∧ ∃ nb, st1.nbufs = st.nbufs ++ [nb] ∧ nb.raw_frame = e.nbuf.raw_frame ∧
      nb.is_frag = e.nbuf.is_frag := by
  have hrc : dp_rx_process_raw_check cfg (dp_rx_process_unmap st e) e e.nbuf
      = (dp_rx_process_unmap st e, e.nbuf, false) := by
    simp [dp_rx_process_raw_check, hraw]
  unfold dp_rx_process_reap at h
  rw [hrc] at h
  by_cases h1 : (cfg.RX_DESC_DEBUG_CHECK && !e.paddr_ok) = true
  · simp [h1] at h
  · by_cases h2 : e.rx_desc.in_use = true
    · by_cases h3 : dp_rx_desc_check_magic cfg e.rx_desc = true
      · simp only [h1, h2, h3, Bool.not_true, Bool.false_eq_true, if_false,
          Option.some.injEq, Prod.mk.injEq] at h
        obtain ⟨hs, hb⟩ := h
        subst hs hb
        refine ⟨rfl, dp_rx_process_save_cb e e.nbuf, ?_, rfl, rfl⟩
        show (dp_rx_process_unmap st e).nbufs ++ [_] = _
        rw [(dp_rx_process_unmap_spec st e).2.1]
      · simp [h1, h2, h3] at h
    · simp [h1, h2] at h

theorem dp_rx_process_drain_not_raw (cfg : RxCfg) :
    ∀ (fuel : Nat) (st st' : DrainState), dp_rx_process_drain cfg fuel st = some st' →
      (∀ e ∈ st.ring.entries, e.raw_ampdu = false ∧ e.nbuf.raw_frame = false) →
      (∀ n ∈ st.nbufs, n.raw_frame = false) →
      ∀ n ∈ st'.nbufs, n.raw_frame = false := by
  intro fuel
  induction fuel with
  | zero =>
    intro st st' h _ hb
    unfold dp_rx_process_drain at h
    split_ifs at h
    · simp only [Option.some.injEq] at h
      subst h
      exact hb
    · split at h
      · simp only [Option.some.injEq] at h
        subst h
        exact hb
      · simp at h
  | succ fuel ih =>
    intro st st' h hent hb
    unfold dp_rx_process_drain at h
    by_cases hq : st.quota = 0
    · simp only [hq, if_true, Option.some.injEq] at h
      subst h
      exact hb
    · simp only [hq, if_false] at h
      cases hp : hal_srng_dst_peek st.ring with
      | none =>
        simp only [hp, Option.some.injEq] at h
        subst h
        exact hb
      | some e =>
        obtain ⟨tl, htl⟩ := hal_srng_dst_peek_cons st.ring e hp
        have hmem : e ∈ st.ring.entries := by simp [DstRing.entries, htl]
        simp only [hp] at h
        cases hr : dp_rx_process_reap cfg st e with
        | none => simp [hr] at h
        | some r =>
          obtain ⟨st1, brk⟩ := r
          obtain ⟨hbrk, nb, hn1, hn2, _⟩ :=
            dp_rx_process_reap_not_raw cfg st st1 e brk (hent e hmem).1 hr
          subst hbrk
          obtain ⟨_, _, hcont⟩ := dp_rx_process_reap_spec cfg st st1 e tl false htl hr
          obtain ⟨c1, _⟩ := hcont rfl
          simp only [hr] at h
          apply ih st1 st' h
          · intro x hx
            rw [c1] at hx
            exact hent x (by
              simp only [DstRing.entries, htl, List.cons_append, List.mem_cons]
              exact Or.inr hx)
          · intro n hn
            rw [hn1] at hn
            simp only [List.mem_append, List.mem_singleton] at hn
            rcases hn with hn | hn
            · exact hb n hn
            · rw [hn, hn2]
              exact (hent e hmem).2

theorem dp_rx_process_replenish_none (cfg : RxCfg) (inp : RxProcessIn) (d : DrainState)
    (h : ∀ i, d.rx_bufs_reaped i = 0) (l : List Nat) :
    dp_rx_process_replenish cfg inp d l = some [] := by
  induction l with
  | nil => rfl
  | cons a l ih =>
    rw [dp_rx_process_replenish]
    simp [h a, ih]

theorem dp_rx_process_total (env : Env) (inp : RxProcessIn)
    (hsane : ∀ e ∈ inp.ring.entries, e.sane env.cfg = true)
    (hraw : ∀ e ∈ inp.ring.entries, e.raw_ampdu = false ∧ e.nbuf.raw_frame = false)
    (hrepl : ∀ d, dp_rx_process_drain env.cfg
        (inp.ring.cached.length + inp.ring.hw_more.length) (drain_start inp.ring inp.quota)
        = some d →
      (dp_rx_process_replenish env.cfg inp d (List.range inp.MAX_PDEV_CNT)).isSome = true)
    (hpol : ∀ tlv v p, (dp_wds_rx_policy_check env tlv v p).isSome = true) :
    ∃ out, dp_rx_process env inp = some out := by
  have hdr : ∃ d, (if (!inp.ring.access_ok) = true then some (drain_start inp.ring inp.quota)
      else dp_rx_process_drain env.cfg (inp.ring.cached.length + inp.ring.hw_more.length)
        (drain_start inp.ring inp.quota)) = some d ∧ (∀ n ∈ d.nbufs, n.raw_frame = false) ∧
      (dp_rx_process_replenish env.cfg inp d (List.range inp.MAX_PDEV_CNT)).isSome = true := by
    split_ifs
    · exact ⟨_, rfl, by simp [drain_start],
        by rw [dp_rx_process_replenish_none env.cfg inp _ (fun _ => rfl)]; rfl⟩
    · obtain ⟨d, hd⟩ := dp_rx_process_drain_total env.cfg
        (inp.ring.cached.length + inp.ring.hw_more.length) (drain_start inp.ring inp.quota)
        (by simp [drain_start, DstRing.entries]) hsane
      exact ⟨d, hd, dp_rx_process_drain_not_raw env.cfg _ _ _ hd hraw (by simp [drain_start]),
        hrepl d hd⟩
  obtain ⟨d, hd, hnr, hre⟩ := hdr
  obtain ⟨outs, houts⟩ := Option.isSome_iff_exists.mp hre
  obtain ⟨st, hst, hinv⟩ := dp_rx_process_loop_total env
    (rx_pdev_of d) hpol d.nbufs d.nbufs.length rx_state_init (Nat.le_refl _)
    (fun n hn => Or.inr (hnr n hn)) (fun h => absurd rfl h)
  obtain ⟨fin, hfin⟩ := dp_rx_process_final_flush_total env st hinv
  unfold dp_rx_process
  simp only [hd, houts, dp_rx_process_second_pass, hst, hfin]
  exact ⟨_, rfl⟩

/-- C18, amended: the value `dp_rx_process` returns is at most the number of
buffers reaped by the drain loop; of these, the buffers without continuation
flag are at most `quota`, so the value returned is at most the quota plus the
number of reaped continuation buffers.  The call does return when every
completed entry passes the fatal checks and is not part of a raw aggregate,
the replenish calls return and the WDS policy check is defined. -/
theorem dp_rx_process_ret_bound (env : Env) (inp : RxProcessIn) :
    (∀ out, dp_rx_process env inp = some out →
      out.ret ≤ out.drain.nbufs.length ∧
      (out.drain.nbufs.filter (fun n => !n.rx_chfrag_cont)).length ≤ inp.quota ∧
      out.ret ≤ inp.quota + (out.drain.nbufs.filter (fun n => n.rx_chfrag_cont)).length) ∧
    ((∀ e ∈ inp.ring.entries, e.sane env.cfg = true) →
      (∀ e ∈ inp.ring.entries, e.raw_ampdu = false ∧ e.nbuf.raw_frame = false) →
      (∀ d, dp_rx_process_drain env.cfg
          (inp.ring.cached.length + inp.ring.hw_more.length) (drain_start inp.ring inp.quota)
          = some d →
        (dp_rx_process_replenish env.cfg inp d (List.range inp.MAX_PDEV_CNT)).isSome = true) →
      (∀ tlv v p, (dp_wds_rx_policy_check env tlv v p).isSome = true) →
      ∃ out, dp_rx_process env inp = some out) :=
  ⟨fun out h => dp_rx_process_ret_le env inp out h,
   fun hsane hraw hrepl hpol => dp_rx_process_total env inp hsane hraw hrepl hpol⟩

/-- C18, amended, on the call `rx_process_in_cont`. -/
theorem dp_rx_process_ret_bound_witness :
    (rx_process_out env0 rx_process_in_cont).ret
      ≤ (rx_process_out env0 rx_process_in_cont).drain.nbufs.length ∧
    ((rx_process_out env0 rx_process_in_cont).drain.nbufs.filter
        (fun n => !n.rx_chfrag_cont)).length ≤ rx_process_in_cont.quota ∧
    (rx_process_out env0 rx_process_in_cont).ret
      ≤ rx_process_in_cont.quota +
        ((rx_process_out env0 rx_process_in_cont).drain.nbufs.filter
          (fun n => n.rx_chfrag_cont)).length :=
  (dp_rx_process_ret_bound env0 rx_process_in_cont).1 (rx_process_out env0 rx_process_in_cont)
    (rx_process_out_eq env0 rx_process_in_cont (by decide))

/-! ### The walk of `dp_rx_sg_create` is driven by the declared length -/

theorem dp_rx_sg_walk_ids (cfg : RxCfg)
    (hcap : cfg.RX_PKT_TLVS_LEN < cfg.RX_BUFFER_SIZE) (after : List Nbuf) :
    ∀ (unit : List Nbuf) (m fl : Nat) (done : List Nbuf),
      1 ≤ m → m < 65536 →
      unit.length =
        (m + (cfg.RX_BUFFER_SIZE - cfg.RX_PKT_TLVS_LEN) - 1) /
          (cfg.RX_BUFFER_SIZE - cfg.RX_PKT_TLVS_LEN) →
      ∃ frags fl1, dp_rx_sg_walk cfg (unit ++ after) m fl done
          = some (done ++ frags, fl1, after) ∧
        frags.map Nbuf.id = unit.map Nbuf.id ∧
        frags.map Nbuf.rx_chfrag_end = unit.map Nbuf.rx_chfrag_end ∧
        ∀ last, frags.getLast? = some last → last.rx_chfrag_start = false := by
  intro unit
  induction unit with
  | nil =>
    intro m fl done h1 _ hlen
    exfalso
    have hpos : 0 < cfg.RX_BUFFER_SIZE - cfg.RX_PKT_TLVS_LEN := by omega
    have : 1 ≤ (m + (cfg.RX_BUFFER_SIZE - cfg.RX_PKT_TLVS_LEN) - 1) /
        (cfg.RX_BUFFER_SIZE - cfg.RX_PKT_TLVS_LEN) := by
      rw [Nat.le_div_iff_mul_le hpos]
      omega
    simp at hlen
    omega
  | cons nbuf r ih =>
    intro m fl done h1 hm16 hlen
    have hpos : 0 < cfg.RX_BUFFER_SIZE - cfg.RX_PKT_TLVS_LEN := by omega
    have hle : cfg.RX_PKT_TLVS_LEN ≤ cfg.RX_BUFFER_SIZE := by omega
    by_cases hm : m > cfg.RX_BUFFER_SIZE - cfg.RX_PKT_TLVS_LEN
    · have hstep := ceil_div_step _ m hpos hm
      have hm' : u16 ((m : Int) - ((cfg.RX_BUFFER_SIZE - cfg.RX_PKT_TLVS_LEN : Nat) : Int))
          = m - (cfg.RX_BUFFER_SIZE - cfg.RX_PKT_TLVS_LEN) := by
        unfold u16
        omega
      have hr : r.length =
          (m - (cfg.RX_BUFFER_SIZE - cfg.RX_PKT_TLVS_LEN) +
              (cfg.RX_BUFFER_SIZE - cfg.RX_PKT_TLVS_LEN) - 1) /
            (cfg.RX_BUFFER_SIZE - cfg.RX_PKT_TLVS_LEN) := by
        simp only [List.length_cons] at hlen
        omega
      obtain ⟨frags, fl1, hw, hi, he, hs⟩ :=
        ih (m - (cfg.RX_BUFFER_SIZE - cfg.RX_PKT_TLVS_LEN))
          (u16 ((fl : Int) + ((cfg.RX_BUFFER_SIZE - cfg.RX_PKT_TLVS_LEN : Nat) : Int)))
          (done ++ [{ nbuf with len := cfg.RX_BUFFER_SIZE - cfg.RX_PKT_TLVS_LEN }])
          (by omega) (by omega) hr
      refine ⟨{ nbuf with len := cfg.RX_BUFFER_SIZE - cfg.RX_PKT_TLVS_LEN } :: frags, fl1,
        ?_, ?_, ?_, ?_⟩
      · rw [List.append_assoc] at hw
        show dp_rx_sg_walk cfg (nbuf :: (r ++ after)) m fl done = _
        rw [dp_rx_sg_walk]
        simp only [dp_rx_adjust_nbuf_len, hm, if_true,
          qdf_nbuf_set_pktlen, qdf_nbuf_pull_head, hle, hm']
        simp only [Bool.false_eq_true, if_false]
        exact hw
      · simp [hi]
      · simp [he]
      · intro last hlast
        cases frags with
        | nil =>
          exfalso
          have h0 : r = [] := by simpa using hi.symm
          have h1r : 1 ≤ (m - (cfg.RX_BUFFER_SIZE - cfg.RX_PKT_TLVS_LEN) +
              (cfg.RX_BUFFER_SIZE - cfg.RX_PKT_TLVS_LEN) - 1) /
                (cfg.RX_BUFFER_SIZE - cfg.RX_PKT_TLVS_LEN) := by
            rw [Nat.le_div_iff_mul_le hpos]
            omega
          rw [h0] at hr
          simp only [List.length_nil] at hr
          omega
        | cons f fs =>
          rw [List.getLast?_cons_cons] at hlast
          exact hs last hlast
    · have hone := ceil_div_one (cfg.RX_BUFFER_SIZE - cfg.RX_PKT_TLVS_LEN) m h1 (by omega)
      have hr : r = [] := by
        simp only [List.length_cons] at hlen
        have : r.length = 0 := by omega
        exact List.length_eq_zero.mp this
      subst hr
      refine ⟨[{ nbuf with len := m, rx_chfrag_start := false }],
        u16 ((fl : Int) + ((m : Nat) : Int)), ?_, ?_, ?_, ?_⟩
      · show dp_rx_sg_walk cfg (nbuf :: after) m fl done = _
        rw [dp_rx_sg_walk]
        simp only [dp_rx_adjust_nbuf_len, hm, if_false, qdf_nbuf_set_pktlen, qdf_nbuf_pull_head]
        simp
      · simp
      · simp
      · intro last hlast
        simp at hlast
        subst hlast
        rfl

/-- C21, as stated, fails on a misplaced end marker: a unit of 4000 bytes
needs three buffers of capacity 1664, and `dp_rx_sg_create` takes both
buffers that follow the parent although the first of them already carries
the end-of-unit marker. -/
theorem dp_rx_sg_create_ignores_end_marker :
    first_chfrag_end chain_early_end = some 2 ∧
    (dp_rx_sg_create cfg0 { nbuf0 1 with tlv := { tlv0 with msdu_len := 4000 } }
        chain_early_end).map (fun out => (out.frag_list.map Nbuf.id, out.next.map Nbuf.id))
      = some ([2, 3], [4]) := by
  decide

/-- C21 as the code has it: for a unit of declared length `L` above the
per-buffer capacity, spread over a parent and the `ceil (L / capacity) - 1`
buffers `unit` that follow it, `dp_rx_sg_create` returns (never `NULL`) the
parent it was given; the walk ends at the buffer where the remaining length
fits one buffer, whatever end-of-unit markers the buffers carry (they are
left as they were): the extension chain is exactly `unit`, ending at its last
buffer with the start marker cleared, and the parent's next link is the
buffer that followed `unit` on the primary chain. -/
theorem dp_rx_sg_create_walk_by_length (cfg : RxCfg) (nbuf : Nbuf) (unit after : List Nbuf)
    (hcap : cfg.RX_PKT_TLVS_LEN < cfg.RX_BUFFER_SIZE)
    (hL : nbuf.tlv.msdu_len < 65536)
    (hse : (nbuf.rx_chfrag_start && nbuf.rx_chfrag_end) = false)
    (hgt : cfg.RX_BUFFER_SIZE - cfg.RX_PKT_TLVS_LEN < nbuf.tlv.msdu_len)
    (hk : unit.length + 1 =
      (nbuf.tlv.msdu_len + (cfg.RX_BUFFER_SIZE - cfg.RX_PKT_TLVS_LEN) - 1) /
        (cfg.RX_BUFFER_SIZE - cfg.RX_PKT_TLVS_LEN)) :
    ∃ out, dp_rx_sg_create cfg nbuf (unit ++ after) = some out ∧
      out.parent.id = nbuf.id ∧
      out.frag_list.map Nbuf.id = unit.map Nbuf.id ∧
      out.frag_list.map Nbuf.rx_chfrag_end = unit.map Nbuf.rx_chfrag_end ∧
      (∀ last, out.frag_list.getLast? = some last → last.rx_chfrag_start = false) ∧
      out.next = after := by
  have hu : u16 (nbuf.tlv.msdu_len : Int) = nbuf.tlv.msdu_len := u16_of_lt _ hL
  have hpos : 0 < cfg.RX_BUFFER_SIZE - cfg.RX_PKT_TLVS_LEN := by omega
  have hstep := ceil_div_step _ nbuf.tlv.msdu_len hpos hgt
  obtain ⟨frags, fl1, hw, hi, he, hs⟩ :=
    dp_rx_sg_walk_ids cfg hcap after unit
      (nbuf.tlv.msdu_len - (cfg.RX_BUFFER_SIZE - cfg.RX_PKT_TLVS_LEN)) 0 []
      (by omega) (by omega) (by omega)
  have hm' : u16 ((nbuf.tlv.msdu_len : Int) -
      ((cfg.RX_BUFFER_SIZE - cfg.RX_PKT_TLVS_LEN : Nat) : Int))
      = nbuf.tlv.msdu_len - (cfg.RX_BUFFER_SIZE - cfg.RX_PKT_TLVS_LEN) := by
    unfold u16
    omega
  simp only [dp_rx_sg_create, hse, Bool.false_eq_true, if_false, hu, dp_rx_adjust_nbuf_len,
    hgt, gt_iff_lt, if_true, hm', hw]
  refine ⟨_, rfl, ?_, ?_, ?_, ?_, ?_⟩
  · simp only [qdf_nbuf_set_pktlen, qdf_nbuf_append_ext_list, qdf_nbuf_pull_head]
    split <;> rfl
  · simpa using hi
  · simpa using he
  · simpa using hs
  · rfl

/-- C21 at a concrete unit: 4000 bytes over three 2048-byte buffers, the end
marker sitting on the first buffer after the parent. -/
theorem dp_rx_sg_create_walk_by_length_witness :
    ∃ out, dp_rx_sg_create cfg0 { nbuf0 1 with tlv := { tlv0 with msdu_len := 4000 } }
        ([{ nbuf0 2 with rx_chfrag_end := true }, nbuf0 3] ++ [nbuf0 4]) = some out ∧
      out.parent.id = 1 ∧
      out.frag_list.map Nbuf.id = [2, 3] ∧
      out.frag_list.map Nbuf.rx_chfrag_end = [true, false] ∧
      (∀ last, out.frag_list.getLast? = some last → last.rx_chfrag_start = false) ∧
      out.next = [nbuf0 4] :=
  dp_rx_sg_create_walk_by_length cfg0
    { nbuf0 1 with tlv := { tlv0 with msdu_len := 4000 } }
    [{ nbuf0 2 with rx_chfrag_end := true }, nbuf0 3] [nbuf0 4]
    (by decide) (by decide) (by decide) (by decide) (by decide)

/-! ### `dp_rx_nbuf_prepare` -/

theorem dp_rx_nbuf_prepare_loop_spec (THRESHOLD : Nat) (answer : Nat → PrepAttempt) :
    ∀ (fuel : Nat) (st : PrepState),
      st.nbuf_retry_count + fuel = THRESHOLD → st.alloc_calls = st.nbuf_retry_count →
      st.nbuf_retry_count ≤ (dp_rx_nbuf_prepare_loop THRESHOLD answer fuel st).nbuf_retry_count ∧
      (dp_rx_nbuf_prepare_loop THRESHOLD answer fuel st).nbuf_retry_count ≤ THRESHOLD ∧
      (dp_rx_nbuf_prepare_loop THRESHOLD answer fuel st).alloc_calls ≤ THRESHOLD ∧
      ((dp_rx_nbuf_prepare_loop THRESHOLD answer fuel st).nbuf_retry_count < THRESHOLD →
        ∃ n, (dp_rx_nbuf_prepare_loop THRESHOLD answer fuel st).nbuf = some n ∧
          answer (dp_rx_nbuf_prepare_loop THRESHOLD answer fuel st).nbuf_retry_count
            = PrepAttempt.mapped n ∧
          (dp_rx_nbuf_prepare_loop THRESHOLD answer fuel st).alloc_calls
            = (dp_rx_nbuf_prepare_loop THRESHOLD answer fuel st).nbuf_retry_count + 1) ∧
      (THRESHOLD ≤ (dp_rx_nbuf_prepare_loop THRESHOLD answer fuel st).nbuf_retry_count →
        (dp_rx_nbuf_prepare_loop THRESHOLD answer fuel st).alloc_calls = THRESHOLD) ∧
      (∀ j, st.nbuf_retry_count ≤ j →
        j < (dp_rx_nbuf_prepare_loop THRESHOLD answer fuel st).nbuf_retry_count →
        (answer j).failed = true) ∧
      (∀ n, n ∈ st.freed → n ∈ (dp_rx_nbuf_prepare_loop THRESHOLD answer fuel st).freed) ∧
      (∀ j n, st.nbuf_retry_count ≤ j →
        j < (dp_rx_nbuf_prepare_loop THRESHOLD answer fuel st).nbuf_retry_count →
        answer j = PrepAttempt.map_fail n →
        n ∈ (dp_rx_nbuf_prepare_loop THRESHOLD answer fuel st).freed) := by
  intro fuel
  induction fuel with
  | zero =>
    intro st h hc
    simp only [dp_rx_nbuf_prepare_loop]
    refine ⟨Nat.le_refl _, by omega, by omega, fun hlt => by omega, fun _ => by omega,
      fun j h1 h2 => by omega, fun n hn => hn, fun j n h1 h2 => by omega⟩
  | succ fuel ih =>
    intro st h hc
    have hlt : st.nbuf_retry_count < THRESHOLD := by omega
    rw [dp_rx_nbuf_prepare_loop]
    simp only [hlt, if_true]
    cases ha : answer st.alloc_calls with
    | alloc_fail =>
      simp only []
      obtain ⟨i1, i2, i3, i4, i5, i6, i7, i8⟩ := ih
        { st with nbuf := none, alloc_calls := st.alloc_calls + 1,
                  nbuf_alloc_fail := st.nbuf_alloc_fail + 1,
                  nbuf_retry_count := st.nbuf_retry_count + 1 }
        (by dsimp only; omega) (by dsimp only; omega)
      dsimp only at i1 i6 i7 i8
      refine ⟨by omega, i2, i3, i4, i5, ?_, i7, ?_⟩
      · intro j h1 h2
        by_cases hj : j = st.nbuf_retry_count
        · rw [hj, ← hc, ha]
          rfl
        · exact i6 j (by omega) h2
      · intro j n h1 h2 hj
        by_cases hj2 : j = st.nbuf_retry_count
        · rw [hj2, ← hc, ha] at hj
          cases hj
        · exact i8 j n (by omega) h2 hj
    | map_fail nbuf =>
      simp only []
      obtain ⟨i1, i2, i3, i4, i5, i6, i7, i8⟩ := ih
        { st with nbuf := some nbuf, alloc_calls := st.alloc_calls + 1,
                  freed := st.freed ++ [nbuf], map_err := st.map_err + 1,
                  nbuf_retry_count := st.nbuf_retry_count + 1 }
        (by dsimp only; omega) (by dsimp only; omega)
      dsimp only at i1 i6 i7 i8
      refine ⟨by omega, i2, i3, i4, i5, ?_, ?_, ?_⟩
      · intro j h1 h2
        by_cases hj : j = st.nbuf_retry_count
        · rw [hj, ← hc, ha]
          rfl
        · exact i6 j (by omega) h2
      · intro n hn
        exact i7 n (List.mem_append_left _ hn)
      · intro j n h1 h2 hj
        by_cases hj2 : j = st.nbuf_retry_count
        · rw [hj2, ← hc, ha] at hj
          cases hj
          exact i7 nbuf (List.mem_append_right _ (List.mem_singleton.mpr rfl))
        · exact i8 j n (by omega) h2 hj
    | mapped nbuf =>
      simp only []
      refine ⟨Nat.le_refl _, by omega, by omega, ?_, fun hge => by omega,
        fun j h1 h2 => by omega, fun n hn => hn, fun j n h1 h2 => by omega⟩
      intro _
      refine ⟨nbuf, rfl, ?_, by omega⟩
      rw [← hc]
      exact ha

/-- C22: `dp_rx_nbuf_prepare` calls the allocator at most
`QDF_NBUF_ALLOC_MAP_RETRY_THRESHOLD` times; it returns buffer `n` exactly
when the first attempt in which allocation and mapping both succeed is one of
those attempts and yields `n`; it returns `NULL` exactly when every one of
the attempts fails; and every buffer whose mapping failed in an attempt that
was made has been handed to `qdf_nbuf_free`. -/
theorem dp_rx_nbuf_prepare_first_success (THRESHOLD : Nat) (answer : Nat → PrepAttempt) :
    (dp_rx_nbuf_prepare THRESHOLD answer).fin.alloc_calls ≤ THRESHOLD ∧
    (∀ n, (dp_rx_nbuf_prepare THRESHOLD answer).ret = some n ↔
      ∃ i, i < THRESHOLD ∧ answer i = PrepAttempt.mapped n ∧
        ∀ j, j < i → (answer j).failed = true) ∧
    ((dp_rx_nbuf_prepare THRESHOLD answer).ret = none ↔
      ∀ i, i < THRESHOLD → (answer i).failed = true) ∧
    (∀ i n, i < (dp_rx_nbuf_prepare THRESHOLD answer).fin.alloc_calls →
      answer i = PrepAttempt.map_fail n →
      n ∈ (dp_rx_nbuf_prepare THRESHOLD answer).fin.freed) := by
  obtain ⟨i1, i2, i3, i4, i5, i6, i7, i8⟩ :=
    dp_rx_nbuf_prepare_loop_spec THRESHOLD answer THRESHOLD
      { nbuf_retry_count := 0, nbuf := none, alloc_calls := 0, freed := [],
        nbuf_alloc_fail := 0, map_err := 0 } (by dsimp only; omega) rfl
  dsimp only at i1 i6 i8
  by_cases hge : (dp_rx_nbuf_prepare_loop THRESHOLD answer THRESHOLD
      { nbuf_retry_count := 0, nbuf := none, alloc_calls := 0, freed := [],
        nbuf_alloc_fail := 0, map_err := 0 }).nbuf_retry_count ≥ THRESHOLD
  · simp only [dp_rx_nbuf_prepare, hge, if_true]
    refine ⟨i3, ?_, ?_, ?_⟩
    · intro n
      constructor
      · intro h
        cases h
      · rintro ⟨i, hi, hm, _⟩
        have := i6 i (Nat.zero_le _) (by omega)
        rw [hm] at this
        cases this
    · constructor
      · intro _ i hi
        exact i6 i (Nat.zero_le _) (by omega)
      · intro _
        trivial
    · intro i n hi hm
      exact i8 i n (Nat.zero_le _) (by rw [i5 hge] at hi; omega) hm
  · simp only [dp_rx_nbuf_prepare, hge, if_false]
    have hlt := Nat.lt_of_not_ge hge
    obtain ⟨n0, hn0, ha0, hc0⟩ := i4 hlt
    refine ⟨i3, ?_, ?_, ?_⟩
    · intro n
      constructor
      · intro h
        rw [hn0] at h
        cases h
        exact ⟨_, hlt, ha0, fun j hj => i6 j (Nat.zero_le _) hj⟩
      · rintro ⟨i, hi, hm, hall⟩
        rcases Nat.lt_trichotomy i (dp_rx_nbuf_prepare_loop THRESHOLD answer THRESHOLD
          { nbuf_retry_count := 0, nbuf := none, alloc_calls := 0, freed := [],
            nbuf_alloc_fail := 0, map_err := 0 }).nbuf_retry_count with h | h | h
        · have := i6 i (Nat.zero_le _) h
          rw [hm] at this
          cases this
        · rw [← h, hm] at ha0
          cases ha0
          exact hn0
        · have := hall _ h
          rw [ha0] at this
          cases this
    · constructor
      · intro h
        rw [hn0] at h
        cases h
      · intro hall
        have := hall _ hlt
        rw [ha0] at this
        cases this
    · intro i n hi hm
      rw [hc0] at hi
      by_cases hlast : i = (dp_rx_nbuf_prepare_loop THRESHOLD answer THRESHOLD
          { nbuf_retry_count := 0, nbuf := none, alloc_calls := 0, freed := [],
            nbuf_alloc_fail := 0, map_err := 0 }).nbuf_retry_count
      · rw [hlast, ha0] at hm
        cases hm
      · exact i8 i n (Nat.zero_le _) (by omega) hm

/-! ### `dp_rx_pdev_attach` -/

/-- C23 fails on the code: `dp_rx_pdev_attach` returns `QDF_STATUS_SUCCESS`
when `dp_rx_desc_pool_alloc` answered `QDF_STATUS_E_NOMEM` and the initial
replenish returned `QDF_STATUS_E_NOMEM` with nothing published, and also when
the initial replenish returned `QDF_STATUS_E_FAILURE` because the refill ring
is `NULL`; for no input at all does it return `QDF_STATUS_E_RESOURCES`. -/
theorem dp_rx_pdev_attach_always_success :
    ((dp_rx_pdev_attach cfg0 attach_in_no_pool).pool_alloc
        = some QDF_STATUS.QDF_STATUS_E_NOMEM ∧
      (dp_rx_pdev_attach cfg0 attach_in_no_pool).replenish.map
          (fun r => (r.status, r.published))
        = some (some QDF_STATUS.QDF_STATUS_E_NOMEM, []) ∧
      (dp_rx_pdev_attach cfg0 attach_in_no_pool).status
        = some QDF_STATUS.QDF_STATUS_SUCCESS) ∧
    ((dp_rx_pdev_attach cfg0 attach_in_no_ring).replenish.map ReplenishOut.status
        = some (some QDF_STATUS.QDF_STATUS_E_FAILURE) ∧
      (dp_rx_pdev_attach cfg0 attach_in_no_ring).status
        = some QDF_STATUS.QDF_STATUS_SUCCESS) ∧
    ∀ (cfg : RxCfg) (inp : PdevAttachIn),
      (dp_rx_pdev_attach cfg inp).status ≠ some QDF_STATUS.QDF_STATUS_E_RESOURCES := by
  refine ⟨by decide, by decide, ?_⟩
  intro cfg inp
  unfold dp_rx_pdev_attach
  split
  · simp
  · dsimp only
    cases (dp_rx_buffers_replenish cfg
      { inp.refill with owner := inp.DP_WBM2SW_RBM, num_req_buffers := 0,
                        desc_list := [] }).status <;> simp

/-! ### The access bracket of the serviced ring -/

/-- C24 fails on the code: when `hal_srng_access_start` fails, `dp_rx_process`
does return 0 with nothing reaped, nothing unmapped, no pool replenished and
no call made by the second pass, but it has called `hal_srng_access_end`
twice, once in the failure branch and once at `done:`; when access start
succeeds the bracket is one start and one end. -/
theorem dp_rx_process_access_fail_two_ends :
    (∀ (env : Env) (inp : RxProcessIn), inp.ring.access_ok = false →
      ∃ out, dp_rx_process env inp = some out ∧
        out.srng_calls
          = [SrngCall.access_start false, SrngCall.access_end, SrngCall.access_end] ∧
        out.ret = 0 ∧ out.drain.nbufs = [] ∧ out.drain.ring = inp.ring ∧
        out.drain.unmapped = [] ∧ out.replenished = [] ∧ out.second.trace = []) ∧
    (dp_rx_process env0 rx_process_in_no_access).map
        (fun out => (out.srng_calls, out.ret, out.drain.nbufs.length))
      = some ([SrngCall.access_start false, SrngCall.access_end, SrngCall.access_end], 0, 0) ∧
    (dp_rx_process env0 rx_process_in_cont).map
        (fun out => (out.srng_calls, out.drain.nbufs.length))
      = some ([SrngCall.access_start true, SrngCall.access_end], 2) := by
  refine ⟨?_, by decide, by decide⟩
  intro env inp h
  have hr := dp_rx_process_replenish_none env.cfg inp (drain_start inp.ring inp.quota)
    (fun _ => rfl) (List.range inp.MAX_PDEV_CNT)
  refine ⟨{ ret := 0, drain := drain_start inp.ring inp.quota, replenished := [],
            second := rx_state_init,
            srng_calls := dp_rx_process_srng_calls inp.ring.access_ok }, ?_, ?_, rfl, rfl, rfl,
    rfl, rfl, rfl⟩
  · unfold dp_rx_process
    simp only [h, Bool.not_false, if_true, hr]
    rfl
  · simp [dp_rx_process_srng_calls, h]

/-! ### Raw aggregates: the in-progress flag and the entry left on the ring -/

/-- C25 fails on the code: on a ring holding a one-entry raw aggregate (first
and last flag) followed by the first entry of a four-buffer aggregate, the
first entry is checked (two entries are valid) and reaped, and
`is_prev_msdu_last` is `false` after it although it carries the last flag; so
the second entry is taken for the middle of an aggregate and reaped without
the readiness check (`num_entries_avail` still holds the 2 of the first
check), although only one of its four entries is on the ring.  The same entry
met with `is_prev_msdu_last` set (`drain_raw_short`) stops the loop. -/
theorem dp_rx_process_raw_single_entry_in_progress :
    reo_raw_single.last_msdu = true ∧
    (dp_rx_process_reap cfg0 drain_raw_single_then_long reo_raw_single).map
        (fun r => (r.1.is_prev_msdu_last, r.1.num_entries_avail, r.2))
      = some (false, 2, false) ∧
    (dp_rx_process_drain cfg0 2 drain_raw_single_then_long).map
        (fun d => (d.nbufs.map Nbuf.id, d.ring.entries.length, d.num_entries_avail,
          d.is_prev_msdu_last))
      = some ([1, 2], 0, 2, false) ∧
    (dp_rx_process_drain cfg0 1 drain_raw_short).map
        (fun d => (d.nbufs.map Nbuf.id, d.ring.entries.length, d.num_entries_avail))
      = some ([], 1, 1) := by
  decide

/-- C30 fails on the code: the call that stops at the readiness check of a raw
aggregate returns 0 with the entry still on the ring and nothing reaped, but
it has already unmapped the buffer of that entry (cookie 1) and set the
`unmapped` flag of its descriptor; the raw-frame flag of the buffer is
untouched.  The next call on the same ring unmaps the same buffer again. -/
theorem dp_rx_process_raw_break_unmaps_twice :
    (dp_rx_process env0 rx_process_in_raw_short).map
        (fun out => (out.ret, out.drain.nbufs.length, out.drain.unmapped))
      = some (0, 0, [1]) ∧
    (dp_rx_process env0 rx_process_in_raw_short).map
        (fun out => out.drain.ring.entries.map (fun e => (e.rx_desc.cookie, e.nbuf.raw_frame)))
      = some [(1, false)] ∧
    (dp_rx_process env0 rx_process_in_raw_short).map
        (fun out => out.drain.rx_desc.map (fun d => (d.cookie, d.unmapped)))
      = some (some (1, true)) ∧
    rx_process_in_raw_short.ring.entries.map (fun e => (e.rx_desc.unmapped, e.nbuf.raw_frame))
      = [(false, false)] ∧
    (dp_rx_process env0 rx_process_in_raw_short_again).map
        (fun out => (out.ret, out.drain.ring.entries.length, out.drain.unmapped))
      = some (0, 1, [1]) := by
  refine ⟨by decide, by decide, by decide, by decide, by decide⟩

/-! ### Frequency scaling: the scale index -/

theorem nss_freq_sched_change_spec (cfg : NssFreqCfg) (kmalloc_ok : Bool) (st st1 : NssFreqState)
    (index : Nat) (a b : Bool)
    (h : nss_freq_sched_change cfg kmalloc_ok st index a = some (b, st1)) :
    st1.freq_scale_index = st.freq_scale_index ∧ st1.average = st.average ∧
    SameSamples st st1 := by
  unfold nss_freq_sched_change at h
  split at h
  · simp only [Option.some.injEq, Prod.mk.injEq] at h
    obtain ⟨_, rfl⟩ := h
    exact ⟨rfl, rfl, rfl, rfl, rfl⟩
  · split at h
    · simp only [Option.some.injEq, Prod.mk.injEq] at h
      obtain ⟨_, rfl⟩ := h
      exact ⟨rfl, rfl, rfl, rfl, rfl⟩
    · split at h
      · cases h
      · simp only [Option.some.injEq, Prod.mk.injEq] at h
        obtain ⟨_, rfl⟩ := h
        exact ⟨rfl, rfl, rfl, rfl, rfl⟩

theorem nss_freq_queue_work_spec (cfg : NssFreqCfg) (kmalloc_ok : Bool) (st st1 : NssFreqState)
    (b : Bool) (h : nss_freq_queue_work cfg kmalloc_ok st = some (b, st1)) :
    st1.freq_scale_index = st.freq_scale_index ∧ st1.average = st.average ∧
    SameSamples st st1 := by
  unfold nss_freq_queue_work at h
  simp only at h
  split at h
  · cases h
  · exact nss_freq_sched_change_spec cfg kmalloc_ok st st1 _ _ b h

theorem nss_freq_queue_work_total (cfg : NssFreqCfg) (kmalloc_ok : Bool) (st : NssFreqState)
    (hwq : st.nss_wq = true) (hlen : cfg.NSS_FREQ_MAX_SCALE ≤ st.freq_scale.length) :
    ∃ r, nss_freq_queue_work cfg kmalloc_ok st = some r := by
  unfold nss_freq_queue_work nss_freq_sched_change
  simp only [hwq, Bool.not_true, Bool.false_eq_true, if_false]
  split
  · exact ⟨_, rfl⟩
  · split
    · exact ⟨_, rfl⟩
    · rename_i hlt _
      have hi : st.freq_scale_index < st.freq_scale.length := by omega
      rw [List.getElem?_eq_getElem hi]
      exact ⟨_, rfl⟩

theorem nss_freq_scale_up_spec (cfg : NssFreqCfg) (kmalloc_ok : Bool) (st : NssFreqState)
    (out : NssFreqOut)
    (h : nss_freq_scale_up cfg kmalloc_ok st st.freq_scale_index = some out) :
    SameSamples st out.st ∧
    (st.freq_scale_index < cfg.NSS_FREQ_MAX_SCALE → IndexStep cfg st.freq_scale_index out) := by
  unfold nss_freq_scale_up at h
  split at h
  · cases h
  · rename_i s _
    simp only at h
    by_cases hc : (decide (st.average > s.maximum) &&
        decide (st.freq_scale_index < u32 ((cfg.NSS_FREQ_MAX_SCALE : Int) - 1))) = true
    · simp only [hc, if_true] at h
      have hlt : st.freq_scale_index < cfg.NSS_FREQ_MAX_SCALE →
          st.freq_scale_index + 1 < cfg.NSS_FREQ_MAX_SCALE := by
        intro hidx
        simp only [Bool.and_eq_true, decide_eq_true_eq] at hc
        have := hc.2
        unfold u32 at this
        omega
      cases hq : nss_freq_queue_work cfg kmalloc_ok
          { st with freq_scale_index := st.freq_scale_index + 1, freq_scale_ready := 0 } with
      | none => simp [hq] at h
      | some r =>
        obtain ⟨b, st2⟩ := r
        obtain ⟨hi, _, hb, hs, hbi⟩ := nss_freq_queue_work_spec cfg kmalloc_ok _ st2 b hq
        dsimp only at hi hb hs hbi
        cases b
        · simp only [hq, Option.some.injEq] at h
          subst h
          refine ⟨⟨?_, ?_, ?_⟩, fun hidx => ?_⟩
          · split <;> simp [hb]
          · split <;> simp [hs]
          · split <;> simp [hbi]
          · have hlt2 := hlt hidx
            refine ⟨?_, ?_, ?_, ?_⟩ <;> (try split) <;> simp [hi] <;> omega
        · simp only [hq, Option.some.injEq] at h
          subst h
          refine ⟨⟨?_, ?_, ?_⟩, fun hidx => ?_⟩
          · split <;> simp [hb]
          · split <;> simp [hs]
          · split <;> simp [hbi]
          · have hlt2 := hlt hidx
            refine ⟨?_, ?_, ?_, ?_⟩ <;> (try split) <;> simp [hi] <;> omega
    · simp only [hc, if_false, Bool.false_eq_true, Option.some.injEq] at h
      subst h
      refine ⟨⟨?_, ?_, ?_⟩, fun hidx => ⟨?_, ?_, ?_, ?_⟩⟩ <;> (try split) <;> simp <;> omega

theorem nss_freq_scale_down_spec (cfg : NssFreqCfg) (kmalloc_ok : Bool) (st : NssFreqState)
    (out : NssFreqOut)
    (h : nss_freq_scale_down cfg kmalloc_ok st st.freq_scale_index = some out) :
    SameSamples st out.st ∧
    (st.freq_scale_index < cfg.NSS_FREQ_MAX_SCALE → IndexStep cfg st.freq_scale_index out) := by
  unfold nss_freq_scale_down at h
  split at h
  · cases h
  · rename_i s _
    simp only at h
    by_cases hc : (decide (st.average < s.minimum) && decide (st.freq_scale_index > 0)) = true
    · simp only [hc, if_true] at h
      have hpos : 0 < st.freq_scale_index := by
        simp only [Bool.and_eq_true, decide_eq_true_eq] at hc
        exact hc.2
      cases hq : nss_freq_queue_work cfg kmalloc_ok
          { st with freq_scale_index := st.freq_scale_index - 1, freq_scale_ready := 0 } with
      | none => simp [hq] at h
      | some r =>
        obtain ⟨b, st2⟩ := r
        obtain ⟨hi, _, hb, hs, hbi⟩ := nss_freq_queue_work_spec cfg kmalloc_ok _ st2 b hq
        dsimp only at hi hb hs hbi
        cases b
        · simp only [hq, Option.some.injEq] at h
          subst h
          refine ⟨⟨?_, ?_, ?_⟩, fun hidx => ⟨?_, ?_, ?_, ?_⟩⟩ <;>
            simp [hi, hb, hs, hbi] <;> omega
        · simp only [hq, Option.some.injEq] at h
          subst h
          refine ⟨⟨?_, ?_, ?_⟩, fun hidx => ⟨?_, ?_, ?_, ?_⟩⟩ <;>
            simp [hi, hb, hs, hbi] <;> omega
    · simp only [hc, if_false, Bool.false_eq_true, Option.some.injEq] at h
      subst h
      exact ⟨⟨rfl, rfl, rfl⟩, fun hidx => ⟨hidx, Nat.le_succ _, Nat.le_succ _, fun _ => rfl⟩⟩

theorem nss_freq_scale_spec (cfg : NssFreqCfg) (kmalloc_ok : Bool) (st : NssFreqState)
    (out : NssFreqOut)
    (h : nss_freq_scale cfg kmalloc_ok st st.freq_scale_index = some out) :
    SameSamples st out.st ∧
    (st.freq_scale_index < cfg.NSS_FREQ_MAX_SCALE → IndexStep cfg st.freq_scale_index out) := by
  unfold nss_freq_scale at h
  simp only at h
  split at h
  · exact nss_freq_scale_up_spec cfg kmalloc_ok
      { st with freq_scale_rate_limit_up := u32 ((st.freq_scale_rate_limit_up : Int) + 1) }
      out h
  · split at h
    · exact nss_freq_scale_down_spec cfg kmalloc_ok
        { st with
          freq_scale_rate_limit_up := u32 ((st.freq_scale_rate_limit_up : Int) + 1),
          freq_scale_rate_limit_down := u32 ((st.freq_scale_rate_limit_down : Int) + 1) }
        out h
    · simp only [Option.some.injEq] at h
      subst h
      exact ⟨⟨rfl, rfl, rfl⟩, fun hidx => ⟨hidx, Nat.le_succ _, Nat.le_succ _, fun _ => rfl⟩⟩

theorem nss_freq_scale_up_total (cfg : NssFreqCfg) (kmalloc_ok : Bool) (st : NssFreqState)
    (hidx : st.freq_scale_index < cfg.NSS_FREQ_MAX_SCALE)
    (hwq : st.nss_wq = true) (hlen : cfg.NSS_FREQ_MAX_SCALE ≤ st.freq_scale.length) :
    ∃ out, nss_freq_scale_up cfg kmalloc_ok st st.freq_scale_index = some out := by
  unfold nss_freq_scale_up
  cases hs : st.freq_scale[st.freq_scale_index]? with
  | none =>
    rw [List.getElem?_eq_none_iff] at hs
    omega
  | some s =>
    simp only
    by_cases hc : (decide (st.average > s.maximum) &&
        decide (st.freq_scale_index < u32 ((cfg.NSS_FREQ_MAX_SCALE : Int) - 1))) = true
    · obtain ⟨r, hr⟩ := nss_freq_queue_work_total cfg kmalloc_ok
        { st with freq_scale_index := st.freq_scale_index + 1, freq_scale_ready := 0 } hwq hlen
      obtain ⟨b, st2⟩ := r
      simp only [hc, if_true, hr]
      cases b <;> exact ⟨_, rfl⟩
    · simp only [hc, if_false, Bool.false_eq_true]
      exact ⟨_, rfl⟩

theorem nss_freq_scale_down_total (cfg : NssFreqCfg) (kmalloc_ok : Bool) (st : NssFreqState)
    (hidx : st.freq_scale_index < cfg.NSS_FREQ_MAX_SCALE)
    (hwq : st.nss_wq = true) (hlen : cfg.NSS_FREQ_MAX_SCALE ≤ st.freq_scale.length) :
    ∃ out, nss_freq_scale_down cfg kmalloc_ok st st.freq_scale_index = some out := by
  unfold nss_freq_scale_down
  cases hs : st.freq_scale[st.freq_scale_index]? with
  | none =>
    rw [List.getElem?_eq_none_iff] at hs
    omega
  | some s =>
    simp only
    by_cases hc : (decide (st.average < s.minimum) && decide (st.freq_scale_index > 0)) = true
    · obtain ⟨r, hr⟩ := nss_freq_queue_work_total cfg kmalloc_ok
        { st with freq_scale_index := st.freq_scale_index - 1, freq_scale_ready := 0 } hwq hlen
      obtain ⟨b, st2⟩ := r
      simp only [hc, if_true, hr]
      cases b <;> exact ⟨_, rfl⟩
    · simp only [hc, if_false, Bool.false_eq_true]
      exact ⟨_, rfl⟩

theorem nss_freq_scale_total (cfg : NssFreqCfg) (kmalloc_ok : Bool) (st : NssFreqState)
    (hidx : st.freq_scale_index < cfg.NSS_FREQ_MAX_SCALE)
    (hwq : st.nss_wq = true) (hlen : cfg.NSS_FREQ_MAX_SCALE ≤ st.freq_scale.length) :
    ∃ out, nss_freq_scale cfg kmalloc_ok st st.freq_scale_index = some out := by
  unfold nss_freq_scale
  simp only
  split
  · exact nss_freq_scale_up_total cfg kmalloc_ok
      { st with freq_scale_rate_limit_up := u32 ((st.freq_scale_rate_limit_up : Int) + 1) }
      hidx hwq hlen
  · split
    · exact nss_freq_scale_down_total cfg kmalloc_ok
        { st with
          freq_scale_rate_limit_up := u32 ((st.freq_scale_rate_limit_up : Int) + 1),
          freq_scale_rate_limit_down := u32 ((st.freq_scale_rate_limit_down : Int) + 1) }
        hidx hwq hlen
    · exact ⟨_, rfl⟩

theorem nss_freq_sample_store_frame (cfg : NssFreqCfg) (st st1 : NssFreqState) (sample : Nat)
    (h : nss_freq_sample_store cfg st sample = some st1) :
    st1.freq_scale_index = st.freq_scale_index ∧ st1.freq_scale = st.freq_scale ∧
    st1.nss_wq = st.nss_wq ∧ st1.sample_count = st.sample_count := by
  unfold nss_freq_sample_store at h
  simp only at h
  split at h
  · cases h
  · simp only [Option.some.injEq] at h
    subst h
    exact ⟨rfl, rfl, rfl, rfl⟩

theorem nss_freq_average_spec (cfg : NssFreqCfg) (kmalloc_ok : Bool) (st1 : NssFreqState)
    (out : NssFreqOut)
    (h : nss_freq_average cfg kmalloc_ok st1 st1.freq_scale_index = some out) :
    SameSamples st1 out.st ∧
    (st1.freq_scale_index < cfg.NSS_FREQ_MAX_SCALE → IndexStep cfg st1.freq_scale_index out) := by
  unfold nss_freq_average at h
  by_cases h1 : st1.sample_count < cfg.NSS_SAMPLE_BUFFER_SIZE
  · simp only [h1, if_true] at h
    by_cases h2 : u32 ((st1.sample_count : Int) + 1) = cfg.NSS_SAMPLE_BUFFER_SIZE
    · simp only [h2, if_true, Option.some.injEq] at h
      subst h
      exact ⟨⟨rfl, rfl, rfl⟩, fun hidx => ⟨hidx, Nat.le_succ _, Nat.le_succ _, fun _ => rfl⟩⟩
    · simp only [h2, if_false, Option.some.injEq] at h
      subst h
      exact ⟨⟨rfl, rfl, rfl⟩, fun hidx => ⟨hidx, Nat.le_succ _, Nat.le_succ _, fun _ => rfl⟩⟩
  · simp only [h1, if_false] at h
    by_cases h2 : st1.sample_count = 0
    · simp [h2] at h
    · simp only [h2, if_false] at h
      by_cases h3 : st1.message_rate_limit ≥ cfg.NSS_MESSAGE_RATE_LIMIT
      · simp only [h3, if_true] at h
        by_cases h4 : (decide (st1.freq_scale_ready ≠ 1) || decide (st1.auto_scale ≠ 1)) = true
        · simp only [h4, if_true, Option.some.injEq] at h
          subst h
          exact ⟨⟨rfl, rfl, rfl⟩,
            fun hidx => ⟨hidx, Nat.le_succ _, Nat.le_succ _, fun _ => rfl⟩⟩
        · simp only [h4, if_false, Bool.false_eq_true] at h
          exact nss_freq_scale_spec cfg kmalloc_ok
            { st1 with average := st1.sum / st1.sample_count, message_rate_limit := 0 } out h
      · simp only [h3, if_false] at h
        by_cases h4 : (decide (st1.freq_scale_ready ≠ 1) || decide (st1.auto_scale ≠ 1)) = true
        · simp only [h4, if_true, Option.some.injEq] at h
          subst h
          exact ⟨⟨rfl, rfl, rfl⟩,
            fun hidx => ⟨hidx, Nat.le_succ _, Nat.le_succ _, fun _ => rfl⟩⟩
        · simp only [h4, if_false, Bool.false_eq_true] at h
          exact nss_freq_scale_spec cfg kmalloc_ok
            { st1 with average := st1.sum / st1.sample_count,
                       message_rate_limit := u32 ((st1.message_rate_limit : Int) + 1) } out h

theorem nss_freq_average_total (cfg : NssFreqCfg) (kmalloc_ok : Bool) (st1 : NssFreqState)
    (hsize : 0 < cfg.NSS_SAMPLE_BUFFER_SIZE)
    (hidx : st1.freq_scale_index < cfg.NSS_FREQ_MAX_SCALE)
    (hwq : st1.nss_wq = true) (hlen : cfg.NSS_FREQ_MAX_SCALE ≤ st1.freq_scale.length) :
    ∃ out, nss_freq_average cfg kmalloc_ok st1 st1.freq_scale_index = some out := by
  unfold nss_freq_average
  by_cases h1 : st1.sample_count < cfg.NSS_SAMPLE_BUFFER_SIZE
  · simp only [h1, if_true]
    split <;> exact ⟨_, rfl⟩
  · have h2 : ¬ st1.sample_count = 0 := by omega
    simp only [h1, h2, if_false]
    by_cases h3 : st1.message_rate_limit ≥ cfg.NSS_MESSAGE_RATE_LIMIT
    · simp only [h3, if_true]
      split
      · exact ⟨_, rfl⟩
      · exact nss_freq_scale_total cfg kmalloc_ok
          { st1 with average := st1.sum / st1.sample_count, message_rate_limit := 0 }
          hidx hwq hlen
    · simp only [h3, if_false]
      split
      · exact ⟨_, rfl⟩
      · exact nss_freq_scale_total cfg kmalloc_ok
          { st1 with average := st1.sum / st1.sample_count,
                     message_rate_limit := u32 ((st1.message_rate_limit : Int) + 1) }
          hidx hwq hlen

theorem nss_freq_sample_store_total (cfg : NssFreqCfg) (st : NssFreqState) (sample : Nat)
    (hb : st.buffer_index < st.buffer.length) :
    ∃ st1, nss_freq_sample_store cfg st sample = some st1 := by
  unfold nss_freq_sample_store
  simp only [List.getElem?_eq_getElem hb]
  exact ⟨_, rfl⟩

/-- What a call of `nss_freq_handle_core_stats` that returns has done: nothing
when auto scaling is off after initialisation; otherwise it has stored the
sample, left the samples alone afterwards, and moved the scale index as
`IndexStep` says. -/
theorem nss_freq_handle_core_stats_spec (cfg : NssFreqCfg) (kmalloc_ok : Bool)
    (st : NssFreqState) (inst_cnt_total : Nat) (out : NssFreqOut)
    (h : nss_freq_handle_core_stats cfg kmalloc_ok st inst_cnt_total = some out) :
    ((st.auto_scale = 0 ∧ st.initialized ≠ 0) → out = { st := st, queue_work := none }) ∧
    (¬ (st.auto_scale = 0 ∧ st.initialized ≠ 0) →
      ∃ st1, nss_freq_sample_store cfg st (u32 (inst_cnt_total : Int)) = some st1 ∧
        SameSamples st1 out.st ∧
        (st.freq_scale_index < cfg.NSS_FREQ_MAX_SCALE →
          IndexStep cfg st.freq_scale_index out)) := by
  unfold nss_freq_handle_core_stats at h
  simp only at h
  by_cases hc : (decide (st.auto_scale = 0) && decide (st.initialized ≠ 0)) = true
  · have hrej : st.auto_scale = 0 ∧ st.initialized ≠ 0 := by simpa using hc
    simp only [hc, if_true, Option.some.injEq] at h
    exact ⟨fun _ => h.symm, fun hn => absurd hrej hn⟩
  · have hrej : ¬ (st.auto_scale = 0 ∧ st.initialized ≠ 0) := by simpa using hc
    simp only [hc, if_false, Bool.false_eq_true] at h
    refine ⟨fun hy => absurd hy hrej, fun _ => ?_⟩
    cases hs : nss_freq_sample_store cfg st (u32 (inst_cnt_total : Int)) with
    | none => simp [hs] at h
    | some st1 =>
      obtain ⟨f1, _, _, _⟩ := nss_freq_sample_store_frame cfg st st1 _ hs
      simp only [hs] at h
      rw [← f1] at h
      obtain ⟨i1, i2⟩ := nss_freq_average_spec cfg kmalloc_ok st1 out h
      rw [f1] at i2
      exact ⟨st1, rfl, i1, i2⟩

theorem nss_freq_handle_core_stats_total (cfg : NssFreqCfg) (kmalloc_ok : Bool)
    (st : NssFreqState) (inst_cnt_total : Nat)
    (hsize : 0 < cfg.NSS_SAMPLE_BUFFER_SIZE)
    (hb : st.buffer_index < st.buffer.length)
    (hidx : st.freq_scale_index < cfg.NSS_FREQ_MAX_SCALE)
    (hwq : st.nss_wq = true) (hlen : cfg.NSS_FREQ_MAX_SCALE ≤ st.freq_scale.length) :
    ∃ out, nss_freq_handle_core_stats cfg kmalloc_ok st inst_cnt_total = some out := by
  unfold nss_freq_handle_core_stats
  simp only
  split
  · exact ⟨_, rfl⟩
  · obtain ⟨st1, hs⟩ := nss_freq_sample_store_total cfg st (u32 (inst_cnt_total : Int)) hb
    obtain ⟨f1, f2, f3, _⟩ := nss_freq_sample_store_frame cfg st st1 _ hs
    simp only [hs]
    rw [← f1]
    exact nss_freq_average_total cfg kmalloc_ok st1 hsize (by omega) (by rw [f3]; exact hwq)
      (by rw [f2]; exact hlen)

/-- C26: if `freq_scale_index` is below `NSS_FREQ_MAX_SCALE` when
`nss_freq_handle_core_stats` is called, then after the call it is below
`NSS_FREQ_MAX_SCALE` and at most one step from its previous value, and it is
exactly its previous value when `nss_freq_queue_work` returned false (and
when it was not called).  The call does return when the sample buffer is not
empty, `buffer_index` is inside it, `nss_wq` is set and `freq_scale[]` holds
`NSS_FREQ_MAX_SCALE` entries. -/
theorem nss_freq_handle_core_stats_index (cfg : NssFreqCfg) (kmalloc_ok : Bool)
    (st : NssFreqState) (inst_cnt_total : Nat)
    (hidx : st.freq_scale_index < cfg.NSS_FREQ_MAX_SCALE) :
    (∀ out, nss_freq_handle_core_stats cfg kmalloc_ok st inst_cnt_total = some out →
      out.st.freq_scale_index < cfg.NSS_FREQ_MAX_SCALE ∧
      out.st.freq_scale_index ≤ st.freq_scale_index + 1 ∧
      st.freq_scale_index ≤ out.st.freq_scale_index + 1 ∧
      (out.queue_work = some false → out.st.freq_scale_index = st.freq_scale_index) ∧
      (out.queue_work = none → out.st.freq_scale_index = st.freq_scale_index)) ∧
    (0 < cfg.NSS_SAMPLE_BUFFER_SIZE → st.buffer_index < st.buffer.length →
      st.nss_wq = true → cfg.NSS_FREQ_MAX_SCALE ≤ st.freq_scale.length →
      ∃ out, nss_freq_handle_core_stats cfg kmalloc_ok st inst_cnt_total = some out) := by
  refine ⟨fun out h => ?_, fun hsize hb hwq hlen =>
    nss_freq_handle_core_stats_total cfg kmalloc_ok st inst_cnt_total hsize hb hidx hwq hlen⟩
  obtain ⟨hrej, hacc⟩ := nss_freq_handle_core_stats_spec cfg kmalloc_ok st inst_cnt_total out h
  by_cases hc : st.auto_scale = 0 ∧ st.initialized ≠ 0
  · rw [hrej hc]
    exact ⟨hidx, Nat.le_succ _, Nat.le_succ _, fun _ => rfl, fun _ => rfl⟩
  · obtain ⟨_, _, _, hstep⟩ := hacc hc
    obtain ⟨s1, s2, s3, s4⟩ := hstep hidx
    exact ⟨s1, s2, s3, fun hq => s4 (by rw [hq]; simp), fun hq => s4 (by rw [hq]; simp)⟩

/-- C26 at a concrete call: at scale 0 with the up-scale rate limit reached, a
sample of 1000 lifts the average above the maximum of the scale while
`kmalloc` fails. -/
theorem nss_freq_handle_core_stats_index_witness :
    nss_state0.freq_scale_index < nss_cfg0.NSS_FREQ_MAX_SCALE ∧
    ((∀ out, nss_freq_handle_core_stats nss_cfg0 false nss_state0 1000 = some out →
      out.st.freq_scale_index < nss_cfg0.NSS_FREQ_MAX_SCALE ∧
      out.st.freq_scale_index ≤ nss_state0.freq_scale_index + 1 ∧
      nss_state0.freq_scale_index ≤ out.st.freq_scale_index + 1 ∧
      (out.queue_work = some false →
        out.st.freq_scale_index = nss_state0.freq_scale_index) ∧
      (out.queue_work = none → out.st.freq_scale_index = nss_state0.freq_scale_index)) ∧
    (0 < nss_cfg0.NSS_SAMPLE_BUFFER_SIZE →
      nss_state0.buffer_index < nss_state0.buffer.length →
      nss_state0.nss_wq = true →
      nss_cfg0.NSS_FREQ_MAX_SCALE ≤ nss_state0.freq_scale.length →
      ∃ out, nss_freq_handle_core_stats nss_cfg0 false nss_state0 1000 = some out)) :=
  ⟨by decide, nss_freq_handle_core_stats_index nss_cfg0 false nss_state0 1000 (by decide)⟩

/-! ### Frequency scaling: the sample buffer -/

theorem list_sum_set (x : Nat) :
    ∀ (l : List Nat) (i old : Nat), l[i]? = some old → (l.set i x).sum + old = l.sum + x := by
  intro l
  induction l with
  | nil =>
    intro i old h
    simp at h
  | cons a l ih =>
    intro i old h
    cases i with
    | zero =>
      simp only [List.getElem?_cons_zero, Option.some.injEq] at h
      subst h
      simp only [List.set_cons_zero, List.sum_cons]
      omega
    | succ i =>
      simp only [List.getElem?_cons_succ] at h
      have := ih i old h
      simp only [List.set_cons_succ, List.sum_cons]
      omega

theorem nss_freq_sample_store_spec (cfg : NssFreqCfg) (st st1 : NssFreqState) (sample : Nat)
    (hmask : cfg.NSS_SAMPLE_BUFFER_MASK = cfg.NSS_SAMPLE_BUFFER_SIZE - 1)
    (hpow : ∃ n, cfg.NSS_SAMPLE_BUFFER_SIZE = 2 ^ n)
    (h32 : cfg.NSS_SAMPLE_BUFFER_SIZE ≤ 4294967296)
    (hlen : st.buffer.length = cfg.NSS_SAMPLE_BUFFER_SIZE)
    (hsum : st.sum = st.buffer.sum % 4294967296)
    (hb : st.buffer_index < cfg.NSS_SAMPLE_BUFFER_SIZE)
    (h : nss_freq_sample_store cfg st sample = some st1) :
    st1.sum = st1.buffer.sum % 4294967296 ∧
    st1.buffer_index < cfg.NSS_SAMPLE_BUFFER_SIZE ∧
    st1.buffer.length = cfg.NSS_SAMPLE_BUFFER_SIZE ∧
    st1.buffer[st.buffer_index]? = some sample ∧
    (∀ i, i ≠ st.buffer_index → st1.buffer[i]? = st.buffer[i]?) ∧
    st1.buffer_index = (st.buffer_index + 1) % cfg.NSS_SAMPLE_BUFFER_SIZE := by
  unfold nss_freq_sample_store at h
  simp only at h
  cases ho : st.buffer[st.buffer_index]? with
  | none => simp [ho] at h
  | some old =>
    simp only [ho, Option.some.injEq] at h
    subst h
    have hset := list_sum_set sample st.buffer st.buffer_index old ho
    obtain ⟨n, hn⟩ := hpow
    have hidx : u32 ((st.buffer_index : Int) + 1) &&& cfg.NSS_SAMPLE_BUFFER_MASK
        = (st.buffer_index + 1) % cfg.NSS_SAMPLE_BUFFER_SIZE := by
      rw [hmask, hn, Nat.and_pow_two_sub_one_eq_mod]
      by_cases hw : st.buffer_index + 1 < 4294967296
      · have : u32 ((st.buffer_index : Int) + 1) = st.buffer_index + 1 := by
          unfold u32
          omega
        rw [this]
      · have hfull : st.buffer_index + 1 = 2 ^ n := by omega
        have : u32 ((st.buffer_index : Int) + 1) = 0 := by
          unfold u32
          omega
        rw [this, hfull]
        simp
    have hpos : 0 < cfg.NSS_SAMPLE_BUFFER_SIZE := by omega
    refine ⟨?_, ?_, ?_, ?_, ?_, hidx⟩
    · show u32 (((u32 ((st.sum : Int) - (old : Int)) : Nat) : Int) + (sample : Int))
        = (st.buffer.set st.buffer_index sample).sum % 4294967296
      unfold u32
      omega
    · show u32 ((st.buffer_index : Int) + 1) &&& cfg.NSS_SAMPLE_BUFFER_MASK < _
      rw [hidx]
      exact Nat.mod_lt _ hpos
    · show (st.buffer.set st.buffer_index sample).length = _
      rw [List.length_set, hlen]
    · show (st.buffer.set st.buffer_index sample)[st.buffer_index]? = _
      rw [List.getElem?_set_self (by omega)]
    · intro i hi
      show (st.buffer.set st.buffer_index sample)[i]? = _
      rw [List.getElem?_set_ne (fun h => hi h.symm)]

/-- C27: when the sample buffer of `nss_runtime_samples` has
`NSS_SAMPLE_BUFFER_SIZE` slots, a power of two with
`NSS_SAMPLE_BUFFER_MASK` one less, `sum` is the sum of the slots modulo
`2 ^ 32` and `buffer_index` is below the size, then after a call of
`nss_freq_handle_core_stats` that accepts the sample both facts hold again,
the slot at the old `buffer_index` holds the sample, every other slot is
unchanged and `buffer_index` has advanced by one modulo the size; a call made
while auto scaling is off after initialisation changes nothing.  The call
does return when the scale index is in range, `nss_wq` is set and
`freq_scale[]` holds `NSS_FREQ_MAX_SCALE` entries. -/
theorem nss_freq_handle_core_stats_samples (cfg : NssFreqCfg) (kmalloc_ok : Bool)
    (st : NssFreqState) (inst_cnt_total : Nat)
    (hmask : cfg.NSS_SAMPLE_BUFFER_MASK = cfg.NSS_SAMPLE_BUFFER_SIZE - 1)
    (hpow : ∃ n, cfg.NSS_SAMPLE_BUFFER_SIZE = 2 ^ n)
    (h32 : cfg.NSS_SAMPLE_BUFFER_SIZE ≤ 4294967296)
    (hlen : st.buffer.length = cfg.NSS_SAMPLE_BUFFER_SIZE)
    (hsum : st.sum = st.buffer.sum % 4294967296)
    (hb : st.buffer_index < cfg.NSS_SAMPLE_BUFFER_SIZE) :
    (∀ out, nss_freq_handle_core_stats cfg kmalloc_ok st inst_cnt_total = some out →
      (¬ (st.auto_scale = 0 ∧ st.initialized ≠ 0) →
        out.st.sum = out.st.buffer.sum % 4294967296 ∧
        out.st.buffer_index < cfg.NSS_SAMPLE_BUFFER_SIZE ∧
        out.st.buffer.length = cfg.NSS_SAMPLE_BUFFER_SIZE ∧
        out.st.buffer[st.buffer_index]? = some (u32 (inst_cnt_total : Int)) ∧
        (∀ i, i ≠ st.buffer_index → out.st.buffer[i]? = st.buffer[i]?) ∧
        out.st.buffer_index = (st.buffer_index + 1) % cfg.NSS_SAMPLE_BUFFER_SIZE) ∧
      ((st.auto_scale = 0 ∧ st.initialized ≠ 0) → out.st = st ∧ out.queue_work = none)) ∧
    (st.freq_scale_index < cfg.NSS_FREQ_MAX_SCALE → st.nss_wq = true →
      cfg.NSS_FREQ_MAX_SCALE ≤ st.freq_scale.length →
      ∃ out, nss_freq_handle_core_stats cfg kmalloc_ok st inst_cnt_total = some out) := by
  have hpos : 0 < cfg.NSS_SAMPLE_BUFFER_SIZE := by
    obtain ⟨n, hn⟩ := hpow
    rw [hn]
    exact Nat.pos_pow_of_pos n (by decide)
  refine ⟨fun out h => ?_, fun hidx hwq hl =>
    nss_freq_handle_core_stats_total cfg kmalloc_ok st inst_cnt_total hpos
      (by rw [hlen]; exact hb) hidx hwq hl⟩
  obtain ⟨hrej, hacc⟩ := nss_freq_handle_core_stats_spec cfg kmalloc_ok st inst_cnt_total out h
  refine ⟨fun hc => ?_, fun hc => by rw [hrej hc]; exact ⟨rfl, rfl⟩⟩
  obtain ⟨st1, hs, ⟨e1, e2, e3⟩, _⟩ := hacc hc
  obtain ⟨p1, p2, p3, p4, p5, p6⟩ :=
    nss_freq_sample_store_spec cfg st st1 _ hmask hpow h32 hlen hsum hb hs
  rw [e1, e2, e3]
  exact ⟨p1, p2, p3, p4, p5, p6⟩

/-- C27 at a concrete call: a four-slot buffer of samples of 100 with sum 400
takes a sample of 1000 in slot 0. -/
theorem nss_freq_handle_core_stats_samples_witness :
    (∀ out, nss_freq_handle_core_stats nss_cfg0 true nss_state0 1000 = some out →
      (¬ (nss_state0.auto_scale = 0 ∧ nss_state0.initialized ≠ 0) →
        out.st.sum = out.st.buffer.sum % 4294967296 ∧
        out.st.buffer_index < nss_cfg0.NSS_SAMPLE_BUFFER_SIZE ∧
        out.st.buffer.length = nss_cfg0.NSS_SAMPLE_BUFFER_SIZE ∧
        out.st.buffer[nss_state0.buffer_index]? = some (u32 ((1000 : Nat) : Int)) ∧
        (∀ i, i ≠ nss_state0.buffer_index → out.st.buffer[i]? = nss_state0.buffer[i]?) ∧
        out.st.buffer_index
          = (nss_state0.buffer_index + 1) % nss_cfg0.NSS_SAMPLE_BUFFER_SIZE) ∧
      ((nss_state0.auto_scale = 0 ∧ nss_state0.initialized ≠ 0) →
        out.st = nss_state0 ∧ out.queue_work = none)) ∧
    (nss_state0.freq_scale_index < nss_cfg0.NSS_FREQ_MAX_SCALE → nss_state0.nss_wq = true →
      nss_cfg0.NSS_FREQ_MAX_SCALE ≤ nss_state0.freq_scale.length →
      ∃ out, nss_freq_handle_core_stats nss_cfg0 true nss_state0 1000 = some out) :=
  nss_freq_handle_core_stats_samples nss_cfg0 true nss_state0 1000
    (by decide) ⟨2, by decide⟩ (by decide) (by decide) (by decide) (by decide)

/-! ### The AST table is read inside its bounds -/

theorem dp_rx_intrabss_fwd_ast_frame (env : Env) (t : Nat → Option AstEntry) (ta_peer : Nat)
    (nbuf : Nbuf)
    (hagree : ∀ i, i ≤ env.max_ast_idx → t i = env.ast_table i)
    (hvalid : is_sa_da_idx_valid env nbuf = true) :
    dp_rx_intrabss_fwd { env with ast_table := t } ta_peer nbuf
      = dp_rx_intrabss_fwd env ta_peer nbuf := by
  unfold dp_rx_intrabss_fwd
  dsimp only
  cases (env.peer ta_peer).vdev with
  | none => rfl
  | some tv =>
    dsimp only
    by_cases hda : (nbuf.da_valid && !nbuf.da_mcbc) = true
    · have hle : nbuf.tlv.da_idx ≤ env.max_ast_idx := by
        unfold is_sa_da_idx_valid at hvalid
        simp only [Bool.and_eq_true, Bool.not_eq_true', Bool.or_eq_true,
          decide_eq_true_eq] at hda hvalid
        by_contra hgt
        simp [hda.1, Nat.lt_of_not_ge hgt] at hvalid
      rw [hagree _ hle]
      rfl
    · simp only [hda, if_false, Bool.false_eq_true]

theorem dp_rx_process_forward_ast_frame (env : Env) (t : Nat → Option AstEntry)
    (rx_pdev tid msdu_len peer vdev : Nat) (nbuf : Nbuf) (next : List Nbuf)
    (hagree : ∀ i, i ≤ env.max_ast_idx → t i = env.ast_table i) :
    dp_rx_process_forward { env with ast_table := t } rx_pdev tid msdu_len peer vdev nbuf next
      = dp_rx_process_forward env rx_pdev tid msdu_len peer vdev nbuf next := by
  unfold dp_rx_process_forward
  dsimp only
  have hl : dp_rx_da_learn { env with ast_table := t } peer nbuf
      = dp_rx_da_learn env peer nbuf := rfl
  have hv : is_sa_da_idx_valid { env with ast_table := t } nbuf = is_sa_da_idx_valid env nbuf :=
    rfl
  rw [hl, hv]
  cases hvalid : is_sa_da_idx_valid env nbuf with
  | false => rfl
  | true =>
    rw [dp_rx_intrabss_fwd_ast_frame env t peer nbuf hagree hvalid]
    rfl

theorem dp_rx_process_filter_ast_frame (env : Env) (t : Nat → Option AstEntry)
    (rx_pdev tid msdu_len peer vdev : Nat) (nbuf : Nbuf) (next : List Nbuf)
    (hagree : ∀ i, i ≤ env.max_ast_idx → t i = env.ast_table i) :
    dp_rx_process_filter { env with ast_table := t } rx_pdev tid msdu_len peer vdev nbuf next
      = dp_rx_process_filter env rx_pdev tid msdu_len peer vdev nbuf next := by
  have hf := dp_rx_process_forward_ast_frame env t rx_pdev tid msdu_len peer vdev nbuf next
    hagree
  have hp : dp_wds_rx_policy_check { env with ast_table := t } nbuf.tlv vdev peer
      = dp_wds_rx_policy_check env nbuf.tlv vdev peer := rfl
  unfold dp_rx_process_filter dp_rx_process_mesh
  dsimp only
  rw [hp, hf]

theorem dp_rx_process_decap_ast_frame (env : Env) (t : Nat → Option AstEntry)
    (rx_pdev tid msdu_len peer vdev : Nat) (nbuf : Nbuf) (rest : List Nbuf)
    (hagree : ∀ i, i ≤ env.max_ast_idx → t i = env.ast_table i) :
    dp_rx_process_decap { env with ast_table := t } rx_pdev tid msdu_len peer vdev nbuf rest
      = dp_rx_process_decap env rx_pdev tid msdu_len peer vdev nbuf rest := by
  unfold dp_rx_process_decap
  dsimp only
  simp only [dp_rx_process_filter_ast_frame env t _ _ _ _ _ _ _ hagree]

theorem dp_rx_process_nbuf_ast_frame (env : Env) (t : Nat → Option AstEntry)
    (rx_pdev : Nat) (st : RxState) (nbuf0 : Nbuf) (rest : List Nbuf)
    (hagree : ∀ i, i ≤ env.max_ast_idx → t i = env.ast_table i) :
    dp_rx_process_nbuf { env with ast_table := t } rx_pdev st nbuf0 rest
      = dp_rx_process_nbuf env rx_pdev st nbuf0 rest := by
  have hfl : ∀ p, dp_rx_process_flush_on_vdev_change { env with ast_table := t } st p
      = dp_rx_process_flush_on_vdev_change env st p := fun _ => rfl
  unfold dp_rx_process_nbuf
  dsimp only
  simp only [dp_rx_process_decap_ast_frame env t _ _ _ _ _ _ _ hagree, hfl]

theorem dp_rx_process_loop_ast_frame (env : Env) (t : Nat → Option AstEntry) (rx_pdev : Nat)
    (hagree : ∀ i, i ≤ env.max_ast_idx → t i = env.ast_table i) :
    ∀ (fuel : Nat) (st : RxState) (nbufs : List Nbuf),
      dp_rx_process_loop { env with ast_table := t } rx_pdev fuel st nbufs
        = dp_rx_process_loop env rx_pdev fuel st nbufs := by
  intro fuel
  induction fuel with
  | zero =>
    intro st nbufs
    cases nbufs <;> rfl
  | succ fuel ih =>
    intro st nbufs
    cases nbufs with
    | nil => rfl
    | cons nbuf rest =>
      simp only [dp_rx_process_loop,
        dp_rx_process_nbuf_ast_frame env t rx_pdev st nbuf rest hagree, ih]

theorem dp_rx_process_second_pass_ast_frame (env : Env) (t : Nat → Option AstEntry)
    (rx_pdev : Nat) (nbufs : List Nbuf)
    (hagree : ∀ i, i ≤ env.max_ast_idx → t i = env.ast_table i) :
    dp_rx_process_second_pass { env with ast_table := t } rx_pdev nbufs
      = dp_rx_process_second_pass env rx_pdev nbufs := by
  have hfl : ∀ st, dp_rx_process_final_flush { env with ast_table := t } st
      = dp_rx_process_final_flush env st := fun _ => rfl
  unfold dp_rx_process_second_pass
  simp only [dp_rx_process_loop_ast_frame env t rx_pdev hagree, hfl]

/-- C28: `dp_rx_process` reads `soc->ast_table` only at indices up to
`wlan_cfg_get_max_ast_idx`: its result is the same for any two tables that
agree on those indices.  The only read is the one of `dp_rx_intrabss_fwd` at
`da_idx`, made for a unicast packet with a valid destination, and a packet
with a valid destination whose `da_idx` is above the maximum is rejected by
`is_sa_da_idx_valid`: on the Ethernet, non-mesh path that leads to the
forwarding step the iteration ends by freeing the buffer, with no call of
`dp_tx_send` and nothing put on the deliver list. -/
theorem dp_rx_process_ast_read_in_bounds (env : Env) (inp : RxProcessIn) :
    (∀ t : Nat → Option AstEntry, (∀ i, i ≤ env.max_ast_idx → t i = env.ast_table i) →
      dp_rx_process { env with ast_table := t } inp = dp_rx_process env inp) ∧
    (∀ (ta_peer : Nat) (nbuf : Nbuf) (t : Nat → Option AstEntry),
      ((nbuf.da_valid && !nbuf.da_mcbc) = true →
        t nbuf.tlv.da_idx = env.ast_table nbuf.tlv.da_idx) →
      dp_rx_intrabss_fwd { env with ast_table := t } ta_peer nbuf
        = dp_rx_intrabss_fwd env ta_peer nbuf) ∧
    (∀ (rx_pdev tid msdu_len peer vdev : Nat) (nbuf : Nbuf) (next : List Nbuf) (out : StageOut),
      nbuf.da_valid = true → nbuf.tlv.da_idx > env.max_ast_idx →
      is_sa_da_idx_valid env nbuf = false ∧
      (((env.vdev vdev).rx_decap_type == htt_cmn_pkt_type.htt_cmn_pkt_type_ethernet) = true →
        (env.vdev vdev).mesh_vdev = false →
        dp_rx_process_forward env rx_pdev tid msdu_len peer vdev nbuf next = some out →
        out.exit = RxExit.sa_da_idx_drop ∧ out.enqueue = none ∧ tx_calls out.events = [] ∧
        free_calls out.events = [Event.nbuf_free nbuf.id false])) := by
  refine ⟨?_, ?_, ?_⟩
  · intro t hagree
    unfold dp_rx_process
    simp only [dp_rx_process_second_pass_ast_frame env t _ _ hagree]
  · intro ta_peer nbuf t hagree
    unfold dp_rx_intrabss_fwd
    dsimp only
    cases (env.peer ta_peer).vdev with
    | none => rfl
    | some tv =>
      dsimp only
      by_cases hda : (nbuf.da_valid && !nbuf.da_mcbc) = true
      · rw [hagree hda]
        rfl
      · simp only [hda, if_false, Bool.false_eq_true]
  · intro rx_pdev tid msdu_len peer vdev nbuf next out hda hgt
    have hinv : is_sa_da_idx_valid env nbuf = false := by
      unfold is_sa_da_idx_valid
      simp [hda, hgt]
    refine ⟨hinv, fun heth hmesh h => ?_⟩
    unfold dp_rx_process_forward at h
    simp only [heth, hmesh, Bool.not_false, Bool.and_self, if_true, hinv, Bool.not_false] at h
    cases hl : dp_rx_da_learn env peer nbuf with
    | none => simp [hl] at h
    | some learn =>
      simp only [hl, Option.some.injEq] at h
      subst h
      have hlt : tx_calls learn = [] ∧ free_calls learn = [] := by
        unfold dp_rx_da_learn at hl
        split_ifs at hl
        all_goals try (split at hl)
        all_goals try (split_ifs at hl)
        all_goals first
          | (simp at hl; done)
          | (simp only [Option.some.injEq] at hl
             subst hl
             exact ⟨rfl, rfl⟩)
      refine ⟨rfl, rfl, ?_, ?_⟩
      · rw [tx_calls_append, hlt.1]
        rfl
      · rw [free_calls_append, hlt.2]
        rfl

/-! ### `dp_rx_flush_rx_cached` -/

/-- C29 fails on the code: a flush of a peer with `flush_in_progress` 0 and an
empty queue returns with `flush_in_progress` 1, because the return taken for
the empty queue does not decrement it; after two lists are cached for that
peer, the next flush finds the counter above 1, hands nothing to the stack
and leaves the queue as it is.  The flush of a non-empty queue, and the
flush turned away by a flush in progress, both leave the counter as they
found it. -/
theorem dp_rx_flush_rx_cached_empty_queue_keeps_flag :
    (dp_rx_flush_rx_cached (fun _ => true) flush_peer_empty false).map
        (fun out => out.peer.flush_in_progress) = some 1 ∧
    (dp_rx_flush_rx_cached (fun _ => true) flush_peer_empty false).map
        (fun out => { out.peer with cached_bufq := flush_peer_two.cached_bufq, entries := 3 })
      = some flush_peer_two_stuck ∧
    (dp_rx_flush_rx_cached (fun _ => true) flush_peer_two_stuck false).map
        (fun out => (out.peer.flush_in_progress, out.peer.cached_bufq.length))
      = some (1, 2) ∧
    (dp_rx_flush_rx_cached (fun _ => true) flush_peer_two_stuck false).map
        (fun out => out.data_rx_calls) = some [] ∧
    (dp_rx_flush_rx_cached (fun _ => true) flush_peer_two false).map
        (fun out => (out.peer.flush_in_progress, out.peer.cached_bufq.length))
      = some (0, 0) ∧
    (dp_rx_flush_rx_cached (fun _ => true) flush_peer_two false).map
        (fun out => out.data_rx_calls) = some [([1, 2], true), ([3], true)] := by
  refine ⟨by decide, by decide, by decide, by decide, by decide, by decide⟩

end DpRx
